import Mathlib

/-!
# DynPolAC: policy engine, rule store and reconciliation

A shallow embedding of `src/dynPolAC/serverSide/policy.c` and of the policy
section of `src/dynPolAC/serverSide/hash.c`.

Conventions of the embedding

* A C string is the list of its characters before the terminating NUL.
* `int` values are `Int`, `uint32_t` user and group codes are `Nat`.
* A pointer to a `struct policy_id_t` is the address (a `Nat`) of an object in
  the heap of policy objects; `NULL` is `none`.
* Code whose behaviour is undefined in C (a NULL token handed to `stricmp`, a
  tag index outside `tagMap`, a NULL tag string) yields a `Fault`.
* Strings are taken to fit the fixed-size buffers they are copied into, and
  `calloc` to succeed; buffer capacities are not part of the model.
* The headers `minicloudmsg.h`, `dp.h` and `tags.h` are not part of the source
  tree, so the numeric values of their enumerations are taken as a parameter,
  the record `Codes`.
-/

namespace DynPolAC

/-! ## C strings -/

/-- A C string: the characters before the terminating NUL. -/
abbrev CStr := List Char

/-- The C library `tolower` in the "C" locale: only `A`..`Z` are mapped. -/
def tolower (c : Char) : Char :=
  if 65 ≤ c.toNat ∧ c.toNat ≤ 90 then Char.ofNat (c.toNat + 32) else c

/-- The library routine `strlwr`: lowercases the string (in place in C). -/
def strlwr (s : CStr) : CStr := s.map tolower

/-- The library routine `stricmp`: compares the lowercased characters one by
one. Only the sign of the result is specified by the C library, and only the
sign is kept here. -/
def stricmp : CStr → CStr → Int
  | [], [] => 0
  | [], _ :: _ => -1
  | _ :: _, [] => 1
  | c :: cs, d :: ds =>
    if tolower c = tolower d then stricmp cs ds
    else if (tolower c).toNat < (tolower d).toNat then -1 else 1

/-- The library routine `strcmp`; only the sign of the result is kept. -/
def strcmp : CStr → CStr → Int
  | [], [] => 0
  | [], _ :: _ => -1
  | _ :: _, [] => 1
  | c :: cs, d :: ds =>
    if c = d then strcmp cs ds else if c.toNat < d.toNat then -1 else 1

/-- Does `s` start with `p`? -/
def startsWith : CStr → CStr → Bool
  | _, [] => true
  | [], _ :: _ => false
  | c :: cs, d :: ds => c == d && startsWith cs ds

/-- The library routine `strstr`, as the test `strstr(hay, needle) != NULL`. -/
def strstr : CStr → CStr → Bool
  | [], needle => startsWith [] needle
  | c :: cs, needle => startsWith (c :: cs) needle || strstr cs needle

/-- The colon delimiter `COLON` handed to `strtok`. -/
def COLON : Char := ':'

/-- One call of `strtok` with delimiter `COLON` on the remaining input: skips
leading delimiters, returns the token and the input after the delimiter that
ended it, or `none` (NULL) when no token is left. -/
def strtok (s : CStr) : Option (CStr × CStr) :=
  let t := s.dropWhile (fun c => c == COLON)
  if t = [] then none
  else some (t.takeWhile (fun c => c != COLON), (t.dropWhile (fun c => c != COLON)).drop 1)

/-- The pair of calls `strtok(tagString, COLON); x = strtok(NULL, COLON);`:
the second token of the tag, or `none` when `strtok` returns NULL. -/
def strtokSecond (tagString : CStr) : Option CStr :=
  match strtok tagString with
  | none => none
  | some (_, rest) => (strtok rest).map Prod.fst

/-- The conversion `%d` of `sprintf`. -/
def fmtInt : Int → CStr
  | Int.ofNat m => Nat.toDigits 10 m
  | Int.negSucc m => '-' :: Nat.toDigits 10 (m + 1)

/-- The call `sprintf(hashString, "%d%d%s", Name, Type, strlwr(Location))` that
builds the policy key in `POLICY_fnCreatePolicy`, `POLICY_fnHouseKeepPolicy`
and `POLICY_fnCheck`. -/
def hashString (name type : Int) (location : CStr) : CStr :=
  fmtInt name ++ fmtInt type ++ strlwr location

/-! ## Constants -/

/-- Success, from `errno.h`. -/
def EOK : Int := 0

/-- No such entry, from `errno.h`. -/
def ENOENT : Int := 2

/-- Out of memory, from `errno.h`. -/
def ENOMEM : Int := 12

/-- Permission denied, from `errno.h`. -/
def EACCES : Int := 13

/-- Invalid argument, from `errno.h`. -/
def EINVAL : Int := 22

/-- The capacity of the housekeeping roster (`hash.h`). -/
def ESTIMATED_NUM_POLICY : Nat := 200

/-- The size of the tag buffer in `policy_fnTokenizeTags` (`policy.c`). -/
def MAX_TAG_STRING_LENGTH : Nat := 128

/-- The size of the key buffer (`policy.c`). -/
def MAX_HASH_STRING_LENGTH : Nat := 1024

/-- The empty string `EMPTY` that `policy_fnCheckLoc` compares the rule's
location with. -/
def EMPTY : CStr := []

/-- The enumeration values declared in the headers that are not part of the
source tree. -/
structure Codes where
  POLICY_TYPE_INVALID : Int
  POLICY_TYPE_TEMP : Int
  POLICY_TYPE_VOLT : Int
  POLICY_TYPE_CURR : Int
  POLICY_TYPE_FREQ : Int
  POLICY_TYPE_POWER : Int
  POLICY_TYPE_PASS : Int
  POLICY_TYPE_HEAD : Int
  POLICY_TYPE_FUEL : Int
  POLICY_TYPE_POSX : Int
  POLICY_TYPE_POSY : Int
  POLICY_TYPE_ALT : Int
  POLICY_TYPE_SPEED : Int
  POLICY_NAME_INVALID : Int
  POLICY_NAME_ACCESS : Int
  POLICY_NAME_COMP : Int
  USER_CODE_INVALID : Nat
  USER_CODE_GUS : Nat
  USER_CODE_DOUG : Nat
  USER_CODE_MIKE : Nat
  USER_CODE_TOM : Nat
  USER_CODE_JACKIE : Nat
  USER_CODE_LILLI : Nat
  USER_CODE_BOB : Nat
  USER_CODE_MADI : Nat
  GROUP_CODE_INVALID : Nat
  GROUP_CODE_MANAGER : Nat
  GROUP_CODE_ENG : Nat
  GROUP_CODE_TECH : Nat
  GROUP_CODE_CUSTOMER : Nat
  DP_SERVER_MAX_TAGS : Nat

/-- The case labels of the `switch` in `POLICY_fnCheck` are pairwise distinct;
a C compiler rejects the file otherwise. -/
def Codes.SwitchLabelsDistinct (K : Codes) : Prop :=
  K.POLICY_TYPE_INVALID ≠ K.POLICY_TYPE_PASS ∧
  K.POLICY_TYPE_INVALID ≠ K.POLICY_TYPE_HEAD ∧
  K.POLICY_TYPE_INVALID ≠ K.POLICY_TYPE_FUEL

/-- A sample assignment of the enumeration values, used to evaluate the
definitions on concrete inputs. -/
def sampleCodes : Codes where
  POLICY_TYPE_INVALID := 0
  POLICY_TYPE_TEMP := 1
  POLICY_TYPE_VOLT := 2
  POLICY_TYPE_CURR := 3
  POLICY_TYPE_FREQ := 4
  POLICY_TYPE_POWER := 5
  POLICY_TYPE_PASS := 6
  POLICY_TYPE_HEAD := 7
  POLICY_TYPE_FUEL := 8
  POLICY_TYPE_POSX := 9
  POLICY_TYPE_POSY := 10
  POLICY_TYPE_ALT := 11
  POLICY_TYPE_SPEED := 12
  POLICY_NAME_INVALID := 0
  POLICY_NAME_ACCESS := 1
  POLICY_NAME_COMP := 2
  USER_CODE_INVALID := 0
  USER_CODE_GUS := 1
  USER_CODE_DOUG := 2
  USER_CODE_MIKE := 3
  USER_CODE_TOM := 4
  USER_CODE_JACKIE := 5
  USER_CODE_LILLI := 6
  USER_CODE_BOB := 7
  USER_CODE_MADI := 8
  GROUP_CODE_INVALID := 0
  GROUP_CODE_MANAGER := 1
  GROUP_CODE_ENG := 2
  GROUP_CODE_TECH := 3
  GROUP_CODE_CUSTOMER := 4
  DP_SERVER_MAX_TAGS := 64

/-! ## Data model -/

/-- The policy record `struct zPOLICY` carried by a `struct policy_id_t`. The
bounds are integers here; the declaration of the record is not in the source
tree. -/
structure zPOLICY where
  Name : Int
  Type_ : Int
  max : Int
  min : Int
  time_tv_sec : Int
  time_tv_nsec : Int
  user : Nat
  group : Nat
  Location : CStr
deriving DecidableEq, Repr

/-- The object returned by `calloc(1, sizeof(struct policy_id_t))`. -/
def zPOLICY.zero : zPOLICY :=
  { Name := 0, Type_ := 0, max := 0, min := 0, time_tv_sec := 0, time_tv_nsec := 0,
    user := 0, group := 0, Location := [] }

/-- The message `datapoint_policy_msg_t`; the location string that follows the
message in memory is passed next to it. -/
structure datapoint_policy_msg_t where
  Name : Int
  Type_ : Int
  max : Int
  min : Int
  time_tv_sec : Int
  time_tv_nsec : Int
  user : Nat
  group : Nat
deriving DecidableEq, Repr

/-- One slot `tzHouseKeep` of the housekeeping roster. -/
structure tzHouseKeep where
  pPolicy : Option Nat
  Seen : Bool
deriving DecidableEq, Repr

/-- The typed value of a data point: the field `dpdata.type` together with the
member of the union `dpdata.val` that it selects. A `float32` value is the
rational number it denotes. -/
inductive DpValue where
  | uint16 (uiVal : Nat)
  | sint16 (siVal : Int)
  | uint32 (ulVal : Nat)
  | sint32 (slVal : Int)
  | float32 (fVal : ℚ)
  | array32
  | array16
  | conjugate
  | other
deriving DecidableEq

/-- The parts of `struct dp_t` that the policy engine reads: the tag indices
(the array `dpdata.tags` up to its terminating zero or its end), the time of the
last update, and the typed value. -/
structure dp_t where
  tags : List Nat
  timestamp_tv_sec : Int
  val : DpValue

/-- The global `tagMap`: the tag string of each tag index, `none` for NULL. -/
abbrev TagMap := Nat → Option CStr

deriving instance DecidableEq for Except

/-- Undefined behaviour that the C code can run into. -/
inductive Fault where
  | nullToken
  | nullTagString
  | tagIndexOutOfBounds
  | nullPolicy
deriving DecidableEq, Repr

/-! ## The policy hash table and the housekeeping roster (`hash.c`) -/

/-- The table type of the hash-table library `cfuhash`, which is not part of the
source tree: a finite map from key strings to policy addresses, kept as an
association list without repeated keys. -/
abbrev cfuhash_table_t := List (CStr × Nat)

/-- Modelled from the spec: `cfuhash_get` of the external hash-table library,
"direct lookup, returns not-found when absent". -/
def cfuhash_get : cfuhash_table_t → CStr → Option Nat
  | [], _ => none
  | (k, v) :: rest, key => if k = key then some v else cfuhash_get rest key

/-- Modelled from the spec: `cfuhash_exists` of the external hash-table
library, "policyExists(key) -> bool". -/
def cfuhash_exists (t : cfuhash_table_t) (key : CStr) : Bool :=
  (cfuhash_get t key).isSome

/-- Modelled from the spec: `cfuhash_delete` of the external hash-table
library, "policyRemove(key)". -/
def cfuhash_delete : cfuhash_table_t → CStr → cfuhash_table_t
  | [], _ => []
  | (k, v) :: rest, key =>
    if k = key then cfuhash_delete rest key else (k, v) :: cfuhash_delete rest key

/-- Modelled from the spec: `cfuhash_put` of the external hash-table library,
"policyPut(rule, key) -> previousRuleOrNull", last write wins. The result is
the new table and the previous value. -/
def cfuhash_put (t : cfuhash_table_t) (key : CStr) (data : Nat) :
    cfuhash_table_t × Option Nat :=
  ((key, data) :: cfuhash_delete t key, cfuhash_get t key)

/-- The state of the policy server: the heap of policy objects (`heap a` is the
object at address `a`, `brk` the next address `calloc` hands out), the policy
hash table `hashPolicy` and the housekeeping roster `hs`. -/
structure ServerState where
  heap : Nat → zPOLICY
  brk : Nat
  hashPolicy : cfuhash_table_t
  hs : List tzHouseKeep

/-- The routine `HASH_fnSetup`, restricted to the policy table and the roster:
a new empty table, and the roster of `ESTIMATED_NUM_POLICY` slots cleared. -/
def HASH_fnSetup (s : ServerState) : ServerState :=
  { s with hashPolicy := [],
           hs := List.replicate ESTIMATED_NUM_POLICY { pPolicy := none, Seen := false } }

/-- The routine `POLICYHASH_fnCheck`. -/
def POLICYHASH_fnCheck (s : ServerState) (hashStr : CStr) : Bool :=
  cfuhash_exists s.hashPolicy hashStr

/-- The routine `POLICYHASH_fnFind`. -/
def POLICYHASH_fnFind (s : ServerState) (hashStr : CStr) : Option Nat :=
  cfuhash_get s.hashPolicy hashStr

/-- The routine `POLICYHASH_fnPut`. The outer `none` is the result `-1` for a
NULL argument; `some none` is NULL (no previous value); `some (some p)` is the
previous value `p`. -/
def POLICYHASH_fnPut (s : ServerState) (pPolicy : Option Nat) (pHashString : Option CStr) :
    ServerState × Option (Option Nat) :=
  match pPolicy, pHashString with
  | some p, some k =>
    let r := cfuhash_put s.hashPolicy k p
    ({ s with hashPolicy := r.1 }, some r.2)
  | _, _ => (s, none)

/-- The routine `POLICYHASH_fnRemove`. -/
def POLICYHASH_fnRemove (s : ServerState) (pHashString : Option CStr) : ServerState × Int :=
  match pHashString with
  | some k => ({ s with hashPolicy := cfuhash_delete s.hashPolicy k }, EOK)
  | none => (s, EINVAL)

/-- The routine `POLICYHASH_fnHouseKeepAccessor`. -/
def POLICYHASH_fnHouseKeepAccessor (s : ServerState) : List tzHouseKeep := s.hs

/-! ## Reconciliation (`policy.c`) -/

/-- The first loop over the roster in `POLICY_fnCreatePolicy` (the policy is
new): the first empty slot takes the policy, marked as seen. -/
def placeNew : List tzHouseKeep → Nat → List tzHouseKeep
  | [], _ => []
  | h :: t, newPolicy =>
    if h.pPolicy = none then { pPolicy := some newPolicy, Seen := true } :: t
    else h :: placeNew t newPolicy

/-- The second loop over the roster in `POLICY_fnCreatePolicy` (the key was
present): the first slot that holds the previous value `found` is marked as
seen and points to the new policy. -/
def markSeen : List tzHouseKeep → Nat → Nat → List tzHouseKeep
  | [], _, _ => []
  | h :: t, found, newPolicy =>
    if h.pPolicy = some found then { pPolicy := some newPolicy, Seen := true } :: t
    else h :: markSeen t found newPolicy

/-- The routine `POLICY_fnCreatePolicy`; `msg = none` is a NULL message, and
`pLocation` is the string that follows the message. The result is the new state
and the returned code. -/
def POLICY_fnCreatePolicy (s : ServerState) (msg : Option datapoint_policy_msg_t)
    (pLocation : CStr) : ServerState × Int :=
  let newPolicy := s.brk
  let s1 : ServerState :=
    { s with heap := Function.update s.heap newPolicy zPOLICY.zero, brk := s.brk + 1 }
  match msg with
  | none => (s1, EINVAL)
  | some m =>
    let key := hashString m.Name m.Type_ pLocation
    let pol : zPOLICY :=
      { Name := m.Name, Type_ := m.Type_, max := m.max, min := m.min,
        time_tv_sec := m.time_tv_sec,
        time_tv_nsec := if m.time_tv_sec ≠ 0 then m.time_tv_nsec else 0,
        user := m.user, group := m.group,
        Location := strlwr pLocation }
    let s2 : ServerState := { s1 with heap := Function.update s1.heap newPolicy pol }
    match POLICYHASH_fnPut s2 (some newPolicy) (some key) with
    | (s3, none) => (s3, EINVAL)
    | (s3, some none) =>
      ({ s3 with hs := placeNew (POLICYHASH_fnHouseKeepAccessor s3) newPolicy }, EOK)
    | (s3, some (some found)) =>
      ({ s3 with hs := markSeen (POLICYHASH_fnHouseKeepAccessor s3) found newPolicy }, EOK)

/-- The effect of `strlwr(pPolicy->policy.Location)` on a policy object. -/
def lowerLocation (pol : zPOLICY) : zPOLICY :=
  { pol with Location := strlwr pol.Location }

/-- The body of the first loop of `POLICY_fnHouseKeepPolicy` for an occupied
slot that was not seen: the key is built from the policy at address `p`, whose
location `strlwr` lowercases in place, and removed from the table. -/
def evict (s : ServerState) (p : Nat) : ServerState :=
  (POLICYHASH_fnRemove { s with heap := Function.update s.heap p (lowerLocation (s.heap p)) }
    (some (hashString (s.heap p).Name (s.heap p).Type_ (s.heap p).Location))).1

/-- The first loop of `POLICY_fnHouseKeepPolicy`: every occupied slot that was
not seen has the key of its policy removed from the table and is cleared. -/
def sweep : ServerState → List tzHouseKeep → ServerState × List tzHouseKeep
  | s, [] => (s, [])
  | s, h :: t =>
    match h.pPolicy with
    | none =>
      let r := sweep s t
      (r.1, h :: r.2)
    | some p =>
      if h.Seen = false then
        let r := sweep (evict s p) t
        (r.1, { h with pPolicy := none } :: r.2)
      else
        let r := sweep s t
        (r.1, h :: r.2)

/-- The second loop of `POLICY_fnHouseKeepPolicy`: the flag of every occupied
slot is reset. -/
def resetSeen (hs : List tzHouseKeep) : List tzHouseKeep :=
  hs.map (fun h => if h.pPolicy ≠ none then { h with Seen := false } else h)

/-- The routine `POLICY_fnHouseKeepPolicy`. -/
def POLICY_fnHouseKeepPolicy (s : ServerState) : ServerState × Int :=
  let r := sweep s (POLICYHASH_fnHouseKeepAccessor s)
  ({ r.1 with hs := resetSeen r.2 }, EOK)

/-- A rule as a parser delivers it: the message and the location string. -/
abbrev Rule := datapoint_policy_msg_t × CStr

/-- The key under which `POLICY_fnCreatePolicy` stores a rule. -/
def Rule.key (r : Rule) : CStr := hashString r.1.Name r.1.Type_ r.2

/-- Registration of the rules of a batch, one `POLICY_fnCreatePolicy` each. -/
def createAll (s : ServerState) : List Rule → ServerState
  | [] => s
  | r :: rest => createAll (POLICY_fnCreatePolicy s (some r.1) r.2).1 rest

/-- Application of a batch: `POLICY_fnCreatePolicy` for each of its rules, then
`POLICY_fnHouseKeepPolicy` once. -/
def applyBatch (s : ServerState) (batch : List Rule) : ServerState :=
  (POLICY_fnHouseKeepPolicy (createAll s batch)).1

/-- Application of a sequence of batches, one after the other. -/
def applyBatches (s : ServerState) : List (List Rule) → ServerState
  | [] => s
  | b :: rest => applyBatches (applyBatch s b) rest

/-- The keys of the policy table. -/
def storeKeys (s : ServerState) : List CStr := s.hashPolicy.map Prod.fst

/-! ## The policy engine (`policy.c`) -/

/-- The routine `policy_fnTypeString2Val`. -/
def policy_fnTypeString2Val (K : Codes) (type : CStr) : Int :=
  if stricmp type "temperature".data = 0 then K.POLICY_TYPE_TEMP
  else if stricmp type "voltage".data = 0 then K.POLICY_TYPE_VOLT
  else if stricmp type "current".data = 0 then K.POLICY_TYPE_CURR
  else if stricmp type "frequency".data = 0 then K.POLICY_TYPE_FREQ
  else if stricmp type "power".data = 0 then K.POLICY_TYPE_POWER
  else if stricmp type "password".data = 0 then K.POLICY_TYPE_PASS
  else if stricmp type "heading".data = 0 then K.POLICY_TYPE_HEAD
  else if stricmp type "fuelLevel".data = 0 then K.POLICY_TYPE_FUEL
  else if stricmp type "positionX".data = 0 then K.POLICY_TYPE_POSX
  else if stricmp type "positionY".data = 0 then K.POLICY_TYPE_POSY
  else if stricmp type "altitude".data = 0 then K.POLICY_TYPE_ALT
  else if stricmp type "speed".data = 0 then K.POLICY_TYPE_SPEED
  else K.POLICY_TYPE_INVALID

/-- The chain of comparisons on the user name in `policy_fnTokenizeTags`. -/
def userString2Val (K : Codes) (user : CStr) : Nat :=
  if stricmp user "gus".data = 0 then K.USER_CODE_GUS
  else if stricmp user "doug".data = 0 then K.USER_CODE_DOUG
  else if stricmp user "mike".data = 0 then K.USER_CODE_MIKE
  else if stricmp user "tom".data = 0 then K.USER_CODE_TOM
  else if stricmp user "jackie".data = 0 then K.USER_CODE_JACKIE
  else if stricmp user "lilli".data = 0 then K.USER_CODE_LILLI
  else if stricmp user "bob".data = 0 then K.USER_CODE_BOB
  else if stricmp user "madi".data = 0 then K.USER_CODE_MADI
  else K.USER_CODE_INVALID

/-- The chain of comparisons on the group name in `policy_fnTokenizeTags`. -/
def groupString2Val (K : Codes) (group : CStr) : Nat :=
  if stricmp group "manager".data = 0 then K.GROUP_CODE_MANAGER
  else if stricmp group "engineering".data = 0 then K.GROUP_CODE_ENG
  else if stricmp group "technician".data = 0 then K.GROUP_CODE_TECH
  else if stricmp group "customer".data = 0 then K.GROUP_CODE_CUSTOMER
  else K.GROUP_CODE_INVALID

/-- The output parameters of `policy_fnTokenizeTags`. -/
structure TagFields where
  typeInt : Int
  location : CStr
  userID : Nat
  groupID : Nat
deriving DecidableEq, Repr

/-- The values of the output parameters when `POLICY_fnCheck` calls
`policy_fnTokenizeTags`. -/
def TagFields.init : TagFields :=
  { typeInt := -1, location := [], userID := 0, groupID := 0 }

/-- The body of the `while` loop of `policy_fnTokenizeTags` for one tag index
`t`: the tag string is copied, `tagMap[t]` is lowercased in place (each branch
of the chain applies `strlwr` again to the already lowercased string), and the
first branch whose word occurs in the lowercased tag takes the second token of
the copy. -/
def tokenizeStep (K : Codes) (tagMap : TagMap) (f : TagFields) (t : Nat) :
    Except Fault (TagMap × TagFields) :=
  if K.DP_SERVER_MAX_TAGS < t then Except.error Fault.tagIndexOutOfBounds
  else
    match tagMap t with
    | none => Except.error Fault.nullTagString
    | some tag =>
      let tagString := tag
      let lowered := strlwr tag
      let tagMap1 : TagMap := Function.update tagMap t (some lowered)
      if strstr lowered "type".data then
        match strtokSecond tagString with
        | none => Except.error Fault.nullToken
        | some type => Except.ok (tagMap1, { f with typeInt := policy_fnTypeString2Val K type })
      else if strstr lowered "location".data then
        match strtokSecond tagString with
        | none => Except.error Fault.nullToken
        | some token => Except.ok (tagMap1, { f with location := token })
      else if strstr lowered "user".data then
        match strtokSecond tagString with
        | none => Except.error Fault.nullToken
        | some user => Except.ok (tagMap1, { f with userID := userString2Val K user })
      else if strstr lowered "group".data then
        match strtokSecond tagString with
        | none => Except.error Fault.nullToken
        | some group => Except.ok (tagMap1, { f with groupID := groupString2Val K group })
      else Except.ok (tagMap1, f)

/-- The `while` loop of `policy_fnTokenizeTags` over the tag indices that are
left; it stops at the terminating zero. -/
def tokenizeLoop (K : Codes) : List Nat → TagMap → TagFields → Except Fault (TagMap × TagFields)
  | [], tagMap, f => Except.ok (tagMap, f)
  | t :: rest, tagMap, f =>
    if t = 0 then Except.ok (tagMap, f)
    else
      match tokenizeStep K tagMap f t with
      | Except.error e => Except.error e
      | Except.ok r => tokenizeLoop K rest r.1 r.2

/-- The first tag index `pDp->dpdata.tags[0]`; an empty array starts with the
terminating zero. -/
def firstTag (pDp : dp_t) : Nat := pDp.tags.headD 0

/-- The body of `policy_fnTokenizeTags` up to, and without, the assignment
`ret = EOK` that stands in front of its `return`: the value of `ret` (set to
`ENOENT` when the first tag index is out of range, still `EINVAL` after the
loop), the tag map and the output parameters. -/
def tokenizeBody (K : Codes) (tagMap : TagMap) (pDp : dp_t) (f : TagFields) :
    Except Fault (Int × TagMap × TagFields) :=
  if firstTag pDp < 1 ∨ firstTag pDp > K.DP_SERVER_MAX_TAGS then
    Except.ok (ENOENT, tagMap, f)
  else
    match tokenizeLoop K pDp.tags tagMap f with
    | Except.error e => Except.error e
    | Except.ok r => Except.ok (EINVAL, r.1, r.2)

/-- The routine `policy_fnTokenizeTags`: the returned code, the tag map after
the call and the output parameters. The statement `ret = EOK;` in front of
`return ret;` is executed on every path. -/
def policy_fnTokenizeTags (K : Codes) (tagMap : TagMap) (pDp : dp_t) (f : TagFields) :
    Except Fault (Int × TagMap × TagFields) :=
  match tokenizeBody K tagMap pDp f with
  | Except.error e => Except.error e
  | Except.ok r => Except.ok (EOK, r.2.1, r.2.2)

/-- The routine `policy_fnCheckGroup`. -/
def policy_fnCheckGroup (K : Codes) (group : Nat) (pPolicy : zPOLICY) : Bool :=
  if K.GROUP_CODE_INVALID ≠ pPolicy.group then
    if group ≠ pPolicy.group then false else true
  else true

/-- The routine `policy_fnCheckUser`. -/
def policy_fnCheckUser (K : Codes) (user : Nat) (pPolicy : zPOLICY) : Bool :=
  if K.USER_CODE_INVALID ≠ pPolicy.user then
    if user ≠ pPolicy.user then false else true
  else true

/-- The routine `policy_fnCheckLoc`; the array `Location` is never NULL. -/
def policy_fnCheckLoc (location : CStr) (pPolicy : zPOLICY) : Bool :=
  if strcmp EMPTY pPolicy.Location ≠ 0 then
    if stricmp location pPolicy.Location ≠ 0 then false else true
  else true

/-- The routine `policy_fnCheckAttr`. -/
def policy_fnCheckAttr (K : Codes) (location : CStr) (userID groupID : Nat)
    (pPolicy : zPOLICY) : Int :=
  if policy_fnCheckLoc location pPolicy then
    if policy_fnCheckUser K userID pPolicy then
      if policy_fnCheckGroup K groupID pPolicy then EOK else EACCES
    else EACCES
  else EACCES

/-- The routine `policy_fnBoundChecking`; the comparisons are those of the
numbers denoted. -/
def policy_fnBoundChecking (val : DpValue) (pPolicy : zPOLICY) : Bool :=
  if 0 ≠ pPolicy.min ∧ 0 ≠ pPolicy.max then
    match val with
    | DpValue.uint16 uiVal =>
      if (uiVal : Int) ≥ pPolicy.min ∧ (uiVal : Int) ≤ pPolicy.max then true else false
    | DpValue.sint16 siVal =>
      if siVal ≥ pPolicy.min ∧ siVal ≤ pPolicy.max then true else false
    | DpValue.uint32 ulVal =>
      if (ulVal : Int) ≥ pPolicy.min ∧ (ulVal : Int) ≤ pPolicy.max then true else false
    | DpValue.sint32 slVal =>
      if slVal ≥ pPolicy.min ∧ slVal ≤ pPolicy.max then true else false
    | DpValue.float32 fVal =>
      if fVal ≥ (pPolicy.min : ℚ) ∧ fVal ≤ (pPolicy.max : ℚ) then true else false
    | DpValue.array32 => false
    | DpValue.array16 => false
    | DpValue.conjugate => false
    | DpValue.other => false
  else true

/-- The routine `policy_fnCheckVal`. -/
def policy_fnCheckVal (val : DpValue) (pPolicy : zPOLICY) : Int :=
  if policy_fnBoundChecking val pPolicy = true then EOK else EACCES

/-- The local `ret` of `POLICY_fnCheck` at its `return`, and the tag map after
the call. The call `strlwr(location)` in the argument list of `sprintf`
lowercases `location` in place before `policy_fnCheckAttr` reads it. -/
def POLICY_fnCheck_ret (K : Codes) (s : ServerState) (tagMap : TagMap) (pDp : dp_t) :
    Except Fault (Int × TagMap) :=
  let ret := EACCES
  let dpTime_tv_sec := pDp.timestamp_tv_sec
  match policy_fnTokenizeTags K tagMap pDp TagFields.init with
  | Except.error e => Except.error e
  | Except.ok (code, tagMap1, f) =>
    if EOK ≠ code then Except.ok (ret, tagMap1)
    else if f.typeInt = K.POLICY_TYPE_INVALID then Except.ok (EOK, tagMap1)
    else if f.typeInt = K.POLICY_TYPE_PASS ∨ f.typeInt = K.POLICY_TYPE_HEAD ∨
        f.typeInt = K.POLICY_TYPE_FUEL then
      let key := hashString K.POLICY_NAME_ACCESS f.typeInt f.location
      let location := strlwr f.location
      if POLICYHASH_fnCheck s key then
        match POLICYHASH_fnFind s key with
        | none => Except.error Fault.nullPolicy
        | some p =>
          let pPolicy := s.heap p
          if 0 ≠ pPolicy.time_tv_sec then
            if pPolicy.time_tv_sec ≤ dpTime_tv_sec then
              Except.ok (policy_fnCheckAttr K location f.userID f.groupID pPolicy, tagMap1)
            else Except.ok (ret, tagMap1)
          else Except.ok (policy_fnCheckAttr K location f.userID f.groupID pPolicy, tagMap1)
      else Except.ok (ret, tagMap1)
    else
      let key := hashString K.POLICY_NAME_COMP f.typeInt f.location
      let location := strlwr f.location
      if POLICYHASH_fnCheck s key then
        match POLICYHASH_fnFind s key with
        | none => Except.error Fault.nullPolicy
        | some p =>
          let pPolicy := s.heap p
          if 0 ≠ pPolicy.time_tv_sec then
            if pPolicy.time_tv_sec ≤ dpTime_tv_sec then
              if EOK = policy_fnCheckVal pDp.val pPolicy then
                Except.ok (policy_fnCheckAttr K location f.userID f.groupID pPolicy, tagMap1)
              else Except.ok (ret, tagMap1)
            else Except.ok (ret, tagMap1)
          else
            if EOK = policy_fnCheckVal pDp.val pPolicy then
              Except.ok (policy_fnCheckAttr K location f.userID f.groupID pPolicy, tagMap1)
            else Except.ok (ret, tagMap1)
      else Except.ok (ret, tagMap1)

/-- The routine `POLICY_fnCheck`: its result type is `bool`, so the returned
`ret` is converted, `EOK` to `false` and every other code to `true`. -/
def POLICY_fnCheck (K : Codes) (s : ServerState) (tagMap : TagMap) (pDp : dp_t) :
    Except Fault Bool :=
  match POLICY_fnCheck_ret K s tagMap pDp with
  | Except.error e => Except.error e
  | Except.ok r => Except.ok (decide (r.1 ≠ 0))

/-- The check passed: the returned value is the one `EOK` converts to. -/
def Allow : Except Fault Bool := Except.ok false

/-- The check did not pass: the returned value is the one `EACCES` converts
to. -/
def Deny : Except Fault Bool := Except.ok true

/-! ## Notions used to state the properties -/

/-- Two strings are equal up to letter case. -/
def EqIgnoreCase (a b : CStr) : Prop :=
  List.Forall₂ (fun c d => tolower c = tolower d) a b

instance (a b : CStr) : Decidable (EqIgnoreCase a b) :=
  inferInstanceAs (Decidable (List.Forall₂ (fun c d => tolower c = tolower d) a b))

/-- The rule family (the rule-name code) that `POLICY_fnCheck` uses for a
classified type: the access family for password, heading and fuel level, the
comparator family for every other type. -/
def ruleFamily (K : Codes) (typeInt : Int) : Int :=
  if typeInt = K.POLICY_TYPE_PASS ∨ typeInt = K.POLICY_TYPE_HEAD ∨
      typeInt = K.POLICY_TYPE_FUEL then K.POLICY_NAME_ACCESS
  else K.POLICY_NAME_COMP

/-- The key built from the applicable rule family, the type and the location of
a tokenized data point. -/
def checkKey (K : Codes) (f : TagFields) : CStr :=
  hashString (ruleFamily K f.typeInt) f.typeInt f.location

/-- The type names that `policy_fnTypeString2Val` recognises. -/
def recognisedTypeNames : List CStr :=
  ["temperature".data, "voltage".data, "current".data, "frequency".data, "power".data,
   "password".data, "heading".data, "fuelLevel".data, "positionX".data, "positionY".data,
   "altitude".data, "speed".data]

/-- The decision that the gates of `POLICY_fnCheck` give for a classified data
point once the rule `pol` has been found under its key: the time gate, for the
comparator family the bounds, and the attributes. -/
def ruleDecision (K : Codes) (pol : zPOLICY) (pDp : dp_t) (f : TagFields) :
    Except Fault Bool :=
  if (pol.time_tv_sec = 0 ∨ pol.time_tv_sec ≤ pDp.timestamp_tv_sec) ∧
      ((f.typeInt = K.POLICY_TYPE_PASS ∨ f.typeInt = K.POLICY_TYPE_HEAD ∨
          f.typeInt = K.POLICY_TYPE_FUEL) ∨
        policy_fnBoundChecking pDp.val pol = true) ∧
      policy_fnCheckAttr K (strlwr f.location) f.userID f.groupID pol = EOK
  then Except.ok false else Except.ok true

/-- The tag indices that the loop of `policy_fnTokenizeTags` reads: those in
front of the terminating zero. -/
def activeTags (pDp : dp_t) : List Nat := pDp.tags.takeWhile (fun t => t != 0)

/-- The tag string is one that `policy_fnTokenizeTags` reads the type from: its
lowercased form contains `type`. -/
def isTypeTag (tag : CStr) : Prop := strstr (strlwr tag) "type".data = true

instance (tag : CStr) : Decidable (isTypeTag tag) :=
  inferInstanceAs (Decidable (strstr (strlwr tag) "type".data = true))

/-- Every tag string of the indices `T` that `policy_fnTokenizeTags` reads the
type from has a value that resolves to `POLICY_TYPE_INVALID`. -/
def TypeTagsInvalid (K : Codes) (tagMap : TagMap) (T : List Nat) : Prop :=
  ∀ t ∈ T, ∀ tag, tagMap t = some tag → isTypeTag tag →
    ∀ v, strtokSecond tag = some v → policy_fnTypeString2Val K v = K.POLICY_TYPE_INVALID

/-- The key that `POLICY_fnHouseKeepPolicy` recomputes from a stored policy. -/
def zPOLICY.key (p : zPOLICY) : CStr := hashString p.Name p.Type_ p.Location

/-- The policy object that `POLICY_fnCreatePolicy` fills in from a message and
its location string; the location is stored lowercased. -/
def policyOf (m : datapoint_policy_msg_t) (pLocation : CStr) : zPOLICY :=
  { Name := m.Name, Type_ := m.Type_, max := m.max, min := m.min,
    time_tv_sec := m.time_tv_sec,
    time_tv_nsec := if m.time_tv_sec ≠ 0 then m.time_tv_nsec else 0,
    user := m.user, group := m.group,
    Location := strlwr pLocation }

/-! ## Sample inputs -/

/-- A server state in which nothing has been allocated or set up. -/
def bootState : ServerState :=
  { heap := fun _ => zPOLICY.zero, brk := 0, hashPolicy := [], hs := [] }

/-- A tag map with the tags of the scenarios. -/
def sampleTagMap : TagMap := fun t =>
  match t with
  | 1 => some "type:temperature".data
  | 2 => some "location:boston".data
  | 3 => some "user:doug".data
  | 4 => some "group:engineering".data
  | 5 => some "type:warpfactor".data
  | 6 => some "location:BOSTON".data
  | 7 => some "type:password".data
  | _ => none

/-- The data point of the scenarios: tagged
`type:temperature,location:boston,user:doug,group:engineering`, with a 16-bit
unsigned value. -/
def sampleDp (v : Nat) : dp_t :=
  { tags := [1, 2, 3, 4], timestamp_tv_sec := 1000, val := DpValue.uint16 v }

/-- A comparator rule for temperature with the given bounds and time bound,
wildcard user and wildcard group. -/
def temperatureRule (K : Codes) (min max time : Int) : datapoint_policy_msg_t :=
  { Name := K.POLICY_NAME_COMP, Type_ := K.POLICY_TYPE_TEMP, max := max, min := min,
    time_tv_sec := time, time_tv_nsec := 0,
    user := K.USER_CODE_INVALID, group := K.GROUP_CODE_INVALID }

/-- The store that holds one rule: the state after `HASH_fnSetup` and one call
of `POLICY_fnCreatePolicy`. -/
def storeWith (m : datapoint_policy_msg_t) (location : CStr) : ServerState :=
  (POLICY_fnCreatePolicy (HASH_fnSetup bootState) (some m) location).1

/-- A data point without tags: its tag array starts with the terminating
zero, so its first tag index is out of range. -/
def untaggedDp : dp_t :=
  { tags := [], timestamp_tv_sec := 1000, val := DpValue.uint16 150 }

/-- A comparator rule whose type is `-1`, the value of `typeInt` before any type
tag has been read, with an empty location, no bounds, no time bound, wildcard
user and wildcard group. -/
def untypedRule : datapoint_policy_msg_t :=
  { Name := sampleCodes.POLICY_NAME_COMP, Type_ := -1, max := 0, min := 0,
    time_tv_sec := 0, time_tv_nsec := 0,
    user := sampleCodes.USER_CODE_INVALID, group := sampleCodes.GROUP_CODE_INVALID }

/-! ## Notions used for the reconciliation properties -/

/-- The policy addresses that the roster slots hold, in slot order. -/
def rosterPtrs (hs : List tzHouseKeep) : List Nat := hs.filterMap (fun h => h.pPolicy)

/-- The keys of a batch, rule by rule. -/
def batchKeys (batch : List Rule) : List CStr := batch.map Rule.key

/-- The keys that the sweep of `POLICY_fnHouseKeepPolicy` removes: the key of
the policy of every occupied slot that was not seen. -/
def unseenKeys (heap : Nat → zPOLICY) (hs : List tzHouseKeep) : List CStr :=
  hs.filterMap (fun h =>
    match h.pPolicy with
    | some p => if h.Seen = false then some (heap p).key else none
    | none => none)

/-- The effect of the sweep on one slot: an occupied slot that was not seen is
cleared. -/
def clearUnseen (h : tzHouseKeep) : tzHouseKeep :=
  match h.pPolicy with
  | some _ => if h.Seen = false then { h with pPolicy := none } else h
  | none => h

/-- The store and the roster fit together: no address is held by two slots,
the policy of every occupied slot is the one stored under its key, and every
stored address was allocated and is stored under the key of its policy. -/
structure Consistent (s : ServerState) : Prop where
  nodupPtrs : (rosterPtrs s.hs).Nodup
  slotStored : ∀ p ∈ rosterPtrs s.hs, cfuhash_get s.hashPolicy (s.heap p).key = some p
  storedKey : ∀ k p, cfuhash_get s.hashPolicy k = some p → p < s.brk ∧ (s.heap p).key = k

/-- The flags of the roster record the keys registered so far in the current
pass: an occupied slot is flagged as seen exactly when the key of its policy
is among `processed`. -/
def Marks (s : ServerState) (processed : List CStr) : Prop :=
  ∀ h ∈ s.hs, ∀ p, h.pPolicy = some p → (h.Seen = true ↔ (s.heap p).key ∈ processed)

/-- Every stored policy is held by a roster slot. -/
def AllTracked (s : ServerState) : Prop :=
  ∀ k p, cfuhash_get s.hashPolicy k = some p → p ∈ rosterPtrs s.hs

/-- The rule stored under a key, if any: the contents of the policy table. -/
def storeView (s : ServerState) (k : CStr) : Option zPOLICY :=
  (POLICYHASH_fnFind s k).map s.heap

/-- Every batch of the sequence, taken together with the batch applied before
it (`prev` holds the keys of that batch), has at most `ESTIMATED_NUM_POLICY`
distinct keys. -/
def WithinCapacity : List CStr → List (List Rule) → Prop
  | _, [] => True
  | prev, b :: rest =>
    (prev ++ batchKeys b).dedup.length ≤ ESTIMATED_NUM_POLICY ∧
      WithinCapacity (batchKeys b) rest

/-- The policy of every occupied roster slot has its key among `keys`. -/
def SlotKeysIn (s : ServerState) (keys : List CStr) : Prop :=
  ∀ p ∈ rosterPtrs s.hs, (s.heap p).key ∈ keys

/-- Every key of the policy table is among `keys`. -/
def StoreIn (s : ServerState) (keys : List CStr) : Prop :=
  ∀ k, (cfuhash_get s.hashPolicy k).isSome = true → k ∈ keys

/-- A state between two passes in which no rule has escaped the roster: store
and roster fit together, every stored policy is held by a slot, all flags are
reset, the roster has its `ESTIMATED_NUM_POLICY` slots, and the keys of the
store are exactly `keys`. -/
structure Reconciled (s : ServerState) (keys : List CStr) : Prop where
  consistent : Consistent s
  tracked : AllTracked s
  marks : Marks s []
  slots : s.hs.length = ESTIMATED_NUM_POLICY
  storeKeys_iff : ∀ k, k ∈ storeKeys s ↔ k ∈ keys

/-- The temperature rule for the `n`-th site, whose location is written as
`n + 1` letters `a`; no bounds, no time bound, wildcard user and group. -/
def siteRule (n : Nat) : Rule :=
  (temperatureRule sampleCodes 0 0 0, List.replicate (n + 1) 'a')

/-- A batch of `ESTIMATED_NUM_POLICY` rules with pairwise distinct keys: the
rules of the sites 0 to 199. -/
def fullBatch : List Rule := (List.range ESTIMATED_NUM_POLICY).map siteRule

/-- The key `k` is stored, and no roster slot holds the policy stored under
it. -/
def Untracked (s : ServerState) (k : CStr) : Prop :=
  ∃ p, cfuhash_get s.hashPolicy k = some p ∧ p ∉ rosterPtrs s.hs

/-! ## Call sequences -/

/-- One call received by the policy server after `HASH_fnSetup`:
`POLICY_fnCreatePolicy` with its message (`none` is NULL) and location string,
or `POLICY_fnHouseKeepPolicy`. -/
inductive Call where
  | create (msg : Option datapoint_policy_msg_t) (pLocation : CStr)
  | housekeep

/-- The state after one call; the returned code is dropped. -/
def step (s : ServerState) : Call → ServerState
  | Call.create msg pLocation => (POLICY_fnCreatePolicy s msg pLocation).1
  | Call.housekeep => (POLICY_fnHouseKeepPolicy s).1

/-- The state after a sequence of calls, first call first. -/
def run (s : ServerState) : List Call → ServerState
  | [] => s
  | c :: rest => run (step s c) rest

/-- The call that registers a rule. -/
def Rule.call (r : Rule) : Call := Call.create (some r.1) r.2

/-- The number of roster slots that reference the policy stored under the key
`k`; `none` when no policy is stored under `k`. -/
def slotCount (s : ServerState) (k : CStr) : Option Nat :=
  (POLICYHASH_fnFind s k).map (fun p => (rosterPtrs s.hs).count p)

/-- After every call of the sequence, started in `s`, the policy store holds
at most `ESTIMATED_NUM_POLICY` keys. -/
def StoreBounded (s : ServerState) : List Call → Prop
  | [] => True
  | c :: rest =>
    (storeKeys (step s c)).length ≤ ESTIMATED_NUM_POLICY ∧ StoreBounded (step s c) rest

/-- The calls that fill the roster: the 200 rules of `fullBatch` registered,
then one housekeeping pass. -/
def fillRoster : List Call := fullBatch.map Rule.call ++ [Call.housekeep]

/-- All roster slots are occupied. -/
def RosterFull (s : ServerState) : Prop := ∀ y ∈ s.hs, y.pPolicy ≠ none

/-! ## Data point keys (`hash.c`) -/

/-- The constant `KEY_INSTANCE_LENGTH` of `hash.c`. -/
def KEY_INSTANCE_LENGTH : Nat := 8

/-- The terminator of a C string. -/
def NUL : Char := Char.ofNat 0

/-- The destination buffer of a key builder, seen as a C string: the NULL
pointer, a buffer whose bytes hold no terminated string (not initialised, or
filled to its end without a terminator), or a buffer that holds the string
`s` and its terminator. -/
inductive KeyBuf where
  | null
  | indeterminate
  | str (s : CStr)
  deriving DecidableEq

/-- The loop shared by both key builders, run `n` times on the `uint32_t` value
`x`: `key[idx++] = 'A' + ( x & 0xF ); x = x >> 4;`. The result is the
characters written, in order. -/
def encodeNibbles : Nat → Nat → CStr
  | 0, _ => []
  | n + 1, x => Char.ofNat ('A'.toNat + (x &&& 0xF)) :: encodeNibbles n (x >>> 4)

/-- The C function `strlen`: the number of characters before the terminator,
which is the first `NUL` of the character list or its end. -/
def strlen (s : CStr) : Nat := (s.takeWhile (fun c => c ≠ NUL)).length

/-- The routine `hash_fnBuildGUIDKey`; `guid` and `instanceID` are `uint32_t`
values. The result is the returned code and the destination buffer after the
call. -/
def hash_fnBuildGUIDKey (guid instanceID : Nat) (key : KeyBuf) (key_len : Nat) :
    Int × KeyBuf :=
  if key = KeyBuf.null ∨ key_len ≤ 16 then (ENOMEM, key)
  else (EOK, KeyBuf.str (encodeNibbles 8 guid ++ encodeNibbles 8 instanceID))

/-- The routine `hash_fnBuildNameKey`; `name = none` is the NULL pointer and
`instanceID` is a `uint32_t` value. The copy loop stops at the terminator of
`name` or when `key_len` characters are copied, so `name_len` is the smaller of
`strlen(name)` and `key_len`. When the routine gives up after the copy loop,
the buffer holds the name if its terminator was copied, and no terminated
string otherwise (nothing was written when `key_len` is zero). -/
def hash_fnBuildNameKey (name : Option CStr) (instanceID : Nat) (key : KeyBuf)
    (key_len : Nat) : Int × KeyBuf :=
  match name with
  | none => (ENOMEM, key)
  | some nm =>
    if key = KeyBuf.null then (ENOMEM, key)
    else
      let copied := (nm.takeWhile (fun c => c ≠ NUL)).take key_len
      let name_len := copied.length
      if name_len + KEY_INSTANCE_LENGTH + 1 > key_len then
        (ENOMEM,
          if strlen nm < key_len then KeyBuf.str copied
          else if key_len = 0 then key else KeyBuf.indeterminate)
      else
        (EOK, KeyBuf.str (copied ++ encodeNibbles KEY_INSTANCE_LENGTH instanceID))

/-- The encoding of a 32-bit value as the specification words it: eight
characters, the `i`-th (from 0) being `'A' + ((x >> 4i) & 0xF)`. -/
def nibbleString (x : Nat) : CStr :=
  (List.range 8).map (fun i => Char.ofNat ('A'.toNat + ((x >>> (4 * i)) &&& 0xF)))

/-! ## The data point index (`hash.c`) -/

/-- The fields of `struct dp_id_t` that `hash.c` reads; `pName = none` is a
NULL name pointer, `instanceID` and `ulName` (the GUID) are `uint32_t`
values. -/
structure dp_id_t where
  pName : Option CStr
  instanceID : Nat
  ulName : Nat

/-- The name table `hash` and the GUID table `guidhash` of `hash.c`; their
values are addresses of data point identifications. -/
structure DpIndex where
  hash : cfuhash_table_t
  guidhash : cfuhash_table_t

/-- The routine `HASH_fnAdd`, for a data point identification `dp` at the
address `pDatapointID`; `DP_MAX_NAME_LENGTH` is a constant of the header
`dp.h`, which is not part of the source tree. The local buffer `key` starts
uninitialised, and the results of the key builders are not looked at. The
result is `none` when `cfuhash_put` is handed a buffer that holds no terminated
string, for which C defines no behaviour. -/
def HASH_fnAdd (DP_MAX_NAME_LENGTH : Nat) (st : DpIndex) (pDatapointID : Nat) (dp : dp_id_t)
    (optional_name : Option CStr) : Option (DpIndex × Int) :=
  let name := match optional_name with
    | some n => some n
    | none => dp.pName
  let key1 :=
    (hash_fnBuildNameKey name dp.instanceID KeyBuf.indeterminate (DP_MAX_NAME_LENGTH + 10)).2
  match key1 with
  | KeyBuf.str k1 =>
    let st1 : DpIndex := { st with hash := (cfuhash_put st.hash k1 pDatapointID).1 }
    if dp.ulName ≠ 0 then
      let key2 :=
        (hash_fnBuildGUIDKey dp.ulName dp.instanceID key1 (DP_MAX_NAME_LENGTH + 10)).2
      match key2 with
      | KeyBuf.str k2 =>
        some ({ st1 with guidhash := (cfuhash_put st1.guidhash k2 pDatapointID).1 }, EOK)
      | _ => none
    else some (st1, EOK)
  | _ => none

/-- The routine `HASH_fnLookupById`; the inner `none` is NULL (not found), the
outer `none` a lookup with a buffer that holds no terminated string. -/
def HASH_fnLookupById (st : DpIndex) (guid instanceID : Nat) : Option (Option Nat) :=
  match (hash_fnBuildGUIDKey guid instanceID KeyBuf.indeterminate 20).2 with
  | KeyBuf.str k => some (cfuhash_get st.guidhash k)
  | _ => none

/-! ## The object queue of the discrete event simulator (`queue.c`) -/

/-- The constant `MAX_NUM_OF_OBJECTS` of `objqueue.h`. -/
def MAX_NUM_OF_OBJECTS : Nat := 100000

/-- The structure `tzOBJECT`; the links of its member `queue` are the fields
`queue_next` and `queue_prev` (`none` is NULL), times are `uint64_t` cycle
counts and the two `double` members are kept as rationals. -/
structure tzOBJECT where
  ObjName : CStr
  tStartQ : Nat
  tEndQ : Nat
  deltaInQueue : Nat
  secondsQueue : ℚ
  tStartService : Nat
  tEndService : Nat
  deltaService : Nat
  secondsService : ℚ
  queue_next : Option Nat
  queue_prev : Option Nat
  beginBatch : Bool
  endBatch : Bool

/-- An object as `calloc` delivers it: every byte zero. -/
def tzOBJECT.zero : tzOBJECT :=
  { ObjName := [], tStartQ := 0, tEndQ := 0, deltaInQueue := 0, secondsQueue := 0,
    tStartService := 0, tEndService := 0, deltaService := 0, secondsService := 0,
    queue_next := none, queue_prev := none, beginBatch := false, endBatch := false }

/-- The structure `tzQUEUE` without its mutex; `uiObjCount` is a `uint16_t`. -/
structure tzQUEUE where
  uiObjCount : Nat
  pFirst : Option Nat
  pLast : Option Nat

/-- The structure `tzParams` without its file handles; the `float` members are
kept as rationals. -/
structure tzParams where
  mean : ℚ
  rate : Nat
  policyRuleNum : Nat
  queryCode : Nat
  sigma : ℚ
  lambda : ℚ
  Epoch : Int
  currEpoch : Int
  cps : Nat
  showOutput : Bool
  verbose : Int

/-- The ways in which a queue routine leaves defined behaviour: a NULL `arg` is
read, the table `pObj` is written at or beyond `MAX_NUM_OF_OBJECTS`, or a NULL
object pointer is dereferenced. -/
inductive QueueFault where
  | nullParams
  | objectTableOverflow
  | nullObject
  deriving DecidableEq

/-- The state of the simulator that `queue.c` works on: the heap of objects
(`objs a` is the object at address `a`, `brk` the next address `calloc` hands
out), the queue that the global `pQueue` points to (`none` when `pQueue` is
NULL), the table `pObj` and its counter `objCounter`. The environment is part
of the state: `callocOk k` tells whether the `k`-th call of `calloc` succeeds,
`cycles k` is what the `k`-th call of `ClockCycles` returns, and `callocCalls`
and `clockCalls` count the calls made so far. -/
structure SimState where
  objs : Nat → tzOBJECT
  brk : Nat
  pQueue : Option tzQUEUE
  pObj : Nat → Option Nat
  objCounter : Nat
  callocOk : Nat → Bool
  callocCalls : Nat
  cycles : Nat → Nat
  clockCalls : Nat

/-- The assignment `pObj->tStartQ = ClockCycles( )`. -/
def tzOBJECT.stamp (o : tzOBJECT) (t : Nat) : tzOBJECT := { o with tStartQ := t }

/-- The assignments to `queue.prev` and `queue.next` of one object. -/
def tzOBJECT.link (o : tzOBJECT) (prev next : Option Nat) : tzOBJECT :=
  { o with queue_prev := prev, queue_next := next }

/-- The assignment to `queue.next` of one object. -/
def tzOBJECT.setNext (o : tzOBJECT) (next : Option Nat) : tzOBJECT :=
  { o with queue_next := next }

/-- The routine `QUEUE_fnInitialize`. -/
def QUEUE_fnInitialize (w : SimState) : SimState × Int :=
  if w.callocOk w.callocCalls = false then
    ({ w with pQueue := none, callocCalls := w.callocCalls + 1 }, ENOMEM)
  else
    ({ w with pQueue := some { uiObjCount := 0, pFirst := none, pLast := none },
              callocCalls := w.callocCalls + 1 }, EOK)

/-- The routine `queue_fnAddObj`, called with the global `pQueue`; `pObj = none`
and `arg = none` are NULL pointers. Output to `stdout` is left out. -/
def queue_fnAddObj (w : SimState) (pObj : Option Nat) (arg : Option tzParams) :
    Except QueueFault (SimState × Int) :=
  match w.pQueue, pObj with
  | some q, some p =>
    let objs1 := Function.update w.objs p ((w.objs p).stamp (w.cycles w.clockCalls))
    let linked : Except QueueFault ((Nat → tzOBJECT) × tzQUEUE) :=
      match q.pFirst with
      | none =>
        Except.ok (Function.update objs1 p ((objs1 p).link none none),
          { q with pFirst := some p, pLast := some p })
      | some _ =>
        match q.pLast with
        | none => Except.error QueueFault.nullObject
        | some pTmpObj =>
          let objs2 := Function.update objs1 pTmpObj ((objs1 pTmpObj).setNext (some p))
          Except.ok (Function.update objs2 p ((objs2 p).link (some pTmpObj) none),
            { q with pLast := some p })
    match linked with
    | Except.error e => Except.error e
    | Except.ok (objs3, q1) =>
      match arg with
      | none => Except.error QueueFault.nullParams
      | some _ =>
        Except.ok ({ w with objs := objs3,
                            pQueue := some { q1 with uiObjCount := (q1.uiObjCount + 1) % 65536 },
                            clockCalls := w.clockCalls + 1 }, EOK)
  | _, _ => Except.ok (w, EINVAL)

/-- One iteration of the loop of `QUEUE_fnAdd`, for the loop index `i` and the
current value `ret`. -/
def QUEUE_fnAdd_iter (num : Int) (arg : Option tzParams) (i : Nat) (w : SimState) (ret : Int) :
    Except QueueFault (SimState × Int) :=
  if MAX_NUM_OF_OBJECTS ≤ w.objCounter then Except.error QueueFault.objectTableOverflow
  else if w.callocOk w.callocCalls = false then
    Except.ok ({ w with pObj := Function.update w.pObj w.objCounter none,
                        callocCalls := w.callocCalls + 1 }, ret)
  else
    let o : tzOBJECT :=
      { tzOBJECT.zero with ObjName := "Drone".toList,
                           beginBatch := decide ((0 : Int) = i),
                           endBatch := decide (num - 1 = i) }
    let w1 : SimState :=
      { w with objs := Function.update w.objs w.brk o,
               brk := w.brk + 1,
               pObj := Function.update w.pObj w.objCounter (some w.brk),
               callocCalls := w.callocCalls + 1 }
    match queue_fnAddObj w1 (some w.brk) arg with
    | Except.error e => Except.error e
    | Except.ok (w2, _) => Except.ok ({ w2 with objCounter := w2.objCounter + 1 }, EOK)

/-- The loop of `QUEUE_fnAdd` over the remaining values of the loop index. -/
def QUEUE_fnAdd_loop (num : Int) (arg : Option tzParams) :
    List Nat → SimState → Int → Except QueueFault (SimState × Int)
  | [], w, ret => Except.ok (w, ret)
  | i :: rest, w, ret =>
    match QUEUE_fnAdd_iter num arg i w ret with
    | Except.error e => Except.error e
    | Except.ok (w1, ret1) => QUEUE_fnAdd_loop num arg rest w1 ret1

/-- The routine `QUEUE_fnAdd`, called with the global `pQueue`. -/
def QUEUE_fnAdd (w : SimState) (num : Int) (arg : Option tzParams) :
    Except QueueFault (SimState × Int) :=
  QUEUE_fnAdd_loop num arg (List.range num.toNat) w EINVAL

/-- The links of the objects of `l` chain them in order: the first has
`queue.prev = prev`, each has the next one as `queue.next` and is the
`queue.prev` of the next one, and the last has `queue.next = NULL`. -/
def Linked (objs : Nat → tzOBJECT) : Option Nat → List Nat → Prop
  | _, [] => True
  | prev, a :: t =>
    (objs a).queue_prev = prev ∧ (objs a).queue_next = t.head? ∧ Linked objs (some a) t

/-- The queue holds exactly the objects at the addresses `l`, first to last:
`pFirst` and `pLast` are the ends of `l`, the links chain `l`, no object occurs
twice, all were allocated, and the 16-bit counter is the length of `l` modulo
65536. -/
def IsQueue (w : SimState) (l : List Nat) : Prop :=
  ∃ q, w.pQueue = some q ∧ q.pFirst = l.head? ∧ q.pLast = l.getLast? ∧
    q.uiObjCount = l.length % 65536 ∧ Linked w.objs none l ∧ l.Nodup ∧ ∀ a ∈ l, a < w.brk

/-- A simulator state before anything has run: nothing allocated, `pQueue`
NULL, an empty table, every allocation succeeding and a clock that counts its
own calls. -/
def simBoot : SimState :=
  { objs := fun _ => tzOBJECT.zero, brk := 0, pQueue := none, pObj := fun _ => none,
    objCounter := 0, callocOk := fun _ => true, callocCalls := 0,
    cycles := fun k => k, clockCalls := 0 }

/-- The parameters used in the sample runs: not verbose, one cycle per
second. -/
def sampleParams : tzParams :=
  { mean := 0, rate := 0, policyRuleNum := 0, queryCode := 0, sigma := 0, lambda := 0,
    Epoch := 0, currEpoch := 0, cps := 1, showOutput := false, verbose := 0 }

/-- A tag map in which the value of the location tag contains the word
`type`: index 1 is `type:password`, index 2 is `location:prototype`. -/
def prototypeTagMap : TagMap := fun t =>
  match t with
  | 1 => some "type:password".data
  | 2 => some "location:prototype".data
  | _ => none

/-- The data point tagged `type:password,location:prototype`. -/
def prototypeDp : dp_t :=
  { tags := [1, 2], timestamp_tv_sec := 1000, val := DpValue.uint16 0 }

/-- The data point tagged `type:password,location:boston,user:doug,
group:engineering`, with the value `val`. -/
def passwordDp (val : DpValue) : dp_t :=
  { tags := [7, 2, 3, 4], timestamp_tv_sec := 1000, val := val }

/-- An access rule for passwords without time bound, with wildcard user and
wildcard group. -/
def passwordRule (K : Codes) : datapoint_policy_msg_t :=
  { Name := K.POLICY_NAME_ACCESS, Type_ := K.POLICY_TYPE_PASS, max := 0, min := 0,
    time_tv_sec := 0, time_tv_nsec := 0,
    user := K.USER_CODE_INVALID, group := K.GROUP_CODE_INVALID }

/-- The assignment to `queue.prev` of one object. -/
def tzOBJECT.setPrev (o : tzOBJECT) (prev : Option Nat) : tzOBJECT :=
  { o with queue_prev := prev }

/-- The assignment `pToBeRemoved->tEndQ = ClockCycles( )`. -/
def tzOBJECT.stampEnd (o : tzOBJECT) (t : Nat) : tzOBJECT := { o with tEndQ := t }

/-- The two assignments after the locked section of
`QUEUE_fnGetAndRemoveFirstObj`: the time spent in the queue, a difference of
`uint64_t` values, and the same time in seconds, a `double` taken as a
rational. -/
def tzOBJECT.setDelta (o : tzOBJECT) (cps : Nat) : tzOBJECT :=
  { o with deltaInQueue := (o.tEndQ + 2 ^ 64 - o.tStartQ) % 2 ^ 64,
           secondsQueue := (((o.tEndQ + 2 ^ 64 - o.tStartQ) % 2 ^ 64 : Nat) : ℚ) / (cps : ℚ) }

/-- The routine `QUEUE_fnGetAndRemoveFirstObj`, called with the global `pQueue`;
`arg = none` is a NULL pointer. The result is the new state and the returned
pointer. The local `pToBeRemoved` is still NULL when the queue pointer is NULL
or the queue is empty, and is dereferenced all the same by
`pToBeRemoved->tEndQ = ClockCycles( )` and by the assignments that follow the
locked section. -/
def QUEUE_fnGetAndRemoveFirstObj (w : SimState) (arg : Option tzParams) :
    Except QueueFault (SimState × Option Nat) :=
  match w.pQueue with
  | none => Except.error QueueFault.nullObject
  | some q =>
    match q.pFirst with
    | none => Except.error QueueFault.nullObject
    | some pToBeRemoved =>
      let detached : Except QueueFault ((Nat → tzOBJECT) × tzQUEUE) :=
        if q.pFirst = q.pLast then
          Except.ok (w.objs, { q with pFirst := none, pLast := none })
        else
          match (w.objs pToBeRemoved).queue_next with
          | none => Except.error QueueFault.nullObject
          | some pSecondObj =>
            Except.ok (Function.update w.objs pSecondObj ((w.objs pSecondObj).setPrev none),
              { q with pFirst := some pSecondObj })
      match detached with
      | Except.error e => Except.error e
      | Except.ok (objs1, q1) =>
        let objs2 := Function.update objs1 pToBeRemoved ((objs1 pToBeRemoved).link none none)
        let objs3 := Function.update objs2 pToBeRemoved
          ((objs2 pToBeRemoved).stampEnd (w.cycles w.clockCalls))
        match arg with
        | none => Except.error QueueFault.nullParams
        | some params =>
          Except.ok ({ w with
            objs := Function.update objs3 pToBeRemoved
              ((objs3 pToBeRemoved).setDelta params.cps),
            pQueue := some { q1 with uiObjCount := (q1.uiObjCount + 65535) % 65536 },
            clockCalls := w.clockCalls + 1 }, some pToBeRemoved)

/-- One call on the queue: `QUEUE_fnAdd` with its number of objects, or
`QUEUE_fnGetAndRemoveFirstObj`. -/
inductive QueueCall where
  | add (num : Int)
  | remove

/-- A sequence of calls on the queue, all with the same `arg`. The result is
the final state and, for every `QUEUE_fnGetAndRemoveFirstObj` in order, the
pointer it returned together with the object it points to at the moment of the
return. -/
def runQueue (arg : Option tzParams) :
    SimState → List QueueCall → Except QueueFault (SimState × List (Option Nat × Option tzOBJECT))
  | w, [] => Except.ok (w, [])
  | w, QueueCall.add num :: rest =>
    match QUEUE_fnAdd w num arg with
    | Except.error e => Except.error e
    | Except.ok (w1, _) => runQueue arg w1 rest
  | w, QueueCall.remove :: rest =>
    match QUEUE_fnGetAndRemoveFirstObj w arg with
    | Except.error e => Except.error e
    | Except.ok (w1, p) =>
      match runQueue arg w1 rest with
      | Except.error e => Except.error e
      | Except.ok (w2, out) => Except.ok (w2, (p, p.map w1.objs) :: out)

/-- The number of objects that the `QUEUE_fnAdd` calls of a sequence ask
for. -/
def totalAdded : List QueueCall → Nat
  | [] => 0
  | QueueCall.add num :: rest => num.toNat + totalAdded rest
  | QueueCall.remove :: rest => totalAdded rest

/-- The number of `QUEUE_fnGetAndRemoveFirstObj` calls of a sequence. -/
def removals : List QueueCall → Nat
  | [] => 0
  | QueueCall.add _ :: rest => removals rest
  | QueueCall.remove :: rest => removals rest + 1

/-- Every `QUEUE_fnAdd` of the sequence asks for at least one object and every
`QUEUE_fnGetAndRemoveFirstObj` finds the queue non-empty, when the queue holds
`len` objects at the start. -/
def Admissible : Nat → List QueueCall → Prop
  | _, [] => True
  | len, QueueCall.add num :: rest => 1 ≤ num ∧ Admissible (len + num.toNat) rest
  | len, QueueCall.remove :: rest => 0 < len ∧ Admissible (len - 1) rest

/-- A simulator state in which the allocation for the queue and the first
allocation for an object succeed, the second allocation for an object fails and
all later ones succeed. -/
def simSecondFails : SimState := { simBoot with callocOk := fun k => k != 2 }

/-! ## The response-time estimator (`discreteEventSimulator.c`) -/

/-- The global variables of `discreteEventSimulator.c` that
`discreteEventSimulator_fnCalcRT` reads and writes. The arrays `y`, `w` and
`numberArrived` have `MAX_NUM_OF_OBJECTS` elements; `float` values are kept as
rationals (exact arithmetic), and `cycleIdx`, an `int` that starts at 0 and is
only ever incremented, as a natural number. -/
structure Estimator where
  y : Nat → ℚ
  w : Nat → ℚ
  Var_w : ℚ
  numberArrived : Nat → Int
  overalMean : ℚ
  sumOfCycleSums : ℚ
  meanCycleLength : ℚ
  sumOf_w : ℚ
  confidenceInterval : ℚ
  sumOfNumbers : Int
  cycleIdx : Nat

/-- The routine `discreteEventSimulator_fnCalcRT`, over exact arithmetic. The
square root of the C library is the parameter `sqrt`. The output to files and
to `stdout` is left out, and with it the argument `NL` and the local
`ResponseTime`, which are only printed. The result is `none` when `cycleIdx`
is beyond the end of the arrays. -/
def discreteEventSimulator_fnCalcRT (sqrt : ℚ → ℚ) (params : tzParams)
    (pServiceObject : tzOBJECT) (e : Estimator) : Option Estimator :=
  let milliSecondsQ := pServiceObject.secondsQueue * 1000
  let milliSecondsS := pServiceObject.secondsService * 1000
  if MAX_NUM_OF_OBJECTS ≤ e.cycleIdx then none
  else
    let y1 := Function.update e.y e.cycleIdx (e.y e.cycleIdx + (milliSecondsQ + milliSecondsS))
    if pServiceObject.endBatch = false then some { e with y := y1 }
    else
      let sumOfCycleSums := e.sumOfCycleSums + y1 e.cycleIdx
      let sumOfNumbers := e.sumOfNumbers + e.numberArrived e.cycleIdx
      let overalMean := sumOfCycleSums / (sumOfNumbers : ℚ)
      let w1 := Function.update e.w e.cycleIdx
        (y1 e.cycleIdx - (e.numberArrived e.cycleIdx : ℚ) * overalMean)
      let sumOf_w := e.sumOf_w + w1 e.cycleIdx * w1 e.cycleIdx
      if params.currEpoch > 1 then
        let Var_w := sumOf_w / ((params.currEpoch - 1 : Int) : ℚ)
        let meanCycleLength := (sumOfNumbers : ℚ) / (params.currEpoch : ℚ)
        some { e with
          y := y1, w := w1, sumOfCycleSums := sumOfCycleSums, sumOfNumbers := sumOfNumbers,
          overalMean := overalMean, sumOf_w := sumOf_w,
          Var_w := Var_w, meanCycleLength := meanCycleLength,
          confidenceInterval :=
            (329 / 200 : ℚ) * (sqrt Var_w / (meanCycleLength * sqrt (params.currEpoch : ℚ))),
          cycleIdx := e.cycleIdx + 1 }
      else
        some { e with
          y := y1, w := w1, sumOfCycleSums := sumOfCycleSums, sumOfNumbers := sumOfNumbers,
          overalMean := overalMean, sumOf_w := sumOf_w, cycleIdx := e.cycleIdx + 1 }

/-- The estimator before any object has been served (all globals zero), with
the arrival counts 3 and 4 recorded for the first two epochs. -/
def estimatorStart : Estimator :=
  { y := fun _ => 0, w := fun _ => 0, Var_w := 0,
    numberArrived := fun i => if i = 0 then 3 else if i = 1 then 4 else 0,
    overalMean := 0, sumOfCycleSums := 0, meanCycleLength := 0, sumOf_w := 0,
    confidenceInterval := 0, sumOfNumbers := 0, cycleIdx := 0 }

/-- The estimator after the first epoch has been served with the cycle sum 30,
while the arrival thread had generated one epoch. -/
def estimatorAfterFirst : Estimator :=
  { y := fun i => if i = 0 then 30 else 0, w := fun _ => 0, Var_w := 0,
    numberArrived := fun i => if i = 0 then 3 else if i = 1 then 4 else 0,
    overalMean := 10, sumOfCycleSums := 30, meanCycleLength := 0, sumOf_w := 0,
    confidenceInterval := 0, sumOfNumbers := 3, cycleIdx := 1 }

/-- A batch-ending object whose time in the queue and in service add up to
`ms` milliseconds. -/
def lastOfBatch (ms : ℚ) : tzOBJECT :=
  { tzOBJECT.zero with secondsQueue := ms / 1000, endBatch := true }

/-- A stand-in for the square root in the sample runs: it is exact on the
arguments that occur there. -/
def sampleSqrt (x : ℚ) : ℚ := if x = 4 then 2 else if x = 900 then 30 else x

/-- A tag map with tags that lack a value: index 1 is `type` (no colon) and
index 2 is `location:` (nothing after the colon). -/
def valuelessTagMap : TagMap := fun t =>
  match t with
  | 1 => some "type".data
  | 2 => some "location:".data
  | _ => none

/-- The data point tagged `type:temperature,location:BOSTON,user:doug,
group:engineering`; the location tag is written in capitals in the tag map. -/
def capitalsDp : dp_t :=
  { tags := [1, 6, 3, 4], timestamp_tv_sec := 1000, val := DpValue.uint16 50 }

/-- The user names and their codes, in the order of the comparisons of
`policy_fnTokenizeTags`. -/
def userTable (K : Codes) : List (CStr × Nat) :=
  [("gus".data, K.USER_CODE_GUS), ("doug".data, K.USER_CODE_DOUG),
   ("mike".data, K.USER_CODE_MIKE), ("tom".data, K.USER_CODE_TOM),
   ("jackie".data, K.USER_CODE_JACKIE), ("lilli".data, K.USER_CODE_LILLI),
   ("bob".data, K.USER_CODE_BOB), ("madi".data, K.USER_CODE_MADI)]

/-- The group names and their codes, in the order of the comparisons of
`policy_fnTokenizeTags`. -/
def groupTable (K : Codes) : List (CStr × Nat) :=
  [("manager".data, K.GROUP_CODE_MANAGER), ("engineering".data, K.GROUP_CODE_ENG),
   ("technician".data, K.GROUP_CODE_TECH), ("customer".data, K.GROUP_CODE_CUSTOMER)]

/-- The mapping from a tag value to a code as the specification words it: the
code of the name that equals the value ignoring letter case, and the default
code when no name does. -/
def lookupIgnoreCase (table : List (CStr × Nat)) (dflt : Nat) (v : CStr) : Nat :=
  match table.find? (fun p => decide (EqIgnoreCase v p.1)) with
  | some p => p.2
  | none => dflt

/-- A simulator state with an empty queue in which `objCounter` has reached
`MAX_NUM_OF_OBJECTS`, the largest value that the guard
`objCounter <= MAX_NUM_OF_OBJECTS` of the arrival loop lets through. -/
def simTableFull : SimState :=
  { (QUEUE_fnInitialize simBoot).1 with objCounter := MAX_NUM_OF_OBJECTS }

/-- The queue-wait and service time of an object in milliseconds, the amount
that `discreteEventSimulator_fnCalcRT` adds to `y[cycleIdx]`. -/
def msOf (o : tzOBJECT) : ℚ := o.secondsQueue * 1000 + o.secondsService * 1000

/-- The calls of `discreteEventSimulator_fnCalcRT` for a sequence of served
objects, each with the parameters at the time of its call. -/
def serveAll (sqrt : ℚ → ℚ) : Estimator → List (tzParams × tzOBJECT) → Option Estimator
  | e, [] => some e
  | e, x :: rest =>
    match discreteEventSimulator_fnCalcRT sqrt x.1 x.2 e with
    | none => none
    | some e1 => serveAll sqrt e1 rest

/-- The served objects of one batch as `QUEUE_fnAdd` marks them: the last one
has `endBatch = true` and no other has. -/
def IsBatch (b : List (tzParams × tzOBJECT)) : Prop :=
  ∃ pre last, b = pre ++ [last] ∧ (∀ x ∈ pre, x.2.endBatch = false) ∧ last.2.endBatch = true

/-- An object that is not the last of its batch, with `ms` milliseconds in the
queue and in service. -/
def insideBatch (ms : ℚ) : tzOBJECT :=
  { tzOBJECT.zero with secondsQueue := ms / 1000 }

/-! ## The XACML policy parser (`parseXacml.c`) -/

/-- The length `TIME_STR_LENGTH` of `defdp.h`:
`strlen("YYYY-MM-DDThh:mm:ss.nnnnnnnnn-zzzz#")`. -/
def TIME_STR_LENGTH : Nat := "YYYY-MM-DDThh:mm:ss.nnnnnnnnn-zzzz#".data.length

/-- Constants that `parseXacml.c` takes from headers that are not part of the
source tree: the delimiter sets handed to `strtok` and the size of the local
token buffers. -/
structure XacmlConsts where
  TIMETAGSPACE : CStr
  DASHSLASH : CStr
  DOT : CStr
  COLON : CStr
  DATE_STRING_LEN : Nat

/-- The values that the names of the constants suggest, used to evaluate the
definitions on concrete inputs. -/
def sampleXacmlConsts : XacmlConsts :=
  { TIMETAGSPACE := "T ".data, DASHSLASH := "-/".data, DOT := ".".data, COLON := ":".data,
    DATE_STRING_LEN := 32 }

/-- The fields of `struct tm` of the C library. -/
structure Tm where
  tm_sec : Int
  tm_min : Int
  tm_hour : Int
  tm_mday : Int
  tm_mon : Int
  tm_year : Int
  tm_wday : Int
  tm_yday : Int
  tm_isdst : Int
  deriving DecidableEq

/-- One call of the library routine `strtok` with the delimiter set `delims`
on the remaining input: skips leading delimiters, returns the token and the
input after the delimiter that ended it, or `none` (NULL) when no token is
left. -/
def strtokBy (delims : CStr) (s : CStr) : Option (CStr × CStr) :=
  let t := s.dropWhile (fun c => decide (c ∈ delims))
  if t = [] then none
  else some (t.takeWhile (fun c => !decide (c ∈ delims)),
    (t.dropWhile (fun c => !decide (c ∈ delims))).drop 1)

/-- The library test `isspace` in the "C" locale. -/
def isspace (c : Char) : Bool := c.toNat = 32 || (9 ≤ c.toNat && c.toNat ≤ 13)

/-- The value of the leading decimal digits of a string. -/
def leadingDigits (s : CStr) : Nat :=
  (s.takeWhile Char.isDigit).foldl (fun n c => 10 * n + (c.toNat - 48)) 0

/-- The library routine `atoi`: white space, an optional sign, then the
leading digits; values beyond the range of `int` are not modelled. -/
def atoi (s : CStr) : Int :=
  match s.dropWhile isspace with
  | '-' :: r => -(leadingDigits r : Int)
  | '+' :: r => (leadingDigits r : Int)
  | t => (leadingDigits t : Int)

/-- The library routine `strcpy` into a buffer of `cap` characters: the copied
string, or `none` when the string and its terminator do not fit, for which C
defines no behaviour. -/
def strcpyInto (cap : Nat) (src : CStr) : Option CStr :=
  if src.length + 1 ≤ cap then some src else none

/-- The content of a token buffer of `cap` characters after
`if (token) strcpy(buffer, token)`: the token when there is one, else the
string `dflt` that the buffer holds otherwise. -/
def strcpyOr (cap : Nat) (token : Option (CStr × CStr)) (dflt : CStr) : Option CStr :=
  match token with
  | some x => strcpyInto cap x.1
  | none => some dflt

/-- The input that a following `strtok(NULL, ...)` continues with. -/
def strtokRest (token : Option (CStr × CStr)) : CStr :=
  match token with
  | some x => x.2
  | none => []

/-- The routine `policyXacml_fnTimeTokenizer`; `timeStr` is the buffer
`pHHMMSSmmm` of the caller, `date = none` a NULL pointer. The result is the
returned code and the structure `*date`, or `none` when a `strcpy` overruns
its buffer. -/
def policyXacml_fnTimeTokenizer (P : XacmlConsts) (timeStr : Option CStr) (date : Option Tm) :
    Option (Int × Option Tm) :=
  match timeStr, date with
  | some str, some d =>
    let r1 := strtokBy P.COLON str
    let r2 := strtokBy P.COLON (strtokRest r1)
    let r3 := strtokBy P.COLON (strtokRest r2)
    match strcpyOr P.DATE_STRING_LEN r1 "00".data, strcpyOr P.DATE_STRING_LEN r2 "00".data,
      strcpyOr P.DATE_STRING_LEN r3 "00.000".data with
    | some HH, some mm, some SSmmm =>
      match strcpyOr P.DATE_STRING_LEN (strtokBy P.DOT SSmmm) "00".data with
      | some SS =>
        some (EOK, some { d with tm_hour := atoi HH, tm_min := atoi mm, tm_sec := atoi SS,
                                 tm_wday := -1, tm_yday := -1 })
      | none => none
    | _, _, _ => none
  | _, _ => some (EINVAL, date)

/-- The part of `policyXacml_fnDateString2Tm` that follows the split into the
buffers `pYYYYMMDD` and `pHHMMSSmmm`: the date is cut at `DASHSLASH`, and the
time is handed to `policyXacml_fnTimeTokenizer` unless `notime` is set. -/
def dateFields (P : XacmlConsts) (tm_timenow d : Tm) (pYYYYMMDD pHHMMSSmmm : CStr)
    (notime : Bool) : Option (Int × Option Tm) :=
  match strtokBy P.DASHSLASH pYYYYMMDD with
  | none => some (EINVAL, some d)
  | some (tokY, restY) =>
    match strcpyInto P.DATE_STRING_LEN tokY with
    | none => none
    | some YYYY =>
      match strtokBy P.DASHSLASH restY with
      | none => some (EINVAL, some d)
      | some (tokM, restM) =>
        match strcpyInto P.DATE_STRING_LEN tokM with
        | none => none
        | some MM =>
          match strtokBy P.DASHSLASH restM with
          | none => some (EINVAL, some d)
          | some (tokD, _) =>
            match strcpyInto P.DATE_STRING_LEN tokD with
            | none => none
            | some DD =>
              let date1 : Tm :=
                { tm_timenow with tm_year := atoi YYYY - 1900,
                                  tm_mon := atoi MM - 1,
                                  tm_mday := atoi DD }
              if notime then
                some (EOK, some { date1 with tm_hour := 0, tm_min := 0, tm_sec := 0 })
              else policyXacml_fnTimeTokenizer P (some pHHMMSSmmm) (some date1)

/-- The routine `policyXacml_fnDateString2Tm`; `tm_timenow` is the local time
that `localtime(&timenow)` delivers, `dateStr = none` and `date = none` are NULL
pointers. The result is the returned code and the structure `*date`, or `none`
when a copy overruns its buffer. -/
def policyXacml_fnDateString2Tm (P : XacmlConsts) (tm_timenow : Tm) (dateStr : Option CStr)
    (date : Option Tm) : Option (Int × Option Tm) :=
  match dateStr, date with
  | some str, some d =>
    match strcpyInto TIME_STR_LENGTH str with
    | none => none
    | some dateStrCopy =>
      match strtokBy P.TIMETAGSPACE dateStrCopy with
      | none => some (EOK, some tm_timenow)
      | some (tok1, rest1) =>
        match strcpyInto P.DATE_STRING_LEN tok1 with
        | none => none
        | some pYYYYMMDD =>
          let tok2 := strtokBy P.TIMETAGSPACE rest1
          match strcpyOr P.DATE_STRING_LEN tok2 "0".data with
          | none => none
          | some pHHMMSSmmm => dateFields P tm_timenow d pYYYYMMDD pHHMMSSmmm tok2.isNone
  | _, _ => some (EINVAL, date)

/-- The local time used in the sample runs. -/
def sampleNow : Tm :=
  { tm_sec := 1, tm_min := 2, tm_hour := 3, tm_mday := 4, tm_mon := 5, tm_year := 126,
    tm_wday := 0, tm_yday := 154, tm_isdst := 0 }

/-- A non-empty string of decimal digits. -/
def IsNumber (t : CStr) : Prop := t ≠ [] ∧ ∀ c ∈ t, c.isDigit = true

instance (t : CStr) : Decidable (IsNumber t) := by
  unfold IsNumber; exact inferInstance

/-- The number that a string of decimal digits writes. -/
def decimal (t : CStr) : Nat := Nat.ofDigits 10 ((t.map (fun c => c.toNat - 48)).reverse)

/-- The text `YYYY-MM-DD` of a date. -/
def dateText (y m d : CStr) : CStr := y ++ '-' :: (m ++ '-' :: d)

/-- The text of the optional fraction `.mmm` of the seconds. -/
def fractionText (frac : Option CStr) : CStr :=
  match frac with
  | some f => '.' :: f
  | none => []

/-- The text `HH:MM:SS` of a time of day with the optional fraction `.mmm`. -/
def timeText (h mi s : CStr) (frac : Option CStr) : CStr :=
  h ++ ':' :: (mi ++ ':' :: (s ++ fractionText frac))

/-- The size of the member `char_data_policy_buffer` of `tzPolicyData` (and of
`char_data_buffer` of `tzUserData`). -/
def CHAR_DATA_BUFFER_SIZE : Nat := 1024

/-- The size of the member `timeString` of `tzPolicyData`. -/
def TIME_STRING_SIZE : Nat := 128

/-- The structure with all members zero, as `memset` leaves it. -/
def Tm.zero : Tm :=
  { tm_sec := 0, tm_min := 0, tm_hour := 0, tm_mday := 0, tm_mon := 0, tm_year := 0,
    tm_wday := 0, tm_yday := 0, tm_isdst := 0 }

/-- The members of `tzPolicyData` that the callbacks use. The character buffer
is the memory from its first byte on: the indices below
`CHAR_DATA_BUFFER_SIZE` are the buffer, the indices from there on are what
follows it in memory. -/
structure tzPolicyData where
  char_data_policy_buffer : Nat → Char
  offset : Nat
  start_offset : Nat
  overflow : Bool
  policy : zPOLICY
  tm_time : Tm
  timeString : CStr

/-- The structure after `memset(&policyData, 0, sizeof(policyData))`. -/
def tzPolicyData.zero : tzPolicyData :=
  { char_data_policy_buffer := fun _ => NUL, offset := 0, start_offset := 0, overflow := false,
    policy := zPOLICY.zero, tm_time := Tm.zero, timeString := [] }

/-- The conversion of an `int` to `size_t` (64 bits). -/
def toSizeT (n : Int) : Nat := (n % (2 ^ 64 : Int)).toNat

/-- The library routine `memcpy(buffer + offset, s, n)` on the memory that
starts with the buffer. -/
def memcpyAt (buffer : Nat → Char) (offset : Nat) (s : CStr) : Nat → Char :=
  fun i => if offset ≤ i ∧ i < offset + s.length then s.getD (i - offset) NUL else buffer i

/-- The routine `char_data` of `parseXacml.c` on the structure behind a
non-NULL `policyData`; `parse.c` has the same routine on `tzUserData`.
`s = none` is a NULL pointer, `s = some str` points to the characters `str`.
The result is `none` when `memcpy` reads beyond the characters of `s`. -/
def char_data (d : tzPolicyData) (s : Option CStr) (len : Int) : Option tzPolicyData :=
  match s with
  | none => some d
  | some str =>
    if d.overflow then some d
    else if (toSizeT len + d.offset) % 2 ^ 64 ≥ CHAR_DATA_BUFFER_SIZE then
      some { d with overflow := true }
    else if toSizeT len ≤ str.length then
      some { d with
        char_data_policy_buffer :=
          memcpyAt d.char_data_policy_buffer d.offset (str.take (toSizeT len)),
        offset := (d.offset + toSizeT len) % 2 ^ 64 }
    else none

/-- A sequence of `char_data` calls, one after the other. -/
def charDataAll : tzPolicyData → List (Option CStr × Int) → Option tzPolicyData
  | d, [] => some d
  | d, c :: rest =>
    match char_data d c.1 c.2 with
    | none => none
    | some d1 => charDataAll d1 rest

/-- The state of the XML policy parser: the structure `policyData`, the three
file-scope flags and the policies handed to `DP_fnRegisterPolicy` so far. -/
structure XacmlState where
  data : tzPolicyData
  subject : Bool
  resource : Bool
  action : Bool
  registered : List zPOLICY

/-- The state in which `PARSEXACML_fnPolicyCreate` starts the XML parser. -/
def XacmlState.start : XacmlState :=
  { data := tzPolicyData.zero, subject := false, resource := false, action := false,
    registered := [] }

/-- The loop over the attribute array `atts` of a `rule` element: the entries
in front of the terminating NULL come in pairs of a name and a value; `n` is
`policy.Name`. With an odd number of entries the loop steps over the
terminating NULL, which is `none`. -/
def ruleAtts (K : Codes) : List CStr → Int → Option Int
  | [], n => some n
  | [_], _ => none
  | a :: v :: rest, n =>
    ruleAtts K rest
      (if stricmp a "Effect".data = 0 then
        (if stricmp v "permit".data = 0 then K.POLICY_NAME_ACCESS else K.POLICY_NAME_INVALID)
      else n)

/-- The routine `policyXacml_fnPolicyStartElementCallback` on the structure
behind a non-NULL `policyData`. -/
def policyXacml_fnPolicyStartElementCallback (K : Codes) (st : XacmlState) (name : CStr)
    (atts : List CStr) : Option XacmlState :=
  let d := { st.data with start_offset := st.data.offset }
  if stricmp name "policy".data = 0 then
    some { st with data := { d with offset := 0, start_offset := 0,
                                    char_data_policy_buffer :=
                                      fun i => if i < CHAR_DATA_BUFFER_SIZE then NUL
                                        else d.char_data_policy_buffer i,
                                    policy := zPOLICY.zero } }
  else if stricmp name "rule".data = 0 then
    match ruleAtts K atts d.policy.Name with
    | none => none
    | some n => some { st with data := { d with policy := { d.policy with Name := n } } }
  else if stricmp name "subject".data = 0 then
    some { st with data := d, subject := true, resource := false, action := false }
  else if stricmp name "resource".data = 0 then
    some { st with data := d, subject := false, resource := true, action := false }
  else if stricmp name "action".data = 0 then
    some { st with data := d, subject := false, resource := false, action := true }
  else some { st with data := d }

/-- The string that starts at index `i` of the buffer, read up to its
terminator; `none` when there is no terminator within `fuel` characters. -/
def readCStr (buffer : Nat → Char) : Nat → Nat → Option CStr
  | _, 0 => none
  | i, fuel + 1 =>
    if buffer i = NUL then some []
    else (readCStr buffer (i + 1) fuel).map (fun t => buffer i :: t)

/-- The chain of comparisons on the subject text in
`policyXacml_fnPolicyEndElementCallback`. -/
def xacmlTypeString2Val (K : Codes) (type : CStr) : Int :=
  if stricmp type "temperature".data = 0 then K.POLICY_TYPE_TEMP
  else if stricmp type "voltage".data = 0 then K.POLICY_TYPE_VOLT
  else if stricmp type "current".data = 0 then K.POLICY_TYPE_CURR
  else if stricmp type "frequency".data = 0 then K.POLICY_TYPE_FREQ
  else if stricmp type "power".data = 0 then K.POLICY_TYPE_POWER
  else if stricmp type "password".data = 0 then K.POLICY_TYPE_PASS
  else if stricmp type "heading".data = 0 then K.POLICY_TYPE_HEAD
  else if stricmp type "positionX".data = 0 then K.POLICY_TYPE_POSX
  else if stricmp type "positionY".data = 0 then K.POLICY_TYPE_POSY
  else if stricmp type "fuelLevel".data = 0 then K.POLICY_TYPE_FUEL
  else if stricmp type "altitude".data = 0 then K.POLICY_TYPE_ALT
  else if stricmp type "speed".data = 0 then K.POLICY_TYPE_SPEED
  else K.POLICY_TYPE_INVALID

/-- The branch of `policyXacml_fnPolicyEndElementCallback` for a `rule`
element with the text `pElementData`. -/
def ruleKind (K : Codes) (pElementData : CStr) : Int :=
  if stricmp pElementData "comparator".data = 0 then K.POLICY_NAME_COMP
  else if stricmp pElementData "access".data = 0 then K.POLICY_NAME_ACCESS
  else K.POLICY_NAME_INVALID

/-- The routine `policyXacml_fnPolicyEndElementCallback` on the structure
behind a non-NULL `policyData`. `mktime` is the library routine and `now` the
local time read by `policyXacml_fnDateString2Tm`. The result is `none` when the
element text has no terminator inside the buffer or a copy overruns its
target. -/
def policyXacml_fnPolicyEndElementCallback (K : Codes) (P : XacmlConsts) (mktime : Tm → Int)
    (now : Tm) (st : XacmlState) (element : CStr) : Option XacmlState :=
  match char_data st.data (some [NUL, NUL]) 1 with
  | none => none
  | some d =>
    if d.overflow then some { st with data := d }
    else
      match readCStr d.char_data_policy_buffer d.start_offset
          (CHAR_DATA_BUFFER_SIZE - d.start_offset) with
      | none => none
      | some pElementData =>
        if stricmp element "rule".data = 0 then
          some { st with data := { d with policy := { d.policy with
            Name := ruleKind K pElementData } } }
        else if stricmp element "AttributeValue".data = 0 then
          if st.subject then
            some { st with
              data := { d with policy := { d.policy with
                Type_ := xacmlTypeString2Val K pElementData } },
              subject := false }
          else if st.resource then
            some { st with
              data := { d with
                char_data_policy_buffer :=
                  memcpyAt d.char_data_policy_buffer d.start_offset (strlwr pElementData),
                policy := { d.policy with Location := strlwr pElementData } },
              resource := false }
          else if st.action then some { st with data := d, action := false }
          else some { st with data := d }
        else if stricmp element "time".data = 0 then
          if strcmp EMPTY pElementData ≠ 0 then
            match strcpyInto TIME_STRING_SIZE pElementData with
            | none => none
            | some timeString =>
              match policyXacml_fnDateString2Tm P now (some timeString) (some d.tm_time) with
              | some (_, some tm) =>
                some { st with data := { d with
                  policy := { d.policy with time_tv_sec := mktime tm },
                  timeString := [], tm_time := Tm.zero } }
              | _ => none
          else some { st with data := { d with timeString := [], tm_time := Tm.zero } }
        else if stricmp element "user".data = 0 then
          some { st with data := { d with policy := { d.policy with
            user := userString2Val K pElementData } } }
        else if stricmp element "group".data = 0 then
          some { st with data := { d with policy := { d.policy with
            group := groupString2Val K pElementData } } }
        else if stricmp element "policy".data = 0 then
          some { st with data := { d with policy := zPOLICY.zero },
                         registered := st.registered ++ [d.policy] }
        else some { st with data := { d with offset := d.start_offset } }

/-- The callbacks that the XML parser makes for one element without child
elements: the start tag with its attributes, the character data in the pieces
`chunks`, and the end tag. -/
def xacmlElement (K : Codes) (P : XacmlConsts) (mktime : Tm → Int) (now : Tm)
    (st : XacmlState) (name : CStr) (atts : List CStr) (chunks : List CStr) :
    Option XacmlState :=
  match policyXacml_fnPolicyStartElementCallback K st name atts with
  | none => none
  | some st1 =>
    match charDataAll st1.data (chunks.map (fun c => (some c, (c.length : Int)))) with
    | none => none
    | some d => policyXacml_fnPolicyEndElementCallback K P mktime now { st1 with data := d } name

/-- A stand-in for the library routine `mktime` in the sample runs. -/
def sampleMktime (tm : Tm) : Int := tm.tm_sec

/-- A `char_data` call as the XML parser makes it: the length is a
non-negative `int`, and a non-NULL `s` points to at least that many
characters. -/
def ValidCharData (c : Option CStr × Int) : Prop :=
  0 ≤ c.2 ∧ c.2 < 2 ^ 31 ∧ ∀ str, c.1 = some str → c.2.toNat ≤ str.length

/-! ## The two threads of the simulator (`discreteEventSimulator.c`) -/

/-- The globals of the estimator as `main` clears them before the threads
start. -/
def Estimator.zero : Estimator :=
  { y := fun _ => 0, w := fun _ => 0, Var_w := 0, numberArrived := fun _ => 0,
    overalMean := 0, sumOfCycleSums := 0, meanCycleLength := 0, sumOf_w := 0,
    confidenceInterval := 0, sumOfNumbers := 0, cycleIdx := 0 }

/-- The state that the arrival thread and the server loop of `main` share: the
queue and the object table, the globals of the estimator and the structure
`params`; `arrivalExited` tells whether the loop of
`discreteEventSimulator_fnArrival` has been left. -/
structure DesState where
  w : SimState
  e : Estimator
  params : tzParams
  arrivalExited : Bool

/-- The state in which `main` starts the arrival thread: the globals cleared,
`params` cleared and then filled from the command line (which leaves
`currEpoch` zero), and the queue created by `QUEUE_fnInitialize`. -/
def desStart (w0 : SimState) (params : tzParams) : DesState :=
  { w := (QUEUE_fnInitialize w0).1, e := Estimator.zero,
    params := { params with currEpoch := 0 }, arrivalExited := false }

/-- The largest value of the type `int` (32 bits). -/
def INT_MAX : Int := 2147483647

/-- The least value of the type `int` (32 bits). -/
def INT_MIN : Int := -2147483648

/-- The value that a result of `int` arithmetic has in a 32-bit `int` in two's
complement: results beyond the range wrap around. -/
def wrapInt32 (n : Int) : Int := (n + 2 ^ 31) % 2 ^ 32 - 2 ^ 31

/-- The library routine `abs` on a 32-bit `int`: the absolute value of the
least `int` is not representable and comes out as the least `int` itself. -/
def absInt32 (x : Int) : Int := wrapInt32 |x|

/-- The value of `numberOfArrivals` in one pass of the loop of
`discreteEventSimulator_fnArrival`; the `int` value `x` is the sample of
`discreteEventSimulator_fnNormalDistribution` after its conversion to `int`,
the argument of `abs`. The sum `abs(x) + 1` is computed in `int`. -/
def numberOfArrivals (params : tzParams) (x : Int) : Int :=
  if params.rate = 0 then wrapInt32 (absInt32 x + 1) else (params.rate : Int)

/-- One pass of the loop of `discreteEventSimulator_fnArrival` with the global
`testDistribition` not set. When the loop has been left already nothing
happens; when the loop condition `objCounter <= MAX_NUM_OF_OBJECTS` fails the
loop is left. Otherwise the number of arrivals is stored in
`numberArrived[currEpoch]`, `currEpoch` is incremented, the objects are queued
by `QUEUE_fnAdd`, and the loop is left when `QUEUE_fnAdd` does not return `EOK`
or when `currEpoch` exceeds `Epoch`. Output is left out. The result is `none`
when the array index is out of range or `QUEUE_fnAdd` leaves defined
behaviour. -/
def arrivalPass (x : Int) (s : DesState) : Option DesState :=
  if s.arrivalExited = true then some s
  else if MAX_NUM_OF_OBJECTS < s.w.objCounter then some { s with arrivalExited := true }
  else if s.params.currEpoch < 0 ∨ (MAX_NUM_OF_OBJECTS : Int) ≤ s.params.currEpoch then none
  else
    let arrived := Function.update s.e.numberArrived s.params.currEpoch.toNat
      (numberOfArrivals s.params x)
    let e1 : Estimator := { s.e with numberArrived := arrived }
    let params1 : tzParams := { s.params with currEpoch := s.params.currEpoch + 1 }
    match QUEUE_fnAdd s.w (numberOfArrivals s.params x) (some params1) with
    | Except.error _ => none
    | Except.ok (w1, ret) =>
      some { w := w1, e := e1, params := params1,
             arrivalExited := decide (ret ≠ EOK) || decide (params1.currEpoch > params1.Epoch) }

/-- The service stamps that the server loop of `main` writes into the object
it took from the queue: two readings of `ClockCycles`, their difference as
`uint64_t` and the difference in seconds. -/
def tzOBJECT.serviceStamps (o : tzOBJECT) (t0 t1 cps : Nat) : tzOBJECT :=
  { o with tStartService := t0, tEndService := t1,
           deltaService := (t1 + 2 ^ 64 - t0) % 2 ^ 64,
           secondsService := (((t1 + 2 ^ 64 - t0) % 2 ^ 64 : Nat) : ℚ) / (cps : ℚ) }

/-- One pass of the inner loop of `main`, with its loop condition: when the
queue is not empty the first object is taken by `QUEUE_fnGetAndRemoveFirstObj`,
gets its service stamps and is handed to `discreteEventSimulator_fnCalcRT`. The
call of `SERVICE_fnProcess` between the stamps does not touch this state. The
result is `none` when `pQueue` is NULL or a callee leaves defined behaviour. -/
def servicePass (sqrt : ℚ → ℚ) (s : DesState) : Option DesState :=
  match s.w.pQueue with
  | none => none
  | some q =>
    match q.pFirst with
    | none => some s
    | some _ =>
      match QUEUE_fnGetAndRemoveFirstObj s.w (some s.params) with
      | Except.error _ => none
      | Except.ok (w1, none) => some { s with w := w1 }
      | Except.ok (w1, some a) =>
        let obj := (w1.objs a).serviceStamps (w1.cycles w1.clockCalls)
          (w1.cycles (w1.clockCalls + 1)) s.params.cps
        match discreteEventSimulator_fnCalcRT sqrt s.params obj s.e with
        | none => none
        | some e1 =>
          some { s with w := { w1 with objs := Function.update w1.objs a obj,
                                       clockCalls := w1.clockCalls + 2 },
                        e := e1 }

/-- A step of the simulator: a pass of the arrival loop with its sample, or a
pass of the server loop. -/
inductive DesEvent where
  | arrival (x : Int)
  | service

/-- A run of the simulator: the passes of the two loops in the order in which
they take place. -/
def runDes (sqrt : ℚ → ℚ) : DesState → List DesEvent → Option DesState
  | s, [] => some s
  | s, DesEvent.arrival x :: rest =>
    match arrivalPass x s with
    | none => none
    | some s1 => runDes sqrt s1 rest
  | s, DesEvent.service :: rest =>
    match servicePass sqrt s with
    | none => none
    | some s1 => runDes sqrt s1 rest

/-- The number of batch-ending objects among the objects at the addresses
`l`. -/
def batchEnds (w : SimState) (l : List Nat) : Nat :=
  l.countP (fun a => (w.objs a).endBatch)

/-- A sample for which `abs(x) + 1` does not leave the range of `int`, or a
run with a fixed rate, which does not use the sample. -/
def GoodSample (params : tzParams) (x : Int) : Prop := params.rate ≠ 0 ∨ |x| < INT_MAX

/-- The samples of the arrival passes of a run. -/
def samples : List DesEvent → List Int
  | [] => []
  | DesEvent.arrival x :: rest => x :: samples rest
  | DesEvent.service :: rest => samples rest

/-- The invariant of the runs of the simulator: the queue is well formed and
holds `l`, every allocation succeeds, the counters are within the arrays, the
first `g` generated epochs have a positive arrival count and one batch end
each, of which those not yet served are still queued, the sum of the arrival
counts is not negative, and `g` is the number of all generated epochs as long
as the arrival loop has not been left. -/
def DesInv (s : DesState) (l : List Nat) (g : Int) : Prop :=
  IsQueue s.w l ∧ (∀ k, s.w.callocOk k = true) ∧
  s.w.objCounter ≤ MAX_NUM_OF_OBJECTS ∧
  0 ≤ g ∧ g ≤ s.params.currEpoch ∧ s.params.currEpoch ≤ (MAX_NUM_OF_OBJECTS : Int) ∧
  (∀ j : Nat, (j : Int) < g → 1 ≤ s.e.numberArrived j) ∧
  (s.e.cycleIdx : Int) + (batchEnds s.w l : Int) = g ∧
  0 ≤ s.e.sumOfNumbers ∧
  (s.arrivalExited = false → g = s.params.currEpoch)

/-! ## Theorems -/

theorem tolower_idem (c : Char) : tolower (tolower c) = tolower c := by
  unfold tolower
  by_cases h : 65 ≤ c.toNat ∧ c.toNat ≤ 90
  · rw [if_pos h]
    obtain ⟨n, hn⟩ : ∃ n, c.toNat = n := ⟨_, rfl⟩
    rw [hn] at h ⊢
    obtain ⟨h1, h2⟩ := h
    interval_cases n <;> rfl
  · rw [if_neg h, if_neg h]

theorem strlwr_idem (s : CStr) : strlwr (strlwr s) = strlwr s := by
  unfold strlwr
  rw [List.map_map]
  apply List.map_congr_left
  intro c _
  exact tolower_idem c

theorem stricmp_eq_zero_iff (a b : CStr) : stricmp a b = 0 ↔ strlwr a = strlwr b := by
  induction a generalizing b with
  | nil => cases b <;> simp [stricmp, strlwr]
  | cons c cs ih =>
    cases b with
    | nil => simp [stricmp, strlwr]
    | cons d ds =>
      unfold stricmp
      by_cases h : tolower c = tolower d
      · rw [if_pos h, ih]
        simp [strlwr, h]
      · rw [if_neg h]
        have : strlwr (c :: cs) ≠ strlwr (d :: ds) := by
          simp [strlwr, h]
        split <;> simp [this]

theorem strcmp_eq_zero_iff (a b : CStr) : strcmp a b = 0 ↔ a = b := by
  induction a generalizing b with
  | nil => cases b <;> simp [strcmp]
  | cons c cs ih =>
    cases b with
    | nil => simp [strcmp]
    | cons d ds =>
      unfold strcmp
      by_cases h : c = d
      · rw [if_pos h, ih]
        simp [h]
      · rw [if_neg h]
        split <;> simp [h]

theorem tokenize_code (K : Codes) (tagMap : TagMap) (pDp : dp_t) (f0 : TagFields)
    (r : Int × TagMap × TagFields)
    (h : policy_fnTokenizeTags K tagMap pDp f0 = Except.ok r) : r.1 = EOK := by
  unfold policy_fnTokenizeTags at h
  split at h
  · cases h
  · cases h; rfl

theorem check_invalid (K : Codes) (s : ServerState) (tagMap : TagMap) (pDp : dp_t)
    (c : Int) (tm : TagMap) (f : TagFields)
    (h : policy_fnTokenizeTags K tagMap pDp TagFields.init = Except.ok (c, tm, f))
    (hty : f.typeInt = K.POLICY_TYPE_INVALID) :
    POLICY_fnCheck K s tagMap pDp = Allow := by
  have hc : c = EOK := tokenize_code K tagMap pDp _ _ h
  subst hc
  simp [POLICY_fnCheck, POLICY_fnCheck_ret, h, hty, Allow, EOK]

theorem check_absent (K : Codes) (s : ServerState) (tagMap : TagMap) (pDp : dp_t)
    (c : Int) (tm : TagMap) (f : TagFields)
    (h : policy_fnTokenizeTags K tagMap pDp TagFields.init = Except.ok (c, tm, f))
    (hty : f.typeInt ≠ K.POLICY_TYPE_INVALID)
    (hno : POLICYHASH_fnFind s (checkKey K f) = none) :
    POLICY_fnCheck K s tagMap pDp = Deny := by
  have hc : c = EOK := tokenize_code K tagMap pDp _ _ h
  subst hc
  unfold checkKey ruleFamily at hno
  by_cases hacc : f.typeInt = K.POLICY_TYPE_PASS ∨ f.typeInt = K.POLICY_TYPE_HEAD ∨
        f.typeInt = K.POLICY_TYPE_FUEL
  · rw [if_pos hacc] at hno
    simp [POLICY_fnCheck, POLICY_fnCheck_ret, h, hty, hacc, Deny, EOK, EACCES,
      POLICYHASH_fnCheck, cfuhash_exists, POLICYHASH_fnFind] at hno ⊢
    simp [hno]
  · rw [if_neg hacc] at hno
    simp [POLICY_fnCheck, POLICY_fnCheck_ret, h, hty, hacc, Deny, EOK, EACCES,
      POLICYHASH_fnCheck, cfuhash_exists, POLICYHASH_fnFind] at hno ⊢
    simp [hno]

theorem checkAttr_cases (K : Codes) (location : CStr) (u g : Nat) (pol : zPOLICY) :
    policy_fnCheckAttr K location u g pol = EOK ∨
    policy_fnCheckAttr K location u g pol = EACCES := by
  unfold policy_fnCheckAttr
  split
  · split
    · split
      · exact Or.inl rfl
      · exact Or.inr rfl
    · exact Or.inr rfl
  · exact Or.inr rfl

theorem check_comp (K : Codes) (s : ServerState) (tagMap : TagMap) (pDp : dp_t)
    (c : Int) (tm : TagMap) (f : TagFields) (p : Nat)
    (h : policy_fnTokenizeTags K tagMap pDp TagFields.init = Except.ok (c, tm, f))
    (hty : f.typeInt ≠ K.POLICY_TYPE_INVALID)
    (hacc : ¬ (f.typeInt = K.POLICY_TYPE_PASS ∨ f.typeInt = K.POLICY_TYPE_HEAD ∨
        f.typeInt = K.POLICY_TYPE_FUEL))
    (hfind : POLICYHASH_fnFind s (hashString K.POLICY_NAME_COMP f.typeInt f.location) = some p) :
    POLICY_fnCheck K s tagMap pDp =
      if ((s.heap p).time_tv_sec = 0 ∨ (s.heap p).time_tv_sec ≤ pDp.timestamp_tv_sec) ∧
          policy_fnBoundChecking pDp.val (s.heap p) = true ∧
          policy_fnCheckAttr K (strlwr f.location) f.userID f.groupID (s.heap p) = EOK
      then Allow else Deny := by
  have hc : c = EOK := tokenize_code K tagMap pDp _ _ h
  subst hc
  have hex : POLICYHASH_fnCheck s (hashString K.POLICY_NAME_COMP f.typeInt f.location) = true := by
    unfold POLICYHASH_fnFind at hfind
    simp [POLICYHASH_fnCheck, cfuhash_exists, hfind]
  unfold POLICY_fnCheck POLICY_fnCheck_ret
  simp only [h, hty, hacc, hex, hfind, if_true, if_false, ne_eq, not_true_eq_false,
    policy_fnCheckVal]
  rcases checkAttr_cases K (strlwr f.location) f.userID f.groupID (s.heap p) with ha | ha
  · by_cases ht0 : (s.heap p).time_tv_sec = 0
    · by_cases hb : policy_fnBoundChecking pDp.val (s.heap p) = true
      · simp [ht0, hb, ha, Allow, Deny, EOK, EACCES]
      · simp [ht0, hb, ha, Allow, Deny, EOK, EACCES]
    · by_cases ht : (s.heap p).time_tv_sec ≤ pDp.timestamp_tv_sec
      · by_cases hb : policy_fnBoundChecking pDp.val (s.heap p) = true
        · simp [ht0, Ne.symm ht0, ht, hb, ha, Allow, Deny, EOK, EACCES]
        · simp [ht0, Ne.symm ht0, ht, hb, ha, Allow, Deny, EOK, EACCES]
      · simp [ht0, Ne.symm ht0, ht, ha, Allow, Deny, EOK, EACCES]
  · by_cases ht0 : (s.heap p).time_tv_sec = 0
    · by_cases hb : policy_fnBoundChecking pDp.val (s.heap p) = true
      · simp [ht0, hb, ha, Allow, Deny, EOK, EACCES]
      · simp [ht0, hb, ha, Allow, Deny, EOK, EACCES]
    · by_cases ht : (s.heap p).time_tv_sec ≤ pDp.timestamp_tv_sec
      · by_cases hb : policy_fnBoundChecking pDp.val (s.heap p) = true
        · simp [ht0, Ne.symm ht0, ht, hb, ha, Allow, Deny, EOK, EACCES]
        · simp [ht0, Ne.symm ht0, ht, hb, ha, Allow, Deny, EOK, EACCES]
      · simp [ht0, Ne.symm ht0, ht, ha, Allow, Deny, EOK, EACCES]

theorem check_access (K : Codes) (s : ServerState) (tagMap : TagMap) (pDp : dp_t)
    (c : Int) (tm : TagMap) (f : TagFields) (p : Nat)
    (h : policy_fnTokenizeTags K tagMap pDp TagFields.init = Except.ok (c, tm, f))
    (hty : f.typeInt ≠ K.POLICY_TYPE_INVALID)
    (hacc : f.typeInt = K.POLICY_TYPE_PASS ∨ f.typeInt = K.POLICY_TYPE_HEAD ∨
        f.typeInt = K.POLICY_TYPE_FUEL)
    (hfind : POLICYHASH_fnFind s (hashString K.POLICY_NAME_ACCESS f.typeInt f.location) = some p) :
    POLICY_fnCheck K s tagMap pDp =
      if ((s.heap p).time_tv_sec = 0 ∨ (s.heap p).time_tv_sec ≤ pDp.timestamp_tv_sec) ∧
          policy_fnCheckAttr K (strlwr f.location) f.userID f.groupID (s.heap p) = EOK
      then Allow else Deny := by
  have hc : c = EOK := tokenize_code K tagMap pDp _ _ h
  subst hc
  have hex : POLICYHASH_fnCheck s (hashString K.POLICY_NAME_ACCESS f.typeInt f.location) = true := by
    unfold POLICYHASH_fnFind at hfind
    simp [POLICYHASH_fnCheck, cfuhash_exists, hfind]
  unfold POLICY_fnCheck POLICY_fnCheck_ret
  simp only [h, hty, hacc, hex, hfind, if_true, if_false, ne_eq, not_true_eq_false]
  rcases checkAttr_cases K (strlwr f.location) f.userID f.groupID (s.heap p) with ha | ha
  · by_cases ht0 : (s.heap p).time_tv_sec = 0
    · simp [ht0, ha, Allow, Deny, EOK, EACCES]
    · by_cases ht : (s.heap p).time_tv_sec ≤ pDp.timestamp_tv_sec
      · simp [ht0, Ne.symm ht0, ht, ha, Allow, Deny, EOK, EACCES]
      · simp [ht0, Ne.symm ht0, ht, ha, Allow, Deny, EOK, EACCES]
  · by_cases ht0 : (s.heap p).time_tv_sec = 0
    · simp [ht0, ha, Allow, Deny, EOK, EACCES]
    · by_cases ht : (s.heap p).time_tv_sec ≤ pDp.timestamp_tv_sec
      · simp [ht0, Ne.symm ht0, ht, ha, Allow, Deny, EOK, EACCES]
      · simp [ht0, Ne.symm ht0, ht, ha, Allow, Deny, EOK, EACCES]

theorem eqIgnoreCase_iff (a b : CStr) : EqIgnoreCase a b ↔ strlwr a = strlwr b := by
  unfold EqIgnoreCase strlwr
  induction a generalizing b with
  | nil => cases b <;> simp
  | cons c cs ih =>
    cases b with
    | nil => simp
    | cons d ds => simp [ih]

theorem checkAttr_spec (K : Codes) (location : CStr) (userID groupID : Nat)
    (pPolicy : zPOLICY) :
    (policy_fnCheckAttr K location userID groupID pPolicy = EOK ↔
      (pPolicy.Location = [] ∨ EqIgnoreCase location pPolicy.Location) ∧
      (pPolicy.user = K.USER_CODE_INVALID ∨ pPolicy.user = userID) ∧
      (pPolicy.group = K.GROUP_CODE_INVALID ∨ pPolicy.group = groupID)) ∧
    (¬ ((pPolicy.Location = [] ∨ EqIgnoreCase location pPolicy.Location) ∧
        (pPolicy.user = K.USER_CODE_INVALID ∨ pPolicy.user = userID) ∧
        (pPolicy.group = K.GROUP_CODE_INVALID ∨ pPolicy.group = groupID)) →
      policy_fnCheckAttr K location userID groupID pPolicy = EACCES) := by
  have hloc : policy_fnCheckLoc location pPolicy = true ↔
      (pPolicy.Location = [] ∨ EqIgnoreCase location pPolicy.Location) := by
    unfold policy_fnCheckLoc
    rw [eqIgnoreCase_iff, ← stricmp_eq_zero_iff]
    by_cases h1 : strcmp EMPTY pPolicy.Location = 0
    · have : pPolicy.Location = [] := ((strcmp_eq_zero_iff _ _).1 h1).symm
      rw [if_neg (not_not.2 h1)]
      simp [this]
    · have : pPolicy.Location ≠ [] := fun h => h1 ((strcmp_eq_zero_iff _ _).2 h.symm)
      by_cases h2 : stricmp location pPolicy.Location = 0 <;> simp [h1, h2, this]
  have huser : policy_fnCheckUser K userID pPolicy = true ↔
      (pPolicy.user = K.USER_CODE_INVALID ∨ pPolicy.user = userID) := by
    unfold policy_fnCheckUser
    by_cases h1 : K.USER_CODE_INVALID = pPolicy.user
    · simp [h1]
    · by_cases h2 : userID = pPolicy.user
      · simp [h1, h2]
      · simp [h1, h2, Ne.symm h1, Ne.symm h2]
  have hgroup : policy_fnCheckGroup K groupID pPolicy = true ↔
      (pPolicy.group = K.GROUP_CODE_INVALID ∨ pPolicy.group = groupID) := by
    unfold policy_fnCheckGroup
    by_cases h1 : K.GROUP_CODE_INVALID = pPolicy.group
    · simp [h1]
    · by_cases h2 : groupID = pPolicy.group
      · simp [h1, h2]
      · simp [h1, h2, Ne.symm h1, Ne.symm h2]
  have key : policy_fnCheckAttr K location userID groupID pPolicy =
      if policy_fnCheckLoc location pPolicy = true ∧ policy_fnCheckUser K userID pPolicy = true ∧
        policy_fnCheckGroup K groupID pPolicy = true then EOK else EACCES := by
    unfold policy_fnCheckAttr
    by_cases a : policy_fnCheckLoc location pPolicy = true <;>
    by_cases b : policy_fnCheckUser K userID pPolicy = true <;>
    by_cases c : policy_fnCheckGroup K groupID pPolicy = true <;> simp [a, b, c]
  have cond_iff : (policy_fnCheckLoc location pPolicy = true ∧
      policy_fnCheckUser K userID pPolicy = true ∧
      policy_fnCheckGroup K groupID pPolicy = true) ↔
      ((pPolicy.Location = [] ∨ EqIgnoreCase location pPolicy.Location) ∧
      (pPolicy.user = K.USER_CODE_INVALID ∨ pPolicy.user = userID) ∧
      (pPolicy.group = K.GROUP_CODE_INVALID ∨ pPolicy.group = groupID)) := by
    rw [hloc, huser, hgroup]
  rw [key]
  by_cases hc : policy_fnCheckLoc location pPolicy = true ∧
      policy_fnCheckUser K userID pPolicy = true ∧
      policy_fnCheckGroup K groupID pPolicy = true
  · rw [if_pos hc]
    exact ⟨⟨fun _ => cond_iff.1 hc, fun _ => rfl⟩, fun hn => absurd (cond_iff.1 hc) hn⟩
  · rw [if_neg hc]
    exact ⟨⟨fun h => absurd h (by decide), fun h => absurd (cond_iff.2 h) hc⟩, fun _ => rfl⟩

/-- C6: `policy_fnCheckAttr` returns `EOK` exactly when the rule's location is
empty or equals the data point's location up to letter case, the rule's user is
the wildcard code or the data point's user, and the rule's group is the
wildcard code or the data point's group; in every other case it returns
`EACCES`. -/
theorem C6_checkAttr_iff (K : Codes) (location : CStr) (userID groupID : Nat)
    (pPolicy : zPOLICY) :
    (policy_fnCheckAttr K location userID groupID pPolicy = EOK ↔
      (pPolicy.Location = [] ∨ EqIgnoreCase location pPolicy.Location) ∧
      (pPolicy.user = K.USER_CODE_INVALID ∨ pPolicy.user = userID) ∧
      (pPolicy.group = K.GROUP_CODE_INVALID ∨ pPolicy.group = groupID)) ∧
    (¬ ((pPolicy.Location = [] ∨ EqIgnoreCase location pPolicy.Location) ∧
        (pPolicy.user = K.USER_CODE_INVALID ∨ pPolicy.user = userID) ∧
        (pPolicy.group = K.GROUP_CODE_INVALID ∨ pPolicy.group = groupID)) →
      policy_fnCheckAttr K location userID groupID pPolicy = EACCES) :=
  checkAttr_spec K location userID groupID pPolicy

theorem get_delete (t : cfuhash_table_t) (key k : CStr) :
    cfuhash_get (cfuhash_delete t key) k = if key = k then none else cfuhash_get t k := by
  induction t with
  | nil => simp [cfuhash_delete, cfuhash_get]
  | cons e rest ih =>
    obtain ⟨k1, v1⟩ := e
    unfold cfuhash_delete
    by_cases h1 : k1 = key
    · rw [if_pos h1, ih]
      by_cases h2 : key = k
      · simp [h2]
      · have : ¬ k1 = k := by rw [h1]; exact h2
        simp [h2, cfuhash_get, this]
    · rw [if_neg h1]
      unfold cfuhash_get
      rw [ih]
      by_cases h2 : key = k
      · have : ¬ k1 = k := by rw [← h2]; exact h1
        simp [h2, this]
      · simp [h2]

theorem get_put (t : cfuhash_table_t) (key k : CStr) (v : Nat) :
    cfuhash_get (cfuhash_put t key v).1 k = if key = k then some v else cfuhash_get t k := by
  unfold cfuhash_put
  simp only [cfuhash_get]
  by_cases h : key = k
  · simp [h]
  · simp [h, get_delete]

theorem create_fst (s : ServerState) (m : datapoint_policy_msg_t) (loc : CStr) :
    (POLICY_fnCreatePolicy s (some m) loc).1 =
      { heap := Function.update s.heap s.brk (policyOf m loc),
        brk := s.brk + 1,
        hashPolicy := (cfuhash_put s.hashPolicy (hashString m.Name m.Type_ loc) s.brk).1,
        hs := match cfuhash_get s.hashPolicy (hashString m.Name m.Type_ loc) with
          | none => placeNew s.hs s.brk
          | some found => markSeen s.hs found s.brk } := by
  unfold POLICY_fnCreatePolicy POLICYHASH_fnPut POLICYHASH_fnHouseKeepAccessor policyOf
  simp only [Function.update_idem]
  cases h : cfuhash_get s.hashPolicy (hashString m.Name m.Type_ loc) <;>
    simp [cfuhash_put, h]

theorem create_snd (s : ServerState) (m : datapoint_policy_msg_t) (loc : CStr) :
    (POLICY_fnCreatePolicy s (some m) loc).2 = EOK := by
  unfold POLICY_fnCreatePolicy POLICYHASH_fnPut
  cases h : cfuhash_get s.hashPolicy (hashString m.Name m.Type_ loc) <;>
    simp [cfuhash_put, h]

theorem find_create (s : ServerState) (m : datapoint_policy_msg_t) (loc k : CStr) :
    POLICYHASH_fnFind (POLICY_fnCreatePolicy s (some m) loc).1 k =
      if hashString m.Name m.Type_ loc = k then some s.brk else POLICYHASH_fnFind s k := by
  rw [create_fst]
  simp only [POLICYHASH_fnFind]
  exact get_put _ _ _ _

theorem heap_create (s : ServerState) (m : datapoint_policy_msg_t) (loc : CStr) :
    (POLICY_fnCreatePolicy s (some m) loc).1.heap =
      Function.update s.heap s.brk (policyOf m loc) := by
  rw [create_fst]

theorem hashString_eq_iff (n t : Int) (a b : CStr) :
    hashString n t a = hashString n t b ↔ strlwr a = strlwr b := by
  unfold hashString
  exact List.append_right_inj _

theorem boundChecking_skipped (val : DpValue) (pol : zPOLICY)
    (h : pol.min = 0 ∨ pol.max = 0) : policy_fnBoundChecking val pol = true := by
  unfold policy_fnBoundChecking
  rcases h with h | h
  · simp [h]
  · simp [h]

theorem checkKey_comp (K : Codes) (f : TagFields)
    (h : ¬ (f.typeInt = K.POLICY_TYPE_PASS ∨ f.typeInt = K.POLICY_TYPE_HEAD ∨
        f.typeInt = K.POLICY_TYPE_FUEL)) :
    checkKey K f = hashString K.POLICY_NAME_COMP f.typeInt f.location := by
  unfold checkKey ruleFamily
  rw [if_neg h]

theorem checkKey_access (K : Codes) (f : TagFields)
    (h : f.typeInt = K.POLICY_TYPE_PASS ∨ f.typeInt = K.POLICY_TYPE_HEAD ∨
        f.typeInt = K.POLICY_TYPE_FUEL) :
    checkKey K f = hashString K.POLICY_NAME_ACCESS f.typeInt f.location := by
  unfold checkKey ruleFamily
  rw [if_pos h]

theorem checkAttr_wildcard (K : Codes) (location : CStr) (u g : Nat) (pol : zPOLICY)
    (hloc : pol.Location = [] ∨ strlwr location = strlwr pol.Location)
    (hu : pol.user = K.USER_CODE_INVALID) (hg : pol.group = K.GROUP_CODE_INVALID) :
    policy_fnCheckAttr K location u g pol = EOK := by
  refine ((checkAttr_spec K location u g pol).1).2 ⟨?_, Or.inl hu, Or.inl hg⟩
  rcases hloc with h | h
  · exact Or.inl h
  · exact Or.inr ((eqIgnoreCase_iff _ _).2 h)

/-- C1 (what the code does where the claim fails): when the comparator rule
found for a data point has a lower bound of zero or an upper bound of zero,
`policy_fnBoundChecking` performs no comparison, so with wildcard user,
wildcard group, zero time bound and the data point's own location
`POLICY_fnCheck` allows access for every value, also for a value outside
`min..max` (rule `min = 0, max = 100`, value 150). -/
theorem C1_bounds_unchecked_when_one_bound_is_zero (K : Codes) (s : ServerState)
    (tagMap : TagMap) (pDp : dp_t) (r : Int × TagMap × TagFields) (p : Nat)
    (htok : policy_fnTokenizeTags K tagMap pDp TagFields.init = Except.ok r)
    (hclassified : r.2.2.typeInt ≠ K.POLICY_TYPE_INVALID)
    (hcomparator : ¬ (r.2.2.typeInt = K.POLICY_TYPE_PASS ∨
      r.2.2.typeInt = K.POLICY_TYPE_HEAD ∨ r.2.2.typeInt = K.POLICY_TYPE_FUEL))
    (hrule : POLICYHASH_fnFind s (checkKey K r.2.2) = some p)
    (hloc : (s.heap p).Location = strlwr r.2.2.location)
    (huser : (s.heap p).user = K.USER_CODE_INVALID)
    (hgroup : (s.heap p).group = K.GROUP_CODE_INVALID)
    (htime : (s.heap p).time_tv_sec = 0)
    (hzero : (s.heap p).min = 0 ∨ (s.heap p).max = 0) :
    POLICY_fnCheck K s tagMap pDp = Allow := by
  rw [checkKey_comp K _ hcomparator] at hrule
  rw [check_comp K s tagMap pDp r.1 r.2.1 r.2.2 p htok hclassified hcomparator hrule]
  have hattr : policy_fnCheckAttr K (strlwr r.2.2.location) r.2.2.userID r.2.2.groupID
      (s.heap p) = EOK :=
    checkAttr_wildcard K _ _ _ _ (Or.inr (by rw [hloc, strlwr_idem])) huser hgroup
  rw [if_pos ⟨Or.inl htime, boundChecking_skipped _ _ hzero, hattr⟩]

theorem C1_bounds_unchecked_when_one_bound_is_zero_witness :
    (sampleDp 150).val = DpValue.uint16 150 ∧
    ((storeWith (temperatureRule sampleCodes 0 100 0) "boston".data).heap 0).min = 0 ∧
    ((storeWith (temperatureRule sampleCodes 0 100 0) "boston".data).heap 0).max = 100 ∧
    POLICY_fnCheck sampleCodes (storeWith (temperatureRule sampleCodes 0 100 0) "boston".data)
      sampleTagMap (sampleDp 150) = Allow :=
  ⟨rfl, rfl, rfl,
    C1_bounds_unchecked_when_one_bound_is_zero sampleCodes
      (storeWith (temperatureRule sampleCodes 0 100 0) "boston".data) sampleTagMap
      (sampleDp 150) _ 0 rfl (by decide) (by decide) (by decide) (by decide) (by decide)
      (by decide) (by decide) (by decide)⟩

theorem typeString2Val_unrecognised (K : Codes) (v : CStr)
    (h : ∀ n ∈ recognisedTypeNames, ¬ EqIgnoreCase v n) :
    policy_fnTypeString2Val K v = K.POLICY_TYPE_INVALID := by
  have hz : ∀ n ∈ recognisedTypeNames, stricmp v n ≠ 0 := by
    intro n hn h0
    exact h n hn ((eqIgnoreCase_iff _ _).2 ((stricmp_eq_zero_iff _ _).1 h0))
  unfold policy_fnTypeString2Val
  simp only [recognisedTypeNames, List.mem_cons, List.mem_singleton, forall_eq_or_imp,
    forall_eq, List.not_mem_nil, false_implies, implies_true, and_true] at hz
  obtain ⟨h1, h2, h3, h4, h5, h6, h7, h8, h9, h10, h11, h12⟩ := hz
  rw [if_neg h1, if_neg h2, if_neg h3, if_neg h4, if_neg h5, if_neg h6, if_neg h7,
    if_neg h8, if_neg h9, if_neg h10, if_neg h11, if_neg h12]

/-- C2: for every data point whose type tag resolves to a classified type (any
type other than Invalid), if the rule store holds no rule under the key built
from the applicable rule family, that type and the data point's lowercased
location, `POLICY_fnCheck` denies access, whatever the value, timestamp, user
and group of the data point are. -/
theorem C2_default_deny (K : Codes) (s : ServerState) (tagMap : TagMap) (pDp : dp_t)
    (r : Int × TagMap × TagFields)
    (htok : policy_fnTokenizeTags K tagMap pDp TagFields.init = Except.ok r)
    (hclassified : r.2.2.typeInt ≠ K.POLICY_TYPE_INVALID)
    (hnorule : POLICYHASH_fnFind s (checkKey K r.2.2) = none) :
    POLICY_fnCheck K s tagMap pDp = Deny :=
  check_absent K s tagMap pDp r.1 r.2.1 r.2.2 htok hclassified hnorule

theorem C2_default_deny_witness :
    POLICY_fnCheck sampleCodes (HASH_fnSetup bootState) sampleTagMap (sampleDp 50) = Deny :=
  C2_default_deny sampleCodes (HASH_fnSetup bootState) sampleTagMap (sampleDp 50) _ rfl
    (by decide) (by decide)

/-- C4 (what the code does where the claim fails): when the first tag index of
the data point is below 1 or above `DP_SERVER_MAX_TAGS`,
`policy_fnTokenizeTags` sets `ret = ENOENT`, skips the loop, and then overwrites
`ret` with `EOK`: it returns `EOK` and leaves the output parameters and the tag
map as they were, so `POLICY_fnCheck` does not take its deny branch and goes on
to the rule lookup with the initial type `-1` and an empty location. -/
theorem C4_tokenize_returns_EOK_on_bad_first_tag (K : Codes) (tagMap : TagMap)
    (pDp : dp_t) (f : TagFields)
    (hbad : firstTag pDp < 1 ∨ firstTag pDp > K.DP_SERVER_MAX_TAGS) :
    tokenizeBody K tagMap pDp f = Except.ok (ENOENT, tagMap, f) ∧
    policy_fnTokenizeTags K tagMap pDp f = Except.ok (EOK, tagMap, f) := by
  have hb : tokenizeBody K tagMap pDp f = Except.ok (ENOENT, tagMap, f) := by
    unfold tokenizeBody
    rw [if_pos hbad]
  refine ⟨hb, ?_⟩
  unfold policy_fnTokenizeTags
  rw [hb]

theorem C4_tokenize_returns_EOK_on_bad_first_tag_witness :
    firstTag untaggedDp = 0 ∧
    policy_fnTokenizeTags sampleCodes sampleTagMap untaggedDp TagFields.init =
      Except.ok (EOK, sampleTagMap, TagFields.init) ∧
    POLICY_fnCheck sampleCodes (storeWith untypedRule []) sampleTagMap untaggedDp = Allow :=
  ⟨rfl,
    (C4_tokenize_returns_EOK_on_bad_first_tag sampleCodes sampleTagMap untaggedDp
      TagFields.init (Or.inl (by decide))).2,
    by decide⟩

theorem find_setup (s0 : ServerState) (k : CStr) :
    POLICYHASH_fnFind (HASH_fnSetup s0) k = none := rfl

/-- C5 (what the code does where the claim fails): a rule stored with an empty
location sits under the key of its kind, its type and the empty location, while
`POLICY_fnCheck` looks up the key built with the data point's own lowercased
location; so when the store holds only such a rule for the data point's family
and type, every data point of that type with a non-empty location (for example
`location:boston`) is denied. -/
theorem C5_empty_location_rule_not_consulted (K : Codes) (s0 : ServerState)
    (tagMap : TagMap) (pDp : dp_t) (r : Int × TagMap × TagFields)
    (m : datapoint_policy_msg_t)
    (htok : policy_fnTokenizeTags K tagMap pDp TagFields.init = Except.ok r)
    (hclassified : r.2.2.typeInt ≠ K.POLICY_TYPE_INVALID)
    (hfamily : m.Name = ruleFamily K r.2.2.typeInt)
    (htype : m.Type_ = r.2.2.typeInt)
    (hlocated : r.2.2.location ≠ []) :
    POLICY_fnCheck K (POLICY_fnCreatePolicy (HASH_fnSetup s0) (some m) []).1 tagMap pDp
      = Deny := by
  apply check_absent K _ tagMap pDp r.1 r.2.1 r.2.2 htok hclassified
  rw [find_create, find_setup]
  have hne : ¬ hashString m.Name m.Type_ [] = checkKey K r.2.2 := by
    unfold checkKey
    rw [hfamily, htype, hashString_eq_iff]
    intro h
    apply hlocated
    have h2 : strlwr r.2.2.location = [] := h.symm
    unfold strlwr at h2
    exact List.map_eq_nil_iff.1 h2
  rw [if_neg hne]

theorem C5_empty_location_rule_not_consulted_witness :
    POLICY_fnCheck sampleCodes (storeWith (temperatureRule sampleCodes 0 0 0) [])
      sampleTagMap (sampleDp 50) = Deny :=
  C5_empty_location_rule_not_consulted sampleCodes bootState sampleTagMap (sampleDp 50) _
    (temperatureRule sampleCodes 0 0 0) rfl (by decide) (by decide) (by decide) (by decide)

theorem check_found (K : Codes) (s : ServerState) (tagMap : TagMap) (pDp : dp_t)
    (r : Int × TagMap × TagFields) (p : Nat)
    (h : policy_fnTokenizeTags K tagMap pDp TagFields.init = Except.ok r)
    (hty : r.2.2.typeInt ≠ K.POLICY_TYPE_INVALID)
    (hfind : POLICYHASH_fnFind s (checkKey K r.2.2) = some p) :
    POLICY_fnCheck K s tagMap pDp = ruleDecision K (s.heap p) pDp r.2.2 := by
  by_cases hacc : r.2.2.typeInt = K.POLICY_TYPE_PASS ∨ r.2.2.typeInt = K.POLICY_TYPE_HEAD ∨
        r.2.2.typeInt = K.POLICY_TYPE_FUEL
  · rw [checkKey_access K _ hacc] at hfind
    rw [check_access K s tagMap pDp r.1 r.2.1 r.2.2 p h hty hacc hfind]
    unfold ruleDecision
    simp only [hacc, true_or, true_and, Allow, Deny]
  · rw [checkKey_comp K _ hacc] at hfind
    rw [check_comp K s tagMap pDp r.1 r.2.1 r.2.2 p h hty hacc hfind]
    unfold ruleDecision
    simp only [hacc, false_or, Allow, Deny]

/-- C7: for a classified data point whose rule has a nonzero time bound `t`,
`POLICY_fnCheck` denies when the data point's timestamp is below `t`, and when
the timestamp is at least `t` it decides as it does for the same rule with time
bound zero; when the rule's time bound is zero the decision is the same for
every timestamp of the data point. -/
theorem C7_time_gate (K : Codes) (s s0 : ServerState) (tagMap : TagMap) (pDp : dp_t)
    (r : Int × TagMap × TagFields) (p p0 : Nat)
    (htok : policy_fnTokenizeTags K tagMap pDp TagFields.init = Except.ok r)
    (hclassified : r.2.2.typeInt ≠ K.POLICY_TYPE_INVALID)
    (hrule : POLICYHASH_fnFind s (checkKey K r.2.2) = some p)
    (hrule0 : POLICYHASH_fnFind s0 (checkKey K r.2.2) = some p0)
    (hsame : s0.heap p0 = { s.heap p with time_tv_sec := 0 }) :
    ((s.heap p).time_tv_sec ≠ 0 →
      (pDp.timestamp_tv_sec < (s.heap p).time_tv_sec →
        POLICY_fnCheck K s tagMap pDp = Deny) ∧
      ((s.heap p).time_tv_sec ≤ pDp.timestamp_tv_sec →
        POLICY_fnCheck K s tagMap pDp = POLICY_fnCheck K s0 tagMap pDp)) ∧
    ((s.heap p).time_tv_sec = 0 → ∀ ts : Int,
      POLICY_fnCheck K s tagMap { pDp with timestamp_tv_sec := ts } =
        POLICY_fnCheck K s tagMap pDp) := by
  rw [check_found K s tagMap pDp r p htok hclassified hrule,
    check_found K s0 tagMap pDp r p0 htok hclassified hrule0, hsame]
  refine ⟨fun hne => ⟨fun hlt => ?_, fun hle => ?_⟩, fun h0 ts => ?_⟩
  · unfold ruleDecision
    rw [if_neg]
    · rfl
    · rintro ⟨h | h, _⟩
      · exact hne h
      · exact absurd h (not_le.2 hlt)
  · unfold ruleDecision
    have e1 : ((s.heap p).time_tv_sec = 0 ∨ (s.heap p).time_tv_sec ≤ pDp.timestamp_tv_sec)
        ↔ True := iff_true_intro (Or.inr hle)
    simp only [e1, true_or, true_and, policy_fnBoundChecking, policy_fnCheckAttr,
      policy_fnCheckLoc, policy_fnCheckUser, policy_fnCheckGroup]
  · have htok2 : policy_fnTokenizeTags K tagMap { pDp with timestamp_tv_sec := ts }
        TagFields.init = Except.ok r := htok
    rw [check_found K s tagMap _ r p htok2 hclassified hrule]
    unfold ruleDecision
    simp only [h0, true_or, true_and]

theorem C7_time_gate_witness :
    ((storeWith (temperatureRule sampleCodes 0 0 500) "boston".data).heap 0).time_tv_sec = 500 ∧
    POLICY_fnCheck sampleCodes (storeWith (temperatureRule sampleCodes 0 0 500) "boston".data)
      sampleTagMap { sampleDp 50 with timestamp_tv_sec := 499 } = Deny ∧
    POLICY_fnCheck sampleCodes (storeWith (temperatureRule sampleCodes 0 0 500) "boston".data)
      sampleTagMap { sampleDp 50 with timestamp_tv_sec := 500 } =
    POLICY_fnCheck sampleCodes (storeWith (temperatureRule sampleCodes 0 0 0) "boston".data)
      sampleTagMap { sampleDp 50 with timestamp_tv_sec := 500 } :=
  ⟨rfl,
    (((C7_time_gate sampleCodes
      (storeWith (temperatureRule sampleCodes 0 0 500) "boston".data)
      (storeWith (temperatureRule sampleCodes 0 0 0) "boston".data) sampleTagMap
      { sampleDp 50 with timestamp_tv_sec := 499 } _ 0 0 rfl (by decide) (by decide)
      (by decide) (by decide)).1 (by decide)).1 (by decide)),
    (((C7_time_gate sampleCodes
      (storeWith (temperatureRule sampleCodes 0 0 500) "boston".data)
      (storeWith (temperatureRule sampleCodes 0 0 0) "boston".data) sampleTagMap
      { sampleDp 50 with timestamp_tv_sec := 500 } _ 0 0 rfl (by decide) (by decide)
      (by decide) (by decide)).1 (by decide)).2 (by decide))⟩

theorem check_eq_find_isSome (s : ServerState) (k : CStr) :
    POLICYHASH_fnCheck s k = (POLICYHASH_fnFind s k).isSome := rfl

theorem brk_create (s : ServerState) (m : datapoint_policy_msg_t) (loc : CStr) :
    (POLICY_fnCreatePolicy s (some m) loc).1.brk = s.brk + 1 := by
  rw [create_fst]

/-- C8: the key under which `POLICY_fnCreatePolicy` registers a rule with
location `L` is the key that `POLICY_fnCheck` builds for every data point of the
rule's family and type whose location equals `L` up to letter case, so the rule
just registered is the one found and the one that decides; and registering the
rule again with a location `L2` that differs from `L` only in letter case
stores it under the same key: the set of keys is unchanged and the key now
holds the second rule. -/
theorem C8_location_case_insensitive (K : Codes) (s : ServerState)
    (m : datapoint_policy_msg_t) (L L2 : CStr) (tagMap : TagMap) (pDp : dp_t)
    (r : Int × TagMap × TagFields)
    (htok : policy_fnTokenizeTags K tagMap pDp TagFields.init = Except.ok r)
    (hclassified : r.2.2.typeInt ≠ K.POLICY_TYPE_INVALID)
    (hfamily : m.Name = ruleFamily K r.2.2.typeInt)
    (htype : m.Type_ = r.2.2.typeInt)
    (hcase : EqIgnoreCase r.2.2.location L)
    (hcase2 : EqIgnoreCase L2 L) :
    (POLICYHASH_fnFind (POLICY_fnCreatePolicy s (some m) L).1 (checkKey K r.2.2) = some s.brk ∧
      (POLICY_fnCreatePolicy s (some m) L).1.heap s.brk = policyOf m L ∧
      POLICY_fnCheck K (POLICY_fnCreatePolicy s (some m) L).1 tagMap pDp =
        ruleDecision K (policyOf m L) pDp r.2.2) ∧
    (Rule.key (m, L2) = Rule.key (m, L) ∧
      (∀ k, POLICYHASH_fnCheck
          (POLICY_fnCreatePolicy (POLICY_fnCreatePolicy s (some m) L).1 (some m) L2).1 k =
        POLICYHASH_fnCheck (POLICY_fnCreatePolicy s (some m) L).1 k) ∧
      POLICYHASH_fnFind
          (POLICY_fnCreatePolicy (POLICY_fnCreatePolicy s (some m) L).1 (some m) L2).1
          (Rule.key (m, L)) = some (s.brk + 1) ∧
      (POLICY_fnCreatePolicy (POLICY_fnCreatePolicy s (some m) L).1 (some m) L2).1.heap
          (s.brk + 1) = policyOf m L2) := by
  have hkey : hashString m.Name m.Type_ L = checkKey K r.2.2 := by
    unfold checkKey
    rw [hfamily, htype, hashString_eq_iff]
    exact ((eqIgnoreCase_iff _ _).1 hcase).symm
  have hkey2 : hashString m.Name m.Type_ L2 = hashString m.Name m.Type_ L :=
    (hashString_eq_iff _ _ _ _).2 ((eqIgnoreCase_iff _ _).1 hcase2)
  have hfind : POLICYHASH_fnFind (POLICY_fnCreatePolicy s (some m) L).1 (checkKey K r.2.2)
      = some s.brk := by
    rw [find_create, if_pos hkey]
  have hheap : (POLICY_fnCreatePolicy s (some m) L).1.heap s.brk = policyOf m L := by
    rw [heap_create, Function.update_same]
  refine ⟨⟨hfind, hheap, ?_⟩, hkey2, ?_, ?_, ?_⟩
  · rw [check_found K _ tagMap pDp r s.brk htok hclassified hfind, hheap]
  · intro k
    rw [check_eq_find_isSome, check_eq_find_isSome, find_create, find_create, hkey2]
    by_cases hk : hashString m.Name m.Type_ L = k
    · rw [if_pos hk, if_pos hk]
      rfl
    · rw [if_neg hk, if_neg hk]
  · unfold Rule.key
    rw [find_create, if_pos hkey2, brk_create]
  · rw [heap_create, brk_create, Function.update_same]

theorem C8_location_case_insensitive_witness :
    POLICYHASH_fnFind (storeWith (temperatureRule sampleCodes 0 0 0) "Boston".data)
      (checkKey sampleCodes
        { typeInt := 1, location := "BOSTON".data, userID := 2, groupID := 2 }) = some 0 ∧
    POLICY_fnCheck sampleCodes (storeWith (temperatureRule sampleCodes 0 0 0) "Boston".data)
      sampleTagMap { sampleDp 50 with tags := [1, 6, 3, 4] } = Allow :=
  ⟨(C8_location_case_insensitive sampleCodes (HASH_fnSetup bootState)
      (temperatureRule sampleCodes 0 0 0) "Boston".data "bOSTON".data sampleTagMap
      { sampleDp 50 with tags := [1, 6, 3, 4] } _ rfl (by decide) (by decide) (by decide)
      (by decide) (by decide)).1.1,
    by decide⟩

theorem placeNew_full (hs : List tzHouseKeep) (p : Nat)
    (h : ∀ x ∈ hs, x.pPolicy ≠ none) : placeNew hs p = hs := by
  induction hs with
  | nil => rfl
  | cons x t ih =>
    unfold placeNew
    rw [if_neg (h x (List.mem_cons_self _ _)), ih (fun y hy => h y (List.mem_cons_of_mem _ hy))]

theorem placeNew_split (hs : List tzHouseKeep) (p : Nat)
    (h : ∃ x ∈ hs, x.pPolicy = none) :
    ∃ l1 x l2, hs = l1 ++ x :: l2 ∧ x.pPolicy = none ∧ (∀ y ∈ l1, y.pPolicy ≠ none) ∧
      placeNew hs p = l1 ++ { pPolicy := some p, Seen := true } :: l2 := by
  induction hs with
  | nil => obtain ⟨x, hx, _⟩ := h; cases hx
  | cons a t ih =>
    by_cases ha : a.pPolicy = none
    · refine ⟨[], a, t, rfl, ha, ?_, ?_⟩
      · intro y hy; cases hy
      · unfold placeNew; rw [if_pos ha]; rfl
    · have ht : ∃ x ∈ t, x.pPolicy = none := by
        obtain ⟨x, hx, hxn⟩ := h
        rcases List.mem_cons.1 hx with rfl | hx
        · exact absurd hxn ha
        · exact ⟨x, hx, hxn⟩
      obtain ⟨l1, x, l2, e, hx, hl1, hp⟩ := ih ht
      refine ⟨a :: l1, x, l2, by rw [e]; rfl, hx, ?_, ?_⟩
      · intro y hy
        rcases List.mem_cons.1 hy with rfl | hy
        · exact ha
        · exact hl1 y hy
      · unfold placeNew; rw [if_neg ha, hp]; rfl

theorem markSeen_absent (hs : List tzHouseKeep) (found p : Nat)
    (h : found ∉ rosterPtrs hs) : markSeen hs found p = hs := by
  induction hs with
  | nil => rfl
  | cons x t ih =>
    have hx : x.pPolicy ≠ some found := by
      intro hx
      apply h
      unfold rosterPtrs
      rw [List.filterMap_cons, hx]
      exact List.mem_cons_self _ _
    have ht : found ∉ rosterPtrs t := by
      intro ht
      apply h
      unfold rosterPtrs at ht ⊢
      rw [List.filterMap_cons]
      cases hxp : x.pPolicy with
      | none => exact ht
      | some q => exact List.mem_cons_of_mem _ ht
    unfold markSeen
    rw [if_neg hx, ih ht]

theorem markSeen_split (hs : List tzHouseKeep) (found p : Nat)
    (h : found ∈ rosterPtrs hs) :
    ∃ l1 x l2, hs = l1 ++ x :: l2 ∧ x.pPolicy = some found ∧
      markSeen hs found p = l1 ++ { pPolicy := some p, Seen := true } :: l2 := by
  induction hs with
  | nil => cases h
  | cons a t ih =>
    by_cases ha : a.pPolicy = some found
    · refine ⟨[], a, t, rfl, ha, ?_⟩
      unfold markSeen; rw [if_pos ha]; rfl
    · have ht : found ∈ rosterPtrs t := by
        unfold rosterPtrs at h ⊢
        rw [List.filterMap_cons] at h
        cases hap : a.pPolicy with
        | none => rw [hap] at h; exact h
        | some q =>
          rw [hap] at h
          rcases List.mem_cons.1 h with e | h
          · exact absurd (by rw [hap, e]) ha
          · exact h
      obtain ⟨l1, x, l2, e, hx, hp⟩ := ih ht
      refine ⟨a :: l1, x, l2, by rw [e]; rfl, hx, ?_⟩
      unfold markSeen; rw [if_neg ha, hp]; rfl

theorem rosterPtrs_append (l1 l2 : List tzHouseKeep) :
    rosterPtrs (l1 ++ l2) = rosterPtrs l1 ++ rosterPtrs l2 := by
  unfold rosterPtrs
  exact List.filterMap_append _ _ _

theorem rosterPtrs_cons_some (x : tzHouseKeep) (l : List tzHouseKeep) (p : Nat)
    (h : x.pPolicy = some p) : rosterPtrs (x :: l) = p :: rosterPtrs l := by
  unfold rosterPtrs
  rw [List.filterMap_cons, h]

theorem rosterPtrs_cons_none (x : tzHouseKeep) (l : List tzHouseKeep)
    (h : x.pPolicy = none) : rosterPtrs (x :: l) = rosterPtrs l := by
  unfold rosterPtrs
  rw [List.filterMap_cons, h]

theorem mem_rosterPtrs (hs : List tzHouseKeep) (p : Nat) :
    p ∈ rosterPtrs hs ↔ ∃ h ∈ hs, h.pPolicy = some p := by
  unfold rosterPtrs
  rw [List.mem_filterMap]

theorem policyOf_key (m : datapoint_policy_msg_t) (L : CStr) :
    (policyOf m L).key = hashString m.Name m.Type_ L := by
  unfold zPOLICY.key policyOf hashString
  simp only [strlwr_idem]

/-- Slot-level description of the roster after one `POLICY_fnCreatePolicy`. -/
theorem rosterStep_slots (hs : List tzHouseKeep) (prev : Option Nat) (b : Nat)
    (hnd : (rosterPtrs hs).Nodup) :
    ∀ x ∈ (match prev with
        | none => placeNew hs b
        | some found => markSeen hs found b),
      x = { pPolicy := some b, Seen := true } ∨ (x ∈ hs ∧ ∀ p, x.pPolicy = some p → prev ≠ some p) := by
  intro x hx
  cases prev with
  | none =>
    simp only at hx
    by_cases hfull : ∃ y ∈ hs, y.pPolicy = none
    · obtain ⟨l1, y, l2, e, _, _, hp⟩ := placeNew_split hs b hfull
      rw [hp] at hx
      rcases List.mem_append.1 hx with h | h
      · exact Or.inr ⟨by rw [e]; exact List.mem_append_left _ h, fun _ _ => by simp⟩
      · rcases List.mem_cons.1 h with h | h
        · exact Or.inl h
        · exact Or.inr ⟨by rw [e]; exact List.mem_append_right _ (List.mem_cons_of_mem _ h),
            fun _ _ => by simp⟩
    · rw [placeNew_full hs b (fun y hy hn => hfull ⟨y, hy, hn⟩)] at hx
      exact Or.inr ⟨hx, fun _ _ => by simp⟩
  | some found =>
    simp only at hx
    by_cases hin : found ∈ rosterPtrs hs
    · obtain ⟨l1, y, l2, e, hy, hp⟩ := markSeen_split hs found b hin
      rw [hp] at hx
      rw [e, rosterPtrs_append, rosterPtrs_cons_some y l2 found hy] at hnd
      have hnd2 := List.nodup_append.1 hnd
      have hf1 : found ∉ rosterPtrs l1 := fun h1 =>
        hnd2.2.2 h1 (List.mem_cons_self _ _)
      have hf2 : found ∉ rosterPtrs l2 := (List.nodup_cons.1 hnd2.2.1).1
      rcases List.mem_append.1 hx with h | h
      · refine Or.inr ⟨by rw [e]; exact List.mem_append_left _ h, fun p hp2 hc => ?_⟩
        apply hf1
        rw [mem_rosterPtrs]
        exact ⟨x, h, by rw [hp2]; exact (Option.some.inj hc).symm ▸ rfl⟩
      · rcases List.mem_cons.1 h with h | h
        · exact Or.inl h
        · refine Or.inr ⟨by rw [e]; exact List.mem_append_right _ (List.mem_cons_of_mem _ h),
            fun p hp2 hc => ?_⟩
          apply hf2
          rw [mem_rosterPtrs]
          exact ⟨x, h, by rw [hp2]; exact (Option.some.inj hc).symm ▸ rfl⟩
    · rw [markSeen_absent hs found b hin] at hx
      refine Or.inr ⟨hx, fun p hp2 hc => ?_⟩
      apply hin
      rw [mem_rosterPtrs]
      exact ⟨x, hx, by rw [hp2]; exact (Option.some.inj hc).symm ▸ rfl⟩

theorem rosterStep_nodup (hs : List tzHouseKeep) (prev : Option Nat) (b : Nat)
    (hnd : (rosterPtrs hs).Nodup) (hb : b ∉ rosterPtrs hs) :
    (rosterPtrs (match prev with
        | none => placeNew hs b
        | some found => markSeen hs found b)).Nodup := by
  cases prev with
  | none =>
    simp only
    by_cases hfull : ∃ y ∈ hs, y.pPolicy = none
    · obtain ⟨l1, y, l2, e, hy, _, hp⟩ := placeNew_split hs b hfull
      rw [hp, rosterPtrs_append, rosterPtrs_cons_some _ l2 b rfl]
      rw [e, rosterPtrs_append, rosterPtrs_cons_none y l2 hy] at hnd hb
      have h2 := List.nodup_append.1 hnd
      rw [List.mem_append, not_or] at hb
      refine List.nodup_append.2 ⟨h2.1, List.nodup_cons.2 ⟨hb.2, h2.2.1⟩, ?_⟩
      intro a ha1 ha2
      rcases List.mem_cons.1 ha2 with rfl | ha2
      · exact hb.1 ha1
      · exact h2.2.2 ha1 ha2
    · rw [placeNew_full hs b (fun y hy hn => hfull ⟨y, hy, hn⟩)]
      exact hnd
  | some found =>
    simp only
    by_cases hin : found ∈ rosterPtrs hs
    · obtain ⟨l1, y, l2, e, hy, hp⟩ := markSeen_split hs found b hin
      rw [hp, rosterPtrs_append, rosterPtrs_cons_some _ l2 b rfl]
      rw [e, rosterPtrs_append, rosterPtrs_cons_some y l2 found hy] at hnd hb
      have h2 := List.nodup_append.1 hnd
      rw [List.mem_append, not_or] at hb
      have hb2 : b ∉ rosterPtrs l2 := fun h => hb.2 (List.mem_cons_of_mem _ h)
      refine List.nodup_append.2 ⟨h2.1, List.nodup_cons.2 ⟨hb2, (List.nodup_cons.1 h2.2.1).2⟩, ?_⟩
      intro a ha1 ha2
      rcases List.mem_cons.1 ha2 with rfl | ha2
      · exact hb.1 ha1
      · exact h2.2.2 ha1 (List.mem_cons_of_mem _ ha2)
    · rw [markSeen_absent hs found b hin]
      exact hnd

/-- Which addresses stay in the roster, and when the new one enters it. -/
theorem rosterStep_keeps (hs : List tzHouseKeep) (prev : Option Nat) (b : Nat) :
    (∀ p ∈ rosterPtrs hs, prev ≠ some p →
      p ∈ rosterPtrs (match prev with
        | none => placeNew hs b
        | some found => markSeen hs found b)) ∧
    ((∃ found, prev = some found ∧ found ∈ rosterPtrs hs) ∨
        (prev = none ∧ ∃ y ∈ hs, y.pPolicy = none) →
      b ∈ rosterPtrs (match prev with
        | none => placeNew hs b
        | some found => markSeen hs found b)) := by
  cases prev with
  | none =>
    simp only
    by_cases hfull : ∃ y ∈ hs, y.pPolicy = none
    · obtain ⟨l1, y, l2, e, hy, _, hp⟩ := placeNew_split hs b hfull
      rw [hp, rosterPtrs_append, rosterPtrs_cons_some _ l2 b rfl]
      constructor
      · intro p hp1 _
        rw [e, rosterPtrs_append, rosterPtrs_cons_none y l2 hy] at hp1
        rcases List.mem_append.1 hp1 with h | h
        · exact List.mem_append_left _ h
        · exact List.mem_append_right _ (List.mem_cons_of_mem _ h)
      · intro _
        exact List.mem_append_right _ (List.mem_cons_self _ _)
    · rw [placeNew_full hs b (fun y hy hn => hfull ⟨y, hy, hn⟩)]
      constructor
      · intro p hp1 _; exact hp1
      · rintro (⟨f, hf, _⟩ | ⟨_, h⟩)
        · cases hf
        · exact absurd h hfull
  | some found =>
    simp only
    by_cases hin : found ∈ rosterPtrs hs
    · obtain ⟨l1, y, l2, e, hy, hp⟩ := markSeen_split hs found b hin
      rw [hp, rosterPtrs_append, rosterPtrs_cons_some _ l2 b rfl]
      constructor
      · intro p hp1 hne
        rw [e, rosterPtrs_append, rosterPtrs_cons_some y l2 found hy] at hp1
        rcases List.mem_append.1 hp1 with h | h
        · exact List.mem_append_left _ h
        · rcases List.mem_cons.1 h with h | h
          · exact absurd (by rw [h]) hne
          · exact List.mem_append_right _ (List.mem_cons_of_mem _ h)
      · intro _
        exact List.mem_append_right _ (List.mem_cons_self _ _)
    · rw [markSeen_absent hs found b hin]
      constructor
      · intro p hp1 _; exact hp1
      · rintro (⟨f, hf, hf2⟩ | ⟨h, _⟩)
        · cases hf; exact absurd hf2 hin
        · cases h

theorem hs_create (s : ServerState) (m : datapoint_policy_msg_t) (L : CStr) :
    (POLICY_fnCreatePolicy s (some m) L).1.hs =
      (match cfuhash_get s.hashPolicy (hashString m.Name m.Type_ L) with
        | none => placeNew s.hs s.brk
        | some found => markSeen s.hs found s.brk) := by
  rw [create_fst]

theorem get_create (s : ServerState) (m : datapoint_policy_msg_t) (L k : CStr) :
    cfuhash_get (POLICY_fnCreatePolicy s (some m) L).1.hashPolicy k =
      if hashString m.Name m.Type_ L = k then some s.brk else cfuhash_get s.hashPolicy k :=
  find_create s m L k

theorem Consistent.ptr_lt {s : ServerState} (hc : Consistent s) {p : Nat}
    (hp : p ∈ rosterPtrs s.hs) : p < s.brk :=
  (hc.storedKey _ p (hc.slotStored p hp)).1

theorem heap_create_old (s : ServerState) (m : datapoint_policy_msg_t) (L : CStr) (p : Nat)
    (hp : p < s.brk) : (POLICY_fnCreatePolicy s (some m) L).1.heap p = s.heap p := by
  rw [heap_create, Function.update_noteq (Nat.ne_of_lt hp)]

theorem heap_create_new (s : ServerState) (m : datapoint_policy_msg_t) (L : CStr) :
    (POLICY_fnCreatePolicy s (some m) L).1.heap s.brk = policyOf m L := by
  rw [heap_create, Function.update_same]

/-- Every slot after a registration is the new slot, or an old slot whose
policy is not the one that was stored under the rule's key. -/
theorem create_slots (s : ServerState) (m : datapoint_policy_msg_t) (L : CStr)
    (hc : Consistent s) :
    ∀ x ∈ (POLICY_fnCreatePolicy s (some m) L).1.hs,
      x = { pPolicy := some s.brk, Seen := true } ∨
      (x ∈ s.hs ∧ ∀ p, x.pPolicy = some p →
        p < s.brk ∧ (s.heap p).key ≠ hashString m.Name m.Type_ L) := by
  intro x hx
  rw [hs_create] at hx
  rcases rosterStep_slots s.hs _ s.brk hc.nodupPtrs x hx with h | ⟨h1, h2⟩
  · exact Or.inl h
  · refine Or.inr ⟨h1, fun p hp => ?_⟩
    have hmem : p ∈ rosterPtrs s.hs := (mem_rosterPtrs _ _).2 ⟨x, h1, hp⟩
    refine ⟨hc.ptr_lt hmem, fun hk => ?_⟩
    apply h2 p hp
    rw [← hk]
    exact hc.slotStored p hmem

theorem consistent_create (s : ServerState) (m : datapoint_policy_msg_t) (L : CStr)
    (hc : Consistent s) : Consistent (POLICY_fnCreatePolicy s (some m) L).1 := by
  have hfresh : s.brk ∉ rosterPtrs s.hs := fun h => Nat.lt_irrefl _ (hc.ptr_lt h)
  refine ⟨?_, ?_, ?_⟩
  · rw [hs_create]
    exact rosterStep_nodup s.hs _ s.brk hc.nodupPtrs hfresh
  · intro p hp
    obtain ⟨x, hx, hxp⟩ := (mem_rosterPtrs _ _).1 hp
    rcases create_slots s m L hc x hx with h | ⟨_, h2⟩
    · rw [h] at hxp
      have hpb : s.brk = p := Option.some.inj hxp
      rw [← hpb, heap_create_new, policyOf_key, get_create, if_pos rfl]
    · obtain ⟨hlt, hne⟩ := h2 p hxp
      have hx2 : x ∈ s.hs := (create_slots s m L hc x hx).resolve_left (by
        intro h
        rw [h] at hxp
        exact Nat.lt_irrefl _ ((Option.some.inj hxp) ▸ hlt))|>.1
      rw [heap_create_old s m L p hlt, get_create, if_neg (Ne.symm hne)]
      exact hc.slotStored p ((mem_rosterPtrs _ _).2 ⟨x, hx2, hxp⟩)
  · intro k p hget
    rw [get_create] at hget
    rw [brk_create]
    by_cases hk : hashString m.Name m.Type_ L = k
    · rw [if_pos hk] at hget
      have hpb : s.brk = p := Option.some.inj hget
      rw [← hpb, heap_create_new, policyOf_key]
      exact ⟨Nat.lt_succ_self _, hk⟩
    · rw [if_neg hk] at hget
      obtain ⟨hlt, hkey⟩ := hc.storedKey k p hget
      rw [heap_create_old s m L p hlt]
      exact ⟨Nat.lt_succ_of_lt hlt, hkey⟩

theorem marks_create (s : ServerState) (m : datapoint_policy_msg_t) (L : CStr)
    (processed : List CStr) (hc : Consistent s) (hm : Marks s processed) :
    Marks (POLICY_fnCreatePolicy s (some m) L).1 (processed ++ [hashString m.Name m.Type_ L]) := by
  intro x hx p hxp
  rcases create_slots s m L hc x hx with h | ⟨h1, h2⟩
  · rw [h] at hxp
    have hpb : s.brk = p := Option.some.inj hxp
    rw [← hpb, heap_create_new, policyOf_key, h]
    simp
  · obtain ⟨hlt, hne⟩ := h2 p hxp
    rw [heap_create_old s m L p hlt, hm x h1 p hxp, List.mem_append, List.mem_singleton]
    exact ⟨Or.inl, fun h => h.resolve_right hne⟩

theorem tracked_create (s : ServerState) (m : datapoint_policy_msg_t) (L : CStr)
    (hc : Consistent s) (ht : AllTracked s)
    (hroom : cfuhash_get s.hashPolicy (hashString m.Name m.Type_ L) = none →
      ∃ y ∈ s.hs, y.pPolicy = none) :
    AllTracked (POLICY_fnCreatePolicy s (some m) L).1 := by
  intro k p hget
  rw [get_create] at hget
  rw [hs_create]
  have hkeep := rosterStep_keeps s.hs (cfuhash_get s.hashPolicy (hashString m.Name m.Type_ L)) s.brk
  by_cases hk : hashString m.Name m.Type_ L = k
  · rw [if_pos hk] at hget
    have hpb : s.brk = p := Option.some.inj hget
    rw [← hpb]
    apply hkeep.2
    cases hprev : cfuhash_get s.hashPolicy (hashString m.Name m.Type_ L) with
    | none => exact Or.inr ⟨rfl, hroom hprev⟩
    | some f => exact Or.inl ⟨f, rfl, ht _ f hprev⟩
  · rw [if_neg hk] at hget
    apply hkeep.1 p (ht k p hget)
    intro hprev
    exact hk ((hc.storedKey _ p hprev).2.symm.trans (hc.storedKey k p hget).2)

theorem unseenKeys_congr (h1 h2 : Nat → zPOLICY) (hs : List tzHouseKeep)
    (h : ∀ q, (h1 q).key = (h2 q).key) : unseenKeys h1 hs = unseenKeys h2 hs := by
  unfold unseenKeys
  apply List.filterMap_congr
  intro x _
  cases x.pPolicy with
  | none => rfl
  | some p => simp only [h p]

theorem key_lowered (pol : zPOLICY) : (lowerLocation pol).key = pol.key := by
  unfold zPOLICY.key hashString lowerLocation
  simp only [strlwr_idem]

theorem unseenKeys_cons_none (heap : Nat → zPOLICY) (x : tzHouseKeep) (t : List tzHouseKeep)
    (hx : x.pPolicy = none) : unseenKeys heap (x :: t) = unseenKeys heap t := by
  unfold unseenKeys
  rw [List.filterMap_cons]
  simp only [hx]

theorem unseenKeys_cons_seen (heap : Nat → zPOLICY) (x : tzHouseKeep) (t : List tzHouseKeep)
    (p : Nat) (hx : x.pPolicy = some p) (hs : ¬ x.Seen = false) :
    unseenKeys heap (x :: t) = unseenKeys heap t := by
  unfold unseenKeys
  rw [List.filterMap_cons]
  simp only [hx, if_neg hs]

theorem unseenKeys_cons_unseen (heap : Nat → zPOLICY) (x : tzHouseKeep) (t : List tzHouseKeep)
    (p : Nat) (hx : x.pPolicy = some p) (hs : x.Seen = false) :
    unseenKeys heap (x :: t) = (heap p).key :: unseenKeys heap t := by
  unfold unseenKeys
  rw [List.filterMap_cons]
  simp only [hx, if_pos hs]

theorem sweep_spec (hs : List tzHouseKeep) : ∀ s : ServerState,
    (sweep s hs).2 = hs.map clearUnseen ∧
    (sweep s hs).1.brk = s.brk ∧
    (sweep s hs).1.hs = s.hs ∧
    (∀ q, ((sweep s hs).1.heap q).key = (s.heap q).key) ∧
    (∀ q, (∀ x ∈ hs, x.pPolicy = some q → x.Seen = true) → (sweep s hs).1.heap q = s.heap q) ∧
    (∀ k, cfuhash_get (sweep s hs).1.hashPolicy k =
      if k ∈ unseenKeys s.heap hs then none else cfuhash_get s.hashPolicy k) := by
  induction hs with
  | nil =>
    intro s
    simp [sweep, unseenKeys]
  | cons x t ih =>
    intro s
    cases hx : x.pPolicy with
    | none =>
      obtain ⟨i1, i2, i3, i4, i5, i6⟩ := ih s
      have e : sweep s (x :: t) = ((sweep s t).1, x :: (sweep s t).2) := by
        rw [sweep]; simp only [hx]
      rw [e, unseenKeys_cons_none _ _ _ hx]
      refine ⟨?_, i2, i3, i4, ?_, i6⟩
      · simp only [List.map_cons, i1, clearUnseen, hx]
      · intro q hq
        exact i5 q (fun y hy => hq y (List.mem_cons_of_mem _ hy))
    | some p =>
      by_cases hseen : x.Seen = false
      · have e : sweep s (x :: t) =
            ((sweep (evict s p) t).1, { x with pPolicy := none } :: (sweep (evict s p) t).2) := by
          rw [sweep]; simp only [hx, hseen, if_true]
        obtain ⟨i1, i2, i3, i4, i5, i6⟩ := ih (evict s p)
        have hkeys : ∀ q, ((evict s p).heap q).key = (s.heap q).key := by
          intro q
          simp only [evict, POLICYHASH_fnRemove]
          by_cases hq : q = p
          · rw [hq, Function.update_same, key_lowered]
          · rw [Function.update_noteq hq]
        rw [e, unseenKeys_cons_unseen _ _ _ p hx hseen]
        refine ⟨?_, i2, i3, ?_, ?_, ?_⟩
        · simp only [List.map_cons, i1, clearUnseen, hx, hseen, if_true]
        · intro q
          rw [i4 q, hkeys q]
        · intro q hq
          have hqp : q ≠ p := by
            intro h
            have := hq x (List.mem_cons_self _ _) (by rw [hx, h])
            rw [hseen] at this
            cases this
          rw [i5 q (fun y hy => hq y (List.mem_cons_of_mem _ hy))]
          simp only [evict, POLICYHASH_fnRemove]
          rw [Function.update_noteq hqp]
        · intro k
          rw [i6 k, unseenKeys_congr _ s.heap t hkeys]
          have hdel : cfuhash_get (evict s p).hashPolicy k =
              if (s.heap p).key = k then none else cfuhash_get s.hashPolicy k := by
            simp only [evict, POLICYHASH_fnRemove]
            exact get_delete _ _ _
          rw [hdel]
          by_cases h1 : k ∈ unseenKeys s.heap t
          · simp [h1]
          · by_cases h2 : (s.heap p).key = k
            · simp [h2]
            · simp [h1, h2, Ne.symm h2]
      · obtain ⟨i1, i2, i3, i4, i5, i6⟩ := ih s
        have e : sweep s (x :: t) = ((sweep s t).1, x :: (sweep s t).2) := by
          rw [sweep]; simp only [hx]; rw [if_neg hseen]
        rw [e, unseenKeys_cons_seen _ _ _ p hx hseen]
        refine ⟨?_, i2, i3, i4, ?_, i6⟩
        · have hcl : clearUnseen x = x := by
            unfold clearUnseen; simp only [hx]; rw [if_neg hseen]
          rw [List.map_cons, i1, hcl]
        · intro q hq
          exact i5 q (fun y hy => hq y (List.mem_cons_of_mem _ hy))

theorem housekeep_fst (s : ServerState) :
    (POLICY_fnHouseKeepPolicy s).1 =
      { (sweep s s.hs).1 with hs := resetSeen (s.hs.map clearUnseen) } := by
  unfold POLICY_fnHouseKeepPolicy POLICYHASH_fnHouseKeepAccessor
  simp only [(sweep_spec s.hs s).1]

theorem hk_hs (s : ServerState) :
    (POLICY_fnHouseKeepPolicy s).1.hs = resetSeen (s.hs.map clearUnseen) := by
  rw [housekeep_fst]

theorem hk_brk (s : ServerState) : (POLICY_fnHouseKeepPolicy s).1.brk = s.brk := by
  rw [housekeep_fst]
  exact (sweep_spec s.hs s).2.1

theorem hk_key (s : ServerState) (q : Nat) :
    ((POLICY_fnHouseKeepPolicy s).1.heap q).key = (s.heap q).key := by
  rw [housekeep_fst]
  exact (sweep_spec s.hs s).2.2.2.1 q

theorem hk_heap (s : ServerState) (q : Nat)
    (h : ∀ x ∈ s.hs, x.pPolicy = some q → x.Seen = true) :
    (POLICY_fnHouseKeepPolicy s).1.heap q = s.heap q := by
  rw [housekeep_fst]
  exact (sweep_spec s.hs s).2.2.2.2.1 q h

theorem hk_get (s : ServerState) (k : CStr) :
    cfuhash_get (POLICY_fnHouseKeepPolicy s).1.hashPolicy k =
      if k ∈ unseenKeys s.heap s.hs then none else cfuhash_get s.hashPolicy k := by
  rw [housekeep_fst]
  exact (sweep_spec s.hs s).2.2.2.2.2 k

theorem mem_unseenKeys (heap : Nat → zPOLICY) (hs : List tzHouseKeep) (k : CStr) :
    k ∈ unseenKeys heap hs ↔
      ∃ x ∈ hs, ∃ p, x.pPolicy = some p ∧ x.Seen = false ∧ (heap p).key = k := by
  unfold unseenKeys
  rw [List.mem_filterMap]
  constructor
  · rintro ⟨x, hx, h⟩
    cases hp : x.pPolicy with
    | none => rw [hp] at h; cases h
    | some p =>
      rw [hp] at h
      by_cases hs : x.Seen = false
      · simp only [hs, if_true] at h
        exact ⟨x, hx, p, hp, hs, Option.some.inj h⟩
      · simp only [if_neg hs] at h
        cases h
  · rintro ⟨x, hx, p, hp, hs, hk⟩
    refine ⟨x, hx, ?_⟩
    simp only [hp, hs, if_true, hk]

theorem resetSeen_clearUnseen_slot (x y : tzHouseKeep) (p : Nat)
    (hy : y = (fun h : tzHouseKeep => if h.pPolicy ≠ none then { h with Seen := false } else h)
      (clearUnseen x))
    (hp : y.pPolicy = some p) :
    y.Seen = false ∧ x.pPolicy = some p ∧ x.Seen = true := by
  obtain ⟨xp, xs⟩ := x
  cases xp with
  | none =>
    simp [clearUnseen] at hy
    rw [hy] at hp
    cases hp
  | some q =>
    cases xs with
    | false =>
      simp [clearUnseen] at hy
      rw [hy] at hp
      cases hp
    | true =>
      simp [clearUnseen] at hy
      rw [hy] at hp ⊢
      simp at hp
      simp [hp]

/-- The slots after housekeeping: an occupied slot comes from a slot that held
the same policy and was seen, and its flag is reset. -/
theorem hk_slots (s : ServerState) :
    ∀ y ∈ (POLICY_fnHouseKeepPolicy s).1.hs, ∀ p, y.pPolicy = some p →
      y.Seen = false ∧ ∃ x ∈ s.hs, x.pPolicy = some p ∧ x.Seen = true := by
  intro y hy p hp
  rw [hk_hs] at hy
  unfold resetSeen at hy
  rw [List.map_map] at hy
  obtain ⟨x, hx, hxy⟩ := List.mem_map.1 hy
  have h := resetSeen_clearUnseen_slot x y p hxy.symm hp
  exact ⟨h.1, x, hx, h.2⟩

theorem hk_slots_keep (s : ServerState) (x : tzHouseKeep) (p : Nat) (hx : x ∈ s.hs)
    (hp : x.pPolicy = some p) (hs : x.Seen = true) :
    p ∈ rosterPtrs (POLICY_fnHouseKeepPolicy s).1.hs := by
  rw [mem_rosterPtrs, hk_hs]
  refine ⟨{ x with Seen := false }, ?_, hp⟩
  unfold resetSeen
  rw [List.map_map]
  refine List.mem_map.2 ⟨x, hx, ?_⟩
  simp [clearUnseen, hp, hs]

theorem hk_ptrs_sublist (hs : List tzHouseKeep) :
    List.Sublist (rosterPtrs (resetSeen (hs.map clearUnseen))) (rosterPtrs hs) := by
  induction hs with
  | nil => exact List.Sublist.slnil
  | cons x t ih =>
    unfold resetSeen at ih ⊢
    cases hxp : x.pPolicy with
    | none =>
      rw [rosterPtrs_cons_none x t hxp, List.map_cons, List.map_cons, rosterPtrs_cons_none]
      · exact ih
      · simp [clearUnseen, hxp]
    | some q =>
      rw [rosterPtrs_cons_some x t q hxp, List.map_cons, List.map_cons]
      by_cases hs : x.Seen = false
      · rw [rosterPtrs_cons_none]
        · exact List.Sublist.cons _ ih
        · simp [clearUnseen, hxp, hs]
      · rw [rosterPtrs_cons_some _ _ q]
        · exact List.Sublist.cons₂ _ ih
        · simp [clearUnseen, hxp, hs]

theorem ptr_slot_unique (hs : List tzHouseKeep) (hnd : (rosterPtrs hs).Nodup)
    (x y : tzHouseKeep) (p : Nat) (hx : x ∈ hs) (hy : y ∈ hs)
    (hxp : x.pPolicy = some p) (hyp : y.pPolicy = some p) : x = y := by
  induction hs with
  | nil => cases hx
  | cons a t ih =>
    have key : ∀ z ∈ t, z.pPolicy = some p → a.pPolicy = some p → False := by
      intro z hz hzp hap
      rw [rosterPtrs_cons_some a t p hap] at hnd
      exact (List.nodup_cons.1 hnd).1 ((mem_rosterPtrs _ _).2 ⟨z, hz, hzp⟩)
    have hndt : (rosterPtrs t).Nodup := by
      cases hap : a.pPolicy with
      | none => rw [rosterPtrs_cons_none a t hap] at hnd; exact hnd
      | some q => rw [rosterPtrs_cons_some a t q hap] at hnd; exact (List.nodup_cons.1 hnd).2
    rcases List.mem_cons.1 hx with e1 | h1
    · rcases List.mem_cons.1 hy with e2 | h2
      · rw [e1, e2]
      · exact (key y h2 hyp (e1 ▸ hxp)).elim
    · rcases List.mem_cons.1 hy with e2 | h2
      · exact (key x h1 hxp (e2 ▸ hyp)).elim
      · exact ih hndt h1 h2

theorem consistent_housekeep (s : ServerState) (hc : Consistent s) :
    Consistent (POLICY_fnHouseKeepPolicy s).1 := by
  refine ⟨?_, ?_, ?_⟩
  · rw [hk_hs]
    exact hc.nodupPtrs.sublist (hk_ptrs_sublist s.hs)
  · intro p hp
    obtain ⟨y, hy, hyp⟩ := (mem_rosterPtrs _ _).1 hp
    obtain ⟨_, x, hx, hxp, hxs⟩ := hk_slots s y hy p hyp
    have hstored := hc.slotStored p ((mem_rosterPtrs _ _).2 ⟨x, hx, hxp⟩)
    rw [hk_key, hk_get, if_neg]
    · exact hstored
    · intro hmem
      obtain ⟨z, hz, q, hzq, hzs, hk⟩ := (mem_unseenKeys _ _ _).1 hmem
      have hq := hc.slotStored q ((mem_rosterPtrs _ _).2 ⟨z, hz, hzq⟩)
      rw [hk, hstored] at hq
      have hpq : p = q := Option.some.inj hq
      subst hpq
      have := ptr_slot_unique s.hs hc.nodupPtrs x z p hx hz hxp hzq
      subst this
      rw [hxs] at hzs
      cases hzs
  · intro k p hget
    rw [hk_get] at hget
    by_cases hmem : k ∈ unseenKeys s.heap s.hs
    · rw [if_pos hmem] at hget; cases hget
    · rw [if_neg hmem] at hget
      rw [hk_brk, hk_key]
      exact hc.storedKey k p hget

theorem marks_housekeep (s : ServerState) : Marks (POLICY_fnHouseKeepPolicy s).1 [] := by
  intro y hy p hp
  have := (hk_slots s y hy p hp).1
  simp [this]

theorem createAll_cons (s : ServerState) (r : Rule) (rest : List Rule) :
    createAll s (r :: rest) = createAll (POLICY_fnCreatePolicy s (some r.1) r.2).1 rest := rfl

theorem batchKeys_cons (r : Rule) (rest : List Rule) :
    batchKeys (r :: rest) = hashString r.1.Name r.1.Type_ r.2 :: batchKeys rest := rfl

theorem createAll_consistent (b : List Rule) : ∀ s, Consistent s → Consistent (createAll s b) := by
  induction b with
  | nil => intro s h; exact h
  | cons r rest ih =>
    intro s h
    rw [createAll_cons]
    exact ih _ (consistent_create s r.1 r.2 h)

theorem createAll_marks (b : List Rule) : ∀ s P, Consistent s → Marks s P →
    Marks (createAll s b) (P ++ batchKeys b) := by
  induction b with
  | nil =>
    intro s P _ hm
    simpa [batchKeys, createAll] using hm
  | cons r rest ih =>
    intro s P hc hm
    rw [createAll_cons, batchKeys_cons]
    have := ih _ _ (consistent_create s r.1 r.2 hc) (marks_create s r.1 r.2 P hc hm)
    simpa [List.append_assoc] using this

theorem createAll_brk_le (b : List Rule) : ∀ s, s.brk ≤ (createAll s b).brk := by
  induction b with
  | nil => intro s; exact Nat.le_refl _
  | cons r rest ih =>
    intro s
    rw [createAll_cons]
    refine Nat.le_trans ?_ (ih _)
    rw [brk_create]
    exact Nat.le_succ _

theorem createAll_heap_old (b : List Rule) : ∀ s p, p < s.brk →
    (createAll s b).heap p = s.heap p := by
  induction b with
  | nil => intro s p _; rfl
  | cons r rest ih =>
    intro s p hp
    rw [createAll_cons, ih _ p (by rw [brk_create]; exact Nat.lt_succ_of_lt hp),
      heap_create_old s r.1 r.2 p hp]

theorem createAll_get_notin (b : List Rule) : ∀ s k, k ∉ batchKeys b →
    cfuhash_get (createAll s b).hashPolicy k = cfuhash_get s.hashPolicy k := by
  induction b with
  | nil => intro s k _; rfl
  | cons r rest ih =>
    intro s k hk
    rw [batchKeys_cons, List.mem_cons, not_or] at hk
    rw [createAll_cons, ih _ k hk.2, get_create, if_neg (Ne.symm hk.1)]

theorem createAll_get_in (b : List Rule) : ∀ s k, k ∈ batchKeys b →
    (cfuhash_get (createAll s b).hashPolicy k).isSome = true := by
  induction b with
  | nil => intro s k hk; cases hk
  | cons r rest ih =>
    intro s k hk
    rw [createAll_cons]
    by_cases hrest : k ∈ batchKeys rest
    · exact ih _ k hrest
    · rw [batchKeys_cons, List.mem_cons] at hk
      have hk1 : k = hashString r.1.Name r.1.Type_ r.2 := hk.resolve_right hrest
      rw [createAll_get_notin rest _ k hrest, get_create, if_pos hk1.symm]
      rfl

theorem storeView_createAll_notin (b : List Rule) (s : ServerState) (k : CStr)
    (hc : Consistent s) (hk : k ∉ batchKeys b) :
    storeView (createAll s b) k = storeView s k := by
  unfold storeView POLICYHASH_fnFind
  rw [createAll_get_notin b s k hk]
  cases hg : cfuhash_get s.hashPolicy k with
  | none => rfl
  | some p =>
    simp only [Option.map_some']
    rw [createAll_heap_old b s p (hc.storedKey k p hg).1]

theorem storeView_create_key (s : ServerState) (m : datapoint_policy_msg_t) (L : CStr) :
    storeView (POLICY_fnCreatePolicy s (some m) L).1 (hashString m.Name m.Type_ L) =
      some (policyOf m L) := by
  unfold storeView
  rw [find_create, if_pos rfl]
  simp only [Option.map_some']
  rw [heap_create_new]

theorem storeView_createAll_in (b : List Rule) : ∀ s s2 k, Consistent s → Consistent s2 →
    k ∈ batchKeys b → storeView (createAll s b) k = storeView (createAll s2 b) k := by
  induction b with
  | nil => intro s s2 k _ _ hk; cases hk
  | cons r rest ih =>
    intro s s2 k hc hc2 hk
    rw [createAll_cons, createAll_cons]
    have c1 := consistent_create s r.1 r.2 hc
    have c2 := consistent_create s2 r.1 r.2 hc2
    by_cases hrest : k ∈ batchKeys rest
    · exact ih _ _ k c1 c2 hrest
    · rw [batchKeys_cons, List.mem_cons] at hk
      have hk1 : k = hashString r.1.Name r.1.Type_ r.2 := hk.resolve_right hrest
      rw [storeView_createAll_notin rest _ k c1 hrest, storeView_createAll_notin rest _ k c2 hrest,
        hk1, storeView_create_key, storeView_create_key]

theorem slotKeys_create (s : ServerState) (m : datapoint_policy_msg_t) (L : CStr)
    (keys : List CStr) (hc : Consistent s) (hs : SlotKeysIn s keys)
    (hk : hashString m.Name m.Type_ L ∈ keys) :
    SlotKeysIn (POLICY_fnCreatePolicy s (some m) L).1 keys := by
  intro p hp
  obtain ⟨x, hx, hxp⟩ := (mem_rosterPtrs _ _).1 hp
  rcases create_slots s m L hc x hx with h | ⟨h1, h2⟩
  · rw [h] at hxp
    have hpb : s.brk = p := Option.some.inj hxp
    rw [← hpb, heap_create_new, policyOf_key]
    exact hk
  · rw [heap_create_old s m L p (h2 p hxp).1]
    exact hs p ((mem_rosterPtrs _ _).2 ⟨x, h1, hxp⟩)

theorem createAll_slotKeys (b : List Rule) : ∀ s keys, Consistent s → SlotKeysIn s keys →
    (∀ k ∈ batchKeys b, k ∈ keys) → SlotKeysIn (createAll s b) keys := by
  induction b with
  | nil => intro s keys _ h _; exact h
  | cons r rest ih =>
    intro s keys hc hs hsub
    rw [createAll_cons]
    apply ih _ keys (consistent_create s r.1 r.2 hc)
    · exact slotKeys_create s r.1 r.2 keys hc hs (hsub _ (List.mem_cons_self _ _))
    · intro k hk
      exact hsub k (List.mem_cons_of_mem _ hk)

theorem applyBatch_eq (s : ServerState) (b : List Rule) :
    applyBatch s b = (POLICY_fnHouseKeepPolicy (createAll s b)).1 := rfl

theorem consistent_setup (s0 : ServerState) : Consistent (HASH_fnSetup s0) := by
  have hp : rosterPtrs (HASH_fnSetup s0).hs = [] := by
    simp only [HASH_fnSetup, rosterPtrs]
    rw [List.filterMap_eq_nil_iff]
    intro x hx
    rw [(List.mem_replicate.1 hx).2]
  refine ⟨?_, ?_, ?_⟩
  · rw [hp]; exact List.nodup_nil
  · intro p h; rw [hp] at h; cases h
  · intro k p h; cases h

theorem marks_setup (s0 : ServerState) : Marks (HASH_fnSetup s0) [] := by
  intro x hx p hp
  simp only [HASH_fnSetup] at hx
  rw [(List.mem_replicate.1 hx).2] at hp
  cases hp

theorem consistent_applyBatch (s : ServerState) (b : List Rule) (hc : Consistent s) :
    Consistent (applyBatch s b) :=
  consistent_housekeep _ (createAll_consistent b s hc)

theorem marks_applyBatch (s : ServerState) (b : List Rule) : Marks (applyBatch s b) [] :=
  marks_housekeep _

theorem consistent_applyBatches (bs : List (List Rule)) : ∀ s, Consistent s →
    Consistent (applyBatches s bs) := by
  induction bs with
  | nil => intro s h; exact h
  | cons b rest ih =>
    intro s h
    exact ih _ (consistent_applyBatch s b h)

theorem marks_applyBatches (bs : List (List Rule)) : ∀ s, Marks s [] →
    Marks (applyBatches s bs) [] := by
  induction bs with
  | nil => intro s h; exact h
  | cons b rest ih =>
    intro s _
    exact ih _ (marks_applyBatch s b)

/-- After a pass that started with all flags reset, the rules of the batch are
stored as registered, and every occupied slot holds a rule of the batch. -/
theorem applyBatch_view_in (s : ServerState) (b : List Rule) (hc : Consistent s)
    (hm : Marks s []) (k : CStr) (hk : k ∈ batchKeys b) :
    storeView (applyBatch s b) k = storeView (createAll s b) k := by
  have hcc := createAll_consistent b s hc
  have hmc : Marks (createAll s b) (batchKeys b) := by
    simpa using createAll_marks b s [] hc hm
  have hnot : k ∉ unseenKeys (createAll s b).heap (createAll s b).hs := by
    intro hmem
    obtain ⟨x, hx, p, hxp, hxs, hkey⟩ := (mem_unseenKeys _ _ _).1 hmem
    have := (hmc x hx p hxp).2 (hkey ▸ hk)
    rw [hxs] at this
    cases this
  unfold storeView POLICYHASH_fnFind
  rw [applyBatch_eq, hk_get, if_neg hnot]
  cases hg : cfuhash_get (createAll s b).hashPolicy k with
  | none => rfl
  | some p =>
    simp only [Option.map_some']
    rw [hk_heap]
    intro x hx hxp
    exact (hmc x hx p hxp).2 ((hcc.storedKey k p hg).2 ▸ hk)

theorem applyBatch_slotKeys (s : ServerState) (b : List Rule) (hc : Consistent s)
    (hm : Marks s []) : SlotKeysIn (applyBatch s b) (batchKeys b) := by
  have hmc : Marks (createAll s b) (batchKeys b) := by
    simpa using createAll_marks b s [] hc hm
  intro p hp
  obtain ⟨y, hy, hyp⟩ := (mem_rosterPtrs _ _).1 hp
  obtain ⟨_, x, hx, hxp, hxs⟩ := hk_slots (createAll s b) y hy p hyp
  rw [applyBatch_eq, hk_key]
  exact (hmc x hx p hxp).1 hxs

/-- A pass in which every occupied slot is seen removes nothing. -/
theorem housekeep_view_allSeen (c : ServerState)
    (hall : ∀ x ∈ c.hs, ∀ p, x.pPolicy = some p → x.Seen = true) :
    unseenKeys c.heap c.hs = [] ∧
    ∀ k, storeView (POLICY_fnHouseKeepPolicy c).1 k = storeView c k := by
  have hnil : unseenKeys c.heap c.hs = [] := by
    apply List.eq_nil_iff_forall_not_mem.2
    intro k hmem
    obtain ⟨x, hx, p, hxp, hxs, _⟩ := (mem_unseenKeys _ _ _).1 hmem
    have := hall x hx p hxp
    rw [hxs] at this
    cases this
  refine ⟨hnil, fun k => ?_⟩
  unfold storeView POLICYHASH_fnFind
  rw [hk_get, hnil, if_neg (List.not_mem_nil _)]
  cases hg : cfuhash_get c.hashPolicy k with
  | none => rfl
  | some p =>
    simp only [Option.map_some']
    rw [hk_heap c p (fun x hx hxp => hall x hx p hxp)]

theorem reapply_view (s : ServerState) (b : List Rule) (hc : Consistent s) (hm : Marks s []) :
    unseenKeys (createAll (applyBatch s b) b).heap (createAll (applyBatch s b) b).hs = [] ∧
    ∀ k, storeView (applyBatch (applyBatch s b) b) k = storeView (applyBatch s b) k := by
  have hc1 := consistent_applyBatch s b hc
  have hm1 := marks_applyBatch s b
  have hsk1 := applyBatch_slotKeys s b hc hm
  have hcc2 := createAll_consistent b _ hc1
  have hmc2 : Marks (createAll (applyBatch s b) b) (batchKeys b) := by
    simpa using createAll_marks b _ [] hc1 hm1
  have hsk2 := createAll_slotKeys b _ (batchKeys b) hc1 hsk1 (fun k hk => hk)
  have hall : ∀ x ∈ (createAll (applyBatch s b) b).hs, ∀ p, x.pPolicy = some p →
      x.Seen = true := by
    intro x hx p hxp
    exact (hmc2 x hx p hxp).2 (hsk2 p ((mem_rosterPtrs _ _).2 ⟨x, hx, hxp⟩))
  obtain ⟨hnil, hview⟩ := housekeep_view_allSeen _ hall
  refine ⟨hnil, fun k => ?_⟩
  rw [applyBatch_eq (applyBatch s b) b, hview k]
  by_cases hk : k ∈ batchKeys b
  · rw [storeView_createAll_in b (applyBatch s b) s k hc1 hc hk,
      applyBatch_view_in s b hc hm k hk]
  · exact storeView_createAll_notin b _ k hc1 hk

theorem mem_storeKeys (s : ServerState) (k : CStr) :
    k ∈ storeKeys s ↔ (cfuhash_get s.hashPolicy k).isSome = true := by
  unfold storeKeys
  induction s.hashPolicy with
  | nil => simp [cfuhash_get]
  | cons e rest ih =>
    obtain ⟨k1, v1⟩ := e
    rw [List.map_cons, List.mem_cons, ih]
    show _ ↔ (if k1 = k then some v1 else cfuhash_get rest k).isSome = true
    by_cases h : k1 = k
    · simp [h]
    · simp [h, Ne.symm h]

theorem mem_storeKeys_view (s : ServerState) (k : CStr) :
    k ∈ storeKeys s ↔ (storeView s k).isSome = true := by
  rw [mem_storeKeys]
  unfold storeView POLICYHASH_fnFind
  cases cfuhash_get s.hashPolicy k <;> simp

/-- C10: in every state reached from `HASH_fnSetup` by applying whole batches,
applying a batch (a `POLICY_fnCreatePolicy` for each rule, then
`POLICY_fnHouseKeepPolicy`) a second time right after the first leaves the
policy store with the same keys and the same rule under each key as after the
first application, and the sweep of the second pass finds no slot to evict. -/
theorem C10_reconciliation_idempotent (s0 : ServerState) (before : List (List Rule))
    (batch : List Rule) :
    (∀ k, k ∈ storeKeys (applyBatch (applyBatch (applyBatches (HASH_fnSetup s0) before) batch)
        batch) ↔
      k ∈ storeKeys (applyBatch (applyBatches (HASH_fnSetup s0) before) batch)) ∧
    (∀ k, storeView (applyBatch (applyBatch (applyBatches (HASH_fnSetup s0) before) batch)
        batch) k =
      storeView (applyBatch (applyBatches (HASH_fnSetup s0) before) batch) k) ∧
    unseenKeys
      (createAll (applyBatch (applyBatches (HASH_fnSetup s0) before) batch) batch).heap
      (createAll (applyBatch (applyBatches (HASH_fnSetup s0) before) batch) batch).hs = [] := by
  have hc := consistent_applyBatches before _ (consistent_setup s0)
  have hm := marks_applyBatches before _ (marks_setup s0)
  refine ⟨fun k => ?_, (reapply_view _ batch hc hm).2, (reapply_view _ batch hc hm).1⟩
  rw [mem_storeKeys_view, mem_storeKeys_view, (reapply_view _ batch hc hm).2 k]

theorem length_placeNew (hs : List tzHouseKeep) (p : Nat) :
    (placeNew hs p).length = hs.length := by
  induction hs with
  | nil => rfl
  | cons x t ih =>
    unfold placeNew
    split
    · rfl
    · simp [ih]

theorem length_markSeen (hs : List tzHouseKeep) (f p : Nat) :
    (markSeen hs f p).length = hs.length := by
  induction hs with
  | nil => rfl
  | cons x t ih =>
    unfold markSeen
    split
    · rfl
    · simp [ih]

theorem length_create (s : ServerState) (m : datapoint_policy_msg_t) (L : CStr) :
    (POLICY_fnCreatePolicy s (some m) L).1.hs.length = s.hs.length := by
  rw [hs_create]
  cases cfuhash_get s.hashPolicy (hashString m.Name m.Type_ L) with
  | none => exact length_placeNew _ _
  | some f => exact length_markSeen _ _ _

theorem length_housekeep (s : ServerState) :
    (POLICY_fnHouseKeepPolicy s).1.hs.length = s.hs.length := by
  rw [hk_hs]
  simp [resetSeen]

theorem rosterPtrs_length_full (hs : List tzHouseKeep) (h : ∀ y ∈ hs, y.pPolicy ≠ none) :
    (rosterPtrs hs).length = hs.length := by
  induction hs with
  | nil => rfl
  | cons x t ih =>
    cases hx : x.pPolicy with
    | none => exact absurd hx (h x (List.mem_cons_self _ _))
    | some p =>
      rw [rosterPtrs_cons_some x t p hx, List.length_cons, List.length_cons,
        ih (fun y hy => h y (List.mem_cons_of_mem _ hy))]

theorem exists_empty_slot (hs : List tzHouseKeep) (h : (rosterPtrs hs).length < hs.length) :
    ∃ y ∈ hs, y.pPolicy = none := by
  by_contra hn
  have hfull : ∀ y ∈ hs, y.pPolicy ≠ none := fun y hy hnone => hn ⟨y, hy, hnone⟩
  rw [rosterPtrs_length_full hs hfull] at h
  exact Nat.lt_irrefl _ h

/-- Room for a new key: when the keys of the store together with a key that is
not stored are among at most as many keys as the roster has slots, a slot is
empty. -/
theorem room_for_new (s : ServerState) (keys : List CStr) (key : CStr)
    (hc : Consistent s) (hin : StoreIn s keys) (hkey : key ∈ keys)
    (hnew : cfuhash_get s.hashPolicy key = none)
    (hcap : keys.dedup.length ≤ s.hs.length) :
    ∃ y ∈ s.hs, y.pPolicy = none := by
  apply exists_empty_slot
  have hnd : ((rosterPtrs s.hs).map (fun p => (s.heap p).key)).Nodup := by
    apply List.Nodup.map_on _ hc.nodupPtrs
    intro p hp q hq hpq
    have h1 := hc.slotStored p hp
    have h2 := hc.slotStored q hq
    have hpq2 : (s.heap p).key = (s.heap q).key := hpq
    rw [hpq2, h2] at h1
    exact (Option.some.inj h1).symm
  have hnotin : key ∉ (rosterPtrs s.hs).map (fun p => (s.heap p).key) := by
    intro hmem
    obtain ⟨p, hp, hpk⟩ := List.mem_map.1 hmem
    have h1 := hc.slotStored p hp
    have hpk2 : (s.heap p).key = key := hpk
    rw [hpk2, hnew] at h1
    cases h1
  have hnd2 : (key :: (rosterPtrs s.hs).map (fun p => (s.heap p).key)).Nodup :=
    List.nodup_cons.2 ⟨hnotin, hnd⟩
  have hsub : (key :: (rosterPtrs s.hs).map (fun p => (s.heap p).key)) ⊆ keys.dedup := by
    intro k hk
    rw [List.mem_dedup]
    rcases List.mem_cons.1 hk with rfl | hk
    · exact hkey
    · obtain ⟨p, hp, hpk⟩ := List.mem_map.1 hk
      have hpk2 : (s.heap p).key = k := hpk
      rw [← hpk2]
      apply hin
      rw [hc.slotStored p hp]
      rfl
  have hlen := (List.subperm_of_subset hnd2 hsub).length_le
  rw [List.length_cons, List.length_map] at hlen
  omega

theorem storeIn_create (s : ServerState) (m : datapoint_policy_msg_t) (L : CStr)
    (keys : List CStr) (hin : StoreIn s keys) (hkey : hashString m.Name m.Type_ L ∈ keys) :
    StoreIn (POLICY_fnCreatePolicy s (some m) L).1 keys := by
  intro k hk
  rw [get_create] at hk
  by_cases h : hashString m.Name m.Type_ L = k
  · exact h ▸ hkey
  · rw [if_neg h] at hk
    exact hin k hk

theorem createAll_tracked (b : List Rule) : ∀ s keys, Consistent s → AllTracked s →
    StoreIn s keys → (∀ k ∈ batchKeys b, k ∈ keys) → keys.dedup.length ≤ s.hs.length →
    AllTracked (createAll s b) ∧ (createAll s b).hs.length = s.hs.length := by
  induction b with
  | nil => intro s keys _ ht _ _ _; exact ⟨ht, rfl⟩
  | cons r rest ih =>
    intro s keys hc ht hin hsub hcap
    rw [createAll_cons]
    have hkey : hashString r.1.Name r.1.Type_ r.2 ∈ keys := hsub _ (List.mem_cons_self _ _)
    have hroom : cfuhash_get s.hashPolicy (hashString r.1.Name r.1.Type_ r.2) = none →
        ∃ y ∈ s.hs, y.pPolicy = none :=
      fun hnew => room_for_new s keys _ hc hin hkey hnew hcap
    have h := ih _ keys (consistent_create s r.1 r.2 hc) (tracked_create s r.1 r.2 hc ht hroom)
      (storeIn_create s r.1 r.2 keys hin hkey)
      (fun k hk => hsub k (List.mem_cons_of_mem _ hk))
      (by rw [length_create]; exact hcap)
    rw [length_create] at h
    exact h

theorem tracked_housekeep (s : ServerState) (hc : Consistent s) (ht : AllTracked s) :
    AllTracked (POLICY_fnHouseKeepPolicy s).1 := by
  intro k p hget
  rw [hk_get] at hget
  by_cases hmem : k ∈ unseenKeys s.heap s.hs
  · rw [if_pos hmem] at hget; cases hget
  · rw [if_neg hmem] at hget
    obtain ⟨x, hx, hxp⟩ := (mem_rosterPtrs _ _).1 (ht k p hget)
    apply hk_slots_keep s x p hx hxp
    by_contra hs
    apply hmem
    exact (mem_unseenKeys _ _ _).2 ⟨x, hx, p, hxp, by simpa using hs, (hc.storedKey k p hget).2⟩

theorem reconciled_setup (s0 : ServerState) : Reconciled (HASH_fnSetup s0) [] := by
  refine ⟨consistent_setup s0, ?_, marks_setup s0, ?_, ?_⟩
  · intro k p h; cases h
  · simp [HASH_fnSetup]
  · intro k; simp [storeKeys, HASH_fnSetup]

theorem reconciled_applyBatch (s : ServerState) (prev : List CStr) (b : List Rule)
    (h : Reconciled s prev)
    (hcap : (prev ++ batchKeys b).dedup.length ≤ ESTIMATED_NUM_POLICY) :
    Reconciled (applyBatch s b) (batchKeys b) := by
  have hin : StoreIn s (prev ++ batchKeys b) := by
    intro k hk
    exact List.mem_append_left _ ((h.storeKeys_iff k).1 ((mem_storeKeys s k).2 hk))
  have hcc := createAll_consistent b s h.consistent
  have hmc : Marks (createAll s b) (batchKeys b) := by
    simpa using createAll_marks b s [] h.consistent h.marks
  obtain ⟨htc, hlen⟩ := createAll_tracked b s (prev ++ batchKeys b) h.consistent h.tracked hin
    (fun k hk => List.mem_append_right _ hk) (by rw [h.slots]; exact hcap)
  refine ⟨consistent_applyBatch s b h.consistent, tracked_housekeep _ hcc htc,
    marks_applyBatch s b, ?_, ?_⟩
  · rw [applyBatch_eq, length_housekeep, hlen, h.slots]
  · intro k
    rw [mem_storeKeys, applyBatch_eq, hk_get]
    constructor
    · intro hk
      by_cases hmem : k ∈ unseenKeys (createAll s b).heap (createAll s b).hs
      · rw [if_pos hmem] at hk; cases hk
      · rw [if_neg hmem] at hk
        cases hg : cfuhash_get (createAll s b).hashPolicy k with
        | none => rw [hg] at hk; cases hk
        | some p =>
          obtain ⟨x, hx, hxp⟩ := (mem_rosterPtrs _ _).1 (htc k p hg)
          have hkey := (hcc.storedKey k p hg).2
          have hseen : x.Seen = true := by
            by_contra hs
            apply hmem
            exact (mem_unseenKeys _ _ _).2 ⟨x, hx, p, hxp, by simpa using hs, hkey⟩
          exact hkey ▸ (hmc x hx p hxp).1 hseen
    · intro hk
      have hnot : k ∉ unseenKeys (createAll s b).heap (createAll s b).hs := by
        intro hmem
        obtain ⟨x, hx, p, hxp, hxs, hkey⟩ := (mem_unseenKeys _ _ _).1 hmem
        have := (hmc x hx p hxp).2 (hkey ▸ hk)
        rw [hxs] at this
        cases this
      rw [if_neg hnot]
      exact createAll_get_in b s k hk

theorem applyBatches_snoc (before : List (List Rule)) (batch : List Rule) :
    ∀ s, applyBatches s (before ++ [batch]) = applyBatch (applyBatches s before) batch := by
  induction before with
  | nil => intro s; rfl
  | cons b rest ih => intro s; exact ih (applyBatch s b)

theorem reconciled_applyBatches (before : List (List Rule)) (batch : List Rule) :
    ∀ s prev, Reconciled s prev → WithinCapacity prev (before ++ [batch]) →
      Reconciled (applyBatches s (before ++ [batch])) (batchKeys batch) := by
  induction before with
  | nil =>
    intro s prev h hcap
    exact reconciled_applyBatch s prev batch h hcap.1
  | cons b rest ih =>
    intro s prev h hcap
    exact ih _ _ (reconciled_applyBatch s prev b h hcap.1) hcap.2

/-- C9 (amended): starting from the empty store and roster of `HASH_fnSetup`,
for every sequence of batches in which each batch, taken together with the
batch applied before it, has at most `ESTIMATED_NUM_POLICY` distinct keys,
the keys of the policy store after the last application are exactly the keys
of the batch just applied, every stored policy is held by a roster slot, and
every occupied roster slot holds a policy of that batch (the slot of a rule
that the batch omits is empty). -/
theorem C9_eviction_when_consecutive_batches_fit (s0 : ServerState)
    (before : List (List Rule)) (batch : List Rule)
    (hcap : WithinCapacity [] (before ++ [batch])) :
    (∀ k, k ∈ storeKeys (applyBatches (HASH_fnSetup s0) (before ++ [batch])) ↔
      k ∈ batchKeys batch) ∧
    AllTracked (applyBatches (HASH_fnSetup s0) (before ++ [batch])) ∧
    SlotKeysIn (applyBatches (HASH_fnSetup s0) (before ++ [batch])) (batchKeys batch) := by
  have h := reconciled_applyBatches before batch _ [] (reconciled_setup s0) hcap
  refine ⟨h.storeKeys_iff, h.tracked, ?_⟩
  rw [applyBatches_snoc]
  exact applyBatch_slotKeys _ batch (consistent_applyBatches before _ (consistent_setup s0))
    (marks_applyBatches before _ (marks_setup s0))

theorem C9_eviction_when_consecutive_batches_fit_witness :
    Rule.key (siteRule 1) ∈ storeKeys (applyBatches (HASH_fnSetup bootState)
      ([[siteRule 1, siteRule 2, siteRule 3]] ++ [[siteRule 1, siteRule 3]])) ∧
    Rule.key (siteRule 2) ∉ storeKeys (applyBatches (HASH_fnSetup bootState)
      ([[siteRule 1, siteRule 2, siteRule 3]] ++ [[siteRule 1, siteRule 3]])) ∧
    Rule.key (siteRule 3) ∈ storeKeys (applyBatches (HASH_fnSetup bootState)
      ([[siteRule 1, siteRule 2, siteRule 3]] ++ [[siteRule 1, siteRule 3]])) :=
  ⟨((C9_eviction_when_consecutive_batches_fit bootState [[siteRule 1, siteRule 2, siteRule 3]]
      [siteRule 1, siteRule 3] ⟨by decide, by decide, trivial⟩).1 _).2 (by decide),
    fun h => absurd
      (((C9_eviction_when_consecutive_batches_fit bootState
        [[siteRule 1, siteRule 2, siteRule 3]] [siteRule 1, siteRule 3]
        ⟨by decide, by decide, trivial⟩).1 _).1 h) (by decide),
    ((C9_eviction_when_consecutive_batches_fit bootState [[siteRule 1, siteRule 2, siteRule 3]]
      [siteRule 1, siteRule 3] ⟨by decide, by decide, trivial⟩).1 _).2 (by decide)⟩

theorem untracked_create (s : ServerState) (m : datapoint_policy_msg_t) (L k : CStr)
    (hc : Consistent s) (hu : Untracked s k) :
    Untracked (POLICY_fnCreatePolicy s (some m) L).1 k := by
  obtain ⟨p, hget, hp⟩ := hu
  have hfresh : s.brk ∉ rosterPtrs s.hs := fun h => Nat.lt_irrefl _ (hc.ptr_lt h)
  by_cases hk : hashString m.Name m.Type_ L = k
  · refine ⟨s.brk, by rw [get_create, if_pos hk], ?_⟩
    rw [hs_create, hk, hget]
    simp only
    rw [markSeen_absent s.hs p s.brk hp]
    exact hfresh
  · refine ⟨p, by rw [get_create, if_neg hk]; exact hget, ?_⟩
    intro hmem
    obtain ⟨x, hx, hxp⟩ := (mem_rosterPtrs _ _).1 hmem
    rcases create_slots s m L hc x hx with h | ⟨h1, _⟩
    · rw [h] at hxp
      have hpb : s.brk = p := Option.some.inj hxp
      exact Nat.lt_irrefl _ (hpb ▸ (hc.storedKey k p hget).1)
    · exact hp ((mem_rosterPtrs _ _).2 ⟨x, h1, hxp⟩)

theorem untracked_createAll (b : List Rule) : ∀ s k, Consistent s → Untracked s k →
    Untracked (createAll s b) k := by
  induction b with
  | nil => intro s k _ h; exact h
  | cons r rest ih =>
    intro s k hc hu
    rw [createAll_cons]
    exact ih _ k (consistent_create s r.1 r.2 hc) (untracked_create s r.1 r.2 k hc hu)

theorem untracked_housekeep (s : ServerState) (k : CStr) (hc : Consistent s)
    (hu : Untracked s k) : Untracked (POLICY_fnHouseKeepPolicy s).1 k := by
  obtain ⟨p, hget, hp⟩ := hu
  refine ⟨p, ?_, ?_⟩
  · rw [hk_get, if_neg]
    · exact hget
    · intro hmem
      obtain ⟨x, hx, q, hxq, _, hkey⟩ := (mem_unseenKeys _ _ _).1 hmem
      have hq := hc.slotStored q ((mem_rosterPtrs _ _).2 ⟨x, hx, hxq⟩)
      rw [hkey, hget] at hq
      have hpq : p = q := Option.some.inj hq
      exact hp ((mem_rosterPtrs _ _).2 ⟨x, hx, hpq ▸ hxq⟩)
  · intro hmem
    rw [hk_hs] at hmem
    exact hp ((hk_ptrs_sublist s.hs).subset hmem)

theorem untracked_applyBatch (s : ServerState) (b : List Rule) (k : CStr) (hc : Consistent s)
    (hu : Untracked s k) : Untracked (applyBatch s b) k :=
  untracked_housekeep _ k (createAll_consistent b s hc) (untracked_createAll b s k hc hu)

theorem untracked_stored (s : ServerState) (k : CStr) (hu : Untracked s k) :
    k ∈ storeKeys s := by
  obtain ⟨p, hget, _⟩ := hu
  rw [mem_storeKeys, hget]
  rfl

/-- A reconciled state whose store holds as many distinct keys as the roster
has slots has no empty slot. -/
theorem reconciled_full (s : ServerState) (keys : List CStr) (h : Reconciled s keys)
    (hnd : keys.Nodup) (hlen : keys.length = ESTIMATED_NUM_POLICY) :
    ∀ y ∈ s.hs, y.pPolicy ≠ none := by
  have hsub : keys ⊆ (rosterPtrs s.hs).map (fun p => (s.heap p).key) := by
    intro k hk
    have hstored := (mem_storeKeys s k).1 ((h.storeKeys_iff k).2 hk)
    cases hg : cfuhash_get s.hashPolicy k with
    | none => rw [hg] at hstored; cases hstored
    | some p =>
      exact List.mem_map.2 ⟨p, h.tracked k p hg, (h.consistent.storedKey k p hg).2⟩
  have h1 := (List.subperm_of_subset hnd hsub).length_le
  rw [List.length_map, hlen] at h1
  intro y hy hnone
  obtain ⟨l1, l2, e⟩ := List.append_of_mem hy
  have h2 : (rosterPtrs s.hs).length ≤ l1.length + l2.length := by
    rw [e, rosterPtrs_append, rosterPtrs_cons_none y l2 hnone, List.length_append]
    exact Nat.add_le_add (List.length_filterMap_le _ _) (List.length_filterMap_le _ _)
  have h3 : s.hs.length = l1.length + l2.length + 1 := by
    rw [e, List.length_append, List.length_cons]
    omega
  have h4 := h.slots
  omega

/-- A new rule that arrives while the roster is full is stored, and no slot
holds it. -/
theorem create_on_full_roster (s : ServerState) (m : datapoint_policy_msg_t) (L : CStr)
    (hc : Consistent s) (hfull : ∀ y ∈ s.hs, y.pPolicy ≠ none)
    (hnew : cfuhash_get s.hashPolicy (hashString m.Name m.Type_ L) = none) :
    Untracked (POLICY_fnCreatePolicy s (some m) L).1 (hashString m.Name m.Type_ L) := by
  refine ⟨s.brk, by rw [get_create, if_pos rfl], ?_⟩
  rw [hs_create, hnew]
  simp only
  rw [placeNew_full s.hs s.brk hfull]
  exact fun h => Nat.lt_irrefl _ (hc.ptr_lt h)

theorem siteRule_key_inj (i j : Nat) (h : Rule.key (siteRule i) = Rule.key (siteRule j)) :
    i = j := by
  unfold Rule.key siteRule at h
  have h2 := (hashString_eq_iff _ _ _ _).1 h
  have h3 := congrArg List.length h2
  simp only [strlwr, List.length_map, List.length_replicate] at h3
  omega

theorem fullBatch_keys_nodup : (batchKeys fullBatch).Nodup := by
  unfold batchKeys fullBatch
  rw [List.map_map]
  apply List.Nodup.map_on _ (List.nodup_range _)
  intro i _ j _ hij
  exact siteRule_key_inj i j hij

theorem fullBatch_keys_length : (batchKeys fullBatch).length = ESTIMATED_NUM_POLICY := by
  unfold batchKeys fullBatch
  rw [List.length_map, List.length_map, List.length_range]

theorem siteRule_200_not_in_fullBatch : Rule.key (siteRule 200) ∉ batchKeys fullBatch := by
  unfold batchKeys fullBatch
  rw [List.map_map]
  intro h
  obtain ⟨i, hi, hk⟩ := List.mem_map.1 h
  have := siteRule_key_inj i 200 hk
  rw [List.mem_range, this] at hi
  exact Nat.lt_irrefl _ hi

theorem applyBatches_three (s : ServerState) (a b c : List Rule) :
    applyBatches s [a, b, c] = applyBatch (applyBatch (applyBatch s a) b) c := rfl

theorem applyBatch_single (s : ServerState) (r : Rule) :
    applyBatch s [r] = (POLICY_fnHouseKeepPolicy (POLICY_fnCreatePolicy s (some r.1) r.2).1).1 :=
  rfl

theorem batchKeys_single (r : Rule) : batchKeys [r] = [Rule.key r] := rfl

theorem single_batch_fits (r : Rule) :
    (batchKeys [r]).dedup.length ≤ ESTIMATED_NUM_POLICY := by
  rw [batchKeys_single, List.dedup_cons_of_not_mem (List.not_mem_nil _), List.dedup_nil]
  exact Nat.le_of_ble_eq_true rfl

/-- After a batch of `ESTIMATED_NUM_POLICY` distinct keys has been applied to
the empty store, a single new rule is stored without a slot and survives every
later batch. -/
theorem overflow_rule_survives (s0 : ServerState) (full : List Rule) (r : Rule)
    (later : List Rule) (hnd : (batchKeys full).Nodup)
    (hlen : (batchKeys full).length = ESTIMATED_NUM_POLICY)
    (hnew : Rule.key r ∉ batchKeys full) :
    Rule.key r ∈ storeKeys (applyBatches (HASH_fnSetup s0) [full, [r], later]) := by
  have hcap : ([] ++ batchKeys full).dedup.length ≤ ESTIMATED_NUM_POLICY := by
    rw [List.nil_append, hnd.dedup, hlen]
  have hrec := reconciled_applyBatch _ [] full (reconciled_setup s0) hcap
  have hfull := reconciled_full _ _ hrec hnd hlen
  have hnone : cfuhash_get (applyBatch (HASH_fnSetup s0) full).hashPolicy
      (hashString r.1.Name r.1.Type_ r.2) = none := by
    cases hg : cfuhash_get (applyBatch (HASH_fnSetup s0) full).hashPolicy
        (hashString r.1.Name r.1.Type_ r.2) with
    | none => rfl
    | some p =>
      exfalso
      apply hnew
      apply (hrec.storeKeys_iff _).1
      rw [mem_storeKeys]
      unfold Rule.key
      rw [hg]
      rfl
  have hu1 := create_on_full_roster _ r.1 r.2 hrec.consistent hfull hnone
  have hc1 := consistent_create _ r.1 r.2 hrec.consistent
  have hu2 := untracked_housekeep _ _ hc1 hu1
  have hc2 := consistent_housekeep _ hc1
  have hu3 := untracked_applyBatch _ later _ hc2 hu2
  rw [applyBatches_three, applyBatch_single]
  exact untracked_stored _ _ hu3

/-- C9 (counterexample): three batches, each with at most
`ESTIMATED_NUM_POLICY` distinct keys: the 200 rules of `fullBatch`, then the
single rule of site 200, then the single rule of site 201. The rule of site 200
arrives while the 200 slots still hold the rules of the first batch, so no slot
takes it; after the third batch its key is still in the policy store, although
the third batch does not contain it. -/
theorem C9_counterexample :
    (batchKeys fullBatch).dedup.length ≤ ESTIMATED_NUM_POLICY ∧
    (batchKeys [siteRule 200]).dedup.length ≤ ESTIMATED_NUM_POLICY ∧
    (batchKeys [siteRule 201]).dedup.length ≤ ESTIMATED_NUM_POLICY ∧
    Rule.key (siteRule 200) ∈ storeKeys (applyBatches (HASH_fnSetup bootState)
      [fullBatch, [siteRule 200], [siteRule 201]]) ∧
    Rule.key (siteRule 200) ∉ batchKeys [siteRule 201] := by
  refine ⟨?_, single_batch_fits _, single_batch_fits _,
    overflow_rule_survives bootState fullBatch (siteRule 200) [siteRule 201]
      fullBatch_keys_nodup fullBatch_keys_length siteRule_200_not_in_fullBatch, ?_⟩
  · rw [fullBatch_keys_nodup.dedup, fullBatch_keys_length]
  · intro h
    rw [batchKeys_single, List.mem_singleton] at h
    exact absurd (siteRule_key_inj 200 201 h) (by decide)

theorem tolower_eq_colon (c : Char) : (tolower c == COLON) = (c == COLON) := by
  unfold tolower
  by_cases h : 65 ≤ c.toNat ∧ c.toNat ≤ 90
  · rw [if_pos h]
    have hc : (c == COLON) = false := by
      rw [beq_eq_false_iff_ne]
      intro e
      rw [e] at h
      exact absurd h (by decide)
    rw [hc]
    obtain ⟨n, hn⟩ : ∃ n, c.toNat = n := ⟨_, rfl⟩
    rw [hn] at h ⊢
    obtain ⟨h1, h2⟩ := h
    interval_cases n <;> rfl
  · rw [if_neg h]

theorem strtok_strlwr (s : CStr) :
    strtok (strlwr s) = (strtok s).map (fun p => (strlwr p.1, strlwr p.2)) := by
  have e1 : ((fun c => c == COLON) ∘ tolower) = (fun c => c == COLON) := by
    funext c; exact tolower_eq_colon c
  have e2 : ((fun c => c != COLON) ∘ tolower) = (fun c => c != COLON) := by
    funext c
    show (!(tolower c == COLON)) = !(c == COLON)
    rw [tolower_eq_colon]
  unfold strtok strlwr
  simp only [List.dropWhile_map, List.takeWhile_map, e1, e2, List.map_eq_nil_iff]
  by_cases h : List.dropWhile (fun c => c == COLON) s = []
  · simp [h]
  · simp [h, List.map_drop]

theorem strtokSecond_strlwr (s : CStr) :
    strtokSecond (strlwr s) = (strtokSecond s).map strlwr := by
  unfold strtokSecond
  rw [strtok_strlwr]
  cases h : strtok s with
  | none => rfl
  | some p =>
    simp only [Option.map_some']
    rw [strtok_strlwr]
    cases strtok p.2 <;> rfl

theorem stricmp_strlwr (a b : CStr) : stricmp (strlwr a) b = 0 ↔ stricmp a b = 0 := by
  rw [stricmp_eq_zero_iff, stricmp_eq_zero_iff, strlwr_idem]

theorem typeString2Val_strlwr (K : Codes) (v : CStr) :
    policy_fnTypeString2Val K (strlwr v) = policy_fnTypeString2Val K v := by
  unfold policy_fnTypeString2Val
  simp only [stricmp_strlwr]

theorem isTypeTag_strlwr (tag : CStr) : isTypeTag (strlwr tag) ↔ isTypeTag tag := by
  unfold isTypeTag
  rw [strlwr_idem]

theorem tokenizeStep_ok (K : Codes) (tm : TagMap) (f : TagFields) (t : Nat)
    (r : TagMap × TagFields) (h : tokenizeStep K tm f t = Except.ok r) :
    ∃ tag, tm t = some tag ∧ r.1 = Function.update tm t (some (strlwr tag)) ∧
      (isTypeTag tag → ∃ v, strtokSecond tag = some v ∧
        r.2.typeInt = policy_fnTypeString2Val K v) ∧
      (¬ isTypeTag tag → r.2.typeInt = f.typeInt) := by
  unfold tokenizeStep at h
  split at h
  · cases h
  · cases htag : tm t with
    | none => rw [htag] at h; cases h
    | some tag =>
      rw [htag] at h
      simp only at h
      refine ⟨tag, rfl, ?_⟩
      by_cases h1 : strstr (strlwr tag) "type".data = true
      · rw [if_pos h1] at h
        cases hv : strtokSecond tag with
        | none => rw [hv] at h; cases h
        | some v =>
          rw [hv] at h
          cases h
          exact ⟨rfl, fun _ => ⟨v, rfl, rfl⟩, fun hn => absurd h1 hn⟩
      · rw [if_neg h1] at h
        have hnot : ¬ isTypeTag tag := h1
        by_cases h2 : strstr (strlwr tag) "location".data = true
        · rw [if_pos h2] at h
          cases hv : strtokSecond tag with
          | none => rw [hv] at h; cases h
          | some v =>
            rw [hv] at h
            cases h
            exact ⟨rfl, fun hy => absurd hy hnot, fun _ => rfl⟩
        · rw [if_neg h2] at h
          by_cases h3 : strstr (strlwr tag) "user".data = true
          · rw [if_pos h3] at h
            cases hv : strtokSecond tag with
            | none => rw [hv] at h; cases h
            | some v =>
              rw [hv] at h
              cases h
              exact ⟨rfl, fun hy => absurd hy hnot, fun _ => rfl⟩
          · rw [if_neg h3] at h
            by_cases h4 : strstr (strlwr tag) "group".data = true
            · rw [if_pos h4] at h
              cases hv : strtokSecond tag with
              | none => rw [hv] at h; cases h
              | some v =>
                rw [hv] at h
                cases h
                exact ⟨rfl, fun hy => absurd hy hnot, fun _ => rfl⟩
            · rw [if_neg h4] at h
              cases h
              exact ⟨rfl, fun hy => absurd hy hnot, fun _ => rfl⟩

theorem typeTagsInvalid_update (K : Codes) (tm : TagMap) (T : List Nat) (t : Nat) (tag : CStr)
    (hP : TypeTagsInvalid K tm T) (htag : tm t = some tag) :
    TypeTagsInvalid K (Function.update tm t (some (strlwr tag))) T := by
  intro t2 ht2 tag2 htag2 hty v hv
  by_cases e : t2 = t
  · rw [e, Function.update_same] at htag2
    have e2 : strlwr tag = tag2 := Option.some.inj htag2
    rw [← e2] at hty hv
    rw [strtokSecond_strlwr] at hv
    cases hv0 : strtokSecond tag with
    | none => rw [hv0] at hv; cases hv
    | some v0 =>
      rw [hv0] at hv
      have e3 : strlwr v0 = v := Option.some.inj hv
      rw [← e3, typeString2Val_strlwr]
      exact hP t (e ▸ ht2) tag htag ((isTypeTag_strlwr tag).1 hty) v0 hv0
  · rw [Function.update_noteq e] at htag2
    exact hP t2 ht2 tag2 htag2 hty v hv

theorem tokenizeLoop_type (K : Codes) (T : List Nat) : ∀ (ts : List Nat) (tm : TagMap)
    (f : TagFields) (r : TagMap × TagFields),
    (∀ t ∈ ts.takeWhile (fun t => t != 0), t ∈ T) → TypeTagsInvalid K tm T →
    tokenizeLoop K ts tm f = Except.ok r →
    (r.2.typeInt = f.typeInt ∨ r.2.typeInt = K.POLICY_TYPE_INVALID) ∧
    ((∃ t ∈ ts.takeWhile (fun t => t != 0), ∃ tag, tm t = some tag ∧ isTypeTag tag) →
      r.2.typeInt = K.POLICY_TYPE_INVALID) := by
  intro ts
  induction ts with
  | nil =>
    intro tm f r _ _ h
    unfold tokenizeLoop at h
    cases h
    exact ⟨Or.inl rfl, fun ⟨t, ht, _⟩ => by cases ht⟩
  | cons t rest ih =>
    intro tm f r hsub hP h
    unfold tokenizeLoop at h
    by_cases h0 : t = 0
    · rw [if_pos h0] at h
      cases h
      refine ⟨Or.inl rfl, fun ⟨t2, ht2, _⟩ => ?_⟩
      rw [List.takeWhile_cons, h0] at ht2
      simp at ht2
    · rw [if_neg h0] at h
      have htw : (t :: rest).takeWhile (fun t => t != 0) =
          t :: rest.takeWhile (fun t => t != 0) := by
        rw [List.takeWhile_cons]
        simp [h0]
      rw [htw] at hsub ⊢
      cases hstep : tokenizeStep K tm f t with
      | error e => rw [hstep] at h; cases h
      | ok r1 =>
        rw [hstep] at h
        simp only at h
        obtain ⟨tag, htag, hmap, hyes, hno⟩ := tokenizeStep_ok K tm f t r1 hstep
        have hP1 : TypeTagsInvalid K r1.1 T := by
          rw [hmap]
          exact typeTagsInvalid_update K tm T t tag hP htag
        obtain ⟨i1, i2⟩ := ih r1.1 r1.2 r
          (fun t2 ht2 => hsub t2 (List.mem_cons_of_mem _ ht2)) hP1 h
        have hstepType : isTypeTag tag → r1.2.typeInt = K.POLICY_TYPE_INVALID := by
          intro hty
          obtain ⟨v, hv, hr⟩ := hyes hty
          rw [hr]
          exact hP t (hsub t (List.mem_cons_self _ _)) tag htag hty v hv
        constructor
        · rcases i1 with i1 | i1
          · by_cases hty : isTypeTag tag
            · exact Or.inr (i1.trans (hstepType hty))
            · exact Or.inl (i1.trans (hno hty))
          · exact Or.inr i1
        · rintro ⟨t2, ht2, tag2, htag2, hty2⟩
          by_cases hhead : isTypeTag tag
          · rcases i1 with i1 | i1
            · exact i1.trans (hstepType hhead)
            · exact i1
          · rcases List.mem_cons.1 ht2 with e | ht2
            · rw [e, htag] at htag2
              exact absurd ((Option.some.inj htag2) ▸ hty2) hhead
            · apply i2
              by_cases e : t2 = t
              · refine ⟨t2, ht2, strlwr tag, ?_, ?_⟩
                · rw [hmap, e, Function.update_same]
                · rw [e, htag] at htag2
                  exact absurd ((Option.some.inj htag2) ▸ hty2) hhead
              · refine ⟨t2, ht2, tag2, ?_, hty2⟩
                rw [hmap, Function.update_noteq e]
                exact htag2

/-- C3: a data point whose type tags all carry a value that is none of the
recognised type names (up to letter case), for example `type:warpfactor`, is
allowed by `POLICY_fnCheck`, whatever the rule store holds and whatever the
value, timestamp, location, user and group of the data point are. The type
tags are the tags that `policy_fnTokenizeTags` reads the type from; the data
point has at least one, its first tag index is in range and the tokenizer
completes. -/
theorem C3_unclassified_type_allowed (K : Codes) (s : ServerState) (tagMap : TagMap)
    (pDp : dp_t) (r : Int × TagMap × TagFields)
    (htok : policy_fnTokenizeTags K tagMap pDp TagFields.init = Except.ok r)
    (hrange : 1 ≤ firstTag pDp ∧ firstTag pDp ≤ K.DP_SERVER_MAX_TAGS)
    (hhas : ∃ t ∈ activeTags pDp, ∃ tag, tagMap t = some tag ∧ isTypeTag tag)
    (hunrecognised : ∀ t ∈ activeTags pDp, ∀ tag, tagMap t = some tag → isTypeTag tag →
      ∀ v, strtokSecond tag = some v → ∀ n ∈ recognisedTypeNames, ¬ EqIgnoreCase v n) :
    POLICY_fnCheck K s tagMap pDp = Allow := by
  have hP : TypeTagsInvalid K tagMap (activeTags pDp) := by
    intro t ht tag htag hty v hv
    exact typeString2Val_unrecognised K v (hunrecognised t ht tag htag hty v hv)
  have hnot : ¬ (firstTag pDp < 1 ∨ firstTag pDp > K.DP_SERVER_MAX_TAGS) := by
    rintro (h | h)
    · exact absurd hrange.1 (Nat.not_le.2 h)
    · exact absurd hrange.2 (Nat.not_le.2 h)
  have htok2 := htok
  unfold policy_fnTokenizeTags tokenizeBody at htok2
  rw [if_neg hnot] at htok2
  cases hloop : tokenizeLoop K pDp.tags tagMap TagFields.init with
  | error e => rw [hloop] at htok2; cases htok2
  | ok r1 =>
    rw [hloop] at htok2
    simp only at htok2
    have hr : r.2.2 = r1.2 := by cases htok2; rfl
    have hty := (tokenizeLoop_type K (activeTags pDp) pDp.tags tagMap TagFields.init r1
      (fun t ht => ht) hP hloop).2 hhas
    exact check_invalid K s tagMap pDp r.1 r.2.1 r.2.2 htok (hr ▸ hty)

theorem C3_unclassified_type_allowed_witness :
    POLICY_fnCheck sampleCodes (storeWith (temperatureRule sampleCodes 10 20 0) "boston".data)
      sampleTagMap { sampleDp 50 with tags := [5, 2, 3, 4] } = Allow :=
  C3_unclassified_type_allowed sampleCodes
    (storeWith (temperatureRule sampleCodes 10 20 0) "boston".data) sampleTagMap
    { sampleDp 50 with tags := [5, 2, 3, 4] } _ rfl (by decide)
    ⟨5, by decide, "type:warpfactor".data, rfl, by decide⟩
    (by
      intro t ht tag htag hty v hv
      have ht2 : t = 5 ∨ t = 2 ∨ t = 3 ∨ t = 4 := by
        simpa [activeTags, sampleDp] using ht
      rcases ht2 with rfl | rfl | rfl | rfl
      · have e : "type:warpfactor".data = tag := Option.some.inj htag
        subst e
        have e2 : "warpfactor".data = v := Option.some.inj hv
        subst e2
        decide
      · have e : "location:boston".data = tag := Option.some.inj htag
        subst e
        exact absurd hty (by decide)
      · have e : "user:doug".data = tag := Option.some.inj htag
        subst e
        exact absurd hty (by decide)
      · have e : "group:engineering".data = tag := Option.some.inj htag
        subst e
        exact absurd hty (by decide))

theorem create_null (s : ServerState) (L : CStr) :
    (POLICY_fnCreatePolicy s none L).1 =
      { s with heap := Function.update s.heap s.brk zPOLICY.zero, brk := s.brk + 1 } := rfl

theorem consistent_create_null (s : ServerState) (L : CStr) (hc : Consistent s) :
    Consistent (POLICY_fnCreatePolicy s none L).1 := by
  rw [create_null]
  refine ⟨hc.nodupPtrs, ?_, ?_⟩
  · intro p hp
    have hlt : p < s.brk := hc.ptr_lt hp
    show cfuhash_get s.hashPolicy ((Function.update s.heap s.brk zPOLICY.zero p).key) = some p
    rw [Function.update_noteq (Nat.ne_of_lt hlt)]
    exact hc.slotStored p hp
  · intro k p h
    have := hc.storedKey k p h
    refine ⟨Nat.lt_succ_of_lt this.1, ?_⟩
    show (Function.update s.heap s.brk zPOLICY.zero p).key = k
    rw [Function.update_noteq (Nat.ne_of_lt this.1)]
    exact this.2

theorem tracked_create_null (s : ServerState) (L : CStr) (ht : AllTracked s) :
    AllTracked (POLICY_fnCreatePolicy s none L).1 := by
  rw [create_null]; exact ht

theorem untracked_create_null (s : ServerState) (L k : CStr) (hu : Untracked s k) :
    Untracked (POLICY_fnCreatePolicy s none L).1 k := by
  rw [create_null]; exact hu

theorem consistent_step (s : ServerState) (c : Call) (hc : Consistent s) :
    Consistent (step s c) := by
  cases c with
  | create msg L =>
    cases msg with
    | none => exact consistent_create_null s L hc
    | some m => exact consistent_create s m L hc
  | housekeep => exact consistent_housekeep s hc

theorem consistent_run (calls : List Call) : ∀ s, Consistent s → Consistent (run s calls) := by
  induction calls with
  | nil => intro s h; exact h
  | cons c rest ih => intro s h; exact ih _ (consistent_step s c h)

theorem untracked_step (s : ServerState) (c : Call) (k : CStr) (hc : Consistent s)
    (hu : Untracked s k) : Untracked (step s c) k := by
  cases c with
  | create msg L =>
    cases msg with
    | none => exact untracked_create_null s L k hu
    | some m => exact untracked_create s m L k hc hu
  | housekeep => exact untracked_housekeep s k hc hu

theorem untracked_run (calls : List Call) : ∀ s k, Consistent s → Untracked s k →
    Untracked (run s calls) k := by
  induction calls with
  | nil => intro s k _ h; exact h
  | cons c rest ih =>
    intro s k hc hu
    exact ih _ k (consistent_step s c hc) (untracked_step s c k hc hu)

theorem run_append (a b : List Call) : ∀ s, run s (a ++ b) = run (run s a) b := by
  induction a with
  | nil => intro s; rfl
  | cons c rest ih => intro s; exact ih _

theorem run_createAll (b : List Rule) : ∀ s, run s (b.map Rule.call) = createAll s b := by
  induction b with
  | nil => intro s; rfl
  | cons r rest ih => intro s; exact ih _

theorem run_fillRoster (s : ServerState) : run s fillRoster = applyBatch s fullBatch := by
  unfold fillRoster
  rw [run_append, run_createAll]
  rfl

theorem length_step (s : ServerState) (c : Call) : (step s c).hs.length = s.hs.length := by
  cases c with
  | create msg L =>
    cases msg with
    | none => rfl
    | some m => exact length_create s m L
  | housekeep => exact length_housekeep s

theorem length_run (calls : List Call) : ∀ s, (run s calls).hs.length = s.hs.length := by
  induction calls with
  | nil => intro s; rfl
  | cons c rest ih => intro s; rw [← length_step s c]; exact ih _

theorem tracked_step (s : ServerState) (c : Call) (hc : Consistent s) (ht : AllTracked s)
    (hlen : s.hs.length = ESTIMATED_NUM_POLICY)
    (hb : (storeKeys (step s c)).length ≤ ESTIMATED_NUM_POLICY) :
    AllTracked (step s c) := by
  cases c with
  | create msg L =>
    cases msg with
    | none => exact tracked_create_null s L ht
    | some m =>
      refine tracked_create s m L hc ht (fun hnew => ?_)
      refine room_for_new s (storeKeys (step s (Call.create (some m) L)))
        (hashString m.Name m.Type_ L) hc ?_ ?_ hnew ?_
      · intro k hk
        rw [mem_storeKeys]
        show (cfuhash_get (POLICY_fnCreatePolicy s (some m) L).1.hashPolicy k).isSome = true
        rw [get_create]
        split
        · rfl
        · exact hk
      · rw [mem_storeKeys]
        show (cfuhash_get (POLICY_fnCreatePolicy s (some m) L).1.hashPolicy _).isSome = true
        rw [get_create, if_pos rfl]; rfl
      · rw [hlen]
        exact le_trans (List.Sublist.length_le (List.dedup_sublist _)) hb
  | housekeep => exact tracked_housekeep s hc ht

theorem tracked_run (calls : List Call) : ∀ s, Consistent s → AllTracked s →
    s.hs.length = ESTIMATED_NUM_POLICY → StoreBounded s calls → AllTracked (run s calls) := by
  induction calls with
  | nil => intro s _ ht _ _; exact ht
  | cons c rest ih =>
    intro s hc ht hlen hb
    exact ih _ (consistent_step s c hc) (tracked_step s c hc ht hlen hb.1)
      (by rw [length_step]; exact hlen) hb.2

theorem tracked_setup (s0 : ServerState) : AllTracked (HASH_fnSetup s0) := by
  intro k p h; cases h

theorem length_setup (s0 : ServerState) : (HASH_fnSetup s0).hs.length = ESTIMATED_NUM_POLICY := by
  simp [HASH_fnSetup]

theorem reconciled_fillRoster (s0 : ServerState) :
    Reconciled (run (HASH_fnSetup s0) fillRoster) (batchKeys fullBatch) := by
  rw [run_fillRoster]
  refine reconciled_applyBatch _ [] fullBatch (reconciled_setup s0) ?_
  rw [List.nil_append, fullBatch_keys_nodup.dedup, fullBatch_keys_length]

theorem rosterFull_fillRoster (s0 : ServerState) :
    RosterFull (run (HASH_fnSetup s0) fillRoster) :=
  reconciled_full _ _ (reconciled_fillRoster s0) fullBatch_keys_nodup fullBatch_keys_length

theorem check_eq_false_iff (s : ServerState) (k : CStr) :
    POLICYHASH_fnCheck s k = false ↔ cfuhash_get s.hashPolicy k = none := by
  unfold POLICYHASH_fnCheck cfuhash_exists
  cases cfuhash_get s.hashPolicy k <;> simp

theorem site200_new_after_fillRoster (s0 : ServerState) :
    POLICYHASH_fnCheck (run (HASH_fnSetup s0) fillRoster)
      (hashString (siteRule 200).1.Name (siteRule 200).1.Type_ (siteRule 200).2) = false := by
  rw [check_eq_false_iff]
  cases hg : cfuhash_get (run (HASH_fnSetup s0) fillRoster).hashPolicy
      (hashString (siteRule 200).1.Name (siteRule 200).1.Type_ (siteRule 200).2) with
  | none => rfl
  | some p =>
    exfalso
    apply siteRule_200_not_in_fullBatch
    apply ((reconciled_fillRoster s0).storeKeys_iff _).1
    rw [mem_storeKeys]
    unfold Rule.key
    rw [hg]
    rfl

theorem slotCount_untracked (s : ServerState) (k : CStr) (hu : Untracked s k) :
    slotCount s k = some 0 := by
  obtain ⟨p, hget, hp⟩ := hu
  unfold slotCount POLICYHASH_fnFind
  rw [hget]
  simp [List.count_eq_zero_of_not_mem hp]

theorem slotCount_le_one (s : ServerState) (k : CStr) (hc : Consistent s)
    (hk : k ∈ storeKeys s) : slotCount s k = some 0 ∨ slotCount s k = some 1 := by
  rw [mem_storeKeys] at hk
  unfold slotCount POLICYHASH_fnFind
  cases hg : cfuhash_get s.hashPolicy k with
  | none => rw [hg] at hk; cases hk
  | some p =>
    by_cases hp : p ∈ rosterPtrs s.hs
    · right; simp [List.count_eq_one_of_mem hc.nodupPtrs hp]
    · left; simp [List.count_eq_zero_of_not_mem hp]

theorem slotCount_tracked (s : ServerState) (k : CStr) (hc : Consistent s)
    (ht : AllTracked s) (hk : k ∈ storeKeys s) : slotCount s k = some 1 := by
  rw [mem_storeKeys] at hk
  unfold slotCount POLICYHASH_fnFind
  cases hg : cfuhash_get s.hashPolicy k with
  | none => rw [hg] at hk; cases hk
  | some p => simp [List.count_eq_one_of_mem hc.nodupPtrs (ht k p hg)]

theorem create_full_new (s : ServerState) (m : datapoint_policy_msg_t) (L : CStr)
    (hfull : RosterFull s)
    (hnew : POLICYHASH_fnCheck s (hashString m.Name m.Type_ L) = false) :
    storeView (POLICY_fnCreatePolicy s (some m) L).1 (hashString m.Name m.Type_ L) =
        some (policyOf m L) ∧
      (POLICY_fnCreatePolicy s (some m) L).1.hs = s.hs := by
  rw [check_eq_false_iff] at hnew
  constructor
  · unfold storeView
    rw [find_create, if_pos rfl, Option.map_some', heap_create_new]
  · rw [hs_create, hnew]
    exact placeNew_full _ _ hfull

theorem run_single (s : ServerState) (c : Call) : run s [c] = step s c := rfl

theorem step_call (s : ServerState) (r : Rule) :
    step s (Rule.call r) = (POLICY_fnCreatePolicy s (some r.1) r.2).1 := rfl

theorem key_eq (r : Rule) : Rule.key r = hashString r.1.Name r.1.Type_ r.2 := rfl

/-- C11 (counterexample): the 200 rules of `fullBatch` are registered and one
housekeeping pass is made, so that every roster slot holds one of them; then the
rule of site 200 is registered. Its policy is stored under its key, and no
roster slot references it. -/
theorem C11_counterexample :
    slotCount (run (HASH_fnSetup bootState) (fillRoster ++ [Rule.call (siteRule 200)]))
      (Rule.key (siteRule 200)) = some 0 := by
  rw [run_append, run_single, step_call, key_eq]
  exact slotCount_untracked _ _ (create_on_full_roster _ (siteRule 200).1 (siteRule 200).2
    (reconciled_fillRoster bootState).consistent (rosterFull_fillRoster bootState)
    ((check_eq_false_iff _ _).1 (site200_new_after_fillRoster bootState)))

/-- C11 (amended): in every state reached from `HASH_fnSetup` by a sequence of
`POLICY_fnCreatePolicy` (NULL messages included) and
`POLICY_fnHouseKeepPolicy` calls, the policy stored under a key is referenced
by at most one roster slot; and by exactly one when after every call of the
sequence the store held at most `ESTIMATED_NUM_POLICY` keys. -/
theorem C11_roster_invariant_while_store_bounded (s0 : ServerState) (calls : List Call)
    (k : CStr) (hk : k ∈ storeKeys (run (HASH_fnSetup s0) calls)) :
    (slotCount (run (HASH_fnSetup s0) calls) k = some 0 ∨
      slotCount (run (HASH_fnSetup s0) calls) k = some 1) ∧
    (StoreBounded (HASH_fnSetup s0) calls →
      slotCount (run (HASH_fnSetup s0) calls) k = some 1) :=
  ⟨slotCount_le_one _ k (consistent_run calls _ (consistent_setup s0)) hk,
    fun hb => slotCount_tracked _ k (consistent_run calls _ (consistent_setup s0))
      (tracked_run calls _ (consistent_setup s0) (tracked_setup s0) (length_setup s0) hb) hk⟩

theorem C11_roster_invariant_while_store_bounded_witness :
    Rule.key (siteRule 1) ∈ storeKeys (run (HASH_fnSetup bootState)
      [Rule.call (siteRule 1), Rule.call (siteRule 2), Call.housekeep,
        Rule.call (siteRule 1)]) ∧
    StoreBounded (HASH_fnSetup bootState)
      [Rule.call (siteRule 1), Rule.call (siteRule 2), Call.housekeep,
        Rule.call (siteRule 1)] ∧
    slotCount (run (HASH_fnSetup bootState)
      [Rule.call (siteRule 1), Rule.call (siteRule 2), Call.housekeep,
        Rule.call (siteRule 1)]) (Rule.key (siteRule 1)) = some 1 :=
  ⟨by decide, ⟨by decide, by decide, by decide, by decide, trivial⟩,
    (C11_roster_invariant_while_store_bounded bootState
      [Rule.call (siteRule 1), Rule.call (siteRule 2), Call.housekeep,
        Rule.call (siteRule 1)] (Rule.key (siteRule 1)) (by decide)).2
      ⟨by decide, by decide, by decide, by decide, trivial⟩⟩

/-- C12: in a state reached from `HASH_fnSetup` by any sequence of calls in
which all roster slots are occupied, `POLICY_fnCreatePolicy` for a rule whose
key is not in the store returns `EOK`, the rule is then the one stored under
its key, the roster is unchanged, and after any later sequence of
`POLICY_fnCreatePolicy` and `POLICY_fnHouseKeepPolicy` calls the key is still
in the store. -/
theorem C12_roster_exhaustion (s0 : ServerState) (calls later : List Call)
    (m : datapoint_policy_msg_t) (L : CStr)
    (hfull : RosterFull (run (HASH_fnSetup s0) calls))
    (hnew : POLICYHASH_fnCheck (run (HASH_fnSetup s0) calls)
      (hashString m.Name m.Type_ L) = false) :
    (POLICY_fnCreatePolicy (run (HASH_fnSetup s0) calls) (some m) L).2 = EOK ∧
    storeView (POLICY_fnCreatePolicy (run (HASH_fnSetup s0) calls) (some m) L).1
      (hashString m.Name m.Type_ L) = some (policyOf m L) ∧
    (POLICY_fnCreatePolicy (run (HASH_fnSetup s0) calls) (some m) L).1.hs =
      (run (HASH_fnSetup s0) calls).hs ∧
    hashString m.Name m.Type_ L ∈
      storeKeys (run (POLICY_fnCreatePolicy (run (HASH_fnSetup s0) calls) (some m) L).1 later) :=
  ⟨create_snd _ m L, (create_full_new _ m L hfull hnew).1, (create_full_new _ m L hfull hnew).2,
    untracked_stored _ _ (untracked_run later _ _
      (consistent_create _ m L (consistent_run calls _ (consistent_setup s0)))
      (create_on_full_roster _ m L (consistent_run calls _ (consistent_setup s0)) hfull
        ((check_eq_false_iff _ _).1 hnew)))⟩

theorem C12_roster_exhaustion_witness :
    RosterFull (run (HASH_fnSetup bootState) fillRoster) ∧
    POLICYHASH_fnCheck (run (HASH_fnSetup bootState) fillRoster)
      (hashString (siteRule 200).1.Name (siteRule 200).1.Type_ (siteRule 200).2) = false ∧
    hashString (siteRule 200).1.Name (siteRule 200).1.Type_ (siteRule 200).2 ∈
      storeKeys (run (POLICY_fnCreatePolicy (run (HASH_fnSetup bootState) fillRoster)
        (some (siteRule 200).1) (siteRule 200).2).1
        [Call.housekeep, Rule.call (siteRule 201), Call.housekeep]) :=
  ⟨rosterFull_fillRoster bootState, site200_new_after_fillRoster bootState,
    (C12_roster_exhaustion bootState fillRoster
      [Call.housekeep, Rule.call (siteRule 201), Call.housekeep]
      (siteRule 200).1 (siteRule 200).2 (rosterFull_fillRoster bootState)
      (site200_new_after_fillRoster bootState)).2.2.2⟩

theorem hashString_type_collision (n : Int) (L : CStr) :
    hashString n 1 ('2' :: L) = hashString n 12 L := by
  unfold hashString
  have h1 : fmtInt 1 = ['1'] := by decide
  have h12 : fmtInt 12 = ['1', '2'] := by decide
  have hl : strlwr ('2' :: L) = '2' :: strlwr L := by
    unfold strlwr
    rw [List.map_cons]
    have : tolower '2' = '2' := by decide
    rw [this]
  rw [h1, h12, hl]
  simp

theorem put_find (s : ServerState) (r : Nat) (K k : CStr) :
    POLICYHASH_fnFind (POLICYHASH_fnPut s (some r) (some K)).1 k =
      if K = k then some r else POLICYHASH_fnFind s k := by
  unfold POLICYHASH_fnFind POLICYHASH_fnPut
  exact get_put s.hashPolicy K k r

theorem put_previous (s : ServerState) (r : Nat) (K : CStr) :
    (POLICYHASH_fnPut s (some r) (some K)).2 = some (POLICYHASH_fnFind s K) := rfl

/-- C13: the key built by `sprintf("%d%d%s", Name, Type, strlwr(Location))` is
not injective on (kind, type, location): for every kind, a rule of type 1 whose
location is `2` followed by `L` and a rule of type 12 with location `L` get the
same key, so registering the second replaces the first in the policy store.
For one kind and one type the key does separate locations up to letter
case. -/
theorem C13_policy_key_collision (s : ServerState) (m : datapoint_policy_msg_t) (L : CStr) :
    hashString m.Name 1 ('2' :: L) = hashString m.Name 12 L ∧
    storeView
      (POLICY_fnCreatePolicy
        (POLICY_fnCreatePolicy s (some { m with Type_ := 1 }) ('2' :: L)).1
        (some { m with Type_ := 12 }) L).1
      (hashString m.Name 1 ('2' :: L)) = some (policyOf { m with Type_ := 12 } L) ∧
    (policyOf { m with Type_ := 12 } L).Type_ ≠
      (policyOf { m with Type_ := 1 } ('2' :: L)).Type_ ∧
    (∀ (n t : Int) (a b : CStr), hashString n t a = hashString n t b ↔ strlwr a = strlwr b) := by
  refine ⟨hashString_type_collision m.Name L, ?_, by simp [policyOf], hashString_eq_iff⟩
  unfold storeView
  rw [find_create, if_pos (hashString_type_collision m.Name L).symm, Option.map_some',
    heap_create_new]

/-- C14: after `POLICYHASH_fnPut(r, K)`, `POLICYHASH_fnFind(K)` returns `r` and
`POLICYHASH_fnCheck(K)` is true; a second `POLICYHASH_fnPut(r2, K)` returns `r`,
after which `POLICYHASH_fnFind(K)` returns `r2`; under every other key both
puts leave what `POLICYHASH_fnFind` and `POLICYHASH_fnCheck` return
unchanged. -/
theorem C14_policy_store_round_trip (s : ServerState) (r r2 : Nat) (K : CStr) :
    POLICYHASH_fnFind (POLICYHASH_fnPut s (some r) (some K)).1 K = some r ∧
    POLICYHASH_fnCheck (POLICYHASH_fnPut s (some r) (some K)).1 K = true ∧
    (POLICYHASH_fnPut (POLICYHASH_fnPut s (some r) (some K)).1 (some r2) (some K)).2 =
      some (some r) ∧
    POLICYHASH_fnFind
      (POLICYHASH_fnPut (POLICYHASH_fnPut s (some r) (some K)).1 (some r2) (some K)).1 K =
        some r2 ∧
    (∀ K2 : CStr, K2 ≠ K →
      POLICYHASH_fnFind (POLICYHASH_fnPut s (some r) (some K)).1 K2 = POLICYHASH_fnFind s K2 ∧
      POLICYHASH_fnCheck (POLICYHASH_fnPut s (some r) (some K)).1 K2 =
        POLICYHASH_fnCheck s K2 ∧
      POLICYHASH_fnFind
        (POLICYHASH_fnPut (POLICYHASH_fnPut s (some r) (some K)).1 (some r2) (some K)).1 K2 =
          POLICYHASH_fnFind s K2 ∧
      POLICYHASH_fnCheck
        (POLICYHASH_fnPut (POLICYHASH_fnPut s (some r) (some K)).1 (some r2) (some K)).1 K2 =
          POLICYHASH_fnCheck s K2) := by
  refine ⟨?_, ?_, ?_, ?_, ?_⟩
  · rw [put_find, if_pos rfl]
  · rw [check_eq_find_isSome, put_find, if_pos rfl]; rfl
  · rw [put_previous, put_find, if_pos rfl]
  · rw [put_find, if_pos rfl]
  · intro K2 hne
    have h : ¬ K = K2 := fun e => hne e.symm
    refine ⟨?_, ?_, ?_, ?_⟩
    · rw [put_find, if_neg h]
    · rw [check_eq_find_isSome, put_find, if_neg h]; rfl
    · rw [put_find, if_neg h, put_find, if_neg h]
    · rw [check_eq_find_isSome, put_find, if_neg h, put_find, if_neg h]; rfl

theorem nibble_toNat (a : Nat) (h : a < 16) :
    (Char.ofNat ('A'.toNat + a)).toNat = 65 + a := by
  interval_cases a <;> rfl

theorem land_15 (x : Nat) : x &&& 0xF = x % 16 :=
  Nat.and_pow_two_sub_one_eq_mod x 4

theorem shiftRight_4 (x : Nat) : x >>> 4 = x / 16 :=
  Nat.shiftRight_eq_div_pow x 4

theorem length_encodeNibbles (n : Nat) : ∀ x, (encodeNibbles n x).length = n := by
  induction n with
  | zero => intro x; rfl
  | succ n ih => intro x; simp [encodeNibbles, ih]

theorem encodeNibbles_get (n : Nat) : ∀ (x i : Nat), i < n →
    (encodeNibbles n x)[i]? = some (Char.ofNat ('A'.toNat + ((x >>> (4 * i)) &&& 0xF))) := by
  induction n with
  | zero => intro x i h; exact absurd h (Nat.not_lt_zero _)
  | succ n ih =>
    intro x i h
    cases i with
    | zero => simp [encodeNibbles]
    | succ i =>
      have e : 4 * (i + 1) = 4 + 4 * i := by ring
      rw [encodeNibbles, List.getElem?_cons_succ, ih _ i (Nat.lt_of_succ_lt_succ h), e,
        Nat.shiftRight_add]

theorem encodeNibbles_no_NUL (n : Nat) : ∀ x, NUL ∉ encodeNibbles n x := by
  induction n with
  | zero => intro x h; cases h
  | succ n ih =>
    intro x h
    rcases List.mem_cons.1 h with h | h
    · have h2 := congrArg Char.toNat h
      rw [land_15, nibble_toNat _ (Nat.mod_lt _ (by decide))] at h2
      have h3 : NUL.toNat = 0 := rfl
      omega
    · exact ih _ h

theorem encodeNibbles_inj (n : Nat) : ∀ x y, encodeNibbles n x = encodeNibbles n y →
    x % 16 ^ n = y % 16 ^ n := by
  induction n with
  | zero => intro x y _; simp [Nat.mod_one]
  | succ n ih =>
    intro x y h
    simp only [encodeNibbles, List.cons.injEq] at h
    have h1 := congrArg Char.toNat h.1
    rw [land_15, land_15, nibble_toNat _ (Nat.mod_lt _ (by decide)),
      nibble_toNat _ (Nat.mod_lt _ (by decide))] at h1
    have h2 := ih _ _ h.2
    rw [shiftRight_4, shiftRight_4] at h2
    rw [pow_succ', Nat.mod_mul, Nat.mod_mul, h2]
    omega

theorem encodeNibbles_8_inj (x y : Nat) (hx : x < 2 ^ 32) (hy : y < 2 ^ 32)
    (h : encodeNibbles 8 x = encodeNibbles 8 y) : x = y := by
  have h1 := encodeNibbles_inj 8 x y h
  have e : (16 : Nat) ^ 8 = 2 ^ 32 := by norm_num
  rw [e, Nat.mod_eq_of_lt hx, Nat.mod_eq_of_lt hy] at h1
  exact h1

theorem guidKey_ok (guid instanceID : Nat) (key : KeyBuf) (key_len : Nat)
    (hkey : key ≠ KeyBuf.null) (hlen : 16 < key_len) :
    hash_fnBuildGUIDKey guid instanceID key key_len =
      (EOK, KeyBuf.str (encodeNibbles 8 guid ++ encodeNibbles 8 instanceID)) := by
  unfold hash_fnBuildGUIDKey
  rw [if_neg]
  rintro (h | h)
  · exact hkey h
  · omega

theorem guidKey_fail (guid instanceID : Nat) (key : KeyBuf) (key_len : Nat)
    (hlen : key_len ≤ 16) :
    hash_fnBuildGUIDKey guid instanceID key key_len = (ENOMEM, key) := by
  unfold hash_fnBuildGUIDKey
  rw [if_pos (Or.inr hlen)]

theorem strlen_le (nm : CStr) : strlen nm ≤ nm.length :=
  List.Sublist.length_le (List.takeWhile_sublist _)

theorem strlen_no_NUL (nm : CStr) (h : NUL ∉ nm) :
    nm.takeWhile (fun c => c ≠ NUL) = nm := by
  rw [List.takeWhile_eq_self_iff]
  intro x hx
  simp only [ne_eq, decide_not, Bool.not_eq_true', decide_eq_false_iff_not]
  intro e
  exact h (e ▸ hx)

theorem nameKey_ok (nm : CStr) (instanceID : Nat) (key : KeyBuf) (key_len : Nat)
    (hkey : key ≠ KeyBuf.null) (hlen : strlen nm + 9 ≤ key_len) :
    hash_fnBuildNameKey (some nm) instanceID key key_len =
      (EOK, KeyBuf.str (nm.takeWhile (fun c => c ≠ NUL) ++ encodeNibbles 8 instanceID)) := by
  unfold hash_fnBuildNameKey
  have hl : (nm.takeWhile (fun c => c ≠ NUL)).length ≤ key_len := by
    unfold strlen at hlen; omega
  simp only [if_neg hkey, List.take_of_length_le hl, KEY_INSTANCE_LENGTH]
  rw [if_neg]
  unfold strlen at hlen
  omega

theorem nameKey_fail (nm : CStr) (instanceID : Nat) (key : KeyBuf) (key_len : Nat)
    (hlen : key_len < strlen nm + 9) :
    (hash_fnBuildNameKey (some nm) instanceID key key_len).1 = ENOMEM := by
  unfold hash_fnBuildNameKey
  by_cases hkey : key = KeyBuf.null
  · simp only [if_pos hkey]
  · simp only [if_neg hkey, KEY_INSTANCE_LENGTH]
    rw [if_pos]
    rw [List.length_take]
    unfold strlen at hlen
    omega

theorem encodeNibbles_eq_nibbleString (x : Nat) : encodeNibbles 8 x = nibbleString x := by
  apply List.ext_getElem?
  intro i
  unfold nibbleString
  by_cases h : i < 8
  · rw [encodeNibbles_get 8 x i h, List.getElem?_map, List.getElem?_range h]
    rfl
  · rw [List.getElem?_eq_none (by rw [length_encodeNibbles]; omega),
      List.getElem?_eq_none (by rw [List.length_map, List.length_range]; omega)]

theorem EOK_ne_ENOMEM : EOK ≠ ENOMEM := by decide

theorem guidKey_eq_ok (guid instanceID : Nat) (key : KeyBuf) (key_len : Nat) (k : CStr)
    (h : hash_fnBuildGUIDKey guid instanceID key key_len = (EOK, KeyBuf.str k)) :
    k = encodeNibbles 8 guid ++ encodeNibbles 8 instanceID := by
  unfold hash_fnBuildGUIDKey at h
  split at h
  · exact absurd (congrArg Prod.fst h).symm EOK_ne_ENOMEM
  · have := congrArg Prod.snd h
    simp only [KeyBuf.str.injEq] at this
    exact this.symm

theorem nameKey_eq_ok (nm : CStr) (instanceID : Nat) (key : KeyBuf) (key_len : Nat) (k : CStr)
    (h : hash_fnBuildNameKey (some nm) instanceID key key_len = (EOK, KeyBuf.str k)) :
    k = nm.takeWhile (fun c => c ≠ NUL) ++ encodeNibbles 8 instanceID := by
  by_cases hlen : strlen nm + 9 ≤ key_len
  · by_cases hkey : key = KeyBuf.null
    · unfold hash_fnBuildNameKey at h
      simp only [if_pos hkey] at h
      exact absurd (congrArg Prod.fst h).symm EOK_ne_ENOMEM
    · rw [nameKey_ok nm instanceID key key_len hkey hlen] at h
      have := congrArg Prod.snd h
      simp only [KeyBuf.str.injEq] at this
      exact this.symm
  · have := nameKey_fail nm instanceID key key_len (by omega)
    rw [h] at this
    exact absurd this EOK_ne_ENOMEM

theorem nameKey_inj (n1 n2 : CStr) (i1 i2 : Nat) (b1 b2 : KeyBuf) (l1 l2 : Nat) (k : CStr)
    (h1 : NUL ∉ n1) (h2 : NUL ∉ n2) (hi1 : i1 < 2 ^ 32) (hi2 : i2 < 2 ^ 32)
    (e1 : hash_fnBuildNameKey (some n1) i1 b1 l1 = (EOK, KeyBuf.str k))
    (e2 : hash_fnBuildNameKey (some n2) i2 b2 l2 = (EOK, KeyBuf.str k)) :
    n1 = n2 ∧ i1 = i2 := by
  have k1 := nameKey_eq_ok _ _ _ _ _ e1
  have k2 := nameKey_eq_ok _ _ _ _ _ e2
  rw [strlen_no_NUL n1 h1] at k1
  rw [strlen_no_NUL n2 h2] at k2
  have h := List.append_inj' (k1.symm.trans k2)
    (by rw [length_encodeNibbles, length_encodeNibbles])
  exact ⟨h.1, encodeNibbles_8_inj i1 i2 hi1 hi2 h.2⟩

theorem guidKey_inj (g1 g2 i1 i2 : Nat) (b1 b2 : KeyBuf) (l1 l2 : Nat) (k : CStr)
    (hg1 : g1 < 2 ^ 32) (hg2 : g2 < 2 ^ 32) (hi1 : i1 < 2 ^ 32) (hi2 : i2 < 2 ^ 32)
    (e1 : hash_fnBuildGUIDKey g1 i1 b1 l1 = (EOK, KeyBuf.str k))
    (e2 : hash_fnBuildGUIDKey g2 i2 b2 l2 = (EOK, KeyBuf.str k)) :
    g1 = g2 ∧ i1 = i2 := by
  have k1 := guidKey_eq_ok _ _ _ _ _ e1
  have k2 := guidKey_eq_ok _ _ _ _ _ e2
  have h := List.append_inj (k1.symm.trans k2)
    (by rw [length_encodeNibbles, length_encodeNibbles])
  exact ⟨encodeNibbles_8_inj g1 g2 hg1 hg2 h.1, encodeNibbles_8_inj i1 i2 hi1 hi2 h.2⟩

theorem length_nibbleString (x : Nat) : (nibbleString x).length = 8 := by
  simp [nibbleString]

theorem nibbleString_no_NUL (x : Nat) : NUL ∉ nibbleString x := by
  rw [← encodeNibbles_eq_nibbleString]
  exact encodeNibbles_no_NUL 8 x

/-- C15: when `hash_fnBuildNameKey` succeeds for two names without embedded NUL
and two 32-bit instance ids and writes the same key, the names are equal and
the instance ids are equal; when `hash_fnBuildGUIDKey` succeeds for two 32-bit
GUIDs and two 32-bit instance ids and writes the same key, the GUIDs are equal
and the instance ids are equal. -/
theorem C15_key_injectivity :
    (∀ (n1 n2 : CStr) (i1 i2 : Nat) (b1 b2 : KeyBuf) (l1 l2 : Nat) (k : CStr),
      NUL ∉ n1 → NUL ∉ n2 → i1 < 2 ^ 32 → i2 < 2 ^ 32 →
      hash_fnBuildNameKey (some n1) i1 b1 l1 = (EOK, KeyBuf.str k) →
      hash_fnBuildNameKey (some n2) i2 b2 l2 = (EOK, KeyBuf.str k) →
      n1 = n2 ∧ i1 = i2) ∧
    (∀ (g1 g2 i1 i2 : Nat) (b1 b2 : KeyBuf) (l1 l2 : Nat) (k : CStr),
      g1 < 2 ^ 32 → g2 < 2 ^ 32 → i1 < 2 ^ 32 → i2 < 2 ^ 32 →
      hash_fnBuildGUIDKey g1 i1 b1 l1 = (EOK, KeyBuf.str k) →
      hash_fnBuildGUIDKey g2 i2 b2 l2 = (EOK, KeyBuf.str k) →
      g1 = g2 ∧ i1 = i2) :=
  ⟨nameKey_inj, guidKey_inj⟩

theorem C15_key_injectivity_witness :
    (hash_fnBuildNameKey (some "POWER".toList) 1 KeyBuf.indeterminate 14 =
        (EOK, KeyBuf.str "POWERBAAAAAAA".toList) ∧
      hash_fnBuildNameKey (some "POWER".toList) 1 (KeyBuf.str "old".toList) 20 =
        (EOK, KeyBuf.str "POWERBAAAAAAA".toList) ∧
      ("POWER".toList = "POWER".toList ∧ 1 = 1)) ∧
    (hash_fnBuildGUIDKey 0x800007BC 1 KeyBuf.indeterminate 17 =
        (EOK, KeyBuf.str "MLHAAAAIBAAAAAAA".toList) ∧
      hash_fnBuildGUIDKey 0x800007BC 1 (KeyBuf.str "old".toList) 20 =
        (EOK, KeyBuf.str "MLHAAAAIBAAAAAAA".toList) ∧
      (0x800007BC = 0x800007BC ∧ 1 = 1)) :=
  ⟨⟨by decide, by decide,
      C15_key_injectivity.1 "POWER".toList "POWER".toList 1 1 KeyBuf.indeterminate
        (KeyBuf.str "old".toList) 14 20 "POWERBAAAAAAA".toList (by decide) (by decide)
        (by decide) (by decide) (by decide) (by decide)⟩,
    ⟨by decide, by decide,
      C15_key_injectivity.2 0x800007BC 0x800007BC 1 1 KeyBuf.indeterminate
        (KeyBuf.str "old".toList) 17 20 "MLHAAAAIBAAAAAAA".toList (by decide) (by decide)
        (by decide) (by decide) (by decide) (by decide)⟩⟩

/-- C16: for every guid and instanceID (32-bit values in particular), every
non-null destination and every `key_len > 16`, `hash_fnBuildGUIDKey` returns
`EOK` and leaves in the destination a terminated key of exactly 16 characters,
none of them NUL, in which character `i` (`0 <= i < 8`) is
`'A' + ((guid >> 4i) & 0xF)` and character `8 + i` is
`'A' + ((instanceID >> 4i) & 0xF)`. -/
theorem C16_guid_key_format (guid instanceID : Nat) (key : KeyBuf) (key_len : Nat)
    (hkey : key ≠ KeyBuf.null) (hlen : 16 < key_len) :
    hash_fnBuildGUIDKey guid instanceID key key_len =
      (EOK, KeyBuf.str (nibbleString guid ++ nibbleString instanceID)) ∧
    (nibbleString guid ++ nibbleString instanceID).length = 16 ∧
    NUL ∉ nibbleString guid ++ nibbleString instanceID := by
  refine ⟨?_, ?_, ?_⟩
  · rw [guidKey_ok guid instanceID key key_len hkey hlen, encodeNibbles_eq_nibbleString,
      encodeNibbles_eq_nibbleString]
  · rw [List.length_append, length_nibbleString, length_nibbleString]
  · intro h
    rcases List.mem_append.1 h with h | h
    · exact nibbleString_no_NUL _ h
    · exact nibbleString_no_NUL _ h

theorem C16_guid_key_format_witness :
    hash_fnBuildGUIDKey 0x800007BC 1 KeyBuf.indeterminate 17 =
      (EOK, KeyBuf.str "MLHAAAAIBAAAAAAA".toList) :=
  (C16_guid_key_format 0x800007BC 1 KeyBuf.indeterminate 17 (by decide) (by decide)).1.trans
    (by decide)

/-- C17: for every name without embedded NUL, every instanceID (32-bit values
in particular) and every non-null destination with
`strlen(name) + 9 <= key_len`, `hash_fnBuildNameKey` returns `EOK` and leaves
in the destination the terminated key made of the whole name followed by
exactly 8 characters, the `i`-th being `'A' + ((instanceID >> 4i) & 0xF)`. -/
theorem C17_name_key_format (name : CStr) (instanceID : Nat) (key : KeyBuf) (key_len : Nat)
    (hkey : key ≠ KeyBuf.null) (hnul : NUL ∉ name) (hlen : name.length + 9 ≤ key_len) :
    hash_fnBuildNameKey (some name) instanceID key key_len =
      (EOK, KeyBuf.str (name ++ nibbleString instanceID)) ∧
    (nibbleString instanceID).length = 8 ∧
    NUL ∉ name ++ nibbleString instanceID := by
  refine ⟨?_, length_nibbleString _, ?_⟩
  · rw [nameKey_ok name instanceID key key_len hkey
        (le_trans (Nat.add_le_add_right (strlen_le name) 9) hlen),
      strlen_no_NUL name hnul, encodeNibbles_eq_nibbleString]
  · intro h
    rcases List.mem_append.1 h with h | h
    · exact hnul h
    · exact nibbleString_no_NUL _ h

theorem C17_name_key_format_witness :
    hash_fnBuildNameKey (some "POWER".toList) 1 KeyBuf.indeterminate 14 =
      (EOK, KeyBuf.str "POWERBAAAAAAA".toList) :=
  (C17_name_key_format "POWER".toList 1 KeyBuf.indeterminate 14 (by decide) (by decide)
    (by decide)).1.trans (by decide)

/-- C18: with non-null arguments, `hash_fnBuildGUIDKey` returns `ENOMEM`
exactly when `key_len < 17` and `EOK` otherwise; `hash_fnBuildNameKey` returns
`ENOMEM` exactly when `name_len + 8 + 1 > key_len`, where `name_len` is the
number of characters its copy loop copied (the smaller of `strlen(name)` and
`key_len`), which is the case exactly when `strlen(name) + 8 + 1 > key_len`,
and `EOK` otherwise. -/
theorem C18_key_capacity_errors (guid instanceID : Nat) (name : CStr) (key : KeyBuf)
    (key_len : Nat) (hkey : key ≠ KeyBuf.null) :
    ((hash_fnBuildGUIDKey guid instanceID key key_len).1 = ENOMEM ↔ key_len < 17) ∧
    (¬ key_len < 17 → (hash_fnBuildGUIDKey guid instanceID key key_len).1 = EOK) ∧
    ((hash_fnBuildNameKey (some name) instanceID key key_len).1 = ENOMEM ↔
      min (strlen name) key_len + 8 + 1 > key_len) ∧
    (min (strlen name) key_len + 8 + 1 > key_len ↔ strlen name + 8 + 1 > key_len) ∧
    (¬ min (strlen name) key_len + 8 + 1 > key_len →
      (hash_fnBuildNameKey (some name) instanceID key key_len).1 = EOK) := by
  have hmin : min (strlen name) key_len + 8 + 1 > key_len ↔ strlen name + 8 + 1 > key_len := by
    omega
  refine ⟨?_, ?_, ?_, hmin, ?_⟩
  · constructor
    · intro h
      by_contra hn
      rw [guidKey_ok guid instanceID key key_len hkey (by omega)] at h
      exact EOK_ne_ENOMEM h
    · intro h
      rw [guidKey_fail guid instanceID key key_len (by omega)]
  · intro h
    rw [guidKey_ok guid instanceID key key_len hkey (by omega)]
  · rw [hmin]
    constructor
    · intro h
      by_contra hn
      rw [nameKey_ok name instanceID key key_len hkey (by omega)] at h
      exact EOK_ne_ENOMEM h
    · intro h
      exact nameKey_fail name instanceID key key_len (by omega)
  · intro h
    rw [nameKey_ok name instanceID key key_len hkey (by omega)]

theorem C18_key_capacity_errors_witness :
    ((hash_fnBuildGUIDKey 0x800007BC 1 KeyBuf.indeterminate 16).1 = ENOMEM ↔ 16 < 17) ∧
    ((hash_fnBuildNameKey (some "POWER".toList) 1 KeyBuf.indeterminate 13).1 = ENOMEM ↔
      min (strlen "POWER".toList) 13 + 8 + 1 > 13) :=
  ⟨(C18_key_capacity_errors 0x800007BC 1 "POWER".toList KeyBuf.indeterminate 16
      (by decide)).1,
    (C18_key_capacity_errors 0x800007BC 1 "POWER".toList KeyBuf.indeterminate 13
      (by decide)).2.2.1⟩

theorem lookupById_eq (st : DpIndex) (guid instanceID : Nat) :
    HASH_fnLookupById st guid instanceID =
      some (cfuhash_get st.guidhash (encodeNibbles 8 guid ++ encodeNibbles 8 instanceID)) := by
  unfold HASH_fnLookupById
  rw [guidKey_ok guid instanceID KeyBuf.indeterminate 20 (by decide) (by decide)]

theorem add_eq (M : Nat) (st : DpIndex) (p : Nat) (dp : dp_id_t) (override : Option CStr)
    (k : CStr) (hM : 7 ≤ M)
    (hkey : hash_fnBuildNameKey
      (match override with
        | some n => some n
        | none => dp.pName) dp.instanceID KeyBuf.indeterminate (M + 10) =
        (EOK, KeyBuf.str k)) :
    HASH_fnAdd M st p dp override =
      some (if dp.ulName ≠ 0 then
          { hash := (cfuhash_put st.hash k p).1,
            guidhash := (cfuhash_put st.guidhash
              (encodeNibbles 8 dp.ulName ++ encodeNibbles 8 dp.instanceID) p).1 }
        else { hash := (cfuhash_put st.hash k p).1, guidhash := st.guidhash }, EOK) := by
  unfold HASH_fnAdd
  simp only [hkey]
  by_cases hg : dp.ulName ≠ 0
  · rw [if_pos hg, if_pos hg,
      guidKey_ok dp.ulName dp.instanceID (KeyBuf.str k) (M + 10) (by simp) (by omega)]
  · rw [if_neg hg, if_neg hg]

/-- C19: for a data point `dp` at the address `p` with instance id `i`, when
the key `k` of (`override` if non-null, else `dp`'s own name; `i`) can be built
in the buffer of `DP_MAX_NAME_LENGTH + 10` characters and that buffer is longer
than a GUID key, `HASH_fnAdd(dp, override)` returns `EOK`, after it the name
table maps `k` to `p`, `HASH_fnLookupById(g, i)` returns `p` if the GUID `g` of
`dp` is not zero, and the GUID table is unchanged if it is zero. -/
theorem C19_HASH_fnAdd_indexing (M : Nat) (st : DpIndex) (p : Nat) (dp : dp_id_t)
    (override : Option CStr) (k : CStr) (hM : 7 ≤ M)
    (hkey : hash_fnBuildNameKey
      (match override with
        | some n => some n
        | none => dp.pName) dp.instanceID KeyBuf.indeterminate (M + 10) =
        (EOK, KeyBuf.str k)) :
    ∃ st2, HASH_fnAdd M st p dp override = some (st2, EOK) ∧
      cfuhash_get st2.hash k = some p ∧
      (dp.ulName ≠ 0 → HASH_fnLookupById st2 dp.ulName dp.instanceID = some (some p)) ∧
      (dp.ulName = 0 → st2.guidhash = st.guidhash) := by
  refine ⟨_, add_eq M st p dp override k hM hkey, ?_, ?_, ?_⟩
  · by_cases hg : dp.ulName ≠ 0
    · rw [if_pos hg, get_put, if_pos rfl]
    · rw [if_neg hg, get_put, if_pos rfl]
  · intro hg
    rw [lookupById_eq, if_pos hg, get_put, if_pos rfl]
  · intro hg
    rw [if_neg (not_not.2 hg)]

theorem C19_HASH_fnAdd_indexing_witness :
    ∃ st2, HASH_fnAdd 32 { hash := [], guidhash := [] } 5
        { pName := some "POWER".toList, instanceID := 1, ulName := 0x800007BC } none =
          some (st2, EOK) ∧
      cfuhash_get st2.hash "POWERBAAAAAAA".toList = some 5 ∧
      (0x800007BC ≠ 0 → HASH_fnLookupById st2 0x800007BC 1 = some (some 5)) ∧
      (0x800007BC = 0 → st2.guidhash = []) :=
  C19_HASH_fnAdd_indexing 32 { hash := [], guidhash := [] } 5
    { pName := some "POWER".toList, instanceID := 1, ulName := 0x800007BC } none
    "POWERBAAAAAAA".toList (by decide) (by decide)

theorem linked_frame (objs objs2 : Nat → tzOBJECT) : ∀ (l : List Nat) (prev : Option Nat),
    Linked objs prev l → (∀ x ∈ l, objs2 x = objs x) → Linked objs2 prev l := by
  intro l
  induction l with
  | nil => intro prev _ _; trivial
  | cons a t ih =>
    intro prev h hs
    refine ⟨?_, ?_, ih (some a) h.2.2 (fun x hx => hs x (List.mem_cons_of_mem _ hx))⟩
    · rw [hs a (List.mem_cons_self _ _)]; exact h.1
    · rw [hs a (List.mem_cons_self _ _)]; exact h.2.1

theorem linked_snoc (objs objs2 : Nat → tzOBJECT) (b : Nat) :
    ∀ (l : List Nat) (prev : Option Nat),
    Linked objs prev l → l.Nodup → b ∉ l →
    (objs2 b).queue_prev =
      (match l.getLast? with
        | some x => some x
        | none => prev) →
    (objs2 b).queue_next = none →
    (∀ x ∈ l, (objs2 x).queue_prev = (objs x).queue_prev) →
    (∀ x ∈ l, l.getLast? ≠ some x → (objs2 x).queue_next = (objs x).queue_next) →
    (∀ x, l.getLast? = some x → (objs2 x).queue_next = some b) →
    Linked objs2 prev (l ++ [b]) := by
  intro l
  induction l with
  | nil =>
    intro prev _ _ _ hbp hbn _ _ _
    exact ⟨hbp, hbn, trivial⟩
  | cons a t ih =>
    intro prev hl hnd hb hbp hbn hprev hother hlast
    have hat : a ∉ t := (List.nodup_cons.1 hnd).1
    have hndt : t.Nodup := (List.nodup_cons.1 hnd).2
    have hbt : b ∉ t := fun h => hb (List.mem_cons_of_mem _ h)
    show (objs2 a).queue_prev = prev ∧ (objs2 a).queue_next = (t ++ [b]).head? ∧
      Linked objs2 (some a) (t ++ [b])
    refine ⟨?_, ?_, ?_⟩
    · rw [hprev a (List.mem_cons_self _ _)]; exact hl.1
    · cases t with
      | nil => exact hlast a rfl
      | cons c t2 =>
        have hne : (a :: c :: t2).getLast? ≠ some a := by
          rw [List.getLast?_cons_cons]
          intro h
          exact hat (List.mem_of_mem_getLast? (Option.mem_def.2 h))
        rw [hother a (List.mem_cons_self _ _) hne]
        exact hl.2.1
    · cases t with
      | nil =>
        exact ih (some a) hl.2.2 hndt hbt hbp hbn
          (fun x hx => absurd hx (List.not_mem_nil _))
          (fun x hx => absurd hx (List.not_mem_nil _))
          (fun x hx => by cases hx)
      | cons c t2 =>
        have e : (a :: c :: t2).getLast? = (c :: t2).getLast? := List.getLast?_cons_cons
        refine ih (some a) hl.2.2 hndt hbt ?_ hbn
          (fun x hx => hprev x (List.mem_cons_of_mem _ hx))
          (fun x hx hne => hother x (List.mem_cons_of_mem _ hx) (by rw [e]; exact hne))
          (fun x hx => hlast x (by rw [e]; exact hx))
        rw [e] at hbp
        rw [hbp]
        cases hg : (c :: t2).getLast? with
        | none => simp at hg
        | some x => rfl

theorem addObj_empty (w : SimState) (q : tzQUEUE) (p : Nat) (params : tzParams)
    (hq : w.pQueue = some q) (hf : q.pFirst = none) :
    queue_fnAddObj w (some p) (some params) =
      Except.ok ({ w with
        objs := Function.update
          (Function.update w.objs p ((w.objs p).stamp (w.cycles w.clockCalls))) p
          (((w.objs p).stamp (w.cycles w.clockCalls)).link none none),
        pQueue := some { uiObjCount := (q.uiObjCount + 1) % 65536, pFirst := some p,
                         pLast := some p },
        clockCalls := w.clockCalls + 1 }, EOK) := by
  unfold queue_fnAddObj
  simp [hq, hf]

theorem addObj_nonempty (w : SimState) (q : tzQUEUE) (p a t : Nat) (params : tzParams)
    (hq : w.pQueue = some q) (hf : q.pFirst = some a) (hl : q.pLast = some t) :
    queue_fnAddObj w (some p) (some params) =
      Except.ok ({ w with
        objs := Function.update
          (Function.update
            (Function.update w.objs p ((w.objs p).stamp (w.cycles w.clockCalls))) t
            ((Function.update w.objs p ((w.objs p).stamp (w.cycles w.clockCalls)) t).setNext
              (some p))) p
          ((Function.update
            (Function.update w.objs p ((w.objs p).stamp (w.cycles w.clockCalls))) t
            ((Function.update w.objs p ((w.objs p).stamp (w.cycles w.clockCalls)) t).setNext
              (some p)) p).link (some t) none),
        pQueue := some { uiObjCount := (q.uiObjCount + 1) % 65536, pFirst := q.pFirst,
                         pLast := some p },
        clockCalls := w.clockCalls + 1 }, EOK) := by
  unfold queue_fnAddObj
  simp [hq, hf, hl]

theorem addObj_spec (w : SimState) (l : List Nat) (b : Nat) (params : tzParams)
    (hq : IsQueue w l) (hb : b ∉ l) (hbrk : b < w.brk) :
    ∃ w2, queue_fnAddObj w (some b) (some params) = Except.ok (w2, EOK) ∧
      IsQueue w2 (l ++ [b]) ∧ w2.brk = w.brk ∧ w2.pObj = w.pObj ∧
      w2.objCounter = w.objCounter ∧ w2.callocOk = w.callocOk ∧
      w2.callocCalls = w.callocCalls ∧
      (∀ a, (w2.objs a).beginBatch = (w.objs a).beginBatch ∧
        (w2.objs a).endBatch = (w.objs a).endBatch) := by
  obtain ⟨q, hq, hfirst, hlast, hcount, hlinked, hnd, hlt⟩ := hq
  cases l with
  | nil =>
    refine ⟨_, addObj_empty w q b params hq hfirst, ⟨_, rfl, rfl, rfl, ?_, ?_, ?_, ?_⟩,
      rfl, rfl, rfl, rfl, rfl, ?_⟩
    · show (q.uiObjCount + 1) % 65536 = 1 % 65536
      rw [hcount]; rfl
    · refine ⟨?_, ?_, trivial⟩ <;> simp [Function.update, tzOBJECT.link]
    · simp
    · intro a ha
      rw [List.nil_append, List.mem_singleton] at ha
      rw [ha]; exact hbrk
    · intro a
      by_cases h : a = b <;> simp [Function.update, h, tzOBJECT.link, tzOBJECT.stamp]
  | cons a t =>
    have hlast2 : q.pLast = some ((a :: t).getLast (List.cons_ne_nil _ _)) := by
      rw [hlast]; exact List.getLast?_eq_getLast _ _
    have hmem : (a :: t).getLast (List.cons_ne_nil _ _) ∈ a :: t := List.getLast_mem _
    have hne : (a :: t).getLast (List.cons_ne_nil _ _) ≠ b := fun e => hb (e ▸ hmem)
    have hxb : ∀ x ∈ a :: t, x ≠ b := fun x hx e => hb (e ▸ hx)
    refine ⟨_, addObj_nonempty w q b a _ params hq hfirst hlast2,
      ⟨_, rfl, ?_, ?_, ?_, ?_, ?_, ?_⟩, rfl, rfl, rfl, rfl, rfl, ?_⟩
    · show q.pFirst = (a :: t ++ [b]).head?
      rw [hfirst]; rfl
    · show some b = (a :: t ++ [b]).getLast?
      rw [List.getLast?_concat]
    · show (q.uiObjCount + 1) % 65536 = (a :: t ++ [b]).length % 65536
      rw [hcount, List.length_append, List.length_singleton]
      omega
    · refine linked_snoc w.objs _ b (a :: t) none hlinked hnd hb ?_ ?_ ?_ ?_ ?_
      · rw [List.getLast?_eq_getLast _ (List.cons_ne_nil _ _)]
        simp [Function.update, tzOBJECT.link]
      · simp [Function.update, tzOBJECT.link]
      · intro x hx
        have h1 := hxb x hx
        by_cases h2 : x = (a :: t).getLast (List.cons_ne_nil _ _)
        · subst h2
          simp [Function.update, h1, hne, tzOBJECT.setNext]
        · simp [Function.update, h1, h2]
      · intro x hx hn
        have h1 := hxb x hx
        have h2 : x ≠ (a :: t).getLast (List.cons_ne_nil _ _) := by
          intro e
          apply hn
          rw [List.getLast?_eq_getLast _ (List.cons_ne_nil _ _), e]
        simp [Function.update, h1, h2]
      · intro x hx
        rw [List.getLast?_eq_getLast _ (List.cons_ne_nil _ _)] at hx
        have h2 : (a :: t).getLast (List.cons_ne_nil _ _) = x := Option.some.inj hx
        subst h2
        simp [Function.update, hne, tzOBJECT.setNext]
    · exact List.nodup_append.2 ⟨hnd, List.nodup_singleton b, by
        intro x hx hx2
        rw [List.mem_singleton] at hx2
        exact hxb x hx hx2⟩
    · intro x hx
      rcases List.mem_append.1 hx with h | h
      · exact hlt x h
      · rw [List.mem_singleton] at h; rw [h]; exact hbrk
    · intro x
      by_cases h1 : x = b
      · simp [Function.update, h1, tzOBJECT.link, tzOBJECT.stamp, hne.symm]
      · by_cases h2 : x = (a :: t).getLast (List.cons_ne_nil _ _)
        · subst h2
          simp [Function.update, h1, hne, tzOBJECT.setNext]
        · simp [Function.update, h1, h2]

theorem isQueue_calloc (w : SimState) (l : List Nat) (o : tzOBJECT) (k : Nat)
    (hq : IsQueue w l) :
    IsQueue { w with objs := Function.update w.objs w.brk o, brk := w.brk + 1,
                     pObj := Function.update w.pObj w.objCounter (some w.brk),
                     callocCalls := k } l := by
  obtain ⟨q, hq, hfirst, hlast, hcount, hlinked, hnd, hlt⟩ := hq
  refine ⟨q, hq, hfirst, hlast, hcount, ?_, hnd, fun a ha => Nat.lt_succ_of_lt (hlt a ha)⟩
  exact linked_frame w.objs _ l none hlinked
    (fun x hx => Function.update_noteq (Nat.ne_of_lt (hlt x hx)) _ _)

theorem iter_spec (num : Int) (params : tzParams) (i : Nat) (w : SimState) (ret : Int)
    (l : List Nat) (hq : IsQueue w l) (halloc : w.callocOk w.callocCalls = true)
    (hroom : w.objCounter < MAX_NUM_OF_OBJECTS) :
    ∃ w2, QUEUE_fnAdd_iter num (some params) i w ret = Except.ok (w2, EOK) ∧
      IsQueue w2 (l ++ [w.brk]) ∧ w2.brk = w.brk + 1 ∧
      w2.objCounter = w.objCounter + 1 ∧ w2.callocOk = w.callocOk ∧
      w2.callocCalls = w.callocCalls + 1 ∧
      (w2.objs w.brk).beginBatch = decide ((0 : Int) = i) ∧
      (w2.objs w.brk).endBatch = decide (num - 1 = i) ∧
      (∀ a, a < w.brk → (w2.objs a).beginBatch = (w.objs a).beginBatch ∧
        (w2.objs a).endBatch = (w.objs a).endBatch) := by
  have hb : w.brk ∉ l := by
    obtain ⟨q, _, _, _, _, _, _, hlt⟩ := hq
    exact fun h => Nat.lt_irrefl _ (hlt _ h)
  obtain ⟨w2, h2, hq2, hbrk, _, hcnt, hok, hcalls, hflags⟩ :=
    addObj_spec _ l w.brk params
      (isQueue_calloc w l
        { tzOBJECT.zero with ObjName := "Drone".toList,
                             beginBatch := decide ((0 : Int) = i),
                             endBatch := decide (num - 1 = i) } (w.callocCalls + 1) hq)
      hb (Nat.lt_succ_self _)
  refine ⟨{ w2 with objCounter := w2.objCounter + 1 }, ?_, ?_, hbrk, ?_, hok, hcalls, ?_, ?_, ?_⟩
  · unfold QUEUE_fnAdd_iter
    rw [if_neg (Nat.not_le.2 hroom), if_neg (by rw [halloc]; decide)]
    simp only [h2]
  · obtain ⟨q, h1, h3, h4, h5, h6, h7, h8⟩ := hq2
    exact ⟨q, h1, h3, h4, h5, h6, h7, h8⟩
  · show w2.objCounter + 1 = w.objCounter + 1
    rw [hcnt]
  · show (w2.objs w.brk).beginBatch = _
    rw [(hflags w.brk).1]
    simp [Function.update]
  · show (w2.objs w.brk).endBatch = _
    rw [(hflags w.brk).2]
    simp [Function.update]
  · intro a ha
    show (w2.objs a).beginBatch = _ ∧ (w2.objs a).endBatch = _
    rw [(hflags a).1, (hflags a).2]
    simp [Function.update, Nat.ne_of_lt ha]

theorem loop_spec (num : Int) (params : tzParams) : ∀ (is : List Nat) (w : SimState)
    (ret : Int) (l : List Nat), IsQueue w l →
    (∀ j, j < is.length → w.callocOk (w.callocCalls + j) = true) →
    w.objCounter + is.length ≤ MAX_NUM_OF_OBJECTS →
    ∃ w2, QUEUE_fnAdd_loop num (some params) is w ret =
        Except.ok (w2, if is = [] then ret else EOK) ∧
      IsQueue w2 (l ++ (List.range is.length).map (fun j => w.brk + j)) ∧
      w2.brk = w.brk + is.length ∧
      w2.objCounter = w.objCounter + is.length ∧
      (∀ j, j < is.length → ∀ i, is[j]? = some i →
        (w2.objs (w.brk + j)).beginBatch = decide ((0 : Int) = i) ∧
        (w2.objs (w.brk + j)).endBatch = decide (num - 1 = i)) ∧
      (∀ a, a < w.brk → (w2.objs a).beginBatch = (w.objs a).beginBatch ∧
        (w2.objs a).endBatch = (w.objs a).endBatch) := by
  intro is
  induction is with
  | nil =>
    intro w ret l hq _ _
    refine ⟨w, rfl, ?_, rfl, rfl, ?_, fun a _ => ⟨rfl, rfl⟩⟩
    · simpa using hq
    · intro j hj; exact absurd hj (Nat.not_lt_zero _)
  | cons i rest ih =>
    intro w ret l hq halloc hroom
    rw [List.length_cons] at hroom
    obtain ⟨w1, h1, hq1, hbrk1, hcnt1, hok1, hcalls1, hbeg1, hend1, hold1⟩ :=
      iter_spec num params i w ret l hq (halloc 0 (Nat.succ_pos _))
        (by omega)
    obtain ⟨w2, h2, hq2, hbrk2, hcnt2, hnew2, hold2⟩ :=
      ih w1 EOK (l ++ [w.brk]) hq1
        (fun j hj => by
          rw [hok1, hcalls1, Nat.add_assoc, Nat.add_comm 1 j]
          exact halloc (j + 1) (Nat.succ_lt_succ hj))
        (by rw [hcnt1]; omega)
    refine ⟨w2, ?_, ?_, ?_, ?_, ?_, ?_⟩
    · rw [if_neg (List.cons_ne_nil _ _)]
      show (match QUEUE_fnAdd_iter num (some params) i w ret with
        | Except.error e => Except.error e
        | Except.ok (w1, ret1) => QUEUE_fnAdd_loop num (some params) rest w1 ret1) = _
      rw [h1]
      show QUEUE_fnAdd_loop num (some params) rest w1 EOK = _
      rw [h2]
      split <;> rfl
    · have e : l ++ (List.range (i :: rest).length).map (fun j => w.brk + j) =
          (l ++ [w.brk]) ++ (List.range rest.length).map (fun j => w1.brk + j) := by
        rw [List.length_cons, List.range_succ_eq_map, List.map_cons, List.map_map,
          List.append_assoc, hbrk1]
        simp [Function.comp, Nat.add_assoc, Nat.add_comm 1]
      rw [e]; exact hq2
    · rw [hbrk2, hbrk1, List.length_cons]; omega
    · rw [hcnt2, hcnt1, List.length_cons]; omega
    · intro j hj i2 hi2
      cases j with
      | zero =>
        have e : i2 = i := by simpa using hi2.symm
        rw [e, Nat.add_zero]
        have := hold2 w.brk (by rw [hbrk1]; exact Nat.lt_succ_self _)
        rw [this.1, this.2]
        exact ⟨hbeg1, hend1⟩
      | succ j =>
        have hj2 : j < rest.length := Nat.lt_of_succ_lt_succ hj
        have := hnew2 j hj2 i2 (by simpa using hi2)
        rw [hbrk1] at this
        have e : w.brk + (j + 1) = w.brk + 1 + j := by omega
        rw [e]; exact this
    · intro a ha
      have h3 := hold2 a (by rw [hbrk1]; exact Nat.lt_succ_of_lt ha)
      have h4 := hold1 a ha
      exact ⟨h3.1.trans h4.1, h3.2.trans h4.2⟩

theorem add_spec (w : SimState) (l : List Nat) (n : Nat) (params : tzParams)
    (hn : 1 ≤ n) (hq : IsQueue w l)
    (halloc : ∀ j, j < n → w.callocOk (w.callocCalls + j) = true)
    (hroom : w.objCounter + n ≤ MAX_NUM_OF_OBJECTS) :
    ∃ w2, QUEUE_fnAdd w (n : Int) (some params) = Except.ok (w2, EOK) ∧
      IsQueue w2 (l ++ (List.range n).map (fun j => w.brk + j)) ∧
      (∀ j, j < n →
        (w2.objs (w.brk + j)).beginBatch = decide (j = 0) ∧
        (w2.objs (w.brk + j)).endBatch = decide (j = n - 1)) := by
  obtain ⟨w2, h2, hq2, _, _, hnew, _⟩ :=
    loop_spec (n : Int) params (List.range n) w EINVAL l hq
      (by rw [List.length_range]; exact halloc) (by rw [List.length_range]; exact hroom)
  rw [List.length_range] at hq2 hnew
  refine ⟨w2, ?_, hq2, ?_⟩
  · unfold QUEUE_fnAdd
    rw [Int.toNat_natCast, h2, if_neg]
    intro h
    have := congrArg List.length h
    rw [List.length_range] at this
    simp at this
    omega
  · intro j hj
    have := hnew j hj j (List.getElem?_range hj)
    rw [this.1, this.2]
    constructor
    · apply Bool.decide_congr; omega
    · apply Bool.decide_congr; omega

theorem isQueue_fresh (w : SimState) (h : w.callocOk w.callocCalls = true) :
    IsQueue (QUEUE_fnInitialize w).1 [] := by
  unfold QUEUE_fnInitialize
  rw [if_neg (by rw [h]; decide)]
  exact ⟨_, rfl, rfl, rfl, rfl, trivial, List.nodup_nil, fun a ha => absurd ha (List.not_mem_nil a)⟩

/-- C20: for every `n >= 1`, when the queue holds the objects `l`, `arg` is not
NULL, the next `n` allocations succeed and the table `pObj` has room for `n`
more entries, `QUEUE_fnAdd(pQueue, n, arg)` returns `EOK` and leaves the queue
holding `l` followed by the `n` newly allocated objects in order; among these
the first, and only the first, has `beginBatch = true`, and the last, and only
the last, has `endBatch = true`. -/
theorem C20_batch_flags (w : SimState) (l : List Nat) (n : Nat) (params : tzParams)
    (hn : 1 ≤ n) (hq : IsQueue w l)
    (halloc : ∀ j, j < n → w.callocOk (w.callocCalls + j) = true)
    (hroom : w.objCounter + n ≤ MAX_NUM_OF_OBJECTS) :
    ∃ w2, QUEUE_fnAdd w (n : Int) (some params) = Except.ok (w2, EOK) ∧
      IsQueue w2 (l ++ (List.range n).map (fun j => w.brk + j)) ∧
      (∀ j, j < n →
        ((w2.objs (w.brk + j)).beginBatch = true ↔ j = 0) ∧
        ((w2.objs (w.brk + j)).endBatch = true ↔ j = n - 1)) := by
  obtain ⟨w2, h1, h2, h3⟩ := add_spec w l n params hn hq halloc hroom
  refine ⟨w2, h1, h2, fun j hj => ?_⟩
  rw [(h3 j hj).1, (h3 j hj).2]
  simp

theorem C20_batch_flags_witness :
    ∃ w2, QUEUE_fnAdd (QUEUE_fnInitialize simBoot).1 ((3 : Nat) : Int) (some sampleParams) =
        Except.ok (w2, EOK) ∧
      IsQueue w2 ([] ++ (List.range 3).map (fun j => (QUEUE_fnInitialize simBoot).1.brk + j)) ∧
      (∀ j, j < 3 →
        ((w2.objs ((QUEUE_fnInitialize simBoot).1.brk + j)).beginBatch = true ↔ j = 0) ∧
        ((w2.objs ((QUEUE_fnInitialize simBoot).1.brk + j)).endBatch = true ↔ j = 3 - 1)) :=
  C20_batch_flags (QUEUE_fnInitialize simBoot).1 [] 3 sampleParams (by decide)
    (isQueue_fresh simBoot rfl) (fun _ _ => rfl) (by decide)

/-- C28: for every rule with `min = 0` and `max = 0` and every data point
value, scalar values different from zero included, `policy_fnBoundChecking`
returns true and `policy_fnCheckVal` returns `EOK`: no bound is looked at. -/
theorem C28_bounds_wildcard (val : DpValue) (pol : zPOLICY) (hmin : pol.min = 0)
    (hmax : pol.max = 0) :
    policy_fnBoundChecking val pol = true ∧ policy_fnCheckVal val pol = EOK := by
  refine ⟨boundChecking_skipped val pol (Or.inl hmin), ?_⟩
  unfold policy_fnCheckVal
  rw [if_pos (boundChecking_skipped val pol (Or.inr hmax))]

theorem C28_bounds_wildcard_witness :
    policy_fnBoundChecking (DpValue.uint16 150)
        (policyOf (temperatureRule sampleCodes 0 0 0) "boston".data) = true ∧
      policy_fnCheckVal (DpValue.uint16 150)
        (policyOf (temperatureRule sampleCodes 0 0 0) "boston".data) = EOK :=
  C28_bounds_wildcard (DpValue.uint16 150)
    (policyOf (temperatureRule sampleCodes 0 0 0) "boston".data) rfl rfl

theorem boundChecking_array (val : DpValue) (pol : zPOLICY)
    (hval : val = DpValue.array16 ∨ val = DpValue.array32 ∨ val = DpValue.conjugate)
    (hmin : pol.min ≠ 0) (hmax : pol.max ≠ 0) : policy_fnBoundChecking val pol = false := by
  unfold policy_fnBoundChecking
  rw [if_pos ⟨fun h => hmin h.symm, fun h => hmax h.symm⟩]
  rcases hval with h | h | h <;> rw [h]

/-- C29 (counterexample): an `array16` value and the comparator rule for
temperature at boston with `min = 0` and `max = 0`: `policy_fnBoundChecking`
returns true, the value passes. -/
theorem C29_counterexample :
    policy_fnBoundChecking DpValue.array16
      (policyOf (temperatureRule sampleCodes 0 0 0) "boston".data) = true := by
  decide

/-- C29 (amended): for every value of type array16, array32 or conjugate:
under every rule whose `min` and `max` are both different from zero,
`policy_fnBoundChecking` returns false and `policy_fnCheckVal` returns
`EACCES`; under every rule with `min = 0` and `max = 0`, the wildcard, no bound
is looked at, `policy_fnBoundChecking` returns true and `policy_fnCheckVal`
returns `EOK`. -/
theorem C29_arrays_fail_nonzero_bounds (val : DpValue) (pol : zPOLICY)
    (hval : val = DpValue.array16 ∨ val = DpValue.array32 ∨ val = DpValue.conjugate) :
    (pol.min ≠ 0 → pol.max ≠ 0 →
      policy_fnBoundChecking val pol = false ∧ policy_fnCheckVal val pol = EACCES) ∧
    (pol.min = 0 → pol.max = 0 →
      policy_fnBoundChecking val pol = true ∧ policy_fnCheckVal val pol = EOK) := by
  constructor
  · intro hmin hmax
    have h := boundChecking_array val pol hval hmin hmax
    refine ⟨h, ?_⟩
    unfold policy_fnCheckVal
    rw [h]
    rfl
  · intro hmin hmax
    refine ⟨boundChecking_skipped val pol (Or.inl hmin), ?_⟩
    unfold policy_fnCheckVal
    rw [if_pos (boundChecking_skipped val pol (Or.inr hmax))]

/-- Witness for C29: an `array16` value fails under the rule with the bounds 1
and 100 and passes under the wildcard rule with the bounds 0 and 0. -/
theorem C29_arrays_fail_nonzero_bounds_witness :
    (policy_fnBoundChecking DpValue.array16
        (policyOf (temperatureRule sampleCodes 1 100 0) "boston".data) = false ∧
      policy_fnCheckVal DpValue.array16
        (policyOf (temperatureRule sampleCodes 1 100 0) "boston".data) = EACCES) ∧
    (policy_fnBoundChecking DpValue.array16
        (policyOf (temperatureRule sampleCodes 0 0 0) "boston".data) = true ∧
      policy_fnCheckVal DpValue.array16
        (policyOf (temperatureRule sampleCodes 0 0 0) "boston".data) = EOK) :=
  ⟨(C29_arrays_fail_nonzero_bounds DpValue.array16
      (policyOf (temperatureRule sampleCodes 1 100 0) "boston".data) (Or.inl rfl)).1
      (by decide) (by decide),
    (C29_arrays_fail_nonzero_bounds DpValue.array16
      (policyOf (temperatureRule sampleCodes 0 0 0) "boston".data) (Or.inl rfl)).2 rfl rfl⟩

theorem hk_slot_at (s : ServerState) (i : Nat) (h : tzHouseKeep) (hi : s.hs[i]? = some h) :
    (POLICY_fnHouseKeepPolicy s).1.hs[i]? =
      some ((fun x : tzHouseKeep => if x.pPolicy ≠ none then { x with Seen := false } else x)
        (clearUnseen h)) := by
  rw [hk_hs]
  unfold resetSeen
  rw [List.getElem?_map, List.getElem?_map, hi]
  rfl

theorem hk_snd (s : ServerState) : (POLICY_fnHouseKeepPolicy s).2 = EOK := rfl

/-- C30: `POLICY_fnHouseKeepPolicy` returns `EOK`, and afterwards every roster
slot that held a policy with `Seen = false` is empty and the key recomputed from
that policy (kind, type, lowercased location) is not in the policy store; every
slot that held a policy with `Seen = true` holds the same policy with
`Seen = false`; every empty slot is as before; and under every key that is not
the recomputed key of such an unseen slot the store finds what it found
before. -/
theorem C30_housekeeping_sweep (s : ServerState) :
    (POLICY_fnHouseKeepPolicy s).2 = EOK ∧
    (POLICY_fnHouseKeepPolicy s).1.hs.length = s.hs.length ∧
    (∀ (i : Nat) (h : tzHouseKeep), s.hs[i]? = some h →
      (∀ p, h.pPolicy = some p → h.Seen = false →
        (POLICY_fnHouseKeepPolicy s).1.hs[i]? = some { pPolicy := none, Seen := false } ∧
        POLICYHASH_fnFind (POLICY_fnHouseKeepPolicy s).1
          (hashString (s.heap p).Name (s.heap p).Type_ (s.heap p).Location) = none ∧
        POLICYHASH_fnCheck (POLICY_fnHouseKeepPolicy s).1
          (hashString (s.heap p).Name (s.heap p).Type_ (s.heap p).Location) = false) ∧
      (∀ p, h.pPolicy = some p → h.Seen = true →
        (POLICY_fnHouseKeepPolicy s).1.hs[i]? = some { pPolicy := some p, Seen := false }) ∧
      (h.pPolicy = none → (POLICY_fnHouseKeepPolicy s).1.hs[i]? = some h)) ∧
    (∀ k : CStr,
      (∀ h ∈ s.hs, ∀ p, h.pPolicy = some p → h.Seen = false →
        hashString (s.heap p).Name (s.heap p).Type_ (s.heap p).Location ≠ k) →
      POLICYHASH_fnFind (POLICY_fnHouseKeepPolicy s).1 k = POLICYHASH_fnFind s k) := by
  refine ⟨rfl, length_housekeep s, ?_, ?_⟩
  · intro i h hi
    have hslot := hk_slot_at s i h hi
    refine ⟨?_, ?_, ?_⟩
    · intro p hp hseen
      have hkey : hashString (s.heap p).Name (s.heap p).Type_ (s.heap p).Location ∈
          unseenKeys s.heap s.hs :=
        (mem_unseenKeys _ _ _).2 ⟨h, List.getElem?_mem hi, p, hp, hseen, rfl⟩
      have hfind : POLICYHASH_fnFind (POLICY_fnHouseKeepPolicy s).1
          (hashString (s.heap p).Name (s.heap p).Type_ (s.heap p).Location) = none := by
        unfold POLICYHASH_fnFind
        rw [hk_get, if_pos hkey]
      refine ⟨?_, hfind, ?_⟩
      · rw [hslot]
        cases h with
        | mk pp seen =>
          simp only at hp hseen
          subst hp; subst hseen
          simp [clearUnseen]
      · rw [check_eq_find_isSome, hfind]; rfl
    · intro p hp hseen
      rw [hslot]
      cases h with
      | mk pp seen =>
        simp only at hp hseen
        subst hp; subst hseen
        simp [clearUnseen]
    · intro hp
      rw [hslot]
      cases h with
      | mk pp seen =>
        simp only at hp
        subst hp
        simp [clearUnseen]
  · intro k hk
    unfold POLICYHASH_fnFind
    rw [hk_get, if_neg]
    intro hmem
    obtain ⟨x, hx, p, hp, hseen, hkey⟩ := (mem_unseenKeys _ _ _).1 hmem
    exact hk x hx p hp hseen hkey

theorem typeTag_step (K : Codes) (tm : TagMap) (f : TagFields) (t : Nat) (tag v : CStr)
    (ht : t ≤ K.DP_SERVER_MAX_TAGS) (htag : tm t = some tag) (hty : isTypeTag tag)
    (hv : strtokSecond tag = some v) :
    tokenizeStep K tm f t =
      Except.ok (Function.update tm t (some (strlwr tag)),
        { f with typeInt := policy_fnTypeString2Val K v }) := by
  unfold tokenizeStep
  rw [if_neg (Nat.not_lt.2 ht)]
  simp only [htag]
  unfold isTypeTag at hty
  rw [if_pos hty]
  simp only [hv]

theorem prototype_tokenized (K : Codes) (h2 : 2 ≤ K.DP_SERVER_MAX_TAGS) :
    policy_fnTokenizeTags K prototypeTagMap prototypeDp TagFields.init =
      Except.ok (EOK,
        Function.update (Function.update prototypeTagMap 1 (some "type:password".data)) 2
          (some "location:prototype".data),
        { typeInt := K.POLICY_TYPE_INVALID, location := [], userID := 0, groupID := 0 }) := by
  have s1 := typeTag_step K prototypeTagMap TagFields.init 1 "type:password".data
    "password".data (by omega) rfl (by decide) (by decide)
  have s2 := typeTag_step K
    (Function.update prototypeTagMap 1 (some (strlwr "type:password".data)))
    { TagFields.init with typeInt := policy_fnTypeString2Val K "password".data } 2
    "location:prototype".data "prototype".data h2 rfl (by decide) (by decide)
  have hinv : policy_fnTypeString2Val K "prototype".data = K.POLICY_TYPE_INVALID :=
    typeString2Val_unrecognised K _ (by decide)
  have hfirst : ¬ (firstTag prototypeDp < 1 ∨ firstTag prototypeDp > K.DP_SERVER_MAX_TAGS) := by
    have : firstTag prototypeDp = 1 := rfl
    rw [this]; omega
  unfold policy_fnTokenizeTags tokenizeBody
  rw [if_neg hfirst]
  have hl : tokenizeLoop K prototypeDp.tags prototypeTagMap TagFields.init =
      Except.ok (Function.update
          (Function.update prototypeTagMap 1 (some (strlwr "type:password".data))) 2
          (some (strlwr "location:prototype".data)),
        { typeInt := K.POLICY_TYPE_INVALID, location := [], userID := 0, groupID := 0 }) := by
    show tokenizeLoop K [1, 2] prototypeTagMap TagFields.init = _
    unfold tokenizeLoop
    rw [if_neg (by decide), s1]
    simp only
    unfold tokenizeLoop
    rw [if_neg (by decide), s2]
    simp only
    unfold tokenizeLoop
    rw [hinv]
    rfl
  rw [hl]
  rfl

theorem typeString2Val_password (K : Codes) :
    policy_fnTypeString2Val K "password".data = K.POLICY_TYPE_PASS := by
  unfold policy_fnTypeString2Val
  rw [if_neg (by decide), if_neg (by decide), if_neg (by decide), if_neg (by decide),
    if_neg (by decide), if_pos (by decide)]

theorem typeTag_alone (K : Codes) (h1 : 1 ≤ K.DP_SERVER_MAX_TAGS) :
    policy_fnTokenizeTags K prototypeTagMap { prototypeDp with tags := [1] } TagFields.init =
      Except.ok (EOK, Function.update prototypeTagMap 1 (some "type:password".data),
        { typeInt := K.POLICY_TYPE_PASS, location := [], userID := 0, groupID := 0 }) := by
  have s1 := typeTag_step K prototypeTagMap TagFields.init 1 "type:password".data
    "password".data h1 rfl (by decide) (by decide)
  have hfirst : ¬ (firstTag { prototypeDp with tags := [1] } < 1 ∨
      firstTag { prototypeDp with tags := [1] } > K.DP_SERVER_MAX_TAGS) := by
    have : firstTag { prototypeDp with tags := [1] } = 1 := rfl
    rw [this]; omega
  unfold policy_fnTokenizeTags tokenizeBody
  rw [if_neg hfirst]
  have hl : tokenizeLoop K ({ prototypeDp with tags := [1] } : dp_t).tags prototypeTagMap
      TagFields.init =
      Except.ok (Function.update prototypeTagMap 1 (some (strlwr "type:password".data)),
        { typeInt := K.POLICY_TYPE_PASS, location := [], userID := 0, groupID := 0 }) := by
    show tokenizeLoop K [1] prototypeTagMap TagFields.init = _
    unfold tokenizeLoop
    rw [if_neg (by decide), s1]
    simp only
    unfold tokenizeLoop
    rw [typeString2Val_password]
    rfl
  rw [hl]
  rfl

/-- C26: the tokenizer reads the type from every tag whose lowercased text
contains `type`, also when the word stands in the value of another namespace.
The data point tagged `type:password` alone is tokenized with the type
password; the data point tagged `type:password,location:prototype` is
tokenized with the invalid type (from the value `prototype`) and an empty
location, and `POLICY_fnCheck` allows it whatever the policy store holds. -/
theorem C26_type_taken_from_location_value (K : Codes) (s : ServerState)
    (h2 : 2 ≤ K.DP_SERVER_MAX_TAGS) :
    (∃ tm, policy_fnTokenizeTags K prototypeTagMap { prototypeDp with tags := [1] }
        TagFields.init =
      Except.ok (EOK, tm,
        { typeInt := K.POLICY_TYPE_PASS, location := [], userID := 0, groupID := 0 })) ∧
    (∃ tm, policy_fnTokenizeTags K prototypeTagMap prototypeDp TagFields.init =
      Except.ok (EOK, tm,
        { typeInt := K.POLICY_TYPE_INVALID, location := [], userID := 0, groupID := 0 })) ∧
    POLICY_fnCheck K s prototypeTagMap prototypeDp = Allow :=
  ⟨⟨_, typeTag_alone K (by omega)⟩, ⟨_, prototype_tokenized K h2⟩,
    check_invalid K s prototypeTagMap prototypeDp _ _ _ (prototype_tokenized K h2) rfl⟩

theorem C26_type_taken_from_location_value_witness :
    sampleCodes.POLICY_TYPE_PASS ≠ sampleCodes.POLICY_TYPE_INVALID ∧
    POLICYHASH_fnCheck (HASH_fnSetup bootState)
      (hashString sampleCodes.POLICY_NAME_ACCESS sampleCodes.POLICY_TYPE_PASS
        "prototype".data) = false ∧
    POLICY_fnCheck sampleCodes (HASH_fnSetup bootState) prototypeTagMap prototypeDp = Allow :=
  ⟨by decide, by decide,
    (C26_type_taken_from_location_value sampleCodes (HASH_fnSetup bootState) (by decide)).2.2⟩

theorem fmtInt_digit (n : Nat) (h : n ≤ 9) : fmtInt (n : Int) = [Nat.digitChar n] := by
  interval_cases n <;> rfl

theorem digitChar_inj (n m : Nat) (hn : n ≤ 9) (hm : m ≤ 9)
    (h : Nat.digitChar n = Nat.digitChar m) : n = m := by
  interval_cases n <;> interval_cases m <;> first | rfl | (exact absurd h (by decide))

theorem kinds_separate (a b : Int) (ha0 : 0 ≤ a) (ha : a ≤ 9) (hb0 : 0 ≤ b) (hb : b ≤ 9)
    (hab : a ≠ b) (t t2 : Int) (L L2 : CStr) : hashString a t L ≠ hashString b t2 L2 := by
  obtain ⟨n, rfl⟩ := Int.eq_ofNat_of_zero_le ha0
  obtain ⟨m, rfl⟩ := Int.eq_ofNat_of_zero_le hb0
  have hn : n ≤ 9 := by omega
  have hm : m ≤ 9 := by omega
  intro h
  unfold hashString at h
  rw [fmtInt_digit n hn, fmtInt_digit m hm] at h
  simp only [List.cons_append, List.nil_append, List.cons.injEq] at h
  exact hab (by rw [digitChar_inj n m hn hm h.1])

theorem check_access_view (K : Codes) (s : ServerState) (tagMap : TagMap) (pDp : dp_t)
    (r : Int × TagMap × TagFields)
    (h : policy_fnTokenizeTags K tagMap pDp TagFields.init = Except.ok r)
    (hacc : r.2.2.typeInt = K.POLICY_TYPE_PASS ∨ r.2.2.typeInt = K.POLICY_TYPE_HEAD ∨
        r.2.2.typeInt = K.POLICY_TYPE_FUEL) :
    POLICY_fnCheck K s tagMap pDp =
      if r.2.2.typeInt = K.POLICY_TYPE_INVALID then Allow
      else
        match storeView s (hashString K.POLICY_NAME_ACCESS r.2.2.typeInt r.2.2.location) with
        | none => Deny
        | some pol =>
          if (pol.time_tv_sec = 0 ∨ pol.time_tv_sec ≤ pDp.timestamp_tv_sec) ∧
              policy_fnCheckAttr K (strlwr r.2.2.location) r.2.2.userID r.2.2.groupID pol = EOK
          then Allow else Deny := by
  obtain ⟨c, tm, f⟩ := r
  by_cases hty : f.typeInt = K.POLICY_TYPE_INVALID
  · rw [if_pos hty]
    exact check_invalid K s tagMap pDp c tm f h hty
  · rw [if_neg hty]
    unfold storeView
    cases hf : POLICYHASH_fnFind s (hashString K.POLICY_NAME_ACCESS f.typeInt f.location) with
    | none =>
      simp only [hf, Option.map_none']
      exact check_absent K s tagMap pDp c tm f h hty (by rw [checkKey_access K f hacc]; exact hf)
    | some p =>
      simp only [hf, Option.map_some']
      exact check_access K s tagMap pDp c tm f p h hty hacc hf

theorem storeView_create_other (s : ServerState) (m : datapoint_policy_msg_t) (L k : CStr)
    (hc : Consistent s) (hk : hashString m.Name m.Type_ L ≠ k) :
    storeView (POLICY_fnCreatePolicy s (some m) L).1 k = storeView s k := by
  unfold storeView
  rw [find_create, if_neg hk]
  cases hf : POLICYHASH_fnFind s k with
  | none => rfl
  | some p =>
    rw [Option.map_some', Option.map_some', heap_create_old s m L p (hc.storedKey k p hf).1]

theorem storeView_remove_other (s : ServerState) (k2 k : CStr) (hk : k2 ≠ k) :
    storeView (POLICYHASH_fnRemove s (some k2)).1 k = storeView s k := by
  unfold storeView POLICYHASH_fnFind POLICYHASH_fnRemove
  simp only
  rw [get_delete, if_neg hk]

/-- C27: for a data point that is tokenized with the type password, heading or
fuelLevel, in every state reached from `HASH_fnSetup`, the result of
`POLICY_fnCheck` is the same for every value and value type of the data point,
is the same in every state that stores the same rule under the Access key of
its type and location, and is not changed by registering any Comparator rule
nor by removing the key of any Comparator rule; the codes of the two rule kinds
are taken to be two different numbers from 0 to 9. -/
theorem C27_access_decisions_ignore_values (K : Codes) (s0 : ServerState) (calls : List Call)
    (tagMap : TagMap) (pDp : dp_t) (r : Int × TagMap × TagFields)
    (hA0 : 0 ≤ K.POLICY_NAME_ACCESS) (hA : K.POLICY_NAME_ACCESS ≤ 9)
    (hC0 : 0 ≤ K.POLICY_NAME_COMP) (hC : K.POLICY_NAME_COMP ≤ 9)
    (hAC : K.POLICY_NAME_COMP ≠ K.POLICY_NAME_ACCESS)
    (htok : policy_fnTokenizeTags K tagMap pDp TagFields.init = Except.ok r)
    (hacc : r.2.2.typeInt = K.POLICY_TYPE_PASS ∨ r.2.2.typeInt = K.POLICY_TYPE_HEAD ∨
        r.2.2.typeInt = K.POLICY_TYPE_FUEL) :
    (∀ v : DpValue,
      POLICY_fnCheck K (run (HASH_fnSetup s0) calls) tagMap { pDp with val := v } =
        POLICY_fnCheck K (run (HASH_fnSetup s0) calls) tagMap pDp) ∧
    (∀ s2 : ServerState,
      storeView s2 (hashString K.POLICY_NAME_ACCESS r.2.2.typeInt r.2.2.location) =
        storeView (run (HASH_fnSetup s0) calls)
          (hashString K.POLICY_NAME_ACCESS r.2.2.typeInt r.2.2.location) →
      POLICY_fnCheck K s2 tagMap pDp =
        POLICY_fnCheck K (run (HASH_fnSetup s0) calls) tagMap pDp) ∧
    (∀ (m : datapoint_policy_msg_t) (L : CStr), m.Name = K.POLICY_NAME_COMP →
      POLICY_fnCheck K (POLICY_fnCreatePolicy (run (HASH_fnSetup s0) calls) (some m) L).1
          tagMap pDp =
        POLICY_fnCheck K (run (HASH_fnSetup s0) calls) tagMap pDp) ∧
    (∀ (t : Int) (L : CStr),
      POLICY_fnCheck K
          (POLICYHASH_fnRemove (run (HASH_fnSetup s0) calls)
            (some (hashString K.POLICY_NAME_COMP t L))).1 tagMap pDp =
        POLICY_fnCheck K (run (HASH_fnSetup s0) calls) tagMap pDp) := by
  have hview : ∀ s2 : ServerState,
      storeView s2 (hashString K.POLICY_NAME_ACCESS r.2.2.typeInt r.2.2.location) =
        storeView (run (HASH_fnSetup s0) calls)
          (hashString K.POLICY_NAME_ACCESS r.2.2.typeInt r.2.2.location) →
      POLICY_fnCheck K s2 tagMap pDp =
        POLICY_fnCheck K (run (HASH_fnSetup s0) calls) tagMap pDp := by
    intro s2 h2
    rw [check_access_view K s2 tagMap pDp r htok hacc,
      check_access_view K _ tagMap pDp r htok hacc, h2]
  refine ⟨fun v => ?_, hview, fun m L hm => ?_, fun t L => ?_⟩
  · have htok2 : policy_fnTokenizeTags K tagMap { pDp with val := v } TagFields.init =
        Except.ok r := htok
    rw [check_access_view K _ tagMap _ r htok2 hacc,
      check_access_view K _ tagMap pDp r htok hacc]
  · apply hview
    apply storeView_create_other _ m L _ (consistent_run calls _ (consistent_setup s0))
    rw [hm]
    exact kinds_separate _ _ hC0 hC hA0 hA hAC _ _ _ _
  · apply hview
    apply storeView_remove_other
    exact kinds_separate _ _ hC0 hC hA0 hA hAC _ _ _ _

theorem C27_access_decisions_ignore_values_witness :
    POLICY_fnCheck sampleCodes
        (run (HASH_fnSetup bootState) [Call.create (some (passwordRule sampleCodes))
          "boston".data]) sampleTagMap (passwordDp (DpValue.uint16 7)) = Allow ∧
    POLICY_fnCheck sampleCodes
        (run (HASH_fnSetup bootState) [Call.create (some (passwordRule sampleCodes))
          "boston".data]) sampleTagMap
        { passwordDp (DpValue.uint16 7) with val := DpValue.array16 } =
      POLICY_fnCheck sampleCodes
        (run (HASH_fnSetup bootState) [Call.create (some (passwordRule sampleCodes))
          "boston".data]) sampleTagMap (passwordDp (DpValue.uint16 7)) ∧
    POLICY_fnCheck sampleCodes
        (POLICY_fnCreatePolicy
          (run (HASH_fnSetup bootState) [Call.create (some (passwordRule sampleCodes))
            "boston".data])
          (some (temperatureRule sampleCodes 1 2 0)) "boston".data).1
        sampleTagMap (passwordDp (DpValue.uint16 7)) =
      POLICY_fnCheck sampleCodes
        (run (HASH_fnSetup bootState) [Call.create (some (passwordRule sampleCodes))
          "boston".data]) sampleTagMap (passwordDp (DpValue.uint16 7)) :=
  ⟨by decide,
    (C27_access_decisions_ignore_values sampleCodes bootState
      [Call.create (some (passwordRule sampleCodes)) "boston".data] sampleTagMap
      (passwordDp (DpValue.uint16 7)) _ (by decide) (by decide) (by decide) (by decide)
      (by decide) rfl (by decide)).1 DpValue.array16,
    (C27_access_decisions_ignore_values sampleCodes bootState
      [Call.create (some (passwordRule sampleCodes)) "boston".data] sampleTagMap
      (passwordDp (DpValue.uint16 7)) _ (by decide) (by decide) (by decide) (by decide)
      (by decide) rfl (by decide)).2.2.1 (temperatureRule sampleCodes 1 2 0) "boston".data rfl⟩

theorem remove_empty (w : SimState) (q : tzQUEUE) (arg : Option tzParams)
    (hq : w.pQueue = some q) (hf : q.pFirst = none) :
    QUEUE_fnGetAndRemoveFirstObj w arg = Except.error QueueFault.nullObject := by
  unfold QUEUE_fnGetAndRemoveFirstObj
  simp only [hq, hf]

theorem remove_null_queue (w : SimState) (arg : Option tzParams) (hq : w.pQueue = none) :
    QUEUE_fnGetAndRemoveFirstObj w arg = Except.error QueueFault.nullObject := by
  unfold QUEUE_fnGetAndRemoveFirstObj
  simp only [hq]

theorem remove_single (w : SimState) (q : tzQUEUE) (a : Nat) (params : tzParams)
    (hq : w.pQueue = some q) (hf : q.pFirst = some a) (hl : q.pLast = some a) :
    QUEUE_fnGetAndRemoveFirstObj w (some params) =
      Except.ok ({ w with
        objs := Function.update
          (Function.update (Function.update w.objs a ((w.objs a).link none none)) a
            ((Function.update w.objs a ((w.objs a).link none none) a).stampEnd
              (w.cycles w.clockCalls))) a
          ((Function.update (Function.update w.objs a ((w.objs a).link none none)) a
            ((Function.update w.objs a ((w.objs a).link none none) a).stampEnd
              (w.cycles w.clockCalls)) a).setDelta params.cps),
        pQueue := some { uiObjCount := (q.uiObjCount + 65535) % 65536, pFirst := none,
                         pLast := none },
        clockCalls := w.clockCalls + 1 }, some a) := by
  unfold QUEUE_fnGetAndRemoveFirstObj
  simp [hq, hf, hl]

theorem remove_many (w : SimState) (q : tzQUEUE) (a b : Nat) (params : tzParams)
    (hq : w.pQueue = some q) (hf : q.pFirst = some a) (hl : q.pLast ≠ some a)
    (hn : (w.objs a).queue_next = some b) :
    QUEUE_fnGetAndRemoveFirstObj w (some params) =
      Except.ok ({ w with
        objs := Function.update
          (Function.update
            (Function.update (Function.update w.objs b ((w.objs b).setPrev none)) a
              ((Function.update w.objs b ((w.objs b).setPrev none) a).link none none)) a
            ((Function.update (Function.update w.objs b ((w.objs b).setPrev none)) a
              ((Function.update w.objs b ((w.objs b).setPrev none) a).link none none) a).stampEnd
              (w.cycles w.clockCalls))) a
          ((Function.update
            (Function.update (Function.update w.objs b ((w.objs b).setPrev none)) a
              ((Function.update w.objs b ((w.objs b).setPrev none) a).link none none)) a
            ((Function.update (Function.update w.objs b ((w.objs b).setPrev none)) a
              ((Function.update w.objs b ((w.objs b).setPrev none) a).link none none) a).stampEnd
              (w.cycles w.clockCalls)) a).setDelta params.cps),
        pQueue := some { uiObjCount := (q.uiObjCount + 65535) % 65536, pFirst := some b,
                         pLast := q.pLast },
        clockCalls := w.clockCalls + 1 }, some a) := by
  unfold QUEUE_fnGetAndRemoveFirstObj
  have hne : ¬ (some a = q.pLast) := fun h => hl h.symm
  simp [hq, hf, hne, hn]

theorem remove_spec (w : SimState) (a : Nat) (t : List Nat) (params : tzParams)
    (hq : IsQueue w (a :: t)) :
    ∃ w2, QUEUE_fnGetAndRemoveFirstObj w (some params) = Except.ok (w2, some a) ∧
      IsQueue w2 t ∧ (w2.objs a).queue_next = none ∧ (w2.objs a).queue_prev = none ∧
      w2.brk = w.brk ∧ w2.objCounter = w.objCounter ∧ w2.callocOk = w.callocOk ∧
      w2.callocCalls = w.callocCalls := by
  obtain ⟨q, hq, hfirst, hlast, hcount, hlinked, hnd, hlt⟩ := hq
  have hat : a ∉ t := (List.nodup_cons.1 hnd).1
  have hndt : t.Nodup := (List.nodup_cons.1 hnd).2
  cases t with
  | nil =>
    refine ⟨_, remove_single w q a params hq hfirst hlast, ⟨_, rfl, rfl, rfl, ?_, trivial,
      List.nodup_nil, fun x hx => absurd hx (List.not_mem_nil x)⟩, ?_, ?_, rfl, rfl, rfl, rfl⟩
    · show (q.uiObjCount + 65535) % 65536 = 0 % 65536
      rw [hcount]
      simp
    · simp [Function.update, tzOBJECT.link, tzOBJECT.stampEnd, tzOBJECT.setDelta]
    · simp [Function.update, tzOBJECT.link, tzOBJECT.stampEnd, tzOBJECT.setDelta]
  | cons b t2 =>
    have hba : b ≠ a := fun e => hat (e ▸ List.mem_cons_self _ _)
    have hl2 : q.pLast ≠ some a := by
      rw [hlast, List.getLast?_cons_cons]
      intro h
      exact hat (List.mem_of_mem_getLast? (Option.mem_def.2 h))
    have hnext : (w.objs a).queue_next = some b := hlinked.2.1
    have hlb : Linked w.objs (some a) (b :: t2) := hlinked.2.2
    have hbt2 : b ∉ t2 := (List.nodup_cons.1 hndt).1
    refine ⟨_, remove_many w q a b params hq hfirst hl2 hnext, ⟨_, rfl, rfl, ?_, ?_, ?_, hndt,
      fun x hx => hlt x (List.mem_cons_of_mem _ hx)⟩, ?_, ?_, rfl, rfl, rfl, rfl⟩
    · show q.pLast = (b :: t2).getLast?
      rw [hlast, List.getLast?_cons_cons]
    · show (q.uiObjCount + 65535) % 65536 = (b :: t2).length % 65536
      rw [hcount]
      simp only [List.length_cons]
      omega
    · refine ⟨?_, ?_, ?_⟩
      · simp [Function.update, hba, tzOBJECT.setPrev]
      · have := hlb.2.1
        simp [Function.update, hba, tzOBJECT.setPrev, this]
      · refine linked_frame w.objs _ t2 (some b) hlb.2.2 (fun x hx => ?_)
        have hxa : x ≠ a := fun e => hat (e ▸ List.mem_cons_of_mem _ hx)
        have hxb : x ≠ b := fun e => hbt2 (e ▸ hx)
        simp [Function.update, hxa, hxb]
    · simp [Function.update, tzOBJECT.link, tzOBJECT.stampEnd, tzOBJECT.setDelta]
    · simp [Function.update, tzOBJECT.link, tzOBJECT.stampEnd, tzOBJECT.setDelta]

theorem loop_env (num : Int) (params : tzParams) : ∀ (is : List Nat) (w : SimState)
    (ret : Int) (l : List Nat), IsQueue w l →
    (∀ j, j < is.length → w.callocOk (w.callocCalls + j) = true) →
    w.objCounter + is.length ≤ MAX_NUM_OF_OBJECTS →
    ∀ (w2 : SimState) (r : Int),
      QUEUE_fnAdd_loop num (some params) is w ret = Except.ok (w2, r) →
      w2.callocOk = w.callocOk ∧ w2.callocCalls = w.callocCalls + is.length := by
  intro is
  induction is with
  | nil =>
    intro w ret l _ _ _ w2 r h
    cases h
    exact ⟨rfl, rfl⟩
  | cons i rest ih =>
    intro w ret l hq halloc hroom w2 r h
    rw [List.length_cons] at hroom
    obtain ⟨w1, h1, hq1, _, hcnt1, hok1, hcalls1, _, _, _⟩ :=
      iter_spec num params i w ret l hq (halloc 0 (Nat.succ_pos _)) (by omega)
    have h2 : QUEUE_fnAdd_loop num (some params) rest w1 EOK = Except.ok (w2, r) := by
      have e : QUEUE_fnAdd_loop num (some params) (i :: rest) w ret =
          (match QUEUE_fnAdd_iter num (some params) i w ret with
            | Except.error e => Except.error e
            | Except.ok (w1, ret1) => QUEUE_fnAdd_loop num (some params) rest w1 ret1) := rfl
      rw [e, h1] at h
      exact h
    have := ih w1 EOK (l ++ [w.brk]) hq1
      (fun j hj => by
        rw [hok1, hcalls1, Nat.add_assoc, Nat.add_comm 1 j]
        exact halloc (j + 1) (Nat.succ_lt_succ hj))
      (by rw [hcnt1]; omega) w2 r h2
    refine ⟨this.1.trans hok1, ?_⟩
    rw [this.2, hcalls1, List.length_cons]
    omega

theorem add_spec_env (w : SimState) (l : List Nat) (n : Nat) (params : tzParams)
    (hn : 1 ≤ n) (hq : IsQueue w l)
    (halloc : ∀ j, j < n → w.callocOk (w.callocCalls + j) = true)
    (hroom : w.objCounter + n ≤ MAX_NUM_OF_OBJECTS) :
    ∃ w2, QUEUE_fnAdd w (n : Int) (some params) = Except.ok (w2, EOK) ∧
      IsQueue w2 (l ++ (List.range n).map (fun j => w.brk + j)) ∧
      w2.brk = w.brk + n ∧ w2.objCounter = w.objCounter + n ∧ w2.callocOk = w.callocOk := by
  obtain ⟨w2, h2, hq2, hbrk, hcnt, _, _⟩ :=
    loop_spec (n : Int) params (List.range n) w EINVAL l hq
      (by rw [List.length_range]; exact halloc) (by rw [List.length_range]; exact hroom)
  rw [List.length_range] at hq2 hbrk hcnt
  have hne : ¬ List.range n = [] := by
    intro h
    have := congrArg List.length h
    rw [List.length_range] at this
    simp at this
    omega
  rw [if_neg hne] at h2
  exact ⟨w2, by unfold QUEUE_fnAdd; rw [Int.toNat_natCast, h2], hq2, hbrk, hcnt,
    (loop_env (n : Int) params (List.range n) w EINVAL l hq
      (by rw [List.length_range]; exact halloc) (by rw [List.length_range]; exact hroom)
      w2 EOK h2).1⟩

theorem range_map_split (b n m : Nat) :
    (List.range (n + m)).map (fun j => b + j) =
      (List.range n).map (fun j => b + j) ++ (List.range m).map (fun j => b + n + j) := by
  rw [List.range_add, List.map_append, List.map_map]
  congr 1
  apply List.map_congr_left
  intro j _
  simp [Function.comp, Nat.add_assoc]

theorem runQueue_spec (params : tzParams) : ∀ (ops : List QueueCall) (w : SimState)
    (l0 : List Nat), IsQueue w l0 → (∀ k, w.callocOk k = true) →
    w.objCounter + totalAdded ops ≤ MAX_NUM_OF_OBJECTS → Admissible l0.length ops →
    ∃ w2 out, runQueue (some params) w ops = Except.ok (w2, out) ∧
      out.map Prod.fst =
        ((l0 ++ (List.range (totalAdded ops)).map (fun j => w.brk + j)).take
          (removals ops)).map some ∧
      (∀ r ∈ out, ∃ o, r.2 = some o ∧ o.queue_next = none ∧ o.queue_prev = none) ∧
      IsQueue w2
        ((l0 ++ (List.range (totalAdded ops)).map (fun j => w.brk + j)).drop (removals ops)) := by
  intro ops
  induction ops with
  | nil =>
    intro w l0 hq _ _ _
    refine ⟨w, [], rfl, ?_, fun r hr => absurd hr (List.not_mem_nil r), ?_⟩
    · simp [removals]
    · simpa [removals, totalAdded] using hq
  | cons op rest ih =>
    intro w l0 hq halloc hroom hadm
    cases op with
    | add num =>
      have hnum : 1 ≤ num := hadm.1
      have hadm2 : Admissible (l0.length + num.toNat) rest := hadm.2
      have hcast : ((num.toNat : Nat) : Int) = num := Int.toNat_of_nonneg (by omega)
      have hn : 1 ≤ num.toNat := by omega
      have hroom2 : w.objCounter + (num.toNat + totalAdded rest) ≤ MAX_NUM_OF_OBJECTS := hroom
      obtain ⟨w1, h1, hq1, hbrk1, hcnt1, hok1⟩ :=
        add_spec_env w l0 num.toNat params hn hq (fun j _ => halloc _) (by omega)
      rw [hcast] at h1
      obtain ⟨w2, out, h2, hout, hlinks, hq2⟩ :=
        ih w1 (l0 ++ (List.range num.toNat).map (fun j => w.brk + j)) hq1
          (fun k => by rw [hok1]; exact halloc k) (by rw [hcnt1]; omega)
          (by rw [List.length_append, List.length_map, List.length_range]; exact hadm2)
      have elist : l0 ++ (List.range (totalAdded (QueueCall.add num :: rest))).map
            (fun j => w.brk + j) =
          (l0 ++ (List.range num.toNat).map (fun j => w.brk + j)) ++
            (List.range (totalAdded rest)).map (fun j => w1.brk + j) := by
        show l0 ++ (List.range (num.toNat + totalAdded rest)).map (fun j => w.brk + j) = _
        rw [range_map_split, hbrk1, List.append_assoc]
      refine ⟨w2, out, ?_, ?_, hlinks, ?_⟩
      · show (match QUEUE_fnAdd w num (some params) with
          | Except.error e => Except.error e
          | Except.ok (w1, _) => runQueue (some params) w1 rest) = _
        rw [h1]
        exact h2
      · rw [elist]; exact hout
      · rw [elist]; exact hq2
    | remove =>
      have hlen : 0 < l0.length := hadm.1
      have hadm2 : Admissible (l0.length - 1) rest := hadm.2
      cases l0 with
      | nil => exact absurd hlen (Nat.lt_irrefl 0)
      | cons a t =>
        obtain ⟨w1, h1, hq1, hnext, hprev, hbrk1, hcnt1, hok1, _⟩ := remove_spec w a t params hq
        obtain ⟨w2, out, h2, hout, hlinks, hq2⟩ :=
          ih w1 t hq1 (fun k => by rw [hok1]; exact halloc k)
            (by rw [hcnt1]; exact hroom) (by simpa using hadm2)
        rw [hbrk1] at hout hq2
        refine ⟨w2, (some a, some (w1.objs a)) :: out, ?_, ?_, ?_, ?_⟩
        · show (match QUEUE_fnGetAndRemoveFirstObj w (some params) with
            | Except.error e => Except.error e
            | Except.ok (w1, p) =>
              match runQueue (some params) w1 rest with
              | Except.error e => Except.error e
              | Except.ok (w2, out) => Except.ok (w2, (p, p.map w1.objs) :: out)) = _
          rw [h1]
          simp only [h2]
          rfl
        · show some a :: out.map Prod.fst =
            ((a :: t ++ (List.range (totalAdded rest)).map (fun j => w.brk + j)).take
              (removals rest + 1)).map some
          rw [hout]
          rfl
        · intro r hr
          rcases List.mem_cons.1 hr with e | hr2
          · exact ⟨w1.objs a, by rw [e], hnext, hprev⟩
          · exact hlinks r hr2
        · exact hq2

theorem isQueue_empty (w : SimState) (h : IsQueue w []) :
    ∃ q, w.pQueue = some q ∧ q.pFirst = none ∧ q.pLast = none ∧ q.uiObjCount = 0 := by
  obtain ⟨q, hq, hfirst, hlast, hcount, _, _, _⟩ := h
  exact ⟨q, hq, hfirst, hlast, hcount⟩

/-- C21: a sequence of `QUEUE_fnAdd` calls (each for at least one object, all
allocations succeeding, the table `pObj` large enough, `arg` not NULL) and of
`QUEUE_fnGetAndRemoveFirstObj` calls, each on a non-empty queue, started on a
queue that holds the objects `l0`: the pointers returned are, in order, the
first objects of `l0` followed by the objects appended, in the order in which
they were appended; every returned object has `queue.next` and `queue.prev`
NULL when it is returned; the queue is left holding the objects not yet
returned; and once as many objects have been removed as were there or added,
`pFirst` and `pLast` are NULL and `uiObjCount` is 0. -/
theorem C21_fcfs_order (params : tzParams) (ops : List QueueCall) (w : SimState)
    (l0 : List Nat) (hq : IsQueue w l0) (halloc : ∀ k, w.callocOk k = true)
    (hroom : w.objCounter + totalAdded ops ≤ MAX_NUM_OF_OBJECTS)
    (hadm : Admissible l0.length ops) :
    ∃ w2 out, runQueue (some params) w ops = Except.ok (w2, out) ∧
      out.map Prod.fst =
        ((l0 ++ (List.range (totalAdded ops)).map (fun j => w.brk + j)).take
          (removals ops)).map some ∧
      (∀ r ∈ out, ∃ o, r.2 = some o ∧ o.queue_next = none ∧ o.queue_prev = none) ∧
      IsQueue w2
        ((l0 ++ (List.range (totalAdded ops)).map (fun j => w.brk + j)).drop (removals ops)) ∧
      (removals ops = l0.length + totalAdded ops →
        ∃ q, w2.pQueue = some q ∧ q.pFirst = none ∧ q.pLast = none ∧ q.uiObjCount = 0) := by
  obtain ⟨w2, out, h1, h2, h3, h4⟩ := runQueue_spec params ops w l0 hq halloc hroom hadm
  refine ⟨w2, out, h1, h2, h3, h4, fun hall => ?_⟩
  apply isQueue_empty
  have e : (l0 ++ (List.range (totalAdded ops)).map (fun j => w.brk + j)).drop (removals ops)
      = [] := by
    apply List.drop_eq_nil_of_le
    rw [List.length_append, List.length_map, List.length_range, hall]
  rw [← e]
  exact h4

theorem C21_fcfs_order_witness :
    ∃ w2 out, runQueue (some sampleParams) (QUEUE_fnInitialize simBoot).1
        [QueueCall.add 2, QueueCall.remove, QueueCall.add 1, QueueCall.remove,
          QueueCall.remove] = Except.ok (w2, out) ∧
      out.map Prod.fst =
        (([] ++ (List.range (totalAdded [QueueCall.add 2, QueueCall.remove, QueueCall.add 1,
            QueueCall.remove, QueueCall.remove])).map
              (fun j => (QUEUE_fnInitialize simBoot).1.brk + j)).take
          (removals [QueueCall.add 2, QueueCall.remove, QueueCall.add 1, QueueCall.remove,
            QueueCall.remove])).map some ∧
      (∀ r ∈ out, ∃ o, r.2 = some o ∧ o.queue_next = none ∧ o.queue_prev = none) ∧
      IsQueue w2
        (([] ++ (List.range (totalAdded [QueueCall.add 2, QueueCall.remove, QueueCall.add 1,
            QueueCall.remove, QueueCall.remove])).map
              (fun j => (QUEUE_fnInitialize simBoot).1.brk + j)).drop
          (removals [QueueCall.add 2, QueueCall.remove, QueueCall.add 1, QueueCall.remove,
            QueueCall.remove])) ∧
      (removals [QueueCall.add 2, QueueCall.remove, QueueCall.add 1, QueueCall.remove,
            QueueCall.remove] =
          ([] : List Nat).length + totalAdded [QueueCall.add 2, QueueCall.remove,
            QueueCall.add 1, QueueCall.remove, QueueCall.remove] →
        ∃ q, w2.pQueue = some q ∧ q.pFirst = none ∧ q.pLast = none ∧ q.uiObjCount = 0) :=
  C21_fcfs_order sampleParams
    [QueueCall.add 2, QueueCall.remove, QueueCall.add 1, QueueCall.remove, QueueCall.remove]
    (QUEUE_fnInitialize simBoot).1 [] (isQueue_fresh simBoot rfl) (fun _ => rfl) (by decide)
    ⟨by decide, by decide, by decide, by decide, by decide, trivial⟩

/-- C22: on a non-null queue with `pFirst = NULL`,
`QUEUE_fnGetAndRemoveFirstObj` does not return: with `pToBeRemoved` still NULL
it executes `pToBeRemoved->tEndQ = ClockCycles( )`, a write through a NULL
pointer. -/
theorem C22_dequeue_empty_dereferences_null (w : SimState) (q : tzQUEUE)
    (arg : Option tzParams) (hq : w.pQueue = some q) (hf : q.pFirst = none) :
    QUEUE_fnGetAndRemoveFirstObj w arg = Except.error QueueFault.nullObject :=
  remove_empty w q arg hq hf

theorem C22_dequeue_empty_dereferences_null_witness :
    (QUEUE_fnInitialize simBoot).1.pQueue =
        some { uiObjCount := 0, pFirst := none, pLast := none } ∧
    QUEUE_fnGetAndRemoveFirstObj (QUEUE_fnInitialize simBoot).1 (some sampleParams) =
      Except.error QueueFault.nullObject :=
  ⟨rfl, C22_dequeue_empty_dereferences_null (QUEUE_fnInitialize simBoot).1
    { uiObjCount := 0, pFirst := none, pLast := none } (some sampleParams) rfl rfl⟩

theorem loop_append (num : Int) (arg : Option tzParams) : ∀ (a b : List Nat) (w : SimState)
    (ret : Int), QUEUE_fnAdd_loop num arg (a ++ b) w ret =
      (match QUEUE_fnAdd_loop num arg a w ret with
        | Except.error e => Except.error e
        | Except.ok (w1, r1) => QUEUE_fnAdd_loop num arg b w1 r1) := by
  intro a
  induction a with
  | nil => intro b w ret; rfl
  | cons i rest ih =>
    intro b w ret
    show (match QUEUE_fnAdd_iter num arg i w ret with
      | Except.error e => Except.error e
      | Except.ok (w1, ret1) => QUEUE_fnAdd_loop num arg (rest ++ b) w1 ret1) =
      (match (match QUEUE_fnAdd_iter num arg i w ret with
          | Except.error e => Except.error e
          | Except.ok (w1, ret1) => QUEUE_fnAdd_loop num arg rest w1 ret1) with
        | Except.error e => Except.error e
        | Except.ok (w1, r1) => QUEUE_fnAdd_loop num arg b w1 r1)
    cases h : QUEUE_fnAdd_iter num arg i w ret with
    | error e => rfl
    | ok r => exact ih b r.1 r.2

theorem iter_fail (num : Int) (arg : Option tzParams) (i : Nat) (w : SimState) (ret : Int)
    (hroom : w.objCounter < MAX_NUM_OF_OBJECTS) (hfail : w.callocOk w.callocCalls = false) :
    QUEUE_fnAdd_iter num arg i w ret =
      Except.ok ({ w with pObj := Function.update w.pObj w.objCounter none,
                          callocCalls := w.callocCalls + 1 }, ret) := by
  unfold QUEUE_fnAdd_iter
  rw [if_neg (Nat.not_le.2 hroom), if_pos hfail]

theorem add_with_failure (w : SimState) (l : List Nat) (k m : Nat) (params : tzParams)
    (hq : IsQueue w l) (hkm : 1 ≤ k + m)
    (hpre : ∀ j, j < k → w.callocOk (w.callocCalls + j) = true)
    (hfail : w.callocOk (w.callocCalls + k) = false)
    (hpost : ∀ j, j < m → w.callocOk (w.callocCalls + k + 1 + j) = true)
    (hroom : w.objCounter + (k + 1 + m) ≤ MAX_NUM_OF_OBJECTS) :
    ∃ w2, QUEUE_fnAdd w ((k + 1 + m : Nat) : Int) (some params) = Except.ok (w2, EOK) ∧
      IsQueue w2 (l ++ (List.range (k + m)).map (fun j => w.brk + j)) := by
  have hsplit : List.range (k + 1 + m) =
      List.range k ++ ([k] ++ (List.range m).map (fun j => k + 1 + j)) := by
    rw [List.range_add, List.range_succ, List.append_assoc]
  obtain ⟨w1, h1, hq1, hbrk1, hcnt1, _, _⟩ :=
    loop_spec ((k + 1 + m : Nat) : Int) params (List.range k) w EINVAL l hq
      (by rw [List.length_range]; exact hpre) (by rw [List.length_range]; omega)
  obtain ⟨hok1, hcalls1⟩ := loop_env ((k + 1 + m : Nat) : Int) params (List.range k) w EINVAL l
    hq (by rw [List.length_range]; exact hpre) (by rw [List.length_range]; omega) w1 _ h1
  rw [List.length_range] at hq1 hbrk1 hcnt1 hcalls1
  have hfail1 : w1.callocOk w1.callocCalls = false := by rw [hok1, hcalls1]; exact hfail
  have h2 := iter_fail ((k + 1 + m : Nat) : Int) (some params) k w1
    (if List.range k = [] then EINVAL else EOK) (by rw [hcnt1]; omega) hfail1
  have hq1b : IsQueue
      { w1 with pObj := Function.update w1.pObj w1.objCounter none,
                callocCalls := w1.callocCalls + 1 }
      (l ++ (List.range k).map (fun j => w.brk + j)) := by
    obtain ⟨q, e1, e2, e3, e4, e5, e6, e7⟩ := hq1
    exact ⟨q, e1, e2, e3, e4, e5, e6, e7⟩
  obtain ⟨w2, h3, hq3, _, _, _, _⟩ :=
    loop_spec ((k + 1 + m : Nat) : Int) params ((List.range m).map (fun j => k + 1 + j))
      { w1 with pObj := Function.update w1.pObj w1.objCounter none,
                callocCalls := w1.callocCalls + 1 }
      (if List.range k = [] then EINVAL else EOK)
      (l ++ (List.range k).map (fun j => w.brk + j)) hq1b
      (fun j hj => by
        rw [List.length_map, List.length_range] at hj
        show w1.callocOk (w1.callocCalls + 1 + j) = true
        rw [hok1, hcalls1]
        exact hpost j hj)
      (by
        rw [List.length_map, List.length_range]
        show w1.objCounter + m ≤ MAX_NUM_OF_OBJECTS
        rw [hcnt1]; omega)
  rw [List.length_map, List.length_range] at hq3
  refine ⟨w2, ?_, ?_⟩
  · unfold QUEUE_fnAdd
    rw [Int.toNat_natCast, hsplit, loop_append, h1]
    simp only
    rw [loop_append]
    have e : QUEUE_fnAdd_loop ((k + 1 + m : Nat) : Int) (some params) [k] w1
        (if List.range k = [] then EINVAL else EOK) =
        Except.ok ({ w1 with pObj := Function.update w1.pObj w1.objCounter none,
                             callocCalls := w1.callocCalls + 1 },
          if List.range k = [] then EINVAL else EOK) := by
      show (match QUEUE_fnAdd_iter ((k + 1 + m : Nat) : Int) (some params) k w1
          (if List.range k = [] then EINVAL else EOK) with
        | Except.error e => Except.error e
        | Except.ok (w1, ret1) =>
          QUEUE_fnAdd_loop ((k + 1 + m : Nat) : Int) (some params) [] w1 ret1) = _
      rw [h2]
      rfl
    rw [e]
    simp only
    rw [h3]
    congr 2
    by_cases hm : m = 0
    · subst hm
      have hk : ¬ List.range k = [] := by
        intro h
        have := congrArg List.length h
        rw [List.length_range] at this
        simp at this
        omega
      simp [hk]
    · have hne : ¬ (List.range m).map (fun j => k + 1 + j) = [] := by
        intro h
        have := congrArg List.length h
        rw [List.length_map, List.length_range] at this
        simp at this
        omega
      rw [if_neg hne]
  · have e : l ++ (List.range (k + m)).map (fun j => w.brk + j) =
        (l ++ (List.range k).map (fun j => w.brk + j)) ++
          (List.range m).map (fun j => w.brk + k + j) := by
      rw [range_map_split, List.append_assoc]
    rw [e]
    rw [show ({ w1 with pObj := Function.update w1.pObj w1.objCounter none,
                        callocCalls := w1.callocCalls + 1 } : SimState).brk = w.brk + k
      from hbrk1] at hq3
    exact hq3

/-- C23: when the allocation of the `(k + 1)`-th object of a batch of
`k + 1 + m` objects fails and the other allocations succeed (at least one of
them), `QUEUE_fnAdd` goes on with the loop: it returns `EOK`, and the queue
holds the `k` objects inserted before the failure followed by the `m` objects
inserted after it. -/
theorem C23_allocation_failure_not_reported (w : SimState) (l : List Nat) (k m : Nat)
    (params : tzParams) (hq : IsQueue w l) (hkm : 1 ≤ k + m)
    (hpre : ∀ j, j < k → w.callocOk (w.callocCalls + j) = true)
    (hfail : w.callocOk (w.callocCalls + k) = false)
    (hpost : ∀ j, j < m → w.callocOk (w.callocCalls + k + 1 + j) = true)
    (hroom : w.objCounter + (k + 1 + m) ≤ MAX_NUM_OF_OBJECTS) :
    ∃ w2, QUEUE_fnAdd w ((k + 1 + m : Nat) : Int) (some params) = Except.ok (w2, EOK) ∧
      IsQueue w2 (l ++ (List.range (k + m)).map (fun j => w.brk + j)) :=
  add_with_failure w l k m params hq hkm hpre hfail hpost hroom

theorem isQueue_fresh_secondFails : IsQueue (QUEUE_fnInitialize simSecondFails).1 [] :=
  isQueue_fresh simSecondFails rfl

theorem C23_allocation_failure_not_reported_witness :
    (QUEUE_fnInitialize simSecondFails).1.callocOk
      ((QUEUE_fnInitialize simSecondFails).1.callocCalls + 1) = false ∧
    ∃ w2, QUEUE_fnAdd (QUEUE_fnInitialize simSecondFails).1 ((1 + 1 + 1 : Nat) : Int)
        (some sampleParams) = Except.ok (w2, EOK) ∧
      IsQueue w2 ([] ++ (List.range (1 + 1)).map
        (fun j => (QUEUE_fnInitialize simSecondFails).1.brk + j)) :=
  ⟨rfl, C23_allocation_failure_not_reported (QUEUE_fnInitialize simSecondFails).1 [] 1 1
    sampleParams isQueue_fresh_secondFails (by decide)
    (fun j hj => by interval_cases j; rfl) rfl (fun j hj => by interval_cases j; rfl)
    (by decide)⟩

theorem calcRT_end (sqrt : ℚ → ℚ) (params : tzParams) (obj : tzOBJECT) (e : Estimator)
    (hend : obj.endBatch = true) (hidx : e.cycleIdx < MAX_NUM_OF_OBJECTS) :
    ∃ e2, discreteEventSimulator_fnCalcRT sqrt params obj e = some e2 ∧
      e2.cycleIdx = e.cycleIdx + 1 ∧
      e2.y e.cycleIdx =
        e.y e.cycleIdx + (obj.secondsQueue * 1000 + obj.secondsService * 1000) ∧
      e2.sumOfCycleSums = e.sumOfCycleSums + e2.y e.cycleIdx ∧
      e2.sumOfNumbers = e.sumOfNumbers + e.numberArrived e.cycleIdx ∧
      e2.overalMean = e2.sumOfCycleSums / (e2.sumOfNumbers : ℚ) ∧
      e2.w e.cycleIdx =
        e2.y e.cycleIdx - (e.numberArrived e.cycleIdx : ℚ) * e2.overalMean ∧
      e2.sumOf_w = e.sumOf_w + e2.w e.cycleIdx ^ 2 ∧
      e2.numberArrived = e.numberArrived ∧
      (params.currEpoch ≤ 1 →
        e2.Var_w = e.Var_w ∧ e2.meanCycleLength = e.meanCycleLength ∧
        e2.confidenceInterval = e.confidenceInterval) ∧
      (1 < params.currEpoch →
        e2.Var_w = e2.sumOf_w / ((params.currEpoch - 1 : Int) : ℚ) ∧
        e2.meanCycleLength = (e2.sumOfNumbers : ℚ) / (params.currEpoch : ℚ) ∧
        e2.confidenceInterval =
          (329 / 200 : ℚ) *
            (sqrt e2.Var_w / (e2.meanCycleLength * sqrt (params.currEpoch : ℚ)))) := by
  unfold discreteEventSimulator_fnCalcRT
  rw [if_neg (Nat.not_le.2 hidx), if_neg (by rw [hend]; decide)]
  by_cases hc : params.currEpoch > 1
  · rw [if_pos hc]
    refine ⟨_, rfl, rfl, ?_, ?_, rfl, ?_, ?_, ?_, rfl, fun h => absurd hc (not_lt.2 h),
      fun _ => ⟨?_, ?_, ?_⟩⟩ <;> simp [Function.update, sq]
  · rw [if_neg hc]
    refine ⟨_, rfl, rfl, ?_, ?_, rfl, ?_, ?_, ?_, rfl, fun _ => ⟨rfl, rfl, rfl⟩,
      fun h => absurd h hc⟩ <;> simp [Function.update, sq]

theorem estimatorAfterFirst_eq :
    discreteEventSimulator_fnCalcRT sampleSqrt { sampleParams with currEpoch := 1 }
      (lastOfBatch 30) estimatorStart = some estimatorAfterFirst := by
  unfold discreteEventSimulator_fnCalcRT
  rw [if_neg (by decide), if_neg (by decide), if_neg (by decide)]
  unfold estimatorAfterFirst estimatorStart lastOfBatch tzOBJECT.zero
  simp only [Option.some.injEq, Estimator.mk.injEq]
  refine ⟨?_, ?_, trivial, trivial, ?_, ?_, trivial, ?_, trivial, ?_, ?_⟩
  · funext i
    by_cases h : i = 0 <;> simp [Function.update, h]
  · funext i
    by_cases h : i = 0 <;> simp [Function.update, h]
    norm_num
  · simp [Function.update]; norm_num
  · simp [Function.update]
  · simp [Function.update]; norm_num
  · simp
  · trivial

/-- C24: when `discreteEventSimulator_fnCalcRT` processes a batch-ending object
with `cycleIdx = i` inside the arrays, over exact arithmetic: `y[i]` takes the
object's queue and service milliseconds, `sumOfCycleSums` grows by `y[i]`,
`sumOfNumbers` grows by `numberArrived[i]`, `overalMean` becomes
`sumOfCycleSums / sumOfNumbers`, `w[i]` becomes
`y[i] - numberArrived[i] * overalMean`, and `sumOf_w` grows by `w[i]^2`. -/
theorem C24_estimator_mean_and_deviation (sqrt : ℚ → ℚ) (params : tzParams)
    (obj : tzOBJECT) (e : Estimator) (hend : obj.endBatch = true)
    (hidx : e.cycleIdx < MAX_NUM_OF_OBJECTS) :
    ∃ e2, discreteEventSimulator_fnCalcRT sqrt params obj e = some e2 ∧
      e2.y e.cycleIdx =
        e.y e.cycleIdx + (obj.secondsQueue * 1000 + obj.secondsService * 1000) ∧
      e2.sumOfCycleSums = e.sumOfCycleSums + e2.y e.cycleIdx ∧
      e2.sumOfNumbers = e.sumOfNumbers + e.numberArrived e.cycleIdx ∧
      e2.overalMean = e2.sumOfCycleSums / (e2.sumOfNumbers : ℚ) ∧
      e2.w e.cycleIdx =
        e2.y e.cycleIdx - (e.numberArrived e.cycleIdx : ℚ) * e2.overalMean ∧
      e2.sumOf_w = e.sumOf_w + e2.w e.cycleIdx ^ 2 := by
  obtain ⟨e2, h, _, hy, hs, hn, hm, hw, hsw, _⟩ := calcRT_end sqrt params obj e hend hidx
  exact ⟨e2, h, hy, hs, hn, hm, hw, hsw⟩

theorem C24_estimator_mean_and_deviation_witness :
    ∃ e2, discreteEventSimulator_fnCalcRT sampleSqrt { sampleParams with currEpoch := 2 }
        (lastOfBatch 44) estimatorAfterFirst = some e2 ∧
      e2.sumOfCycleSums = 74 ∧ e2.sumOfNumbers = 7 ∧ e2.overalMean = 74 / 7 := by
  obtain ⟨e2, h, hy, hs, hn, hm, _, _⟩ :=
    C24_estimator_mean_and_deviation sampleSqrt { sampleParams with currEpoch := 2 }
      (lastOfBatch 44) estimatorAfterFirst rfl (by decide)
  have e1 : e2.sumOfCycleSums = 74 := by
    rw [hs, hy]
    norm_num [estimatorAfterFirst, lastOfBatch, tzOBJECT.zero]
  have e3 : e2.sumOfNumbers = 7 := by
    rw [hn]
    norm_num [estimatorAfterFirst]
  exact ⟨e2, h, e1, e3, by rw [hm, e1, e3]; norm_num⟩

/-- C25: when `discreteEventSimulator_fnCalcRT` processes a batch-ending
object, the number that gates and enters the variance, the mean cycle length
and the confidence interval is `params->currEpoch`, the number of epochs that
the arrival thread has generated, whatever the number `cycleIdx + 1` of epochs
served: the three are unchanged when `currEpoch <= 1`, and for `currEpoch > 1`
they become `sumOf_w / (currEpoch - 1)`, `sumOfNumbers / currEpoch` and
`1.645 * sqrt(Var_w) / (meanCycleLength * sqrt(currEpoch))`. -/
theorem C25_variance_uses_generated_epochs (sqrt : ℚ → ℚ) (params : tzParams)
    (obj : tzOBJECT) (e : Estimator) (hend : obj.endBatch = true)
    (hidx : e.cycleIdx < MAX_NUM_OF_OBJECTS) :
    ∃ e2, discreteEventSimulator_fnCalcRT sqrt params obj e = some e2 ∧
      e2.cycleIdx = e.cycleIdx + 1 ∧
      (params.currEpoch ≤ 1 →
        e2.Var_w = e.Var_w ∧ e2.meanCycleLength = e.meanCycleLength ∧
        e2.confidenceInterval = e.confidenceInterval) ∧
      (1 < params.currEpoch →
        e2.Var_w = e2.sumOf_w / ((params.currEpoch - 1 : Int) : ℚ) ∧
        e2.meanCycleLength = (e2.sumOfNumbers : ℚ) / (params.currEpoch : ℚ) ∧
        e2.confidenceInterval =
          (329 / 200 : ℚ) *
            (sqrt e2.Var_w / (e2.meanCycleLength * sqrt (params.currEpoch : ℚ)))) := by
  obtain ⟨e2, h, hc, _, _, _, _, _, _, _, h1, h2⟩ := calcRT_end sqrt params obj e hend hidx
  exact ⟨e2, h, hc, h1, h2⟩

theorem C25_variance_uses_generated_epochs_witness :
    ∃ e2, discreteEventSimulator_fnCalcRT sampleSqrt { sampleParams with currEpoch := 2 }
        (lastOfBatch 30) estimatorStart = some e2 ∧
      e2.cycleIdx = 1 ∧ estimatorStart.meanCycleLength = 0 ∧ e2.meanCycleLength = 3 / 2 := by
  obtain ⟨e2, h, hc, _, h2⟩ :=
    C25_variance_uses_generated_epochs sampleSqrt { sampleParams with currEpoch := 2 }
      (lastOfBatch 30) estimatorStart rfl (by decide)
  refine ⟨e2, h, hc, rfl, ?_⟩
  have h3 := (h2 (by decide)).2.1
  have h4 : e2.sumOfNumbers = 3 := by
    have := calcRT_end sampleSqrt { sampleParams with currEpoch := 2 } (lastOfBatch 30)
      estimatorStart rfl (by decide)
    obtain ⟨e3, h5, _, _, _, hn, _⟩ := this
    rw [h] at h5
    cases h5
    rw [hn]
    norm_num [estimatorStart]
  rw [h3, h4]
  norm_num

theorem step_missing_token (K : Codes) (tm : TagMap) (f : TagFields) (t : Nat) (tag : CStr)
    (ht : t ≤ K.DP_SERVER_MAX_TAGS) (htag : tm t = some tag)
    (hword : strstr (strlwr tag) "type".data = true ∨
      strstr (strlwr tag) "location".data = true ∨
      strstr (strlwr tag) "user".data = true ∨ strstr (strlwr tag) "group".data = true)
    (hnone : strtokSecond tag = none) :
    tokenizeStep K tm f t = Except.error Fault.nullToken := by
  unfold tokenizeStep
  rw [if_neg (Nat.not_lt.2 ht)]
  simp only [htag, hnone]
  by_cases h1 : strstr (strlwr tag) "type".data = true
  · rw [if_pos h1]
  · rw [if_neg h1]
    by_cases h2 : strstr (strlwr tag) "location".data = true
    · rw [if_pos h2]
    · rw [if_neg h2]
      by_cases h3 : strstr (strlwr tag) "user".data = true
      · rw [if_pos h3]
      · rw [if_neg h3]
        by_cases h4 : strstr (strlwr tag) "group".data = true
        · rw [if_pos h4]
        · rcases hword with h | h | h | h
          · exact absurd h h1
          · exact absurd h h2
          · exact absurd h h3
          · exact absurd h h4

theorem tokenize_missing_token (K : Codes) (tagMap : TagMap) (pDp : dp_t) (f : TagFields)
    (t : Nat) (rest : List Nat) (tag : CStr) (htags : pDp.tags = t :: rest) (h1 : 1 ≤ t)
    (ht : t ≤ K.DP_SERVER_MAX_TAGS) (htag : tagMap t = some tag)
    (hword : strstr (strlwr tag) "type".data = true ∨
      strstr (strlwr tag) "location".data = true ∨
      strstr (strlwr tag) "user".data = true ∨ strstr (strlwr tag) "group".data = true)
    (hnone : strtokSecond tag = none) :
    policy_fnTokenizeTags K tagMap pDp f = Except.error Fault.nullToken := by
  have hfirst : firstTag pDp = t := by unfold firstTag; rw [htags]; rfl
  have hok : ¬ (firstTag pDp < 1 ∨ firstTag pDp > K.DP_SERVER_MAX_TAGS) := by
    rw [hfirst]; omega
  have hl : tokenizeLoop K pDp.tags tagMap f = Except.error Fault.nullToken := by
    rw [htags]
    unfold tokenizeLoop
    rw [if_neg (by omega), step_missing_token K tagMap f t tag ht htag hword hnone]
  unfold policy_fnTokenizeTags tokenizeBody
  rw [if_neg hok, hl]

/-- C37: `policy_fnTokenizeTags` does use a missing token. When the first tag
of a data point, with its index in range, contains one of the words type,
location, user or group and has no second token (no colon, or nothing after
the colon), the second `strtok` returns NULL and the NULL pointer is handed to
`stricmp` or `strlen`: the tokenizer, and with it `POLICY_fnCheck`, leaves
defined behaviour. -/
theorem C37_tokenizer_uses_missing_token (K : Codes) (s : ServerState) (tagMap : TagMap)
    (pDp : dp_t) (f : TagFields) (t : Nat) (rest : List Nat) (tag : CStr)
    (htags : pDp.tags = t :: rest) (h1 : 1 ≤ t) (ht : t ≤ K.DP_SERVER_MAX_TAGS)
    (htag : tagMap t = some tag)
    (hword : strstr (strlwr tag) "type".data = true ∨
      strstr (strlwr tag) "location".data = true ∨
      strstr (strlwr tag) "user".data = true ∨ strstr (strlwr tag) "group".data = true)
    (hnone : strtokSecond tag = none) :
    policy_fnTokenizeTags K tagMap pDp f = Except.error Fault.nullToken ∧
    POLICY_fnCheck K s tagMap pDp = Except.error Fault.nullToken := by
  refine ⟨tokenize_missing_token K tagMap pDp f t rest tag htags h1 ht htag hword hnone, ?_⟩
  unfold POLICY_fnCheck POLICY_fnCheck_ret
  simp only [tokenize_missing_token K tagMap pDp TagFields.init t rest tag htags h1 ht htag
    hword hnone]

theorem C37_tokenizer_uses_missing_token_witness :
    (strtokSecond "type".data = none ∧
      POLICY_fnCheck sampleCodes (HASH_fnSetup bootState) valuelessTagMap
        { sampleDp 50 with tags := [1] } = Except.error Fault.nullToken) ∧
    (strtokSecond "location:".data = none ∧
      POLICY_fnCheck sampleCodes (HASH_fnSetup bootState) valuelessTagMap
        { sampleDp 50 with tags := [2] } = Except.error Fault.nullToken) :=
  ⟨⟨by decide,
    (C37_tokenizer_uses_missing_token sampleCodes (HASH_fnSetup bootState) valuelessTagMap
      { sampleDp 50 with tags := [1] } TagFields.init 1 [] "type".data rfl (by decide)
      (by decide) rfl (Or.inl (by decide)) (by decide)).2⟩,
    ⟨by decide,
    (C37_tokenizer_uses_missing_token sampleCodes (HASH_fnSetup bootState) valuelessTagMap
      { sampleDp 50 with tags := [2] } TagFields.init 2 [] "location:".data rfl (by decide)
      (by decide) rfl (Or.inr (Or.inl (by decide))) (by decide)).2⟩⟩

theorem tokenizeStep_map (K : Codes) (tm : TagMap) (f : TagFields) (t : Nat)
    (r : TagMap × TagFields) (h : tokenizeStep K tm f t = Except.ok r) :
    r.1 = Function.update tm t ((tm t).map strlwr) := by
  obtain ⟨tag, htag, hr, _⟩ := tokenizeStep_ok K tm f t r h
  rw [hr, htag]
  rfl

theorem tokenizeLoop_map (K : Codes) : ∀ (ts : List Nat) (tm : TagMap) (f : TagFields)
    (r : TagMap × TagFields), tokenizeLoop K ts tm f = Except.ok r →
    ∀ t, r.1 t = if t ∈ ts.takeWhile (fun t => t != 0) then (tm t).map strlwr else tm t := by
  intro ts
  induction ts with
  | nil =>
    intro tm f r h t
    cases h
    simp
  | cons a rest ih =>
    intro tm f r h t
    unfold tokenizeLoop at h
    by_cases ha : a = 0
    · rw [if_pos ha] at h
      cases h
      simp [ha]
    · rw [if_neg ha] at h
      cases hs : tokenizeStep K tm f a with
      | error e => rw [hs] at h; cases h
      | ok r1 =>
        rw [hs] at h
        have h1 := tokenizeStep_map K tm f a r1 hs
        have h2 := ih r1.1 r1.2 r h t
        rw [h2, h1]
        have hne : (a != 0) = true := by simp [ha]
        rw [List.takeWhile_cons, hne]
        simp only [if_true, List.mem_cons]
        by_cases hta : t = a
        · subst hta
          simp only [Function.update_same, true_or, if_true]
          cases tm t with
          | none => simp
          | some tag => simp [strlwr_idem]
        · simp only [Function.update_noteq hta, hta, false_or]

theorem check_ret_map (K : Codes) (s : ServerState) (tagMap : TagMap) (pDp : dp_t)
    (r : Int × TagMap) (h : POLICY_fnCheck_ret K s tagMap pDp = Except.ok r) :
    ∃ c f, policy_fnTokenizeTags K tagMap pDp TagFields.init = Except.ok (c, r.2, f) := by
  unfold POLICY_fnCheck_ret at h
  cases htok : policy_fnTokenizeTags K tagMap pDp TagFields.init with
  | error e => rw [htok] at h; cases h
  | ok x =>
    obtain ⟨c, tm, f⟩ := x
    rw [htok] at h
    simp only at h
    refine ⟨c, f, ?_⟩
    have : r.2 = tm := by
      repeat' split at h
      all_goals first
        | (cases h; rfl)
        | (exfalso; cases h)
    rw [this]

theorem tokenize_map (K : Codes) (tagMap : TagMap) (pDp : dp_t) (f0 : TagFields)
    (r : Int × TagMap × TagFields)
    (hfirst : 1 ≤ firstTag pDp ∧ firstTag pDp ≤ K.DP_SERVER_MAX_TAGS)
    (h : policy_fnTokenizeTags K tagMap pDp f0 = Except.ok r) :
    ∀ t, r.2.1 t = if t ∈ activeTags pDp then (tagMap t).map strlwr else tagMap t := by
  unfold policy_fnTokenizeTags tokenizeBody at h
  rw [if_neg (by omega)] at h
  cases hl : tokenizeLoop K pDp.tags tagMap f0 with
  | error e => rw [hl] at h; cases h
  | ok x =>
    rw [hl] at h
    cases h
    exact tokenizeLoop_map K pDp.tags tagMap f0 x hl

/-- C38: `POLICY_fnCheck` changes the global tag map. When the first tag index
of the data point is in range and the call completes, every tag string that the
tokenizer has read is left lowercased in `tagMap`, by `strlwr` applied to it in
place; the other strings are unchanged. -/
theorem C38_check_lowercases_tag_map (K : Codes) (s : ServerState) (tagMap : TagMap)
    (pDp : dp_t) (r : Int × TagMap)
    (hfirst : 1 ≤ firstTag pDp ∧ firstTag pDp ≤ K.DP_SERVER_MAX_TAGS)
    (h : POLICY_fnCheck_ret K s tagMap pDp = Except.ok r) :
    ∀ t, r.2 t = if t ∈ activeTags pDp then (tagMap t).map strlwr else tagMap t := by
  obtain ⟨c, f, htok⟩ := check_ret_map K s tagMap pDp r h
  exact tokenize_map K tagMap pDp TagFields.init _ hfirst htok

theorem C38_check_lowercases_tag_map_witness :
    sampleTagMap 6 = some "location:BOSTON".data ∧
    ∃ r, POLICY_fnCheck_ret sampleCodes (HASH_fnSetup bootState) sampleTagMap capitalsDp =
        Except.ok r ∧
      r.2 6 = some "location:boston".data :=
  ⟨rfl, _, rfl,
    (C38_check_lowercases_tag_map sampleCodes (HASH_fnSetup bootState) sampleTagMap capitalsDp
      _ (by decide) rfl 6).trans (by decide)⟩

theorem stricmp_zero_iff (a b : CStr) : stricmp a b = 0 ↔ EqIgnoreCase a b := by
  rw [stricmp_eq_zero_iff, eqIgnoreCase_iff]

theorem eqIgnoreCase_symm (a b : CStr) (h : EqIgnoreCase a b) : EqIgnoreCase b a := by
  rw [eqIgnoreCase_iff] at *
  exact h.symm

theorem eqIgnoreCase_trans (a b c : CStr) (h1 : EqIgnoreCase a b) (h2 : EqIgnoreCase b c) :
    EqIgnoreCase a c := by
  rw [eqIgnoreCase_iff] at *
  exact h1.trans h2

theorem userString2Val_eq (K : Codes) (v : CStr) :
    userString2Val K v = lookupIgnoreCase (userTable K) K.USER_CODE_INVALID v := by
  unfold userString2Val lookupIgnoreCase userTable
  simp only [List.find?, stricmp_zero_iff]
  split_ifs <;> simp_all

theorem groupString2Val_eq (K : Codes) (v : CStr) :
    groupString2Val K v = lookupIgnoreCase (groupTable K) K.GROUP_CODE_INVALID v := by
  unfold groupString2Val lookupIgnoreCase groupTable
  simp only [List.find?, stricmp_zero_iff]
  split_ifs <;> simp_all

theorem lookup_iff (table : List (CStr × Nat)) (dflt : Nat) (v : CStr)
    (hnames : ∀ p ∈ table, ∀ q ∈ table, p ≠ q → ¬ EqIgnoreCase p.1 q.1)
    (hcodes : (table.map Prod.snd ++ [dflt]).Nodup) :
    (∀ p ∈ table, lookupIgnoreCase table dflt v = p.2 ↔ EqIgnoreCase v p.1) ∧
    (lookupIgnoreCase table dflt v = dflt ↔ ∀ p ∈ table, ¬ EqIgnoreCase v p.1) := by
  have hnd : (table.map Prod.snd).Nodup := (List.nodup_append.1 hcodes).1
  have hd : ∀ p ∈ table, p.2 ≠ dflt := by
    intro p hp e
    exact (List.nodup_append.1 hcodes).2.2 (List.mem_map_of_mem _ hp) (by simp [e])
  have hinj : ∀ p ∈ table, ∀ q ∈ table, p.2 = q.2 → p = q := by
    intro p hp q hq e
    exact List.inj_on_of_nodup_map hnd hp hq e
  unfold lookupIgnoreCase
  cases hf : table.find? (fun p => decide (EqIgnoreCase v p.1)) with
  | none =>
    have hno : ∀ p ∈ table, ¬ EqIgnoreCase v p.1 := by
      intro p hp
      have := List.find?_eq_none.1 hf p hp
      simpa using this
    refine ⟨fun p hp => ?_, ?_⟩
    · simp only
      constructor
      · intro e; exact absurd e.symm (hd p hp)
      · intro e; exact absurd e (hno p hp)
    · simp only [true_iff]
      exact hno
  | some q =>
    have hq : q ∈ table := List.mem_of_find?_eq_some hf
    have hqv : EqIgnoreCase v q.1 := by
      have := List.find?_some hf
      simpa using this
    refine ⟨fun p hp => ?_, ?_⟩
    · simp only
      constructor
      · intro e
        rw [← hinj q hq p hp e]
        exact hqv
      · intro e
        by_cases hpq : q = p
        · rw [hpq]
        · exact absurd (eqIgnoreCase_trans _ _ _ (eqIgnoreCase_symm _ _ hqv) e)
            (hnames q hq p hp hpq)
    · simp only
      constructor
      · intro e; exact absurd e (hd q hq)
      · intro h; exact absurd hqv (h q hq)

theorem userTable_names (K : Codes) :
    ∀ p ∈ userTable K, ∀ q ∈ userTable K, p ≠ q → ¬ EqIgnoreCase p.1 q.1 := by
  intro p hp q hq hpq
  simp only [userTable, List.mem_cons, List.mem_singleton, List.not_mem_nil, or_false] at hp hq
  rcases hp with rfl | rfl | rfl | rfl | rfl | rfl | rfl | rfl <;>
    rcases hq with rfl | rfl | rfl | rfl | rfl | rfl | rfl | rfl <;>
    first
      | exact absurd rfl hpq
      | (dsimp only; decide)

theorem groupTable_names (K : Codes) :
    ∀ p ∈ groupTable K, ∀ q ∈ groupTable K, p ≠ q → ¬ EqIgnoreCase p.1 q.1 := by
  intro p hp q hq hpq
  simp only [groupTable, List.mem_cons, List.mem_singleton, List.not_mem_nil, or_false] at hp hq
  rcases hp with rfl | rfl | rfl | rfl <;>
    rcases hq with rfl | rfl | rfl | rfl <;>
    first
      | exact absurd rfl hpq
      | (dsimp only; decide)

theorem userTag_step (K : Codes) (tm : TagMap) (f : TagFields) (t : Nat) (tag v : CStr)
    (ht : t ≤ K.DP_SERVER_MAX_TAGS) (htag : tm t = some tag)
    (h1 : strstr (strlwr tag) "type".data = false)
    (h2 : strstr (strlwr tag) "location".data = false)
    (h3 : strstr (strlwr tag) "user".data = true)
    (hv : strtokSecond tag = some v) :
    tokenizeStep K tm f t =
      Except.ok (Function.update tm t (some (strlwr tag)),
        { f with userID := userString2Val K v }) := by
  unfold tokenizeStep
  rw [if_neg (Nat.not_lt.2 ht)]
  simp only [htag, hv, h1, h2, h3]
  rfl

theorem groupTag_step (K : Codes) (tm : TagMap) (f : TagFields) (t : Nat) (tag v : CStr)
    (ht : t ≤ K.DP_SERVER_MAX_TAGS) (htag : tm t = some tag)
    (h1 : strstr (strlwr tag) "type".data = false)
    (h2 : strstr (strlwr tag) "location".data = false)
    (h3 : strstr (strlwr tag) "user".data = false)
    (h4 : strstr (strlwr tag) "group".data = true)
    (hv : strtokSecond tag = some v) :
    tokenizeStep K tm f t =
      Except.ok (Function.update tm t (some (strlwr tag)),
        { f with groupID := groupString2Val K v }) := by
  unfold tokenizeStep
  rw [if_neg (Nat.not_lt.2 ht)]
  simp only [htag, hv, h1, h2, h3, h4]
  rfl

/-- C32: with pairwise different user codes and pairwise different group
codes, the chain of comparisons of `policy_fnTokenizeTags` maps a value to the
code of a user name exactly when the value equals that name ignoring letter
case, and to `USER_CODE_INVALID` exactly when it equals none of the eight
names; likewise for the four group names and `GROUP_CODE_INVALID`; and a tag
that reaches the user (group) branch of the tokenizer, one whose lowercased
text contains `user` (`group`) and none of the words tested before it, gets its
user (group) code from this chain applied to its value. -/
theorem C32_tag_value_mapping (K : Codes) (v : CStr)
    (hu : ((userTable K).map Prod.snd ++ [K.USER_CODE_INVALID]).Nodup)
    (hg : ((groupTable K).map Prod.snd ++ [K.GROUP_CODE_INVALID]).Nodup) :
    (∀ p ∈ userTable K, userString2Val K v = p.2 ↔ EqIgnoreCase v p.1) ∧
    (userString2Val K v = K.USER_CODE_INVALID ↔ ∀ p ∈ userTable K, ¬ EqIgnoreCase v p.1) ∧
    (∀ p ∈ groupTable K, groupString2Val K v = p.2 ↔ EqIgnoreCase v p.1) ∧
    (groupString2Val K v = K.GROUP_CODE_INVALID ↔
      ∀ p ∈ groupTable K, ¬ EqIgnoreCase v p.1) ∧
    (∀ (tm : TagMap) (f : TagFields) (t : Nat) (tag : CStr),
      t ≤ K.DP_SERVER_MAX_TAGS → tm t = some tag → strtokSecond tag = some v →
      strstr (strlwr tag) "type".data = false →
      strstr (strlwr tag) "location".data = false →
      (strstr (strlwr tag) "user".data = true →
        tokenizeStep K tm f t =
          Except.ok (Function.update tm t (some (strlwr tag)),
            { f with userID := userString2Val K v })) ∧
      (strstr (strlwr tag) "user".data = false →
        strstr (strlwr tag) "group".data = true →
        tokenizeStep K tm f t =
          Except.ok (Function.update tm t (some (strlwr tag)),
            { f with groupID := groupString2Val K v }))) := by
  have h1 := lookup_iff (userTable K) K.USER_CODE_INVALID v (userTable_names K) hu
  have h2 := lookup_iff (groupTable K) K.GROUP_CODE_INVALID v (groupTable_names K) hg
  rw [← userString2Val_eq] at h1
  rw [← groupString2Val_eq] at h2
  exact ⟨h1.1, h1.2, h2.1, h2.2, fun tm f t tag ht htag hv hty hloc =>
    ⟨fun hus => userTag_step K tm f t tag v ht htag hty hloc hus hv,
      fun hus hgr => groupTag_step K tm f t tag v ht htag hty hloc hus hgr hv⟩⟩

theorem C32_tag_value_mapping_witness :
    (userString2Val sampleCodes "DouG".data = sampleCodes.USER_CODE_DOUG ↔
      EqIgnoreCase "DouG".data "doug".data) ∧
    (groupString2Val sampleCodes "DouG".data = sampleCodes.GROUP_CODE_INVALID ↔
      ∀ p ∈ groupTable sampleCodes, ¬ EqIgnoreCase "DouG".data p.1) ∧
    tokenizeStep sampleCodes sampleTagMap TagFields.init 3 =
      Except.ok (Function.update sampleTagMap 3 (some (strlwr "user:doug".data)),
        { TagFields.init with userID := userString2Val sampleCodes "doug".data }) :=
  ⟨(C32_tag_value_mapping sampleCodes "DouG".data (by decide) (by decide)).1
      ("doug".data, sampleCodes.USER_CODE_DOUG) (by decide),
    (C32_tag_value_mapping sampleCodes "DouG".data (by decide) (by decide)).2.2.2.1,
    ((C32_tag_value_mapping sampleCodes "doug".data (by decide) (by decide)).2.2.2.2
      sampleTagMap TagFields.init 3 "user:doug".data (by decide) rfl (by decide) (by decide)
      (by decide)).1 (by decide)⟩

theorem loop_overflow (num : Int) (arg : Option tzParams) (i : Nat) (rest : List Nat)
    (w : SimState) (ret : Int) (h : MAX_NUM_OF_OBJECTS ≤ w.objCounter) :
    QUEUE_fnAdd_loop num arg (i :: rest) w ret =
      Except.error QueueFault.objectTableOverflow := by
  have e : QUEUE_fnAdd_iter num arg i w ret = Except.error QueueFault.objectTableOverflow := by
    unfold QUEUE_fnAdd_iter
    rw [if_pos h]
  show (match QUEUE_fnAdd_iter num arg i w ret with
    | Except.error e => Except.error e
    | Except.ok (w1, ret1) => QUEUE_fnAdd_loop num arg rest w1 ret1) = _
  rw [e]

theorem add_overflow (w : SimState) (l : List Nat) (n : Nat) (params : tzParams)
    (hq : IsQueue w l) (hguard : w.objCounter ≤ MAX_NUM_OF_OBJECTS)
    (hover : MAX_NUM_OF_OBJECTS < w.objCounter + n)
    (halloc : ∀ k, w.callocOk k = true) :
    QUEUE_fnAdd w (n : Int) (some params) = Except.error QueueFault.objectTableOverflow := by
  obtain ⟨k, hk⟩ : ∃ k, w.objCounter + k = MAX_NUM_OF_OBJECTS :=
    ⟨MAX_NUM_OF_OBJECTS - w.objCounter, by omega⟩
  obtain ⟨m, hm⟩ : ∃ m, n = k + (m + 1) := ⟨n - k - 1, by omega⟩
  obtain ⟨w1, h1, _, _, hcnt1, _, _⟩ :=
    loop_spec (n : Int) params (List.range k) w EINVAL l hq
      (fun j _ => halloc _) (by rw [List.length_range]; omega)
  rw [List.length_range] at hcnt1
  have hsplit : List.range n =
      List.range k ++ ((k + 0) :: (List.range m).map (fun x => k + (x + 1))) := by
    rw [hm, List.range_add, List.range_succ_eq_map, List.map_cons, List.map_map]
    rfl
  unfold QUEUE_fnAdd
  rw [Int.toNat_natCast, hsplit, loop_append, h1]
  exact loop_overflow _ _ _ _ _ _ (by rw [hcnt1, hk])

/-- C36: under the guard `objCounter <= MAX_NUM_OF_OBJECTS` of the arrival
loop the stores of `QUEUE_fnAdd` into the table `pObj` are not all inside the
table: when `objCounter + n` exceeds `MAX_NUM_OF_OBJECTS` (as for
`objCounter = MAX_NUM_OF_OBJECTS` and every `n >= 1`), all allocations
succeeding, the call stores at the index `MAX_NUM_OF_OBJECTS`, one past the
last element. -/
theorem C36_object_table_overflow (w : SimState) (l : List Nat) (n : Nat) (params : tzParams)
    (hq : IsQueue w l) (hguard : w.objCounter ≤ MAX_NUM_OF_OBJECTS)
    (hover : MAX_NUM_OF_OBJECTS < w.objCounter + n)
    (halloc : ∀ k, w.callocOk k = true) :
    QUEUE_fnAdd w (n : Int) (some params) = Except.error QueueFault.objectTableOverflow :=
  add_overflow w l n params hq hguard hover halloc

theorem isQueue_tableFull : IsQueue simTableFull [] :=
  ⟨_, rfl, rfl, rfl, rfl, trivial, List.nodup_nil, fun a ha => absurd ha (List.not_mem_nil a)⟩

theorem C36_object_table_overflow_witness :
    simTableFull.objCounter ≤ MAX_NUM_OF_OBJECTS ∧
    QUEUE_fnAdd simTableFull ((1 : Nat) : Int) (some sampleParams) =
      Except.error QueueFault.objectTableOverflow :=
  ⟨Nat.le_refl _, C36_object_table_overflow simTableFull [] 1 sampleParams isQueue_tableFull
    (Nat.le_refl _) (Nat.lt_succ_self _) (fun _ => rfl)⟩

theorem reachable_count (params : tzParams) (ops : List QueueCall) (w0 : SimState)
    (halloc : ∀ k, w0.callocOk k = true)
    (hroom : (QUEUE_fnInitialize w0).1.objCounter + totalAdded ops ≤ MAX_NUM_OF_OBJECTS)
    (hadm : Admissible 0 ops) :
    ∃ w2 out l q, runQueue (some params) (QUEUE_fnInitialize w0).1 ops = Except.ok (w2, out) ∧
      IsQueue w2 l ∧ l.length = totalAdded ops - removals ops ∧
      w2.pQueue = some q ∧ q.uiObjCount = l.length % 65536 ∧
      (q.pFirst = none ↔ l = []) ∧ (q.pLast = none ↔ l = []) := by
  have hq0 : IsQueue (QUEUE_fnInitialize w0).1 [] := isQueue_fresh w0 (halloc _)
  have hal : ∀ k, (QUEUE_fnInitialize w0).1.callocOk k = true := by
    intro k
    have : (QUEUE_fnInitialize w0).1.callocOk = w0.callocOk := by
      unfold QUEUE_fnInitialize
      split <;> rfl
    rw [this]; exact halloc k
  obtain ⟨w2, out, h1, _, _, h4⟩ :=
    runQueue_spec params ops (QUEUE_fnInitialize w0).1 [] hq0 hal hroom hadm
  obtain ⟨q, e1, e2, e3, e4, e5, e6, e7⟩ := h4
  refine ⟨w2, out, _, q, h1, ⟨q, e1, e2, e3, e4, e5, e6, e7⟩, ?_, e1, e4, ?_, ?_⟩
  · rw [List.length_drop, List.length_append, List.length_map, List.length_range]
    simp
  · rw [e2, List.head?_eq_none_iff]
  · rw [e3, List.getLast?_eq_none_iff]

/-- C35: in every state reached from `QUEUE_fnInitialize` by `QUEUE_fnAdd`
calls and `QUEUE_fnGetAndRemoveFirstObj` calls on a non-empty queue, `pFirst`
is NULL exactly when the queue links no object, and so is `pLast`, but the
16-bit field `uiObjCount` is the number of linked objects modulo 65536 and not
that number: with 65536 objects linked it is 0. -/
theorem C35_count_is_modulo_65536 (params : tzParams) (ops : List QueueCall) (w0 : SimState)
    (halloc : ∀ k, w0.callocOk k = true)
    (hroom : (QUEUE_fnInitialize w0).1.objCounter + totalAdded ops ≤ MAX_NUM_OF_OBJECTS)
    (hadm : Admissible 0 ops) :
    ∃ w2 out l q, runQueue (some params) (QUEUE_fnInitialize w0).1 ops = Except.ok (w2, out) ∧
      IsQueue w2 l ∧ l.length = totalAdded ops - removals ops ∧
      w2.pQueue = some q ∧ q.uiObjCount = l.length % 65536 ∧
      (q.pFirst = none ↔ l = []) ∧ (q.pLast = none ↔ l = []) :=
  reachable_count params ops w0 halloc hroom hadm

theorem C35_count_is_modulo_65536_witness :
    ∃ w2 out q, runQueue (some sampleParams) (QUEUE_fnInitialize simBoot).1
        [QueueCall.add 65536] = Except.ok (w2, out) ∧
      w2.pQueue = some q ∧ q.uiObjCount = 0 ∧ q.pFirst ≠ none ∧ q.pLast ≠ none := by
  obtain ⟨w2, out, l, q, h1, _, hlen, hq, hcount, hfirst, hlast⟩ :=
    C35_count_is_modulo_65536 sampleParams [QueueCall.add 65536] simBoot (fun _ => rfl)
      (by decide) ⟨by decide, trivial⟩
  have hl : l.length = 65536 := hlen
  have hne : l ≠ [] := by
    intro e
    rw [e] at hl
    exact absurd hl (by decide)
  refine ⟨w2, out, q, h1, hq, ?_, fun e => hne (hfirst.1 e), fun e => hne (hlast.1 e)⟩
  rw [hcount, hl]

theorem calcRT_y (sqrt : ℚ → ℚ) (params : tzParams) (obj : tzOBJECT) (e : Estimator)
    (hidx : e.cycleIdx < MAX_NUM_OF_OBJECTS) :
    ∃ e2, discreteEventSimulator_fnCalcRT sqrt params obj e = some e2 ∧
      e2.y = Function.update e.y e.cycleIdx (e.y e.cycleIdx + msOf obj) ∧
      e2.cycleIdx = (if obj.endBatch = true then e.cycleIdx + 1 else e.cycleIdx) := by
  unfold discreteEventSimulator_fnCalcRT msOf
  rw [if_neg (Nat.not_le.2 hidx)]
  cases hb : obj.endBatch with
  | false => exact ⟨_, rfl, rfl, rfl⟩
  | true =>
    simp only [Bool.true_eq_false, if_false]
    by_cases hc : params.currEpoch > 1
    · rw [if_pos hc]; exact ⟨_, rfl, rfl, rfl⟩
    · rw [if_neg hc]; exact ⟨_, rfl, rfl, rfl⟩

theorem serveAll_append (sqrt : ℚ → ℚ) : ∀ (a b : List (tzParams × tzOBJECT)) (e : Estimator),
    serveAll sqrt e (a ++ b) =
      (match serveAll sqrt e a with
        | none => none
        | some e1 => serveAll sqrt e1 b) := by
  intro a
  induction a with
  | nil => intro b e; rfl
  | cons x rest ih =>
    intro b e
    show (match discreteEventSimulator_fnCalcRT sqrt x.1 x.2 e with
      | none => none
      | some e1 => serveAll sqrt e1 (rest ++ b)) =
      (match (match discreteEventSimulator_fnCalcRT sqrt x.1 x.2 e with
          | none => none
          | some e1 => serveAll sqrt e1 rest) with
        | none => none
        | some e1 => serveAll sqrt e1 b)
    cases discreteEventSimulator_fnCalcRT sqrt x.1 x.2 e with
    | none => rfl
    | some e1 => exact ih b e1

theorem serve_inside_batch (sqrt : ℚ → ℚ) : ∀ (pre : List (tzParams × tzOBJECT))
    (e : Estimator), (∀ x ∈ pre, x.2.endBatch = false) → e.cycleIdx < MAX_NUM_OF_OBJECTS →
    ∃ e1, serveAll sqrt e pre = some e1 ∧ e1.cycleIdx = e.cycleIdx ∧
      e1.y = Function.update e.y e.cycleIdx
        (e.y e.cycleIdx + (pre.map (fun x => msOf x.2)).sum) := by
  intro pre
  induction pre with
  | nil =>
    intro e _ _
    refine ⟨e, rfl, rfl, ?_⟩
    simp
  | cons x rest ih =>
    intro e hpre hidx
    obtain ⟨e1, h1, hy1, hc1⟩ := calcRT_y sqrt x.1 x.2 e hidx
    rw [hpre x (List.mem_cons_self _ _)] at hc1
    simp only [Bool.false_eq_true, if_false] at hc1
    obtain ⟨e2, h2, hc2, hy2⟩ := ih e1 (fun z hz => hpre z (List.mem_cons_of_mem _ hz))
      (by rw [hc1]; exact hidx)
    refine ⟨e2, ?_, by rw [hc2, hc1], ?_⟩
    · show (match discreteEventSimulator_fnCalcRT sqrt x.1 x.2 e with
        | none => none
        | some e1 => serveAll sqrt e1 rest) = _
      rw [h1]
      exact h2
    · rw [hy2, hc1, hy1]
      funext j
      by_cases hj : j = e.cycleIdx
      · subst hj
        simp only [Function.update_same, List.map_cons, List.sum_cons]
        ring
      · simp only [Function.update_noteq hj]

theorem serve_batch (sqrt : ℚ → ℚ) (b : List (tzParams × tzOBJECT)) (e : Estimator)
    (hb : IsBatch b) (hidx : e.cycleIdx < MAX_NUM_OF_OBJECTS) :
    ∃ e1, serveAll sqrt e b = some e1 ∧ e1.cycleIdx = e.cycleIdx + 1 ∧
      e1.y = Function.update e.y e.cycleIdx
        (e.y e.cycleIdx + (b.map (fun x => msOf x.2)).sum) := by
  obtain ⟨pre, last, rfl, hpre, hlast⟩ := hb
  obtain ⟨e1, h1, hc1, hy1⟩ := serve_inside_batch sqrt pre e hpre hidx
  obtain ⟨e2, h2, hy2, hc2⟩ := calcRT_y sqrt last.1 last.2 e1 (by rw [hc1]; exact hidx)
  rw [if_pos hlast] at hc2
  refine ⟨e2, ?_, by rw [hc2, hc1], ?_⟩
  · rw [serveAll_append, h1]
    show (match discreteEventSimulator_fnCalcRT sqrt last.1 last.2 e1 with
      | none => none
      | some e1 => serveAll sqrt e1 []) = _
    rw [h2]
    rfl
  · rw [hy2, hc1, hy1]
    funext j
    by_cases hj : j = e.cycleIdx
    · subst hj
      simp only [Function.update_same, List.map_append, List.sum_append, List.map_cons,
        List.map_nil, List.sum_cons, List.sum_nil]
      ring
    · simp only [Function.update_noteq hj]

theorem serve_batches (sqrt : ℚ → ℚ) : ∀ (bs : List (List (tzParams × tzOBJECT)))
    (e : Estimator), (∀ b ∈ bs, IsBatch b) → e.cycleIdx + bs.length ≤ MAX_NUM_OF_OBJECTS →
    ∃ e1, serveAll sqrt e bs.flatten = some e1 ∧ e1.cycleIdx = e.cycleIdx + bs.length ∧
      ∀ j, e1.cycleIdx ≤ j → e1.y j = e.y j := by
  intro bs
  induction bs with
  | nil =>
    intro e _ _
    exact ⟨e, rfl, rfl, fun _ _ => rfl⟩
  | cons b rest ih =>
    intro e hbs hlen
    rw [List.length_cons] at hlen
    obtain ⟨e1, h1, hc1, hy1⟩ := serve_batch sqrt b e (hbs b (List.mem_cons_self _ _))
      (by omega)
    obtain ⟨e2, h2, hc2, hy2⟩ := ih e1 (fun z hz => hbs z (List.mem_cons_of_mem _ hz))
      (by rw [hc1]; omega)
    refine ⟨e2, ?_, by rw [hc2, hc1, List.length_cons]; omega, ?_⟩
    · rw [List.flatten_cons, serveAll_append, h1]
      exact h2
    · intro j hj
      rw [hy2 j hj, hy1]
      have : j ≠ e.cycleIdx := by
        rw [hc2, hc1] at hj
        omega
      rw [Function.update_noteq this]

/-- C31: `discreteEventSimulator_fnCalcRT`, called with `cycleIdx` inside the
arrays, increases `cycleIdx` by one when the object has `endBatch = true` and
leaves it unchanged otherwise. Hence, starting with `cycleIdx = 0` and `y`
cleared, when the objects of the batches `done` have been served batch after
batch and then the objects `pre` of the next batch, the batch-ending object
`last` of that batch is processed with `cycleIdx` equal to the number of
batches served before, and leaves in `y[cycleIdx]` the sum of the queue and
service milliseconds of exactly the objects `pre` and `last`. -/
theorem C31_one_update_per_epoch (sqrt : ℚ → ℚ) (e0 : Estimator)
    (done : List (List (tzParams × tzOBJECT))) (pre : List (tzParams × tzOBJECT))
    (last : tzParams × tzOBJECT) (hc0 : e0.cycleIdx = 0) (hy0 : ∀ j, e0.y j = 0)
    (hdone : ∀ b ∈ done, IsBatch b) (hpre : ∀ x ∈ pre, x.2.endBatch = false)
    (hlast : last.2.endBatch = true) (hlen : done.length < MAX_NUM_OF_OBJECTS) :
    (∀ (e : Estimator) (params : tzParams) (obj : tzOBJECT),
      e.cycleIdx < MAX_NUM_OF_OBJECTS →
      ∃ e2, discreteEventSimulator_fnCalcRT sqrt params obj e = some e2 ∧
        e2.cycleIdx = (if obj.endBatch = true then e.cycleIdx + 1 else e.cycleIdx)) ∧
    (∃ e1 e2, serveAll sqrt e0 (done.flatten ++ pre) = some e1 ∧
      e1.cycleIdx = done.length ∧
      discreteEventSimulator_fnCalcRT sqrt last.1 last.2 e1 = some e2 ∧
      e2.cycleIdx = done.length + 1 ∧
      e2.y done.length = ((pre ++ [last]).map (fun x => msOf x.2)).sum) := by
  constructor
  · intro e params obj hidx
    obtain ⟨e2, h, _, hc⟩ := calcRT_y sqrt params obj e hidx
    exact ⟨e2, h, hc⟩
  · obtain ⟨e1, h1, hc1, hy1⟩ := serve_batches sqrt done e0 hdone (by rw [hc0]; omega)
    rw [hc0, Nat.zero_add] at hc1
    obtain ⟨e2, h2, hc2, hy2⟩ := serve_inside_batch sqrt pre e1 hpre (by rw [hc1]; exact hlen)
    obtain ⟨e3, h3, hy3, hc3⟩ := calcRT_y sqrt last.1 last.2 e2
      (by rw [hc2, hc1]; exact hlen)
    rw [if_pos hlast] at hc3
    refine ⟨e2, e3, ?_, by rw [hc2, hc1], h3, by rw [hc3, hc2, hc1], ?_⟩
    · rw [serveAll_append, h1]
      exact h2
    · rw [hy3, hc2, hc1, Function.update_same, hy2, hc1, Function.update_same,
        hy1 done.length (by rw [hc1]), hy0]
      simp only [List.map_append, List.sum_append, List.map_cons, List.map_nil,
        List.sum_cons, List.sum_nil]
      ring

theorem C31_one_update_per_epoch_witness :
    ∃ e1 e2, serveAll sampleSqrt estimatorStart
        ([[(sampleParams, lastOfBatch 30)]].flatten ++ [(sampleParams, insideBatch 10)]) =
          some e1 ∧
      e1.cycleIdx = [[(sampleParams, lastOfBatch 30)]].length ∧
      discreteEventSimulator_fnCalcRT sampleSqrt sampleParams (lastOfBatch 34) e1 = some e2 ∧
      e2.cycleIdx = [[(sampleParams, lastOfBatch 30)]].length + 1 ∧
      e2.y [[(sampleParams, lastOfBatch 30)]].length =
        (([(sampleParams, insideBatch 10)] ++ [(sampleParams, lastOfBatch 34)]).map
          (fun x => msOf x.2)).sum :=
  (C31_one_update_per_epoch sampleSqrt estimatorStart [[(sampleParams, lastOfBatch 30)]]
    [(sampleParams, insideBatch 10)] (sampleParams, lastOfBatch 34) rfl (fun _ => rfl)
    (fun b hb => by
      rw [List.mem_singleton] at hb
      rw [hb]
      exact ⟨[], (sampleParams, lastOfBatch 30), rfl,
        fun x hx => absurd hx (List.not_mem_nil x), rfl⟩)
    (fun x hx => by
      rw [List.mem_singleton] at hx
      rw [hx]
      rfl)
    rfl (by decide)).2

theorem takeWhile_token (q : Char → Bool) (tok : CStr) (c : Char) (rest : CStr)
    (h1 : ∀ x ∈ tok, q x = true) (h2 : q c = false) :
    (tok ++ c :: rest).takeWhile q = tok ∧ (tok ++ c :: rest).dropWhile q = c :: rest := by
  induction tok with
  | nil => simp [List.takeWhile, List.dropWhile, h2]
  | cons a t ih =>
    have ha : q a = true := h1 a (List.mem_cons_self _ _)
    have := ih (fun x hx => h1 x (List.mem_cons_of_mem _ hx))
    simp [List.takeWhile, List.dropWhile, ha, this]

theorem takeWhile_all (q : Char → Bool) (tok : CStr) (h1 : ∀ x ∈ tok, q x = true) :
    tok.takeWhile q = tok ∧ tok.dropWhile q = [] := by
  induction tok with
  | nil => simp
  | cons a t ih =>
    have ha : q a = true := h1 a (List.mem_cons_self _ _)
    have := ih (fun x hx => h1 x (List.mem_cons_of_mem _ hx))
    simp [List.takeWhile, List.dropWhile, ha, this]

theorem strtokBy_nil (D : CStr) : strtokBy D [] = none := by
  simp [strtokBy]

theorem strtokBy_mid (D tok : CStr) (c : Char) (rest : CStr) (hne : tok ≠ [])
    (h1 : ∀ x ∈ tok, x ∉ D) (h2 : c ∈ D) :
    strtokBy D (tok ++ c :: rest) = some (tok, rest) := by
  obtain ⟨a, t, rfl⟩ := List.exists_cons_of_ne_nil hne
  have ha : a ∉ D := h1 a (List.mem_cons_self _ _)
  have hq := takeWhile_token (fun c => !decide (c ∈ D)) (a :: t) c rest
    (by intro x hx; simp [h1 x hx]) (by simp [h2])
  have hd : ((a :: t) ++ c :: rest).dropWhile (fun c => decide (c ∈ D)) = (a :: t) ++ c :: rest := by
    simp [List.dropWhile, ha]
  unfold strtokBy
  simp only [hd, hq.1, hq.2]
  simp

theorem strtokBy_end (D tok : CStr) (hne : tok ≠ []) (h1 : ∀ x ∈ tok, x ∉ D) :
    strtokBy D tok = some (tok, []) := by
  obtain ⟨a, t, rfl⟩ := List.exists_cons_of_ne_nil hne
  have ha : a ∉ D := h1 a (List.mem_cons_self _ _)
  have hq := takeWhile_all (fun c => !decide (c ∈ D)) (a :: t)
    (by intro x hx; simp [h1 x hx])
  have hd : (a :: t).dropWhile (fun c => decide (c ∈ D)) = a :: t := by
    simp [List.dropWhile, ha]
  unfold strtokBy
  simp only [hd, hq.1, hq.2]
  simp

theorem digit_not_delim (c : Char) (h : c.isDigit = true) :
    c ≠ 'T' ∧ c ≠ ' ' ∧ c ≠ '-' ∧ c ≠ '/' ∧ c ≠ ':' ∧ c ≠ '.' ∧ c ≠ '+' ∧ isspace c = false := by
  refine ⟨?_, ?_, ?_, ?_, ?_, ?_, ?_, ?_⟩
  · rintro rfl; exact absurd h (by decide)
  · rintro rfl; exact absurd h (by decide)
  · rintro rfl; exact absurd h (by decide)
  · rintro rfl; exact absurd h (by decide)
  · rintro rfl; exact absurd h (by decide)
  · rintro rfl; exact absurd h (by decide)
  · rintro rfl; exact absurd h (by decide)
  · simp only [Char.isDigit, Bool.and_eq_true, decide_eq_true_eq] at h
    have h1 : 48 ≤ c.toNat := by
      have := h.1
      exact this
    simp only [isspace, Bool.or_eq_false_iff, decide_eq_false_iff_not, Bool.and_eq_false_imp,
      decide_eq_true_eq]
    constructor
    · omega
    · intro _; omega

theorem foldl_digits (t : CStr) (n : Nat) :
    t.foldl (fun n c => 10 * n + (c.toNat - 48)) n =
      n * 10 ^ t.length + decimal t := by
  induction t generalizing n with
  | nil => simp [decimal]
  | cons a t ih =>
    rw [List.foldl_cons, ih]
    have : decimal (a :: t) = (a.toNat - 48) * 10 ^ t.length + decimal t := by
      simp only [decimal, List.map_cons, List.reverse_cons, Nat.ofDigits_append,
        List.length_reverse, List.length_map, Nat.ofDigits_singleton]
      ring
    rw [this, List.length_cons]
    ring

theorem atoi_number (t : CStr) (h : IsNumber t) : atoi t = (decimal t : Int) := by
  obtain ⟨hne, hd⟩ := h
  obtain ⟨a, r, rfl⟩ := List.exists_cons_of_ne_nil hne
  have ha := digit_not_delim a (hd a (List.mem_cons_self _ _))
  have h1 : (a :: r).dropWhile isspace = a :: r := by
    simp [List.dropWhile, ha.2.2.2.2.2.2.2]
  have h2 : (a :: r).takeWhile Char.isDigit = a :: r := (takeWhile_all _ _ hd).1
  have h3 : leadingDigits (a :: r) = decimal (a :: r) := by
    unfold leadingDigits
    rw [h2, foldl_digits]
    simp
  unfold atoi
  rw [h1]
  split
  · rename_i heq
    exact absurd (List.cons.inj heq).1 ha.2.2.1
  · rename_i heq
    exact absurd (List.cons.inj heq).1 ha.2.2.2.2.2.2.1
  · rw [h3]

theorem number_no_delim (t : CStr) (h : IsNumber t) (c : Char) (hc : c ∈ t) :
    c ≠ 'T' ∧ c ≠ ' ' ∧ c ≠ '-' ∧ c ≠ '/' ∧ c ≠ ':' ∧ c ≠ '.' := by
  have := digit_not_delim c (h.2 c hc)
  exact ⟨this.1, this.2.1, this.2.2.1, this.2.2.2.1, this.2.2.2.2.1, this.2.2.2.2.2.1⟩

theorem time_tokens (P : XacmlConsts) (d : Tm) (h mi s : CStr) (frac : Option CStr)
    (hC : P.COLON = ":".data) (hDot : P.DOT = ".".data)
    (hh : IsNumber h) (hmi : IsNumber mi) (hs : IsNumber s)
    (hfrac : ∀ f, frac = some f → ∀ c ∈ f, c.isDigit = true)
    (hcap : (timeText h mi s frac).length < P.DATE_STRING_LEN) :
    policyXacml_fnTimeTokenizer P (some (timeText h mi s frac)) (some d) =
      some (EOK, some { d with tm_hour := atoi h, tm_min := atoi mi, tm_sec := atoi s,
                               tm_wday := -1, tm_yday := -1 }) := by
  have hfpc : ∀ c ∈ fractionText frac, c ≠ ':' := by
    intro c hc
    cases frac with
    | none => simp [fractionText] at hc
    | some f =>
      simp only [fractionText, List.mem_cons] at hc
      rcases hc with rfl | hc
      · decide
      · exact (digit_not_delim c (hfrac f rfl c hc)).2.2.2.2.1
  have h4 : ∃ r, strtokBy P.DOT (s ++ fractionText frac) = some (s, r) := by
    cases frac with
    | none =>
      refine ⟨[], ?_⟩
      simp only [fractionText, List.append_nil]
      apply strtokBy_end _ _ hs.1
      intro x hx; rw [hDot]; simpa using (number_no_delim s hs x hx).2.2.2.2.2
    | some f =>
      refine ⟨f, ?_⟩
      simp only [fractionText]
      apply strtokBy_mid _ _ _ _ hs.1
      · intro x hx; rw [hDot]; simpa using (number_no_delim s hs x hx).2.2.2.2.2
      · rw [hDot]; decide
  generalize hfp : fractionText frac = fp at *
  have htt : timeText h mi s frac = h ++ ':' :: (mi ++ ':' :: (s ++ fp)) := by
    rw [timeText, hfp]
  have h1 : strtokBy P.COLON (h ++ ':' :: (mi ++ ':' :: (s ++ fp))) =
      some (h, mi ++ ':' :: (s ++ fp)) := by
    apply strtokBy_mid _ _ _ _ hh.1
    · intro x hx; rw [hC]; simpa using (number_no_delim h hh x hx).2.2.2.2.1
    · rw [hC]; decide
  have h2 : strtokBy P.COLON (mi ++ ':' :: (s ++ fp)) = some (mi, s ++ fp) := by
    apply strtokBy_mid _ _ _ _ hmi.1
    · intro x hx; rw [hC]; simpa using (number_no_delim mi hmi x hx).2.2.2.2.1
    · rw [hC]; decide
  have h3 : strtokBy P.COLON (s ++ fp) = some (s ++ fp, []) := by
    apply strtokBy_end
    · intro hnil; exact hs.1 (List.append_eq_nil.1 hnil).1
    · intro x hx; rw [hC]
      rcases List.mem_append.1 hx with hx | hx
      · simpa using (number_no_delim s hs x hx).2.2.2.2.1
      · simpa using hfpc x hx
  obtain ⟨r, h4⟩ := h4
  have hlen : (timeText h mi s frac).length =
      h.length + 1 + (mi.length + 1 + (s.length + fp.length)) := by
    rw [htt]; simp only [List.length_append, List.length_cons]; omega
  have c1 : strcpyInto P.DATE_STRING_LEN h = some h := by
    unfold strcpyInto; rw [if_pos (by omega)]
  have c2 : strcpyInto P.DATE_STRING_LEN mi = some mi := by
    unfold strcpyInto; rw [if_pos (by omega)]
  have c3 : strcpyInto P.DATE_STRING_LEN (s ++ fp) = some (s ++ fp) := by
    unfold strcpyInto; rw [if_pos (by rw [List.length_append]; omega)]
  have c4 : strcpyInto P.DATE_STRING_LEN s = some s := by
    unfold strcpyInto; rw [if_pos (by omega)]
  rw [htt]
  simp only [policyXacml_fnTimeTokenizer, strcpyOr, strtokRest, h1, h2, h3, h4, c1, c2, c3, c4]

theorem dateText_chars (y m d : CStr) (hy : IsNumber y) (hm : IsNumber m) (hd : IsNumber d)
    (c : Char) (hc : c ∈ dateText y m d) : c ≠ 'T' ∧ c ≠ ' ' := by
  simp only [dateText, List.mem_append, List.mem_cons] at hc
  rcases hc with hc | rfl | hc | rfl | hc
  · exact ⟨(number_no_delim y hy c hc).1, (number_no_delim y hy c hc).2.1⟩
  · exact ⟨by decide, by decide⟩
  · exact ⟨(number_no_delim m hm c hc).1, (number_no_delim m hm c hc).2.1⟩
  · exact ⟨by decide, by decide⟩
  · exact ⟨(number_no_delim d hd c hc).1, (number_no_delim d hd c hc).2.1⟩

theorem timeText_chars (h mi s : CStr) (frac : Option CStr) (hh : IsNumber h) (hmi : IsNumber mi)
    (hs : IsNumber s) (hfrac : ∀ f, frac = some f → ∀ c ∈ f, c.isDigit = true)
    (c : Char) (hc : c ∈ timeText h mi s frac) : c ≠ 'T' ∧ c ≠ ' ' := by
  simp only [timeText, List.mem_append, List.mem_cons] at hc
  rcases hc with hc | rfl | hc | rfl | hc | hc
  · exact ⟨(number_no_delim h hh c hc).1, (number_no_delim h hh c hc).2.1⟩
  · exact ⟨by decide, by decide⟩
  · exact ⟨(number_no_delim mi hmi c hc).1, (number_no_delim mi hmi c hc).2.1⟩
  · exact ⟨by decide, by decide⟩
  · exact ⟨(number_no_delim s hs c hc).1, (number_no_delim s hs c hc).2.1⟩
  · cases frac with
    | none => simp [fractionText] at hc
    | some f =>
      simp only [fractionText, List.mem_cons] at hc
      rcases hc with rfl | hc
      · exact ⟨by decide, by decide⟩
      · exact ⟨(digit_not_delim c (hfrac f rfl c hc)).1, (digit_not_delim c (hfrac f rfl c hc)).2.1⟩

/-- The first cut of `policyXacml_fnDateString2Tm` on a text with a date part
and a time part. -/
theorem date_split_full (P : XacmlConsts) (now d0 : Tm) (dp tp : CStr) (sep : Char)
    (hT : P.TIMETAGSPACE = "T ".data) (hsep : sep = 'T' ∨ sep = ' ')
    (hdp : dp ≠ []) (hdpc : ∀ c ∈ dp, c ≠ 'T' ∧ c ≠ ' ')
    (htp : tp ≠ []) (htpc : ∀ c ∈ tp, c ≠ 'T' ∧ c ≠ ' ')
    (hcap1 : dp.length < P.DATE_STRING_LEN) (hcap2 : tp.length < P.DATE_STRING_LEN)
    (hcap3 : (dp ++ sep :: tp).length < TIME_STR_LENGTH) :
    policyXacml_fnDateString2Tm P now (some (dp ++ sep :: tp)) (some d0) =
      dateFields P now d0 dp tp false := by
  have h1 : strtokBy P.TIMETAGSPACE (dp ++ sep :: tp) = some (dp, tp) := by
    apply strtokBy_mid _ _ _ _ hdp
    · intro x hx; rw [hT]; simpa using hdpc x hx
    · rw [hT]; rcases hsep with rfl | rfl <;> decide
  have h2 : strtokBy P.TIMETAGSPACE tp = some (tp, []) := by
    apply strtokBy_end _ _ htp
    intro x hx; rw [hT]; simpa using htpc x hx
  have c0 : strcpyInto TIME_STR_LENGTH (dp ++ sep :: tp) = some (dp ++ sep :: tp) := by
    unfold strcpyInto; rw [if_pos (by omega)]
  have c1 : strcpyInto P.DATE_STRING_LEN dp = some dp := by
    unfold strcpyInto; rw [if_pos (by omega)]
  have c2 : strcpyInto P.DATE_STRING_LEN tp = some tp := by
    unfold strcpyInto; rw [if_pos (by omega)]
  simp only [policyXacml_fnDateString2Tm, strcpyOr, h1, h2, c0, c1, c2, Option.isNone]

/-- The first cut of `policyXacml_fnDateString2Tm` on a text without a time
part. -/
theorem date_split_date (P : XacmlConsts) (now d0 : Tm) (dp : CStr)
    (hT : P.TIMETAGSPACE = "T ".data)
    (hdp : dp ≠ []) (hdpc : ∀ c ∈ dp, c ≠ 'T' ∧ c ≠ ' ')
    (hcap1 : dp.length < P.DATE_STRING_LEN) (hcap3 : dp.length < TIME_STR_LENGTH) :
    policyXacml_fnDateString2Tm P now (some dp) (some d0) =
      dateFields P now d0 dp "0".data true := by
  have h1 : strtokBy P.TIMETAGSPACE dp = some (dp, []) := by
    apply strtokBy_end _ _ hdp
    intro x hx; rw [hT]; simpa using hdpc x hx
  have c0 : strcpyInto TIME_STR_LENGTH dp = some dp := by
    unfold strcpyInto; rw [if_pos (by omega)]
  have c1 : strcpyInto P.DATE_STRING_LEN dp = some dp := by
    unfold strcpyInto; rw [if_pos (by omega)]
  simp only [policyXacml_fnDateString2Tm, strcpyOr, h1, strtokBy_nil, c0, c1, Option.isNone]

theorem number_no_dash (P : XacmlConsts) (hD : P.DASHSLASH = "-/".data) (t : CStr)
    (ht : IsNumber t) : ∀ x ∈ t, x ∉ P.DASHSLASH := by
  intro x hx; rw [hD]
  have := number_no_delim t ht x hx
  simpa using ⟨this.2.2.1, this.2.2.2.1⟩

theorem dash_mem (P : XacmlConsts) (hD : P.DASHSLASH = "-/".data) : '-' ∈ P.DASHSLASH := by
  rw [hD]; decide

theorem dateFields_full (P : XacmlConsts) (now d0 : Tm) (y m d tp : CStr) (notime : Bool)
    (hD : P.DASHSLASH = "-/".data)
    (hy : IsNumber y) (hm : IsNumber m) (hd : IsNumber d)
    (hcap : (dateText y m d).length < P.DATE_STRING_LEN) :
    dateFields P now d0 (dateText y m d) tp notime =
      (if notime then
        some (EOK, some { now with tm_year := atoi y - 1900, tm_mon := atoi m - 1,
                                   tm_mday := atoi d, tm_hour := 0, tm_min := 0, tm_sec := 0 })
      else policyXacml_fnTimeTokenizer P (some tp)
        (some { now with tm_year := atoi y - 1900, tm_mon := atoi m - 1, tm_mday := atoi d })) := by
  have hlen : (dateText y m d).length = y.length + 1 + (m.length + 1 + d.length) := by
    simp only [dateText, List.length_append, List.length_cons]; omega
  have h1 : strtokBy P.DASHSLASH (y ++ '-' :: (m ++ '-' :: d)) = some (y, m ++ '-' :: d) :=
    strtokBy_mid _ _ _ _ hy.1 (number_no_dash P hD y hy) (dash_mem P hD)
  have h2 : strtokBy P.DASHSLASH (m ++ '-' :: d) = some (m, d) :=
    strtokBy_mid _ _ _ _ hm.1 (number_no_dash P hD m hm) (dash_mem P hD)
  have h3 : strtokBy P.DASHSLASH d = some (d, []) :=
    strtokBy_end _ _ hd.1 (number_no_dash P hD d hd)
  have c1 : strcpyInto P.DATE_STRING_LEN y = some y := by
    unfold strcpyInto; rw [if_pos (by omega)]
  have c2 : strcpyInto P.DATE_STRING_LEN m = some m := by
    unfold strcpyInto; rw [if_pos (by omega)]
  have c3 : strcpyInto P.DATE_STRING_LEN d = some d := by
    unfold strcpyInto; rw [if_pos (by omega)]
  simp only [dateFields, dateText, h1, h2, h3, c1, c2, c3]

theorem dateFields_no_day (P : XacmlConsts) (now d0 : Tm) (y m tp : CStr) (notime : Bool)
    (hD : P.DASHSLASH = "-/".data)
    (hy : IsNumber y) (hm : IsNumber m)
    (hcap : (y ++ '-' :: m).length < P.DATE_STRING_LEN) :
    dateFields P now d0 (y ++ '-' :: m) tp notime = some (EINVAL, some d0) := by
  have hlen : (y ++ '-' :: m).length = y.length + 1 + m.length := by
    simp only [List.length_append, List.length_cons]; omega
  have h1 : strtokBy P.DASHSLASH (y ++ '-' :: m) = some (y, m) :=
    strtokBy_mid _ _ _ _ hy.1 (number_no_dash P hD y hy) (dash_mem P hD)
  have h2 : strtokBy P.DASHSLASH m = some (m, []) :=
    strtokBy_end _ _ hm.1 (number_no_dash P hD m hm)
  have c1 : strcpyInto P.DATE_STRING_LEN y = some y := by
    unfold strcpyInto; rw [if_pos (by omega)]
  have c2 : strcpyInto P.DATE_STRING_LEN m = some m := by
    unfold strcpyInto; rw [if_pos (by omega)]
  simp only [dateFields, h1, h2, c1, c2, strtokBy_nil]

theorem dateFields_no_month (P : XacmlConsts) (now d0 : Tm) (y tp : CStr) (notime : Bool)
    (hD : P.DASHSLASH = "-/".data)
    (hy : IsNumber y) (hcap : y.length < P.DATE_STRING_LEN) :
    dateFields P now d0 y tp notime = some (EINVAL, some d0) := by
  have h1 : strtokBy P.DASHSLASH y = some (y, []) :=
    strtokBy_end _ _ hy.1 (number_no_dash P hD y hy)
  have c1 : strcpyInto P.DATE_STRING_LEN y = some y := by
    unfold strcpyInto; rw [if_pos (by omega)]
  simp only [dateFields, h1, c1, strtokBy_nil]

/-- C34 (date tokenizer): with the delimiter sets that the names of the four
constants say (letter T or space, dash or slash, colon, dot) and token buffers
that hold the date part and the time part, for all digit strings
`y`, `m`, `d`, `h`, `mi`, `s` and every optional digit fraction,
`policyXacml_fnDateString2Tm` on `y-m-d`, then `T` or a space, then
`h:mi:s[.frac]` returns `EOK` with the local time overwritten by
`tm_year = y - 1900`, `tm_mon = m - 1`, `tm_mday = d`, `tm_hour = h`,
`tm_min = mi`, `tm_sec = s` (the fraction is dropped); on `y-m-d` alone it
returns `EOK` with hour, minute and second 0; and on a text whose date part is
`y-m` or `y` it returns `EINVAL` and leaves the structure as it was. -/
theorem C34_date_tokenizer (P : XacmlConsts) (now d0 : Tm) (y m d h mi s : CStr)
    (frac : Option CStr) (sep : Char)
    (hT : P.TIMETAGSPACE = "T ".data) (hD : P.DASHSLASH = "-/".data)
    (hC : P.COLON = ":".data) (hDot : P.DOT = ".".data)
    (hy : IsNumber y) (hm : IsNumber m) (hd : IsNumber d)
    (hh : IsNumber h) (hmi : IsNumber mi) (hs : IsNumber s)
    (hfrac : ∀ f, frac = some f → ∀ c ∈ f, c.isDigit = true)
    (hsep : sep = 'T' ∨ sep = ' ')
    (hcapD : (dateText y m d).length < P.DATE_STRING_LEN)
    (hcapT : (timeText h mi s frac).length < P.DATE_STRING_LEN)
    (hcap : (dateText y m d ++ sep :: timeText h mi s frac).length < TIME_STR_LENGTH) :
    policyXacml_fnDateString2Tm P now (some (dateText y m d ++ sep :: timeText h mi s frac))
        (some d0) =
      some (EOK, some { now with tm_year := (decimal y : Int) - 1900,
                                 tm_mon := (decimal m : Int) - 1,
                                 tm_mday := (decimal d : Int),
                                 tm_hour := (decimal h : Int),
                                 tm_min := (decimal mi : Int),
                                 tm_sec := (decimal s : Int),
                                 tm_wday := -1, tm_yday := -1 }) ∧
    policyXacml_fnDateString2Tm P now (some (dateText y m d)) (some d0) =
      some (EOK, some { now with tm_year := (decimal y : Int) - 1900,
                                 tm_mon := (decimal m : Int) - 1,
                                 tm_mday := (decimal d : Int),
                                 tm_hour := 0, tm_min := 0, tm_sec := 0 }) ∧
    policyXacml_fnDateString2Tm P now (some ((y ++ '-' :: m) ++ sep :: timeText h mi s frac))
        (some d0) = some (EINVAL, some d0) ∧
    policyXacml_fnDateString2Tm P now (some (y ++ '-' :: m)) (some d0) =
      some (EINVAL, some d0) ∧
    policyXacml_fnDateString2Tm P now (some (y ++ sep :: timeText h mi s frac)) (some d0) =
      some (EINVAL, some d0) ∧
    policyXacml_fnDateString2Tm P now (some y) (some d0) = some (EINVAL, some d0) := by
  have hdne : dateText y m d ≠ [] := by
    intro hnil
    exact hy.1 (List.append_eq_nil.1 hnil).1
  have htne : timeText h mi s frac ≠ [] := by
    intro hnil
    exact hh.1 (List.append_eq_nil.1 hnil).1
  have hdc := dateText_chars y m d hy hm hd
  have htc := timeText_chars h mi s frac hh hmi hs hfrac
  have hlenD : (dateText y m d).length = y.length + 1 + (m.length + 1 + d.length) := by
    simp only [dateText, List.length_append, List.length_cons]; omega
  have hymc : ∀ c ∈ y ++ '-' :: m, c ≠ 'T' ∧ c ≠ ' ' := by
    intro c hc
    apply hdc c
    simp only [dateText, List.mem_append, List.mem_cons] at hc ⊢
    rcases hc with hc | hc | hc
    · exact Or.inl hc
    · exact Or.inr (Or.inl hc)
    · exact Or.inr (Or.inr (Or.inl hc))
  have hyc : ∀ c ∈ y, c ≠ 'T' ∧ c ≠ ' ' := fun c hc =>
    hymc c (List.mem_append_left _ hc)
  have hlen1 : (dateText y m d ++ sep :: timeText h mi s frac).length =
      (dateText y m d).length + 1 + (timeText h mi s frac).length := by
    simp only [List.length_append, List.length_cons]; omega
  have hlenYM : (y ++ '-' :: m).length = y.length + 1 + m.length := by
    simp only [List.length_append, List.length_cons]; omega
  have hd1 : 0 < d.length := List.length_pos.2 hd.1
  refine ⟨?_, ?_, ?_, ?_, ?_, ?_⟩
  · rw [date_split_full P now d0 _ _ sep hT hsep hdne hdc htne htc hcapD hcapT hcap,
      dateFields_full P now d0 y m d _ false hD hy hm hd hcapD,
      if_neg (by simp),
      time_tokens P _ h mi s frac hC hDot hh hmi hs hfrac hcapT,
      atoi_number y hy, atoi_number m hm, atoi_number d hd, atoi_number h hh,
      atoi_number mi hmi, atoi_number s hs]
  · rw [date_split_date P now d0 _ hT hdne hdc hcapD (by omega),
      dateFields_full P now d0 y m d _ true hD hy hm hd hcapD, if_pos rfl,
      atoi_number y hy, atoi_number m hm, atoi_number d hd]
  · rw [date_split_full P now d0 _ _ sep hT hsep (by simp) hymc htne htc (by omega) hcapT
        (by simp only [List.length_append, List.length_cons] at hlen1 hlenYM hlenD hcap ⊢; omega),
      dateFields_no_day P now d0 y m _ false hD hy hm (by omega)]
  · rw [date_split_date P now d0 _ hT (by simp) hymc (by omega) (by omega),
      dateFields_no_day P now d0 y m _ true hD hy hm (by omega)]
  · rw [date_split_full P now d0 _ _ sep hT hsep hy.1 hyc htne htc (by omega) hcapT
        (by simp only [List.length_append, List.length_cons] at hlen1 hlenYM hlenD hcap ⊢; omega),
      dateFields_no_month P now d0 y _ false hD hy (by omega)]
  · rw [date_split_date P now d0 _ hT hy.1 hyc (by omega) (by omega),
      dateFields_no_month P now d0 y _ true hD hy (by omega)]

/-- Witness for C34: the texts "2017-03-22T10:30:45.123", "2017-03-22" and
"2017-03" with the sample constants. -/
theorem C34_date_tokenizer_witness :
    policyXacml_fnDateString2Tm sampleXacmlConsts sampleNow
        (some "2017-03-22T10:30:45.123".data) (some sampleNow) =
      some (EOK, some { sampleNow with tm_year := 117, tm_mon := 2, tm_mday := 22,
                                       tm_hour := 10, tm_min := 30, tm_sec := 45,
                                       tm_wday := -1, tm_yday := -1 }) ∧
    policyXacml_fnDateString2Tm sampleXacmlConsts sampleNow (some "2017-03-22".data)
        (some sampleNow) =
      some (EOK, some { sampleNow with tm_year := 117, tm_mon := 2, tm_mday := 22,
                                       tm_hour := 0, tm_min := 0, tm_sec := 0 }) ∧
    policyXacml_fnDateString2Tm sampleXacmlConsts sampleNow (some "2017-03".data)
        (some sampleNow) = some (EINVAL, some sampleNow) :=
  have key := C34_date_tokenizer sampleXacmlConsts sampleNow sampleNow "2017".data "03".data
    "22".data "10".data "30".data "45".data (some "123".data) 'T' rfl rfl rfl rfl
    (by decide) (by decide) (by decide) (by decide) (by decide) (by decide)
    (by intro f hf; cases hf; decide) (Or.inl rfl) (by decide) (by decide) (by decide)
  ⟨key.1, key.2.1, key.2.2.2.1⟩

theorem toSizeT_nat (n : Nat) (h : n < 2 ^ 64) : toSizeT (n : Int) = n := by
  unfold toSizeT
  have h1 : ((n : Int) % (2 ^ 64 : Int)) = (n : Int) := by
    apply Int.emod_eq_of_lt
    · exact Int.ofNat_nonneg n
    · exact_mod_cast h
  rw [h1]
  exact Int.toNat_ofNat n

theorem toSizeT_of_nonneg (len : Int) (h0 : 0 ≤ len) (h1 : len < 2 ^ 31) :
    toSizeT len = len.toNat ∧ len.toNat < 2 ^ 31 := by
  obtain ⟨n, rfl⟩ := Int.eq_ofNat_of_zero_le h0
  have hn : n < 2 ^ 31 := by exact_mod_cast h1
  refine ⟨?_, ?_⟩
  · rw [toSizeT_nat n (by omega)]; simp
  · simpa using hn

theorem memcpyAt_inside (buffer : Nat → Char) (offset : Nat) (s : CStr) (i : Nat)
    (h : i < s.length) : memcpyAt buffer offset s (offset + i) = s.getD i NUL := by
  unfold memcpyAt
  rw [if_pos ⟨by omega, by omega⟩]
  congr 1
  omega

theorem memcpyAt_outside (buffer : Nat → Char) (offset : Nat) (s : CStr) (i : Nat)
    (h : i < offset ∨ offset + s.length ≤ i) : memcpyAt buffer offset s i = buffer i := by
  unfold memcpyAt
  rw [if_neg (by omega)]

theorem read_written (text : CStr) : ∀ (buffer : Nat → Char) (off fuel : Nat),
    NUL ∉ text → text.length < fuel →
    (∀ i, i < text.length → buffer (off + i) = text.getD i NUL) →
    buffer (off + text.length) = NUL →
    readCStr buffer off fuel = some text := by
  induction text with
  | nil =>
    intro buffer off fuel _ hf _ hend
    obtain ⟨k, rfl⟩ : ∃ k, fuel = k + 1 := ⟨fuel - 1, by simp at hf; omega⟩
    simp only [List.length_nil, Nat.add_zero] at hend
    simp [readCStr, hend]
  | cons a t ih =>
    intro buffer off fuel hn hf hin hend
    obtain ⟨k, rfl⟩ : ∃ k, fuel = k + 1 := ⟨fuel - 1, by simp at hf; omega⟩
    have ha : buffer off = a := by
      have := hin 0 (by simp)
      simpa using this
    have hane : a ≠ NUL := by
      intro h; exact hn (by rw [h]; exact List.mem_cons_self _ _)
    have htl : readCStr buffer (off + 1) k = some t := by
      apply ih
      · intro h; exact hn (List.mem_cons_of_mem _ h)
      · simp only [List.length_cons] at hf; omega
      · intro i hi
        have := hin (i + 1) (by simp only [List.length_cons]; omega)
        rw [show off + 1 + i = off + (i + 1) by omega, this]
        simp
      · rw [show off + 1 + t.length = off + (a :: t).length by
          simp only [List.length_cons]; omega]
        exact hend
    simp only [readCStr, ha, if_neg hane, htl, Option.map_some']

/-- One `char_data` call that fits: the characters are copied to the current
offset, which moves on by their number. -/
theorem char_data_fits (d : tzPolicyData) (str : CStr) (n : Nat)
    (hov : d.overflow = false) (hn : n ≤ str.length)
    (hfit : n + d.offset < CHAR_DATA_BUFFER_SIZE) :
    char_data d (some str) (n : Int) =
      some { d with
        char_data_policy_buffer := memcpyAt d.char_data_policy_buffer d.offset (str.take n),
        offset := d.offset + n } := by
  have hlt : n < 2 ^ 64 := by
    unfold CHAR_DATA_BUFFER_SIZE at hfit; omega
  have h2 : (n + d.offset) % 2 ^ 64 = n + d.offset := by
    apply Nat.mod_eq_of_lt
    unfold CHAR_DATA_BUFFER_SIZE at hfit; omega
  have h3 : (d.offset + n) % 2 ^ 64 = d.offset + n := by
    apply Nat.mod_eq_of_lt
    unfold CHAR_DATA_BUFFER_SIZE at hfit; omega
  unfold char_data
  simp only [hov, toSizeT_nat n hlt, h2, h3, Bool.false_eq_true, if_false]
  rw [if_neg (by omega), if_pos hn]

/-- One `char_data` call that does not fit sets the flag and nothing else. -/
theorem char_data_full (d : tzPolicyData) (str : CStr) (n : Nat)
    (hov : d.overflow = false) (hn : n < 2 ^ 31) (hoff : d.offset < CHAR_DATA_BUFFER_SIZE)
    (hfit : CHAR_DATA_BUFFER_SIZE ≤ d.offset + n) :
    char_data d (some str) (n : Int) = some { d with overflow := true } := by
  have hlt : n < 2 ^ 64 := by omega
  have h2 : (n + d.offset) % 2 ^ 64 = n + d.offset := by
    apply Nat.mod_eq_of_lt
    unfold CHAR_DATA_BUFFER_SIZE at hoff; omega
  unfold char_data
  simp only [hov, toSizeT_nat n hlt, h2, Bool.false_eq_true, if_false]
  rw [if_pos (by omega)]

theorem char_data_sticky (d : tzPolicyData) (s : Option CStr) (len : Int)
    (hov : d.overflow = true) : char_data d s len = some d := by
  unfold char_data
  cases s with
  | none => rfl
  | some str => simp [hov]

theorem charDataAll_sticky (calls : List (Option CStr × Int)) (d : tzPolicyData)
    (hov : d.overflow = true) : charDataAll d calls = some d := by
  induction calls with
  | nil => rfl
  | cons c rest ih => simp only [charDataAll, char_data_sticky d c.1 c.2 hov, ih]

theorem char_data_step (d : tzPolicyData) (c : Option CStr × Int)
    (h0 : d.offset < CHAR_DATA_BUFFER_SIZE) (hv : ValidCharData c) :
    ∃ d1, char_data d c.1 c.2 = some d1 ∧ d1.offset < CHAR_DATA_BUFFER_SIZE ∧
      (∀ i, CHAR_DATA_BUFFER_SIZE ≤ i → d1.char_data_policy_buffer i = d.char_data_policy_buffer i) := by
  obtain ⟨s, len⟩ := c
  obtain ⟨hlen0, hlen1, hs⟩ := hv
  simp only at hlen0 hlen1 hs ⊢
  obtain ⟨n, rfl⟩ := Int.eq_ofNat_of_zero_le hlen0
  have hn : n < 2 ^ 31 := by exact_mod_cast hlen1
  cases s with
  | none => exact ⟨d, rfl, h0, fun _ _ => rfl⟩
  | some str =>
    have hle : n ≤ str.length := by
      have := hs str rfl
      simpa using this
    cases hov : d.overflow with
    | true => exact ⟨d, char_data_sticky d _ _ hov, h0, fun _ _ => rfl⟩
    | false =>
      by_cases hfit : n + d.offset < CHAR_DATA_BUFFER_SIZE
      · refine ⟨_, char_data_fits d str n hov hle hfit, ?_, ?_⟩
        · simp only; omega
        · intro i hi
          simp only
          apply memcpyAt_outside
          right
          rw [List.length_take]
          have : min n str.length ≤ n := Nat.min_le_left _ _
          omega
      · exact ⟨_, char_data_full d str n hov hn h0 (by omega), h0, fun _ _ => rfl⟩

theorem charDataAll_bound (calls : List (Option CStr × Int)) : ∀ (d : tzPolicyData),
    d.offset < CHAR_DATA_BUFFER_SIZE → (∀ c ∈ calls, ValidCharData c) →
    ∃ d1, charDataAll d calls = some d1 ∧ d1.offset < CHAR_DATA_BUFFER_SIZE ∧
      (∀ i, CHAR_DATA_BUFFER_SIZE ≤ i → d1.char_data_policy_buffer i = d.char_data_policy_buffer i) := by
  induction calls with
  | nil => intro d h0 _; exact ⟨d, rfl, h0, fun _ _ => rfl⟩
  | cons c rest ih =>
    intro d h0 hv
    obtain ⟨d1, h1, h2, h3⟩ := char_data_step d c h0 (hv c (List.mem_cons_self _ _))
    obtain ⟨d2, h4, h5, h6⟩ := ih d1 h2 (fun x hx => hv x (List.mem_cons_of_mem _ hx))
    refine ⟨d2, ?_, h5, fun i hi => (h6 i hi).trans (h3 i hi)⟩
    simp only [charDataAll, h1, h4]

/-- C39 (character buffer bound): from every state whose offset is below the
buffer size (the cleared state has offset 0), every sequence of `char_data`
calls with non-negative lengths that do not exceed the data at `s` ends in a
state whose offset is still below 1024 and leaves the memory from index 1024 on
as it was; a call with `offset + len >= 1024` sets the overflow flag and
changes nothing else; and once the flag is set every later sequence of calls
leaves the whole structure, buffer and offset included, as it is. -/
theorem C39_char_buffer_bound (d0 : tzPolicyData) (calls : List (Option CStr × Int))
    (h0 : d0.offset < CHAR_DATA_BUFFER_SIZE) (hvalid : ∀ c ∈ calls, ValidCharData c) :
    (∃ d, charDataAll d0 calls = some d ∧ d.offset < CHAR_DATA_BUFFER_SIZE ∧
      ∀ i, CHAR_DATA_BUFFER_SIZE ≤ i →
        d.char_data_policy_buffer i = d0.char_data_policy_buffer i) ∧
    (∀ str len, ValidCharData (some str, len) → d0.overflow = false →
      CHAR_DATA_BUFFER_SIZE ≤ d0.offset + len.toNat →
      char_data d0 (some str) len = some { d0 with overflow := true }) ∧
    (d0.overflow = true → ∀ later, charDataAll d0 later = some d0) := by
  refine ⟨charDataAll_bound calls d0 h0 hvalid, ?_, fun hov later => charDataAll_sticky later d0 hov⟩
  intro str len hv hov hfull
  obtain ⟨hlen0, hlen1, _⟩ := hv
  simp only at hlen0 hlen1
  obtain ⟨n, rfl⟩ := Int.eq_ofNat_of_zero_le hlen0
  have hn : n < 2 ^ 31 := by exact_mod_cast hlen1
  exact char_data_full d0 str n hov hn h0 (by simpa using hfull)

/-- Witness for C39: from the cleared structure, three characters followed by
a piece of 1030 characters. -/
theorem C39_char_buffer_bound_witness :
    (∃ d, charDataAll tzPolicyData.zero
        [(some "abc".data, 3), (some (List.replicate 1030 'x'), 1030)] = some d ∧
      d.offset < CHAR_DATA_BUFFER_SIZE ∧
      ∀ i, CHAR_DATA_BUFFER_SIZE ≤ i →
        d.char_data_policy_buffer i = tzPolicyData.zero.char_data_policy_buffer i) ∧
    (∀ str len, ValidCharData (some str, len) → tzPolicyData.zero.overflow = false →
      CHAR_DATA_BUFFER_SIZE ≤ tzPolicyData.zero.offset + len.toNat →
      char_data tzPolicyData.zero (some str) len =
        some { tzPolicyData.zero with overflow := true }) ∧
    (tzPolicyData.zero.overflow = true →
      ∀ later, charDataAll tzPolicyData.zero later = some tzPolicyData.zero) :=
  C39_char_buffer_bound tzPolicyData.zero
    [(some "abc".data, 3), (some (List.replicate 1030 'x'), 1030)] (by decide)
    (by
      intro c hc
      simp only [List.mem_cons, List.mem_singleton, List.not_mem_nil, or_false] at hc
      rcases hc with rfl | rfl
      · refine ⟨by decide, by decide, ?_⟩
        intro str hstr
        cases hstr
        decide
      · refine ⟨by decide, by decide, ?_⟩
        intro str hstr
        cases hstr
        rw [List.length_replicate]
        decide)

/-- The end tag of a `rule` element whose terminated text is `text`: the kind
is set from the text alone. -/
theorem end_rule (K : Codes) (P : XacmlConsts) (mktime : Tm → Int) (now : Tm) (s1 : XacmlState)
    (text : CStr) (hov : s1.data.overflow = false)
    (hfit : s1.data.offset + 1 < CHAR_DATA_BUFFER_SIZE)
    (hread : readCStr (memcpyAt s1.data.char_data_policy_buffer s1.data.offset [NUL])
      s1.data.start_offset (CHAR_DATA_BUFFER_SIZE - s1.data.start_offset) = some text) :
    ∃ st2, policyXacml_fnPolicyEndElementCallback K P mktime now s1 "Rule".data = some st2 ∧
      st2.data.policy.Name = ruleKind K text := by
  have hc := char_data_fits s1.data [NUL, NUL] 1 hov (by simp) (by omega)
  simp only [Nat.cast_one, List.take_succ_cons, List.take_zero] at hc
  unfold policyXacml_fnPolicyEndElementCallback
  simp only [hc, hov, hread, Bool.false_eq_true, if_false]
  rw [if_pos (by decide)]
  exact ⟨_, rfl, rfl⟩

theorem rule_element (K : Codes) (P : XacmlConsts) (mktime : Tm → Int) (now : Tm)
    (st : XacmlState) (atts : List CStr) (text : CStr) (n : Int)
    (hov : st.data.overflow = false)
    (hfit : st.data.offset + text.length + 1 < CHAR_DATA_BUFFER_SIZE)
    (hnul : NUL ∉ text)
    (hatts : ruleAtts K atts st.data.policy.Name = some n) :
    ∃ st1 st2, policyXacml_fnPolicyStartElementCallback K st "Rule".data atts = some st1 ∧
      st1.data.policy.Name = n ∧
      xacmlElement K P mktime now st "Rule".data atts [text] = some st2 ∧
      st2.data.policy.Name = ruleKind K text := by
  have hs : policyXacml_fnPolicyStartElementCallback K st "Rule".data atts =
      some { st with data := { st.data with start_offset := st.data.offset,
                                            policy := { st.data.policy with Name := n } } } := by
    unfold policyXacml_fnPolicyStartElementCallback
    simp only [hatts]
    rw [if_neg (by decide), if_pos (by decide)]
  have hc := char_data_fits
    { st.data with start_offset := st.data.offset, policy := { st.data.policy with Name := n } }
    text text.length hov (le_refl _) (by simp only; omega)
  simp only [List.take_length] at hc
  have hread : readCStr
      (memcpyAt (memcpyAt st.data.char_data_policy_buffer st.data.offset text)
        (st.data.offset + text.length) [NUL])
      st.data.offset (CHAR_DATA_BUFFER_SIZE - st.data.offset) = some text := by
    apply read_written text _ _ _ hnul (by omega)
    · intro i hi
      rw [memcpyAt_outside _ _ _ _ (Or.inl (by omega)), memcpyAt_inside _ _ _ _ hi]
    · have := memcpyAt_inside (memcpyAt st.data.char_data_policy_buffer st.data.offset text)
        (st.data.offset + text.length) [NUL] 0 (by simp)
      simpa using this
  obtain ⟨st2, h2, h3⟩ := end_rule K P mktime now
    { st with data := { st.data with
        start_offset := st.data.offset,
        policy := { st.data.policy with Name := n },
        char_data_policy_buffer := memcpyAt st.data.char_data_policy_buffer st.data.offset text,
        offset := st.data.offset + text.length } }
    text hov (by simp only; omega) hread
  refine ⟨_, st2, hs, rfl, ?_, h3⟩
  unfold xacmlElement
  simp only [hs, List.map_cons, List.map_nil, charDataAll, hc]
  exact h2

/-- C33 (XACML rule kind): for a `Rule` element without child elements whose
start tag sets the kind to Access (as `Effect="Permit"` does) and whose text
fits into the buffer, the start callback leaves `policy.Name` at
`POLICY_NAME_ACCESS`, and the end callback then sets it from the element text
alone: when the text is neither "comparator" nor "access" (compared without
case), the kind after the end callback is `POLICY_NAME_INVALID`, not Access. -/
theorem C33_rule_text_overrides_effect (K : Codes) (P : XacmlConsts) (mktime : Tm → Int)
    (now : Tm) (st : XacmlState) (atts : List CStr) (text : CStr)
    (hov : st.data.overflow = false)
    (hfit : st.data.offset + text.length + 1 < CHAR_DATA_BUFFER_SIZE)
    (hnul : NUL ∉ text)
    (hatts : ruleAtts K atts st.data.policy.Name = some K.POLICY_NAME_ACCESS)
    (hcomp : stricmp text "comparator".data ≠ 0) (hacc : stricmp text "access".data ≠ 0) :
    ∃ st1 st2, policyXacml_fnPolicyStartElementCallback K st "Rule".data atts = some st1 ∧
      st1.data.policy.Name = K.POLICY_NAME_ACCESS ∧
      xacmlElement K P mktime now st "Rule".data atts [text] = some st2 ∧
      st2.data.policy.Name = K.POLICY_NAME_INVALID := by
  obtain ⟨st1, st2, h1, h2, h3, h4⟩ :=
    rule_element K P mktime now st atts text K.POLICY_NAME_ACCESS hov hfit hnul hatts
  refine ⟨st1, st2, h1, h2, h3, ?_⟩
  rw [h4, ruleKind, if_neg hcomp, if_neg hacc]

/-- Witness for C33: the element `<Rule Effect="Permit"></Rule>` read in the
start state of the parser ends with the kind Invalid, which differs from
Access. -/
theorem C33_rule_text_overrides_effect_witness :
    (∃ st1 st2, policyXacml_fnPolicyStartElementCallback sampleCodes XacmlState.start
        "Rule".data ["Effect".data, "Permit".data] = some st1 ∧
      st1.data.policy.Name = sampleCodes.POLICY_NAME_ACCESS ∧
      xacmlElement sampleCodes sampleXacmlConsts sampleMktime sampleNow XacmlState.start
        "Rule".data ["Effect".data, "Permit".data] [[]] = some st2 ∧
      st2.data.policy.Name = sampleCodes.POLICY_NAME_INVALID) ∧
    sampleCodes.POLICY_NAME_INVALID ≠ sampleCodes.POLICY_NAME_ACCESS :=
  ⟨C33_rule_text_overrides_effect sampleCodes sampleXacmlConsts sampleMktime sampleNow
    XacmlState.start ["Effect".data, "Permit".data] [] rfl (by decide) (by simp)
    (by decide) (by decide) (by decide), by decide⟩

theorem calcRT_inside (sqrt : ℚ → ℚ) (params : tzParams) (obj : tzOBJECT) (e : Estimator)
    (hend : obj.endBatch = false) (hidx : e.cycleIdx < MAX_NUM_OF_OBJECTS) :
    ∃ e2, discreteEventSimulator_fnCalcRT sqrt params obj e = some e2 ∧
      e2.cycleIdx = e.cycleIdx ∧ e2.numberArrived = e.numberArrived ∧
      e2.sumOfNumbers = e.sumOfNumbers := by
  unfold discreteEventSimulator_fnCalcRT
  simp only [if_neg (Nat.not_le.2 hidx), hend, if_true]
  exact ⟨_, rfl, rfl, rfl, rfl⟩

theorem calcRT_none (sqrt : ℚ → ℚ) (params : tzParams) (obj : tzOBJECT) (e : Estimator)
    (hidx : MAX_NUM_OF_OBJECTS ≤ e.cycleIdx) :
    discreteEventSimulator_fnCalcRT sqrt params obj e = none := by
  unfold discreteEventSimulator_fnCalcRT
  simp only [if_pos hidx]

theorem batchEnds_congr (w w2 : SimState) (l : List Nat)
    (h : ∀ a ∈ l, (w2.objs a).endBatch = (w.objs a).endBatch) :
    batchEnds w2 l = batchEnds w l := by
  unfold batchEnds
  apply List.countP_congr
  intro a ha
  rw [h a ha]

theorem batchEnds_new (w : SimState) (b n : Nat) (hn : 1 ≤ n)
    (h : ∀ j, j < n → (w.objs (b + j)).endBatch = decide (j = n - 1)) :
    batchEnds w ((List.range n).map (fun j => b + j)) = 1 := by
  obtain ⟨m, rfl⟩ : ∃ m, n = m + 1 := ⟨n - 1, by omega⟩
  unfold batchEnds
  rw [List.range_succ, List.map_append, List.countP_append, List.map_singleton,
    List.countP_singleton]
  have h1 : List.countP (fun a => (w.objs a).endBatch) ((List.range m).map (fun j => b + j)) = 0 := by
    rw [List.countP_eq_zero]
    intro a ha
    obtain ⟨j, hj, rfl⟩ := List.mem_map.1 ha
    have hjm : j < m := List.mem_range.1 hj
    rw [h j (by omega)]
    simp
    omega
  have h2 : (w.objs (b + m)).endBatch = true := by
    rw [h m (by omega)]
    simp
  rw [h1, h2]
  simp

/-- A successful `QUEUE_fnAdd` for `n >= 1` objects: the new objects follow the
queued ones, exactly the last of them ends the batch, and the flags of the
objects allocated before are as they were. -/
theorem add_full (w : SimState) (l : List Nat) (n : Nat) (params : tzParams)
    (hn : 1 ≤ n) (hq : IsQueue w l) (halloc : ∀ k, w.callocOk k = true)
    (hroom : w.objCounter + n ≤ MAX_NUM_OF_OBJECTS) :
    ∃ w2, QUEUE_fnAdd w (n : Int) (some params) = Except.ok (w2, EOK) ∧
      IsQueue w2 (l ++ (List.range n).map (fun j => w.brk + j)) ∧
      w2.objCounter = w.objCounter + n ∧ w2.callocOk = w.callocOk ∧
      batchEnds w2 (l ++ (List.range n).map (fun j => w.brk + j)) = batchEnds w l + 1 := by
  obtain ⟨w2, h2, hq2, hbrk, hcnt, hnew, hold⟩ :=
    loop_spec (n : Int) params (List.range n) w EINVAL l hq
      (by intro j _; exact halloc _) (by rw [List.length_range]; exact hroom)
  rw [List.length_range] at hq2 hbrk hcnt hnew
  have hne : ¬ List.range n = [] := by
    intro h
    have := congrArg List.length h
    rw [List.length_range] at this
    simp at this
    omega
  rw [if_neg hne] at h2
  have henv := (loop_env (n : Int) params (List.range n) w EINVAL l hq
      (by intro j _; exact halloc _) (by rw [List.length_range]; exact hroom) w2 EOK h2).1
  refine ⟨w2, by unfold QUEUE_fnAdd; rw [Int.toNat_natCast, h2], hq2, hcnt, henv, ?_⟩
  have hlt : ∀ a ∈ l, a < w.brk := by
    obtain ⟨q, _, _, _, _, _, _, hlt⟩ := hq
    exact hlt
  unfold batchEnds
  rw [List.countP_append]
  have h1 : List.countP (fun a => (w2.objs a).endBatch) l =
      List.countP (fun a => (w.objs a).endBatch) l := by
    apply List.countP_congr
    intro a ha
    rw [(hold a (hlt a ha)).2]
  have h3 := batchEnds_new w2 w.brk n hn (by
    intro j hj
    have := (hnew j hj j (List.getElem?_range hj)).2
    rw [this]
    apply Bool.decide_congr
    omega)
  unfold batchEnds at h3
  rw [h1, h3]

/-- The flag `endBatch` of every object is the same before and after
`QUEUE_fnGetAndRemoveFirstObj`. -/
theorem remove_full (w : SimState) (a : Nat) (t : List Nat) (params : tzParams)
    (hq : IsQueue w (a :: t)) :
    ∃ w2, QUEUE_fnGetAndRemoveFirstObj w (some params) = Except.ok (w2, some a) ∧
      IsQueue w2 t ∧ w2.objCounter = w.objCounter ∧ w2.callocOk = w.callocOk ∧
      (∀ x, (w2.objs x).endBatch = (w.objs x).endBatch) ∧ a ∉ t := by
  obtain ⟨w2, h2, hq2, _, _, _, hcnt, hok, _⟩ := remove_spec w a t params hq
  obtain ⟨q, hpq, hfirst, hlast, hcount, hlinked, hnd, hlt⟩ := hq
  have hat : a ∉ t := (List.nodup_cons.1 hnd).1
  refine ⟨w2, h2, hq2, hcnt, hok, ?_, hat⟩
  cases t with
  | nil =>
    have h3 := remove_single w q a params hpq hfirst hlast
    rw [h3] at h2
    have h4 := (Prod.mk.inj (Except.ok.inj h2)).1
    intro x
    rw [← h4]
    by_cases hx : x = a
    · subst hx
      simp [Function.update, tzOBJECT.link, tzOBJECT.stampEnd, tzOBJECT.setDelta]
    · simp [Function.update, hx]
  | cons b t2 =>
    have hl2 : q.pLast ≠ some a := by
      rw [hlast, List.getLast?_cons_cons]
      intro h
      exact hat (List.mem_of_mem_getLast? (Option.mem_def.2 h))
    have hnext : (w.objs a).queue_next = some b := hlinked.2.1
    have h3 := remove_many w q a b params hpq hfirst hl2 hnext
    rw [h3] at h2
    have h4 := (Prod.mk.inj (Except.ok.inj h2)).1
    intro x
    rw [← h4]
    have hab : a ≠ b := fun e => hat (e ▸ List.mem_cons_self _ _)
    by_cases hx : x = a
    · subst hx
      simp [Function.update, tzOBJECT.link, tzOBJECT.stampEnd, tzOBJECT.setDelta,
        tzOBJECT.setPrev, hab, hab.symm]
    · by_cases hb : x = b
      · subst hb
        simp [Function.update, hx, tzOBJECT.setPrev]
      · simp [Function.update, hx, hb]

/-- Writing the service stamps into an object that is not in the queue leaves
the queue as it is. -/
theorem isQueue_stamps (w : SimState) (t : List Nat) (a : Nat) (o : tzOBJECT) (c : Nat)
    (hq : IsQueue w t) (hat : a ∉ t) :
    IsQueue { w with objs := Function.update w.objs a o, clockCalls := c } t := by
  obtain ⟨q, hpq, hfirst, hlast, hcount, hlinked, hnd, hlt⟩ := hq
  refine ⟨q, hpq, hfirst, hlast, hcount, ?_, hnd, hlt⟩
  apply linked_frame w.objs _ t none hlinked
  intro x hx
  have hxa : x ≠ a := fun e => hat (e ▸ hx)
  simp [Function.update, hxa]

theorem wrapInt32_id (n : Int) (h0 : -(2 ^ 31) ≤ n) (h1 : n < 2 ^ 31) : wrapInt32 n = n := by
  unfold wrapInt32
  omega

/-- For a good sample, or with a fixed rate, the number of arrivals is
positive: it is the rate, or `|x| + 1` without any wrap. -/
theorem numberOfArrivals_good (params : tzParams) (x : Int) (h : GoodSample params x) :
    ∃ m : Nat, numberOfArrivals params x = (m : Int) ∧ 1 ≤ m := by
  unfold numberOfArrivals
  by_cases hr : params.rate = 0
  · rw [if_pos hr]
    have hx : |x| < INT_MAX := by
      rcases h with h | h
      · exact absurd hr h
      · exact h
    unfold INT_MAX at hx
    have h0 := abs_nonneg x
    have e1 : absInt32 x = |x| := wrapInt32_id _ (by omega) (by omega)
    have e2 : wrapInt32 (|x| + 1) = |x| + 1 := wrapInt32_id _ (by omega) (by omega)
    rw [e1, e2]
    exact ⟨(|x| + 1).toNat, by omega, by omega⟩
  · rw [if_neg hr]
    exact ⟨params.rate, rfl, Nat.one_le_iff_ne_zero.2 hr⟩

/-- A call of `QUEUE_fnAdd` for no object or a negative number of objects: the
loop is not entered and `EINVAL` is returned. -/
theorem add_nonpos (w : SimState) (num : Int) (arg : Option tzParams) (h : num ≤ 0) :
    QUEUE_fnAdd w num arg = Except.ok (w, EINVAL) := by
  unfold QUEUE_fnAdd
  have : num.toNat = 0 := by omega
  rw [this]
  rfl

theorem start_inv (w0 : SimState) (params : tzParams) (hok : ∀ k, w0.callocOk k = true)
    (hcnt : w0.objCounter ≤ MAX_NUM_OF_OBJECTS) : DesInv (desStart w0 params) [] 0 := by
  have hinit : (QUEUE_fnInitialize w0).1 =
      { w0 with pQueue := some { uiObjCount := 0, pFirst := none, pLast := none },
                callocCalls := w0.callocCalls + 1 } := by
    unfold QUEUE_fnInitialize
    rw [if_neg (by rw [hok]; decide)]
  refine ⟨isQueue_fresh w0 (hok _), ?_, ?_, le_refl _, le_refl _, ?_, ?_, ?_, le_refl _,
    fun _ => rfl⟩
  · intro k
    show (QUEUE_fnInitialize w0).1.callocOk k = true
    rw [hinit]
    exact hok k
  · show (QUEUE_fnInitialize w0).1.objCounter ≤ MAX_NUM_OF_OBJECTS
    rw [hinit]
    exact hcnt
  · show (0 : Int) ≤ (MAX_NUM_OF_OBJECTS : Int)
    exact Int.ofNat_nonneg _
  · intro j hj
    omega
  · show ((0 : Nat) : Int) + (batchEnds (QUEUE_fnInitialize w0).1 [] : Int) = 0
    simp [batchEnds]

/-- One pass of the arrival loop keeps the invariant and the rate; with a good
sample it keeps all recorded counts positive, and when the loop has not been
left it records a positive count for the new epoch and queues that many
objects. -/
theorem inv_arrival (x : Int) (s s1 : DesState) (l : List Nat) (g : Int)
    (hinv : DesInv s l g) (h : arrivalPass x s = some s1) :
    ∃ (new : List Nat) (g1 : Int), DesInv s1 (l ++ new) g1 ∧
      s1.params.rate = s.params.rate ∧
      (GoodSample s.params x →
        (∀ j : Nat, (j : Int) < s.params.currEpoch → 1 ≤ s.e.numberArrived j) →
        ∀ j : Nat, (j : Int) < s1.params.currEpoch → 1 ≤ s1.e.numberArrived j) ∧
      (GoodSample s.params x → s.arrivalExited = false →
        1 ≤ new.length ∧
        s1.e.numberArrived s.params.currEpoch.toNat = (new.length : Int) ∧
        s1.params.currEpoch = s.params.currEpoch + 1) := by
  have hinv0 := hinv
  obtain ⟨hq, hok, hcnt, hg0, hgle, hmax, harr, hbal, hsum, hex⟩ := hinv
  unfold arrivalPass at h
  by_cases hexit : s.arrivalExited = true
  · rw [if_pos hexit] at h
    have hs := Option.some.inj h
    subst hs
    refine ⟨[], g, by rw [List.append_nil]; exact hinv0, rfl, fun _ hall => hall, ?_⟩
    intro _ hne
    rw [hexit] at hne
    exact absurd hne (by decide)
  · rw [if_neg hexit, if_neg (Nat.not_lt.2 hcnt)] at h
    have hexf : s.arrivalExited = false := by
      cases hb : s.arrivalExited
      · rfl
      · exact absurd hb hexit
    have hgc : g = s.params.currEpoch := hex hexf
    by_cases hg : s.params.currEpoch < 0 ∨ (MAX_NUM_OF_OBJECTS : Int) ≤ s.params.currEpoch
    · rw [if_pos hg] at h
      exact absurd h (by simp)
    · rw [if_neg hg] at h
      have hlt : s.params.currEpoch < (MAX_NUM_OF_OBJECTS : Int) := by omega
      by_cases hpos : 1 ≤ numberOfArrivals s.params x
      · obtain ⟨m, hm, hm1⟩ : ∃ m : Nat, numberOfArrivals s.params x = (m : Int) ∧ 1 ≤ m :=
          ⟨(numberOfArrivals s.params x).toNat, by omega, by omega⟩
        by_cases hroom : s.w.objCounter + m ≤ MAX_NUM_OF_OBJECTS
        · obtain ⟨w2, h2, hq2, hcnt2, hok2, hends⟩ :=
            add_full s.w l m { s.params with currEpoch := s.params.currEpoch + 1 } hm1 hq hok
              hroom
          simp only [hm, h2] at h
          have hs1 := Option.some.inj h
          subst hs1
          have hcounts : ∀ j : Nat, (j : Int) < s.params.currEpoch + 1 →
              1 ≤ Function.update s.e.numberArrived s.params.currEpoch.toNat (m : Int) j := by
            intro j hj
            by_cases hje : j = s.params.currEpoch.toNat
            · rw [hje, Function.update_same]
              exact_mod_cast hm1
            · rw [Function.update_noteq hje]
              apply harr
              omega
          refine ⟨(List.range m).map (fun j => s.w.brk + j), s.params.currEpoch + 1,
            ⟨hq2, ?_, ?_, ?_, ?_, ?_, hcounts, ?_, hsum, fun _ => rfl⟩, rfl, ?_, ?_⟩
          · intro k
            show w2.callocOk k = true
            rw [hok2]
            exact hok k
          · show w2.objCounter ≤ MAX_NUM_OF_OBJECTS
            rw [hcnt2]
            exact hroom
          · omega
          · show s.params.currEpoch + 1 ≤ s.params.currEpoch + 1
            exact le_refl _
          · show s.params.currEpoch + 1 ≤ (MAX_NUM_OF_OBJECTS : Int)
            omega
          · show (s.e.cycleIdx : Int) +
                (batchEnds w2 (l ++ (List.range m).map (fun j => s.w.brk + j)) : Int) =
              s.params.currEpoch + 1
            rw [hends]
            push_cast
            omega
          · intro _ _ j hj
            exact hcounts j hj
          · intro _ _
            refine ⟨?_, ?_, rfl⟩
            · simp only [List.length_map, List.length_range]
              exact hm1
            · show Function.update s.e.numberArrived s.params.currEpoch.toNat (m : Int)
                  s.params.currEpoch.toNat = _
              rw [Function.update_same]
              simp
        · have h2 := add_overflow s.w l m { s.params with currEpoch := s.params.currEpoch + 1 }
            hq hcnt (by omega) hok
          simp only [hm, h2] at h
          exact absurd h (by simp)
      · have hbad : ∀ (P : Prop), GoodSample s.params x → P := by
          intro P hgood
          obtain ⟨m, hm, hm1⟩ := numberOfArrivals_good s.params x hgood
          exact absurd (by rw [hm]; exact_mod_cast hm1) hpos
        have h2 := add_nonpos s.w (numberOfArrivals s.params x)
          (some { s.params with currEpoch := s.params.currEpoch + 1 }) (by omega)
        simp only [h2] at h
        have hs1 := Option.some.inj h
        subst hs1
        have hne : decide (EINVAL ≠ EOK) = true := by decide
        refine ⟨[], g, ⟨?_, hok, hcnt, hg0, ?_, ?_, ?_, ?_, hsum, ?_⟩, rfl,
          fun hgood => hbad _ hgood, fun hgood => hbad _ hgood⟩
        · rw [List.append_nil]
          exact hq
        · show g ≤ s.params.currEpoch + 1
          omega
        · show s.params.currEpoch + 1 ≤ (MAX_NUM_OF_OBJECTS : Int)
          omega
        · intro j hj
          show 1 ≤ Function.update s.e.numberArrived s.params.currEpoch.toNat
            (numberOfArrivals s.params x) j
          have hje : j ≠ s.params.currEpoch.toNat := by omega
          rw [Function.update_noteq hje]
          exact harr j hj
        · rw [List.append_nil]
          exact hbal
        · intro hf
          have hf2 : (decide (EINVAL ≠ EOK) ||
              decide (s.params.currEpoch + 1 > s.params.Epoch)) = false := hf
          rw [hne, Bool.true_or] at hf2
          exact absurd hf2 (by decide)

/-- The shape of a pass of the server loop on a queue whose first object is
`a`: the object is taken, stamped and handed to the estimator. -/
theorem service_shape (sqrt : ℚ → ℚ) (s : DesState) (a : Nat) (t : List Nat)
    (hq : IsQueue s.w (a :: t)) :
    ∃ (w2 : SimState) (obj : tzOBJECT),
      servicePass sqrt s =
        (discreteEventSimulator_fnCalcRT sqrt s.params obj s.e).map
          (fun e1 => { s with w := w2, e := e1 }) ∧
      IsQueue w2 t ∧ w2.objCounter = s.w.objCounter ∧ w2.callocOk = s.w.callocOk ∧
      obj.endBatch = (s.w.objs a).endBatch ∧ batchEnds w2 t = batchEnds s.w t := by
  obtain ⟨w1, h1, hq1, hcnt1, hok1, hflags, hat⟩ := remove_full s.w a t s.params hq
  obtain ⟨q, hpq, hfirst, _⟩ := hq
  refine ⟨{ w1 with
      objs := Function.update w1.objs a
        ((w1.objs a).serviceStamps (w1.cycles w1.clockCalls) (w1.cycles (w1.clockCalls + 1))
          s.params.cps),
      clockCalls := w1.clockCalls + 2 },
    (w1.objs a).serviceStamps (w1.cycles w1.clockCalls) (w1.cycles (w1.clockCalls + 1))
      s.params.cps, ?_, isQueue_stamps w1 t a _ _ hq1 hat, hcnt1, hok1, ?_, ?_⟩
  · unfold servicePass
    simp only [hpq, hfirst, List.head?_cons, h1]
    cases discreteEventSimulator_fnCalcRT sqrt s.params
      ((w1.objs a).serviceStamps (w1.cycles w1.clockCalls) (w1.cycles (w1.clockCalls + 1))
        s.params.cps) s.e <;> rfl
  · show (w1.objs a).endBatch = _
    exact hflags a
  · apply batchEnds_congr
    intro x hx
    have hxa : x ≠ a := fun e => hat (e ▸ hx)
    show (Function.update w1.objs a _ x).endBatch = _
    rw [Function.update_noteq hxa]
    exact hflags x

theorem batchEnds_cons (w : SimState) (a : Nat) (t : List Nat) :
    batchEnds w (a :: t) = batchEnds w t + (if (w.objs a).endBatch = true then 1 else 0) := by
  unfold batchEnds
  rw [List.countP_cons]

/-- One pass of the server loop keeps the invariant and leaves the parameters,
the recorded arrival counts and the state of the arrival loop as they are. -/
theorem inv_service (sqrt : ℚ → ℚ) (s s1 : DesState) (l : List Nat) (g : Int)
    (hinv : DesInv s l g) (h : servicePass sqrt s = some s1) :
    DesInv s1 l.tail g ∧ s1.params = s.params ∧ s1.e.numberArrived = s.e.numberArrived ∧
      s1.arrivalExited = s.arrivalExited := by
  have hinv0 := hinv
  obtain ⟨hq, hok, hcnt, hg0, hgle, hmax, harr, hbal, hsum, hex⟩ := hinv
  cases l with
  | nil =>
    have hq0 := hq
    obtain ⟨q, hpq, hfirst, _⟩ := hq0
    unfold servicePass at h
    simp only [hpq, hfirst, List.head?_nil] at h
    have hs := Option.some.inj h
    subst hs
    exact ⟨hinv0, rfl, rfl, rfl⟩
  | cons a t =>
    obtain ⟨w2, obj, hshape, hq2, hcnt2, hok2, hobj, hends⟩ := service_shape sqrt s a t hq
    rw [hshape] at h
    rw [batchEnds_cons] at hbal
    by_cases hidx : s.e.cycleIdx < MAX_NUM_OF_OBJECTS
    · by_cases hend : obj.endBatch = true
      · obtain ⟨e2, hc, hci, _, _, hsn, _, _, _, hna, _, _⟩ :=
          calcRT_end sqrt s.params obj s.e hend hidx
        rw [hc] at h
        have hs := Option.some.inj h
        subst hs
        rw [← hobj, if_pos hend] at hbal
        have hone : 1 ≤ s.e.numberArrived s.e.cycleIdx := harr _ (by push_cast at hbal; omega)
        refine ⟨⟨hq2, ?_, ?_, hg0, hgle, hmax, ?_, ?_, ?_, hex⟩, rfl, hna, rfl⟩
        · intro k; show w2.callocOk k = true; rw [hok2]; exact hok k
        · show w2.objCounter ≤ MAX_NUM_OF_OBJECTS; rw [hcnt2]; exact hcnt
        · intro j hj
          show 1 ≤ e2.numberArrived j
          rw [hna]
          exact harr j hj
        · show (e2.cycleIdx : Int) + (batchEnds w2 t : Int) = g
          rw [hci, hends]
          push_cast at hbal ⊢
          omega
        · show 0 ≤ e2.sumOfNumbers
          rw [hsn]
          omega
      · have hend2 : obj.endBatch = false := by
          cases hb : obj.endBatch
          · rfl
          · exact absurd hb hend
        obtain ⟨e2, hc, hci, hna, hsn⟩ := calcRT_inside sqrt s.params obj s.e hend2 hidx
        rw [hc] at h
        have hs := Option.some.inj h
        subst hs
        rw [← hobj, if_neg hend] at hbal
        refine ⟨⟨hq2, ?_, ?_, hg0, hgle, hmax, ?_, ?_, ?_, hex⟩, rfl, hna, rfl⟩
        · intro k; show w2.callocOk k = true; rw [hok2]; exact hok k
        · show w2.objCounter ≤ MAX_NUM_OF_OBJECTS; rw [hcnt2]; exact hcnt
        · intro j hj
          show 1 ≤ e2.numberArrived j
          rw [hna]
          exact harr j hj
        · show (e2.cycleIdx : Int) + (batchEnds w2 t : Int) = g
          rw [hci, hends]
          push_cast at hbal ⊢
          omega
        · show 0 ≤ e2.sumOfNumbers
          rw [hsn]
          exact hsum
    · rw [calcRT_none sqrt s.params obj s.e (Nat.not_lt.1 hidx)] at h
      exact absurd h (by simp)

/-- Every state that a run reaches from a state with the invariant has the
invariant and the same rate; when all samples of the run are good and all
recorded counts were positive at the start, they are all positive at the
end. -/
theorem run_inv (sqrt : ℚ → ℚ) : ∀ (evs : List DesEvent) (s0 s : DesState) (l0 : List Nat)
    (g0 : Int), DesInv s0 l0 g0 → runDes sqrt s0 evs = some s →
    ∃ l g, DesInv s l g ∧ s.params.rate = s0.params.rate ∧
      ((∀ x ∈ samples evs, GoodSample s0.params x) →
        (∀ j : Nat, (j : Int) < s0.params.currEpoch → 1 ≤ s0.e.numberArrived j) →
        ∀ j : Nat, (j : Int) < s.params.currEpoch → 1 ≤ s.e.numberArrived j) := by
  intro evs
  induction evs with
  | nil =>
    intro s0 s l0 g0 hinv h
    have hs := Option.some.inj h
    subst hs
    exact ⟨l0, g0, hinv, rfl, fun _ hall => hall⟩
  | cons ev rest ih =>
    intro s0 s l0 g0 hinv h
    cases ev with
    | arrival x =>
      unfold runDes at h
      cases h1 : arrivalPass x s0 with
      | none => rw [h1] at h; exact absurd h (by simp)
      | some s1 =>
        rw [h1] at h
        obtain ⟨new, g1, hinv1, hrate1, hgood1, _⟩ := inv_arrival x s0 s1 l0 g0 hinv h1
        obtain ⟨l, g, hinv2, hrate2, hgood2⟩ := ih s1 s _ g1 hinv1 h
        refine ⟨l, g, hinv2, hrate2.trans hrate1, ?_⟩
        intro hall hstart
        apply hgood2
        · intro y hy
          have hy0 := hall y (by simp only [samples]; exact List.mem_cons_of_mem _ hy)
          unfold GoodSample at hy0 ⊢
          rw [hrate1]
          exact hy0
        · exact hgood1 (hall x (by simp only [samples]; exact List.mem_cons_self _ _)) hstart
    | service =>
      unfold runDes at h
      cases h1 : servicePass sqrt s0 with
      | none => rw [h1] at h; exact absurd h (by simp)
      | some s1 =>
        rw [h1] at h
        obtain ⟨hinv1, hpar, hna, _⟩ := inv_service sqrt s0 s1 l0 g0 hinv h1
        obtain ⟨l, g, hinv2, hrate2, hgood2⟩ := ih s1 s _ g0 hinv1 h
        refine ⟨l, g, hinv2, by rw [hrate2, hpar], ?_⟩
        intro hall hstart
        apply hgood2
        · intro y hy
          rw [hpar]
          exact hall y (by simp only [samples]; exact hy)
        · rw [hpar, hna]
          exact hstart

/-- In a state with the invariant whose first queued object ends a batch, the
pass of the server loop succeeds and the divisor of the overall mean is
positive. -/
theorem service_end (sqrt : ℚ → ℚ) (s : DesState) (l : List Nat) (g : Int) (q : tzQUEUE)
    (a : Nat) (hinv : DesInv s l g) (hpq : s.w.pQueue = some q) (hfirst : q.pFirst = some a)
    (hend : (s.w.objs a).endBatch = true) :
    ∃ s1, servicePass sqrt s = some s1 ∧
      s1.e.sumOfNumbers = s.e.sumOfNumbers + s.e.numberArrived s.e.cycleIdx ∧
      0 < s1.e.sumOfNumbers ∧
      s1.e.overalMean = s1.e.sumOfCycleSums / (s1.e.sumOfNumbers : ℚ) := by
  obtain ⟨hq, hok, hcnt, hg0, hgle, hmax, harr, hbal, hsum, hex⟩ := hinv
  have hl : ∃ t, l = a :: t := by
    obtain ⟨q2, hpq2, hfirst2, _⟩ := hq
    rw [hpq] at hpq2
    have hqq := Option.some.inj hpq2
    subst hqq
    rw [hfirst] at hfirst2
    cases l with
    | nil => simp at hfirst2
    | cons b t =>
      simp only [List.head?_cons, Option.some.injEq] at hfirst2
      exact ⟨t, by rw [hfirst2]⟩
  obtain ⟨t, rfl⟩ := hl
  obtain ⟨w2, obj, hshape, _, _, _, hobj, _⟩ := service_shape sqrt s a t hq
  rw [batchEnds_cons, if_pos hend] at hbal
  have hidx : s.e.cycleIdx < MAX_NUM_OF_OBJECTS := by
    push_cast at hbal
    omega
  obtain ⟨e2, hc, _, _, _, hsn, hmean, _⟩ :=
    calcRT_end sqrt s.params obj s.e (by rw [hobj]; exact hend) hidx
  have hone : 1 ≤ s.e.numberArrived s.e.cycleIdx := harr _ (by push_cast at hbal; omega)
  refine ⟨{ s with w := w2, e := e2 }, ?_, hsn, ?_, hmean⟩
  · rw [hshape, hc]
    rfl
  · show 0 < e2.sumOfNumbers
    rw [hsn]
    omega

/-- C40 (counterexample): with the rate 0 and the sample `INT_MIN`, the first
pass of the arrival loop generates an epoch (`currEpoch` becomes 1) whose
recorded arrival count is -2147483647, queues no object and leaves the loop;
the sample `INT_MAX` gives a negative count as well. -/
theorem C40_counterexample :
    numberOfArrivals sampleParams INT_MIN = -2147483647 ∧
    numberOfArrivals sampleParams INT_MAX = INT_MIN ∧
    ∃ s1, arrivalPass INT_MIN (desStart simBoot sampleParams) = some s1 ∧
      s1.params.currEpoch = 1 ∧ s1.e.numberArrived 0 = -2147483647 ∧
      IsQueue s1.w [] ∧ s1.arrivalExited = true :=
  ⟨by decide, by decide, _, rfl, by decide, by decide, isQueue_fresh simBoot rfl, by decide⟩

/-- C40 (amended; no division by zero in the estimator): in every state that
the simulator reaches from its start state by passes of the arrival loop and
of the server loop, with allocations that succeed: when every sample of the
run is good (the rate is not zero, or the absolute value of the sample is
below `INT_MAX`), every generated epoch has a recorded arrival count of at
least one; a further pass of the arrival loop with a good sample records a
positive count and queues that many objects, at least one; and, whatever the
samples were, when the first queued object ends a batch the pass of the server
loop succeeds and the divisor `sumOfNumbers` of the overall mean, the old sum
plus `numberArrived[cycleIdx]`, is strictly positive. -/
theorem C40_divisor_is_positive (sqrt : ℚ → ℚ) (w0 : SimState) (params : tzParams)
    (evs : List DesEvent) (s : DesState)
    (hok : ∀ k, w0.callocOk k = true) (hcnt : w0.objCounter ≤ MAX_NUM_OF_OBJECTS)
    (hrun : runDes sqrt (desStart w0 params) evs = some s) :
    ((∀ x ∈ samples evs, GoodSample params x) →
      ∀ j : Nat, (j : Int) < s.params.currEpoch → 1 ≤ s.e.numberArrived j) ∧
    (∀ x s1, GoodSample params x → s.arrivalExited = false → arrivalPass x s = some s1 →
      ∃ l new, IsQueue s.w l ∧ IsQueue s1.w (l ++ new) ∧ 1 ≤ new.length ∧
        s1.e.numberArrived s.params.currEpoch.toNat = (new.length : Int) ∧
        s1.params.currEpoch = s.params.currEpoch + 1) ∧
    (∀ q a, s.w.pQueue = some q → q.pFirst = some a → (s.w.objs a).endBatch = true →
      ∃ s1, servicePass sqrt s = some s1 ∧
        s1.e.sumOfNumbers = s.e.sumOfNumbers + s.e.numberArrived s.e.cycleIdx ∧
        0 < s1.e.sumOfNumbers ∧
        s1.e.overalMean = s1.e.sumOfCycleSums / (s1.e.sumOfNumbers : ℚ)) := by
  obtain ⟨l, g, hinv, hrate, hgood⟩ :=
    run_inv sqrt evs _ s [] 0 (start_inv w0 params hok hcnt) hrun
  have hrate2 : s.params.rate = params.rate := hrate
  refine ⟨?_, ?_, ?_⟩
  · intro hall
    apply hgood
    · intro x hx
      exact hall x hx
    · intro j hj
      have : (j : Int) < 0 := hj
      omega
  · intro x s1 hx hex h1
    have hx2 : GoodSample s.params x := by
      unfold GoodSample at hx ⊢
      rw [hrate2]
      exact hx
    obtain ⟨new, g1, hinv1, _, _, hnew⟩ := inv_arrival x s s1 l g hinv h1
    obtain ⟨hlen, harr, hep⟩ := hnew hx2 hex
    exact ⟨l, new, hinv.1, hinv1.1, hlen, harr, hep⟩
  · intro q a hpq hfirst hend
    exact service_end sqrt s l g q a hinv hpq hfirst hend

/-- Witness for C40: after one pass of the arrival loop with the sample 0,
which generates an epoch of one object, the recorded count is one and the pass
of the server loop divides by a positive sum. -/
theorem C40_divisor_is_positive_witness :
    ∃ s s1, runDes sampleSqrt (desStart simBoot sampleParams) [DesEvent.arrival 0] = some s ∧
      (∀ j : Nat, (j : Int) < s.params.currEpoch → 1 ≤ s.e.numberArrived j) ∧
      servicePass sampleSqrt s = some s1 ∧ 0 < s1.e.sumOfNumbers :=
  have key := C40_divisor_is_positive sampleSqrt simBoot sampleParams [DesEvent.arrival 0] _
    (fun _ => rfl) (by decide) rfl
  match key.2.2 _ 0 rfl rfl rfl with
  | ⟨s1, h1, _, h3, _⟩ =>
    ⟨_, s1, rfl,
      key.1 (by
        intro x hx
        simp only [samples, List.mem_singleton] at hx
        subst hx
        exact Or.inr (by decide)),
      h1, h3⟩

end DynPolAC
